import Mathlib

/-!
# bounce quickhull (`qh_hull.cpp`): a shallow embedding

Conventions of the embedding.

* `float32` is an arbitrary linearly ordered field `K` (exact arithmetic, no
  rounding, no NaN).  The scalar constants and `b3Sqrt`, which live in headers
  outside the translated sources, are the fields of `b3Env`.
* A pointer is `Option Nat`: `none` is `NULL`, `some i` is slot `i` of the
  pool the pointer points into.  The slots of a pool are numbered from the end
  of its block: slot `0` is the last slot of the block, the one that `Construct`
  frees last and that is therefore handed out first.  The code compares and
  dereferences pointers but never orders them, so the numbering is free.
  Dereferencing `NULL` or a slot outside the pool is undefined behaviour; every
  function that can do so returns `Option` and `none` stands for undefined
  behaviour or a loop that never ends.
* The intrusive lists (`qhList`, the free lists) are Lean lists of slot
  numbers, head first.
* `B3_ASSERT` is compiled out (release build): a failed assertion does not
  stop the program.  The asserted conditions are stated as properties.
* `u32` counters are natural numbers; where the source can wrap
  (`m_horizonCount - 1`, the pool sizes) the wrap modulo `2 ^ 32` is explicit.
* The scratch buffers `m_horizon`, `m_horizonVertices`, `m_conflictVertices`
  and `m_newFaces` are lists holding exactly the entries written since the
  matching counter was last reset; reading past the counter yields `none`.
-/

set_option autoImplicit false

/-! ## Scalars and vectors -/

/-- Scalar environment: the constants `B3_EPSILON`, `B3_MAX_FLOAT` and the
function `b3Sqrt`, declared in headers that are not part of the translated
sources. -/
structure b3Env (K : Type) where
  B3_EPSILON : K
  B3_MAX_FLOAT : K
  b3Sqrt : K → K

/-- A 3D vector (`b3Vec3`). -/
structure b3Vec3 (K : Type) where
  x : K
  y : K
  z : K
deriving DecidableEq, Repr

/-- A plane `normal . p = offset` (`b3Plane`). -/
structure b3Plane (K : Type) where
  normal : b3Vec3 K
  offset : K
deriving DecidableEq, Repr

section Geometry

variable {K : Type} [LinearOrderedField K]

/-- The zero vector (`SetZero`). -/
def b3Vec3_zero : b3Vec3 K := ⟨0, 0, 0⟩

/-- Component access `v[j]` for `j < 3`. -/
def b3Vec3.get (v : b3Vec3 K) (j : Nat) : K :=
  if j = 0 then v.x else if j = 1 then v.y else v.z

/-- Component assignment `v[j] = s` for `j < 3`. -/
def b3Vec3.set (v : b3Vec3 K) (j : Nat) (s : K) : b3Vec3 K :=
  if j = 0 then { v with x := s } else if j = 1 then { v with y := s } else { v with z := s }

/-- Vector sum (`operator+`). -/
def b3Vec3.add (a b : b3Vec3 K) : b3Vec3 K := ⟨a.x + b.x, a.y + b.y, a.z + b.z⟩

/-- Vector difference (`operator-`). -/
def b3Vec3.sub (a b : b3Vec3 K) : b3Vec3 K := ⟨a.x - b.x, a.y - b.y, a.z - b.z⟩

/-- Division of a vector by a scalar (`operator/`). -/
def b3Vec3.div (a : b3Vec3 K) (s : K) : b3Vec3 K := ⟨a.x / s, a.y / s, a.z / s⟩

/-- Modelled from the spec: `b3Abs`, the absolute value. -/
def b3Abs (a : K) : K := if a < 0 then -a else a

/-- Modelled from the spec: `b3Dot`, the dot product. -/
def b3Dot (a b : b3Vec3 K) : K := a.x * b.x + a.y * b.y + a.z * b.z

/-- Modelled from the spec: `b3Cross`, the cross product. -/
def b3Cross (a b : b3Vec3 K) : b3Vec3 K :=
  ⟨a.y * b.z - a.z * b.y, a.z * b.x - a.x * b.z, a.x * b.y - a.y * b.x⟩

/-- Modelled from the spec: `b3LengthSquared`, the squared Euclidean norm. -/
def b3LengthSquared (a : b3Vec3 K) : K := b3Dot a a

/-- Modelled from the spec: `b3Length`, the Euclidean norm. -/
def b3Length (env : b3Env K) (a : b3Vec3 K) : K := env.b3Sqrt (b3LengthSquared a)

/-- Modelled from the spec: `b3Vec3::Normalize`, which makes a vector a unit
vector by dividing it by its length (in a field `v / 0 = 0`, so the zero vector
stays zero). -/
def b3Vec3.Normalize (env : b3Env K) (a : b3Vec3 K) : b3Vec3 K := a.div (b3Length env a)

/-- Modelled from the spec: `b3DistanceSquared`, the squared distance of two
points. -/
def b3DistanceSquared (a b : b3Vec3 K) : K := b3LengthSquared (a.sub b)

/-- Modelled from the spec: `b3AreaSquared`, the squared area of the triangle
`a b c`. -/
def b3AreaSquared (a b c : b3Vec3 K) : K :=
  (1 / 4) * b3LengthSquared (b3Cross (b.sub a) (c.sub a))

/-- Modelled from the spec: the constructor `b3Plane(N, A)`, the plane with
normal `N` through the point `A`. -/
def b3Plane.ofNormalPoint (N A : b3Vec3 K) : b3Plane K := ⟨N, b3Dot N A⟩

/-- Modelled from the spec: the constructor `b3Plane(A, B, C)`: unit normal of
`cross(B - A, C - A)`, offset `normal . A`. -/
def b3Plane.ofPoints (env : b3Env K) (A B C : b3Vec3 K) : b3Plane K :=
  b3Plane.ofNormalPoint ((b3Cross (B.sub A) (C.sub A)).Normalize env) A

/-- Modelled from the spec: `b3Distance(P, plane)`, the signed distance of the
point `P` to the plane. -/
def b3Distance (P : b3Vec3 K) (plane : b3Plane K) : K := b3Dot plane.normal P - plane.offset

end Geometry

/-! ## The bounding box scan -/

section AABB

variable {K : Type} [LinearOrderedField K]

/-- Loop state of `qhFindAABB`: the running extrema and the indices of the
points that attain them, per axis. -/
structure qhAABB (K : Type) where
  min : b3Vec3 K
  iMin : Nat → Nat
  max : b3Vec3 K
  iMax : Nat → Nat

/-- State of `qhFindAABB` before its loop. -/
def qhFindAABB.start (env : b3Env K) : qhAABB K :=
  { min := ⟨env.B3_MAX_FLOAT, env.B3_MAX_FLOAT, env.B3_MAX_FLOAT⟩
    iMin := fun _ => 0
    max := ⟨-env.B3_MAX_FLOAT, -env.B3_MAX_FLOAT, -env.B3_MAX_FLOAT⟩
    iMax := fun _ => 0 }

/-- Body of the inner loop of `qhFindAABB` for point `v` of index `i` and
axis `j`. -/
def qhFindAABB.axis (v : b3Vec3 K) (i : Nat) (s : qhAABB K) (j : Nat) : qhAABB K :=
  let s1 : qhAABB K :=
    if v.get j < s.min.get j then
      { s with min := s.min.set j (v.get j), iMin := Function.update s.iMin j i }
    else s
  if v.get j > s1.max.get j then
    { s1 with max := s1.max.set j (v.get j), iMax := Function.update s1.iMax j i }
  else s1

/-- Body of the outer loop of `qhFindAABB`: the three axes in turn. -/
def qhFindAABB.point (v : b3Vec3 K) (i : Nat) (s : qhAABB K) : qhAABB K :=
  qhFindAABB.axis v i (qhFindAABB.axis v i (qhFindAABB.axis v i s 0) 1) 2

/-- Outer loop of `qhFindAABB` over the points from index `i` on. -/
def qhFindAABB.loop : List (b3Vec3 K) → Nat → qhAABB K → qhAABB K
  | [], _, s => s
  | v :: vs, i, s => qhFindAABB.loop vs (i + 1) (qhFindAABB.point v i s)

/-- Final loop state of `qhFindAABB` on the point buffer. -/
def qhFindAABB.scan (env : b3Env K) (vertices : List (b3Vec3 K)) : qhAABB K :=
  qhFindAABB.loop vertices 0 (qhFindAABB.start env)

/-- Value returned by `qhFindAABB`: the tolerance
`3 * (|max.x| + |max.y| + |max.z|) * B3_EPSILON`. -/
def qhFindAABB (env : b3Env K) (vertices : List (b3Vec3 K)) : K :=
  let s := qhFindAABB.scan env vertices
  3 * (b3Abs s.max.x + b3Abs s.max.y + b3Abs s.max.z) * env.B3_EPSILON

end AABB

/-! ## The mesh -/

/-- Visibility mark of a face (`qhFaceMark`). -/
inductive qhFaceMark where
  | e_visible
  | e_invisible
deriving DecidableEq, Repr

/-- A vertex slot (`qhVertex`).  The list links are kept by the lists. -/
structure qhVertex (K : Type) where
  position : b3Vec3 K
  conflictFace : Option Nat
  active : Bool
deriving DecidableEq, Repr

/-- A half-edge slot (`qhHalfEdge`). -/
structure qhHalfEdge where
  tail : Option Nat
  prev : Option Nat
  next : Option Nat
  twin : Option Nat
  face : Option Nat
  active : Bool
deriving DecidableEq, Repr

/-- A face slot (`qhFace`).  `conflictList` is the face's conflict list, head
first. -/
structure qhFace (K : Type) where
  edge : Option Nat
  conflictList : List Nat
  center : b3Vec3 K
  plane : b3Plane K
  mark : qhFaceMark
  active : Bool
deriving DecidableEq, Repr

/-- The hull (`qhHull`): the three pools, their free lists, the active lists,
the tolerance, the iteration counter and the scratch buffers. -/
structure qhHull (K : Type) where
  vertices : List (qhVertex K)
  edges : List qhHalfEdge
  faces : List (qhFace K)
  m_freeVertices : List Nat
  m_freeEdges : List Nat
  m_freeFaces : List Nat
  m_vertexList : List Nat
  m_faceList : List Nat
  m_tolerance : K
  m_iterations : Nat
  m_horizon : List Nat
  m_horizonVertices : List (Option Nat)
  m_conflictVertices : List Nat
  m_newFaces : List Nat
deriving DecidableEq, Repr

section Mesh

variable {K : Type} [LinearOrderedField K]

/-- Content of an uninitialised vertex slot. -/
def qhVertex.blank : qhVertex K := ⟨b3Vec3_zero, none, false⟩

/-- Content of an uninitialised half-edge slot. -/
def qhHalfEdge.blank : qhHalfEdge := ⟨none, none, none, none, none, false⟩

/-- Content of an uninitialised face slot. -/
def qhFace.blank : qhFace K :=
  ⟨none, [], b3Vec3_zero, ⟨b3Vec3_zero, 0⟩, qhFaceMark.e_invisible, false⟩

/-- Read through a vertex pointer. -/
def qhHull.vertex (h : qhHull K) (v : Nat) : Option (qhVertex K) := h.vertices[v]?

/-- Read through a half-edge pointer. -/
def qhHull.halfEdge (h : qhHull K) (e : Nat) : Option qhHalfEdge := h.edges[e]?

/-- Read through a face pointer. -/
def qhHull.face (h : qhHull K) (f : Nat) : Option (qhFace K) := h.faces[f]?

/-- Write through a vertex pointer. -/
def qhHull.setVertex (h : qhHull K) (v : Nat) (g : qhVertex K → qhVertex K) :
    Option (qhHull K) :=
  (h.vertices[v]?).map fun x => { h with vertices := h.vertices.set v (g x) }

/-- Write through a half-edge pointer. -/
def qhHull.setEdge (h : qhHull K) (e : Nat) (g : qhHalfEdge → qhHalfEdge) :
    Option (qhHull K) :=
  (h.edges[e]?).map fun x => { h with edges := h.edges.set e (g x) }

/-- Write through a face pointer. -/
def qhHull.setFace (h : qhHull K) (f : Nat) (g : qhFace K → qhFace K) :
    Option (qhHull K) :=
  (h.faces[f]?).map fun x => { h with faces := h.faces.set f (g x) }

/-- Modelled from the spec: `qhList::Remove`, which unlinks a member of an
intrusive list and returns the member that followed it (`NULL` at the end).
Unlinking a node that is not in the list is outside the model (`none`). -/
def qhList.Remove : List Nat → Nat → Option (List Nat × Option Nat)
  | [], _ => none
  | x :: xs, v =>
    if x = v then some (xs, xs.head?)
    else (qhList.Remove xs v).map fun r => (x :: r.1, r.2)

/-- Modelled from the spec: `qhList::PushFront`, which links a node at the
head of an intrusive list. -/
def qhList.PushFront (l : List Nat) (v : Nat) : List Nat := v :: l

/-- Modelled from the spec: `FreeVertex`, which returns a vertex slot to the
pool's free list and clears its active flag. -/
def qhHull.FreeVertex (h : qhHull K) (v : Nat) : Option (qhHull K) := do
  let h1 ← h.setVertex v fun x => { x with active := false }
  pure { h1 with m_freeVertices := v :: h1.m_freeVertices }

/-- Modelled from the spec: `FreeEdge`, which returns a half-edge slot to the
pool's free list and clears its active flag. -/
def qhHull.FreeEdge (h : qhHull K) (e : Nat) : Option (qhHull K) := do
  let h1 ← h.setEdge e fun x => { x with active := false }
  pure { h1 with m_freeEdges := e :: h1.m_freeEdges }

/-- Modelled from the spec: `FreeFace`, which returns a face slot to the
pool's free list and clears its active flag. -/
def qhHull.FreeFace (h : qhHull K) (f : Nat) : Option (qhHull K) := do
  let h1 ← h.setFace f fun x => { x with active := false }
  pure { h1 with m_freeFaces := f :: h1.m_freeFaces }

/-- Modelled from the spec: `AllocateVertex`, which checks a vertex slot out
of the pool's free list and sets its active flag.  An empty free list is a
`NULL` dereference. -/
def qhHull.AllocateVertex (h : qhHull K) : Option (qhHull K × Nat) :=
  match h.m_freeVertices with
  | [] => none
  | v :: rest => do
    let h1 ← h.setVertex v fun x => { x with active := true }
    pure ({ h1 with m_freeVertices := rest }, v)

/-- Modelled from the spec: `AllocateEdge`, which checks a half-edge slot out
of the pool's free list and sets its active flag. -/
def qhHull.AllocateEdge (h : qhHull K) : Option (qhHull K × Nat) :=
  match h.m_freeEdges with
  | [] => none
  | e :: rest => do
    let h1 ← h.setEdge e fun x => { x with active := true }
    pure ({ h1 with m_freeEdges := rest }, e)

/-- Modelled from the spec: `AllocateFace`, which checks a face slot out of
the pool's free list and sets its active flag. -/
def qhHull.AllocateFace (h : qhHull K) : Option (qhHull K × Nat) :=
  match h.m_freeFaces with
  | [] => none
  | f :: rest => do
    let h1 ← h.setFace f fun x => { x with active := true }
    pure ({ h1 with m_freeFaces := rest }, f)

end Mesh

/-! ## Mesh primitives -/

section Primitives

variable {K : Type} [LinearOrderedField K]

/-- The function `AddVertex` (lines 528-537): allocate a vertex, set its
position, clear its conflict face and link it into the active vertex list. -/
def qhHull.AddVertex (h : qhHull K) (position : b3Vec3 K) : Option (qhHull K × Nat) := do
  let (h1, v) ← h.AllocateVertex
  let h2 ← h1.setVertex v fun x => { x with position := position, conflictFace := none }
  pure ({ h2 with m_vertexList := qhList.PushFront h2.m_vertexList v }, v)

/-- Modelled from the spec: the do-while loop of `FindHalfEdge` over the
boundary of one face, started at `face->edge`.  The result `some none` says
that the boundary holds no half-edge between the two vertices. -/
def qhHull.FindHalfEdge.walk (h : qhHull K) (v1 v2 : Nat) (start : Option Nat) :
    Nat → Option Nat → Option (Option Nat)
  | 0, _ => none
  | fuel + 1, e => do
    let e0 ← e
    let E ← h.halfEdge e0
    let c1 ← if E.tail = some v1 then
        (do let n ← E.next; let N ← h.halfEdge n; pure (decide (N.tail = some v2)))
      else pure false
    if c1 then pure (some e0) else
    let c2 ← if E.tail = some v2 then
        (do let n ← E.next; let N ← h.halfEdge n; pure (decide (N.tail = some v1)))
      else pure false
    if c2 then (E.twin).map some else
    if E.next = start then pure none else qhHull.FindHalfEdge.walk h v1 v2 start fuel E.next

/-- Modelled from the spec: the loop of `FindHalfEdge` over the active face
list. -/
def qhHull.FindHalfEdge.faces (h : qhHull K) (v1 v2 : Nat) : List Nat → Option (Option Nat)
  | [] => pure none
  | f :: fs => do
    let F ← h.face f
    let r ← qhHull.FindHalfEdge.walk h v1 v2 F.edge h.edges.length F.edge
    match r with
    | some e => pure (some e)
    | none => qhHull.FindHalfEdge.faces h v1 v2 fs

/-- Modelled from the spec: `FindHalfEdge(v1, v2)`, the tail-vertex-pair
lookup declared in `qh_hull.h`.  It walks the boundary of every active face and
returns the existing half-edge from `v1` to `v2`: a boundary half-edge with
tail `v1` whose successor has tail `v2`, or the twin of a boundary half-edge
with tail `v2` whose successor has tail `v1`; `NULL` when there is none. -/
def qhHull.FindHalfEdge (h : qhHull K) (v1 v2 : Nat) : Option (Option Nat) :=
  qhHull.FindHalfEdge.faces h v1 v2 h.m_faceList

/-- One of the three edge blocks of `AddFace` (lines 627-654, 656-683,
685-712): look the half-edge from `va` to `vb` up, allocate it and its twin
when it does not exist, then fill the `NULL` tail, face and twin tail. -/
def qhHull.AddFace.edge (h : qhHull K) (face va vb : Nat) : Option (qhHull K × Nat) := do
  let found ← h.FindHalfEdge va vb
  let (h1, e) ← (match found with
    | some e => pure (h, e)
    | none => do
      let (a1, e) ← h.AllocateEdge
      let a2 ← a1.setEdge e fun x => { x with face := none, tail := none }
      let (a3, t) ← a2.AllocateEdge
      let a4 ← a3.setEdge e fun x => { x with twin := some t }
      let a5 ← a4.setEdge t fun x => { x with face := none, tail := none }
      let a6 ← a5.setEdge t fun x => { x with twin := some e }
      pure (a6, e) : Option (qhHull K × Nat))
  let E ← h1.halfEdge e
  let h2 ← if E.tail = none then h1.setEdge e fun x => { x with tail := some va } else pure h1
  let h3 ← if E.face = none then h2.setEdge e fun x => { x with face := some face } else pure h2
  let E3 ← h3.halfEdge e
  let t ← E3.twin
  let T ← h3.halfEdge t
  let h4 ← if T.tail = none then h3.setEdge t fun x => { x with tail := some vb } else pure h3
  pure (h4, e)

/-- The six link assignments of `AddFace` (lines 714-721). -/
def qhHull.AddFace.link (h : qhHull K) (e1 e2 e3 : Nat) : Option (qhHull K) := do
  let h4 ← h.setEdge e1 fun x => { x with prev := some e3 }
  let h5 ← h4.setEdge e1 fun x => { x with next := some e2 }
  let h6 ← h5.setEdge e2 fun x => { x with prev := some e1 }
  let h7 ← h6.setEdge e2 fun x => { x with next := some e3 }
  let h8 ← h7.setEdge e3 fun x => { x with prev := some e2 }
  h8.setEdge e3 fun x => { x with next := some e1 }

/-- The end of `AddFace` (lines 723-729): the face's edge, centre and plane,
and its insertion at the head of the active face list. -/
def qhHull.AddFace.finish (env : b3Env K) (h : qhHull K) (face e1 v1 v2 v3 : Nat) :
    Option (qhHull K × Nat) := do
  let V1 ← h.vertex v1
  let V2 ← h.vertex v2
  let V3 ← h.vertex v3
  let h10 ← h.setFace face fun x =>
    { x with
      edge := some e1
      center := ((V1.position.add V2.position).add V3.position).div 3
      plane := b3Plane.ofPoints env V1.position V2.position V3.position }
  pure ({ h10 with m_faceList := qhList.PushFront h10.m_faceList face }, face)

/-- The function `AddFace` (lines 623-730). -/
def qhHull.AddFace (env : b3Env K) (h : qhHull K) (v1 v2 v3 : Nat) :
    Option (qhHull K × Nat) := do
  let (h0, face) ← h.AllocateFace
  let (h1, e1) ← qhHull.AddFace.edge h0 face v1 v2
  let (h2, e2) ← qhHull.AddFace.edge h1 face v2 v3
  let (h3, e3) ← qhHull.AddFace.edge h2 face v3 v1
  let h9 ← qhHull.AddFace.link h3 e1 e2 e3
  qhHull.AddFace.finish env h9 face e1 v1 v2 v3

/-- The do-while loop of `RemoveFace` (lines 735-767) over the boundary of
the face, started at `face->edge`. -/
def qhHull.RemoveFace.walk (start : Option Nat) : Nat → qhHull K → Option Nat → Option (qhHull K)
  | 0, _, _ => none
  | fuel + 1, h, e => do
    let e0 ← e
    let E0 ← h.halfEdge e0
    let e' := E0.next
    let twin ← E0.twin
    let T ← h.halfEdge twin
    let h' ← if T.face = none then
        (do
          let a1 ← h.setEdge e0 fun x =>
            { x with twin := none, tail := none, face := none, next := none, prev := none }
          let a2 ← a1.setEdge twin fun x => { x with twin := none }
          let a3 ← a2.FreeEdge e0
          a3.FreeEdge twin)
      else
        h.setEdge e0 fun x => { x with tail := none, face := none, next := none, prev := none }
    if e' = start then pure h' else qhHull.RemoveFace.walk start fuel h' e'

/-- The function `RemoveFace` (lines 732-773); the second component is the
face that followed in the active face list. -/
def qhHull.RemoveFace (h : qhHull K) (face : Nat) : Option (qhHull K × Option Nat) := do
  let F ← h.face face
  let h1 ← qhHull.RemoveFace.walk F.edge h.edges.length h F.edge
  let (l, nextFace) ← qhList.Remove h1.m_faceList face
  let h2 ← qhHull.FreeFace { h1 with m_faceList := l } face
  pure (h2, nextFace)

/-- The function `b3Newell` (lines 539-542). -/
def b3Newell (a b : b3Vec3 K) : b3Vec3 K :=
  ⟨(a.y - b.y) * (a.z + b.z), (a.z - b.z) * (a.x + b.x), (a.x - b.x) * (a.y + b.y)⟩

/-- The do-while loop of `b3ComputePlane` (lines 554-564): the running Newell
sum, the running position sum and the number of boundary vertices. -/
def b3ComputePlane.walk (h : qhHull K) (start : Option Nat) :
    Nat → Option Nat → b3Vec3 K → b3Vec3 K → Nat → Option (b3Vec3 K × b3Vec3 K × Nat)
  | 0, _, _, _, _ => none
  | fuel + 1, e, n, c, count => do
    let e0 ← e
    let E ← h.halfEdge e0
    let t1 ← E.tail
    let T1 ← h.vertex t1
    let nx ← E.next
    let N ← h.halfEdge nx
    let t2 ← N.tail
    let T2 ← h.vertex t2
    let n' := n.add (b3Newell T1.position T2.position)
    let c' := c.add T1.position
    if E.next = start then pure (n', c', count + 1)
    else b3ComputePlane.walk h start fuel E.next n' c' (count + 1)

/-- The function `b3ComputePlane` (lines 544-574): the plane and the centre
of a face by the Newell method. -/
def b3ComputePlane (env : b3Env K) (h : qhHull K) (face : Nat) :
    Option (b3Plane K × b3Vec3 K) := do
  let F ← h.face face
  let (n, c, count) ← b3ComputePlane.walk h F.edge h.edges.length F.edge b3Vec3_zero b3Vec3_zero 0
  let c' := c.div (count : K)
  let n' := n.Normalize env
  pure (⟨n', b3Dot n' c'⟩, c')

end Primitives

/-! ## Validation -/

section Validation

variable {K : Type} [LinearOrderedField K]

/-- The closing do-while loop of `Validate(const qhHalfEdge*)` (lines
847-854), which turns around the head vertex of the half-edge. -/
def qhHull.ValidateEdge.walk (h : qhHull K) (start : Nat) : Nat → Nat → Option Unit
  | 0, _ => none
  | fuel + 1, edge => do
    let E ← h.halfEdge edge
    let n ← E.next
    let N ← h.halfEdge n
    let e' ← N.twin
    if e' = start then pure () else qhHull.ValidateEdge.walk h start fuel e'

/-- The assertions of `Validate(const qhHalfEdge*)` (lines 829-845) on the
records it reads: the half-edge, its twin, its successor and the two tails. -/
def qhHull.ValidateEdge.asserts (env : b3Env K) (edge : Nat) (E T N : qhHalfEdge)
    (A B : qhVertex K) : Bool :=
  E.active && T.active && decide (T.twin = some edge) && A.active && B.active &&
    decide (b3DistanceSquared A.position B.position > env.B3_EPSILON * env.B3_EPSILON) &&
    N.active && decide (T.tail = N.tail)

/-- The function `Validate(const qhHalfEdge*)` (lines 827-855).  The result
`some b` says that the function returns and that `b` is the conjunction of its
assertions. -/
def qhHull.ValidateEdge (env : b3Env K) (h : qhHull K) (edge : Nat) : Option Bool := do
  let E ← h.halfEdge edge
  let T ← E.twin.bind h.halfEdge
  let A ← E.tail.bind h.vertex
  let B ← T.tail.bind h.vertex
  let N ← E.next.bind h.halfEdge
  let _ ← qhHull.ValidateEdge.walk h edge h.edges.length edge
  pure (qhHull.ValidateEdge.asserts env edge E T N A B)

/-- The do-while loop of `Validate(const qhFace*)` (lines 861-868); the
boolean is the conjunction of the assertions met so far. -/
def qhHull.ValidateFace.walk (h : qhHull K) (face : Nat) (start : Option Nat) :
    Nat → Option Nat → Bool → Option Bool
  | 0, _, _ => none
  | fuel + 1, e, ok => do
    let e0 ← e
    let E ← h.halfEdge e0
    let ok' := ok && E.active && decide (E.face = some face)
    if E.next = start then pure ok' else qhHull.ValidateFace.walk h face start fuel E.next ok'

/-- The function `Validate(const qhFace*)` (lines 857-871). -/
def qhHull.ValidateFace (env : b3Env K) (h : qhHull K) (face : Nat) : Option Bool := do
  let F ← h.face face
  let ok1 ← qhHull.ValidateFace.walk h face F.edge h.edges.length F.edge F.active
  let e ← F.edge
  let ok2 ← qhHull.ValidateEdge env h e
  pure (ok1 && ok2)

/-- The assertion `vertex->active == true` over a list of vertex pointers. -/
def qhHull.Validate.vertices (h : qhHull K) (l : List Nat) : Bool :=
  l.all fun v => (h.vertex v).map (fun x => x.active) = some true

/-- The loop of `Validate()` over the active face list (lines 880-890). -/
def qhHull.Validate.faces (env : b3Env K) (h : qhHull K) : List Nat → Option Bool
  | [] => pure true
  | f :: fs => do
    let F ← h.face f
    let ok1 ← qhHull.ValidateFace env h f
    let ok2 ← qhHull.Validate.faces env h fs
    pure (F.active && qhHull.Validate.vertices h F.conflictList && ok1 && ok2)

/-- The function `Validate()` (lines 873-891).  The result `some b` says that
it returns and that `b` is the conjunction of all its assertions. -/
def qhHull.Validate (env : b3Env K) (h : qhHull K) : Option Bool := do
  let ok ← qhHull.Validate.faces env h h.m_faceList
  pure (qhHull.Validate.vertices h h.m_vertexList && ok)

end Validation

/-! ## Face merging -/

section Merging

variable {K : Type} [LinearOrderedField K]

/-- The loop of `RemoveEdge` that moves the conflict vertices of the left
face into the right face (lines 582-589). -/
def qhHull.RemoveEdge.move (leftFace rightFace : Nat) :
    Nat → qhHull K → Option Nat → Option (qhHull K)
  | _, h, none => pure h
  | 0, _, some _ => none
  | fuel + 1, h, some v0 => do
    let L ← h.face leftFace
    let (l, v) ← qhList.Remove L.conflictList v0
    let h1 ← h.setFace leftFace fun x => { x with conflictList := l }
    let h2 ← h1.setFace rightFace fun x =>
      { x with conflictList := qhList.PushFront x.conflictList v0 }
    let h3 ← h2.setVertex v0 fun x => { x with conflictFace := some rightFace }
    qhHull.RemoveEdge.move leftFace rightFace fuel h3 v

/-- The do-while loop of `RemoveEdge` that hands the half-edges of the left
face over to the right face (lines 596-601). -/
def qhHull.RemoveEdge.absorb (rightFace : Nat) (start : Option Nat) :
    Nat → qhHull K → Option Nat → Option (qhHull K)
  | 0, _, _ => none
  | fuel + 1, h, te => do
    let t ← te
    let h1 ← h.setEdge t fun x => { x with face := some rightFace }
    let T ← h1.halfEdge t
    if T.next = start then pure h1 else qhHull.RemoveEdge.absorb rightFace start fuel h1 T.next

/-- The four link assignments of `RemoveEdge` (lines 604-607), each reading
the current state. -/
def qhHull.RemoveEdge.link (h : qhHull K) (e : Nat) : Option (qhHull K) := do
  let h1 ← (do
    let E ← h.halfEdge e
    let T ← E.twin.bind h.halfEdge
    let p ← E.prev
    h.setEdge p fun x => { x with next := T.next })
  let h2 ← (do
    let E ← h1.halfEdge e
    let T ← E.twin.bind h1.halfEdge
    let n ← E.next
    h1.setEdge n fun x => { x with prev := T.prev })
  let h3 ← (do
    let E ← h2.halfEdge e
    let T ← E.twin.bind h2.halfEdge
    let p ← T.prev
    h2.setEdge p fun x => { x with next := E.next })
  let E ← h3.halfEdge e
  let T ← E.twin.bind h3.halfEdge
  let n ← T.next
  h3.setEdge n fun x => { x with prev := E.prev }

/-- The release of the two half-edges and of the left face in `RemoveEdge`
(lines 609-612). -/
def qhHull.RemoveEdge.release (h : qhHull K) (e leftFace : Nat) : Option (qhHull K) := do
  let E ← h.halfEdge e
  let t ← E.twin
  let h1 ← h.FreeEdge t
  let h2 ← h1.FreeEdge e
  let (l, _) ← qhList.Remove h2.m_faceList leftFace
  qhHull.FreeFace { h2 with m_faceList := l } leftFace

/-- The end of `RemoveEdge` (lines 614-620): the plane and centre of the right
face are recomputed and the face is validated. -/
def qhHull.RemoveEdge.finish (env : b3Env K) (h : qhHull K) (rightFace : Nat) :
    Option (qhHull K × Nat) := do
  let (plane, center) ← b3ComputePlane env h rightFace
  let h1 ← h.setFace rightFace fun x => { x with plane := plane, center := center }
  let _ ← qhHull.ValidateFace env h1 rightFace
  pure (h1, rightFace)

/-- The function `RemoveEdge` (lines 576-621). -/
def qhHull.RemoveEdge (env : b3Env K) (h : qhHull K) (e : Nat) : Option (qhHull K × Nat) := do
  let E ← h.halfEdge e
  let T ← E.twin.bind h.halfEdge
  let leftFace ← T.face
  let rightFace ← E.face
  let L ← h.face leftFace
  let h1 ← qhHull.RemoveEdge.move leftFace rightFace L.conflictList.length h L.conflictList.head?
  let h2 ← h1.setFace rightFace fun x => { x with edge := E.prev }
  let h3 ← qhHull.RemoveEdge.absorb rightFace E.twin h2.edges.length h2 E.twin
  let h4 ← qhHull.RemoveEdge.link h3 e
  let h5 ← qhHull.RemoveEdge.release h4 e leftFace
  qhHull.RemoveEdge.finish env h5 rightFace

/-- The test of `MergeFace` on one boundary half-edge (lines 781-803):
`some true` when the half-edge has to be removed, `some false` when the scan
goes on. -/
def qhHull.MergeFace.test (h : qhHull K) (rightFace e : Nat) : Option Bool := do
  let E ← h.halfEdge e
  let T ← E.twin.bind h.halfEdge
  if T.face = some rightFace then pure false else
  let L ← T.face.bind h.face
  let R ← h.face rightFace
  let d1 := b3Distance L.center R.plane
  let d2 := b3Distance R.center L.plane
  pure (!(decide (d1 < -h.m_tolerance) && decide (d2 < -h.m_tolerance)))

/-- The do-while loop of `MergeFace` (lines 779-805); the second component
is the value returned. -/
def qhHull.MergeFace.walk (env : b3Env K) (h : qhHull K) (rightFace : Nat) (start : Option Nat) :
    Nat → Option Nat → Option (qhHull K × Bool)
  | 0, _ => none
  | fuel + 1, e => do
    let e0 ← e
    let merge ← qhHull.MergeFace.test h rightFace e0
    if merge then (qhHull.RemoveEdge env h e0).map fun r => (r.1, true) else
    let E ← h.halfEdge e0
    if E.next = start then pure (h, false)
    else qhHull.MergeFace.walk env h rightFace start fuel E.next

/-- The function `MergeFace` (lines 775-808). -/
def qhHull.MergeFace (env : b3Env K) (h : qhHull K) (rightFace : Nat) :
    Option (qhHull K × Bool) := do
  let R ← h.face rightFace
  qhHull.MergeFace.walk env h rightFace R.edge h.edges.length R.edge

/-- The loop `while (MergeFace(face));` of `MergeFaces` (line 823). -/
def qhHull.MergeFaces.again (env : b3Env K) (face : Nat) : Nat → qhHull K → Option (qhHull K)
  | 0, _ => none
  | fuel + 1, h => do
    let (h1, merged) ← qhHull.MergeFace env h face
    if merged then qhHull.MergeFaces.again env face fuel h1 else pure h1

/-- The loop of `MergeFaces` over the new faces (lines 812-824). -/
def qhHull.MergeFaces.loop (env : b3Env K) : List Nat → qhHull K → Option (qhHull K)
  | [], h => pure h
  | face :: rest, h => do
    let F ← h.face face
    if F.active = false then qhHull.MergeFaces.loop env rest h else
    let h1 ← qhHull.MergeFaces.again env face (h.m_faceList.length + 1) h
    qhHull.MergeFaces.loop env rest h1

/-- The function `MergeFaces` (lines 810-825). -/
def qhHull.MergeFaces (env : b3Env K) (h : qhHull K) : Option (qhHull K) :=
  qhHull.MergeFaces.loop env h.m_newFaces h

end Merging

/-! ## Eye vertex and horizon -/

section Expansion

variable {K : Type} [LinearOrderedField K]

/-- The inner loop of `FindEyeVertex` over one conflict list (lines 334-342);
the state is the pair `(d0, v0)`. -/
def qhHull.FindEyeVertex.conflicts (h : qhHull K) (plane : b3Plane K) :
    List Nat → K × Option Nat → Option (K × Option Nat)
  | [], s => pure s
  | v :: vs, s => do
    let V ← h.vertex v
    let d := b3Distance V.position plane
    qhHull.FindEyeVertex.conflicts h plane vs (if d > s.1 then (d, some v) else s)

/-- The outer loop of `FindEyeVertex` over the active face list (lines
332-343). -/
def qhHull.FindEyeVertex.faces (h : qhHull K) :
    List Nat → K × Option Nat → Option (K × Option Nat)
  | [], s => pure s
  | f :: fs, s => do
    let F ← h.face f
    let s' ← qhHull.FindEyeVertex.conflicts h F.plane F.conflictList s
    qhHull.FindEyeVertex.faces h fs s'

/-- The function `FindEyeVertex` (lines 326-346): the furthest conflict
vertex, or `NULL`. -/
def qhHull.FindEyeVertex (h : qhHull K) : Option (Option Nat) :=
  (qhHull.FindEyeVertex.faces h h.m_faceList (h.m_tolerance, none)).map fun s => s.2

/-- The marking loop of `FindHorizon` (lines 358-369). -/
def qhHull.FindHorizon.mark (eyePosition : b3Vec3 K) : List Nat → qhHull K → Option (qhHull K)
  | [], h => pure h
  | face :: rest, h => do
    let F ← h.face face
    let d := b3Distance eyePosition F.plane
    let h1 ← h.setFace face fun x =>
      { x with mark := if d > h.m_tolerance then qhFaceMark.e_visible
                       else qhFaceMark.e_invisible }
    qhHull.FindHorizon.mark eyePosition rest h1

/-- The do-while loop of `FindHorizon` over the boundary of one visible face
(lines 380-393); the list is `m_horizon[0 .. m_horizonCount)`. -/
def qhHull.FindHorizon.walk (h : qhHull K) (start : Option Nat) :
    Nat → Option Nat → List Nat → Option (List Nat)
  | 0, _, _ => none
  | fuel + 1, edge, horizon => do
    let e0 ← edge
    let E ← h.halfEdge e0
    let T ← E.twin.bind h.halfEdge
    let O ← T.face.bind h.face
    let horizon' := if O.mark = qhFaceMark.e_invisible then horizon ++ [e0] else horizon
    if E.next = start then pure horizon'
    else qhHull.FindHorizon.walk h start fuel E.next horizon'

/-- The collecting loop of `FindHorizon` over the active face list (lines
373-394). -/
def qhHull.FindHorizon.collect (h : qhHull K) : List Nat → List Nat → Option (List Nat)
  | [], horizon => pure horizon
  | face :: rest, horizon => do
    let F ← h.face face
    if F.mark = qhFaceMark.e_invisible then qhHull.FindHorizon.collect h rest horizon else
    let horizon' ← qhHull.FindHorizon.walk h F.edge h.edges.length F.edge horizon
    qhHull.FindHorizon.collect h rest horizon'

/-- The function `b3Swap` on two entries of a buffer. -/
def b3Swap (l : List Nat) (i j : Nat) : Option (List Nat) := do
  let a ← l[i]?
  let b ← l[j]?
  pure ((l.set i b).set j a)

/-- The inner loop of the sorting pass of `FindHorizon` (lines 403-416) for
the position `i`, from the index `j` on. -/
def qhHull.FindHorizon.sortInner (h : qhHull K) (i : Nat) (v1 : Option Nat) :
    Nat → Nat → List Nat → Option (List Nat)
  | 0, _, horizon => pure horizon
  | fuel + 1, j, horizon =>
    if j < horizon.length then do
      let e2 ← horizon[j]?
      let E2 ← h.halfEdge e2
      if v1 = E2.tail then b3Swap horizon j (i + 1)
      else qhHull.FindHorizon.sortInner h i v1 fuel (j + 1) horizon
    else pure horizon

/-- The outer loop of the sorting pass of `FindHorizon` (lines 398-417), from
the index `i` on; `bound` is the `u32` value of `m_horizonCount - 1`. -/
def qhHull.FindHorizon.sortOuter (h : qhHull K) (bound : Nat) :
    Nat → Nat → List Nat → Option (List Nat)
  | 0, _, horizon => pure horizon
  | fuel + 1, i, horizon =>
    if i < bound then do
      let e ← horizon[i]?
      let E ← h.halfEdge e
      let E1 ← E.twin.bind h.halfEdge
      let horizon' ← qhHull.FindHorizon.sortInner h i E1.tail horizon.length (i + 1) horizon
      qhHull.FindHorizon.sortOuter h bound fuel (i + 1) horizon'
    else pure horizon

/-- The sorting pass of `FindHorizon` (lines 396-417).  The loop bound
`m_horizonCount - 1` is computed in `u32`. -/
def qhHull.FindHorizon.sort (h : qhHull K) (horizon : List Nat) : Option (List Nat) :=
  let bound := (horizon.length + (2 ^ 32 - 1)) % 2 ^ 32
  qhHull.FindHorizon.sortOuter h bound bound 0 horizon

/-- The function `FindHorizon` (lines 355-418). -/
def qhHull.FindHorizon (h : qhHull K) (eye : Nat) : Option (qhHull K) := do
  let V ← h.vertex eye
  let h1 ← qhHull.FindHorizon.mark V.position h.m_faceList h
  let horizon ← qhHull.FindHorizon.collect h1 h1.m_faceList []
  let sorted ← qhHull.FindHorizon.sort h1 horizon
  pure { h1 with m_horizon := sorted }

/-- The assertion of the first loop of `AddNewFaces` (lines 424-432): the
twin of every horizon half-edge has the tail of the half-edge that follows
it cyclically. -/
def qhHull.AddNewFaces.ccw (h : qhHull K) : Bool :=
  (List.range h.m_horizon.length).all fun i =>
    let j := if i + 1 < h.m_horizon.length then i + 1 else 0
    match (h.m_horizon[i]?).bind h.halfEdge, (h.m_horizon[j]?).bind h.halfEdge with
    | some E, some E2 =>
      (match E.twin.bind h.halfEdge with
        | some E1 => decide (E1.tail = E2.tail)
        | none => false)
    | _, _ => false

/-- The loop of `AddNewFaces` that saves the tails of the horizon half-edges
(lines 435-440). -/
def qhHull.AddNewFaces.saveVertices (h : qhHull K) : List Nat → Option (List (Option Nat))
  | [] => pure []
  | edge :: rest => do
    let E ← h.halfEdge edge
    let vs ← qhHull.AddNewFaces.saveVertices h rest
    pure (E.tail :: vs)

/-- The replacement of the eye vertex in `AddNewFaces` (lines 443-449): the
eye leaves its conflict list and its slot is freed, then a hull vertex with
its position is added. -/
def qhHull.AddNewFaces.addEye (h : qhHull K) (eye : Nat) : Option (qhHull K × Nat) := do
  let V ← h.vertex eye
  let cf ← V.conflictFace
  let F ← h.face cf
  let (l, _) ← qhList.Remove F.conflictList eye
  let h1 ← h.setFace cf fun x => { x with conflictList := l }
  let h2 ← h1.FreeVertex eye
  h2.AddVertex V.position

/-- The inner loop of the removal of one visible face (lines 465-474): its
conflict vertices lose their face and are appended to `m_conflictVertices`. -/
def qhHull.AddNewFaces.orphan : List Nat → qhHull K → Option (qhHull K)
  | [], h => pure h
  | v :: vs, h => do
    let h1 ← h.setVertex v fun x => { x with conflictFace := none }
    qhHull.AddNewFaces.orphan vs { h1 with m_conflictVertices := h1.m_conflictVertices ++ [v] }

/-- The loop of `AddNewFaces` that removes the visible faces (lines 455-478),
over the active face list as it was when the loop started. -/
def qhHull.AddNewFaces.removeVisible : List Nat → qhHull K → Option (qhHull K)
  | [], h => pure h
  | f :: rest, h => do
    let F ← h.face f
    if F.mark = qhFaceMark.e_invisible then qhHull.AddNewFaces.removeVisible rest h else
    let h1 ← qhHull.AddNewFaces.orphan F.conflictList h
    let h2 ← h1.setFace f fun x => { x with conflictList := [] }
    let (h3, _) ← h2.RemoveFace f
    qhHull.AddNewFaces.removeVisible rest h3

/-- The loop of `AddNewFaces` that creates the new faces (lines 482-490),
from the index `i` on. -/
def qhHull.AddNewFaces.fan (env : b3Env K) (v1 : Nat) : Nat → Nat → qhHull K → Option (qhHull K)
  | 0, _, h => pure h
  | fuel + 1, i, h => do
    let j := if i + 1 < h.m_horizon.length then i + 1 else 0
    let v2 ← (h.m_horizonVertices[i]?).join
    let v3 ← (h.m_horizonVertices[j]?).join
    let (h1, face) ← qhHull.AddFace env h v1 v2 v3
    qhHull.AddNewFaces.fan env v1 fuel (i + 1) { h1 with m_newFaces := h1.m_newFaces ++ [face] }

/-- The search for the new face furthest above tolerance from the point `p`
(lines 500-512, and lines 301-312 over the active face list); the state is
the pair `(d0, f0)`. -/
def qhHull.furthestFace (h : qhHull K) (p : b3Vec3 K) :
    List Nat → K × Option Nat → Option (K × Option Nat)
  | [], s => pure s
  | f :: fs, s => do
    let F ← h.face f
    let d := b3Distance p F.plane
    qhHull.furthestFace h p fs (if d > s.1 then (d, some f) else s)

/-- The loop of `AddNewFaces` that files the orphaned conflict vertices into
the new faces or frees them (lines 494-525). -/
def qhHull.AddNewFaces.refile : List Nat → qhHull K → Option (qhHull K)
  | [], h => pure h
  | v :: vs, h => do
    let V ← h.vertex v
    let s ← qhHull.furthestFace h V.position h.m_newFaces (h.m_tolerance, none)
    let h1 ← (match s.2 with
      | some f0 => do
        let a1 ← h.setFace f0 fun x => { x with conflictList := qhList.PushFront x.conflictList v }
        a1.setVertex v fun x => { x with conflictFace := some f0 }
      | none => h.FreeVertex v)
    qhHull.AddNewFaces.refile vs h1

/-- The function `AddNewFaces` (lines 420-526). -/
def qhHull.AddNewFaces (env : b3Env K) (h : qhHull K) (eye : Nat) : Option (qhHull K) := do
  let hv ← qhHull.AddNewFaces.saveVertices h h.m_horizon
  let (h1, v1) ← qhHull.AddNewFaces.addEye { h with m_horizonVertices := hv } eye
  let h2 ← qhHull.AddNewFaces.removeVisible h1.m_faceList { h1 with m_conflictVertices := [] }
  let h3 ← qhHull.AddNewFaces.fan env v1 h2.m_horizon.length 0 { h2 with m_newFaces := [] }
  qhHull.AddNewFaces.refile h3.m_conflictVertices h3

/-- The function `AddEyeVertex` (lines 348-353). -/
def qhHull.AddEyeVertex (env : b3Env K) (h : qhHull K) (eye : Nat) : Option (qhHull K) := do
  let h1 ← h.FindHorizon eye
  let h2 ← qhHull.AddNewFaces env h1 eye
  qhHull.MergeFaces env h2

end Expansion

/-! ## The initial hull and the construction loop -/

section Construction

variable {K : Type} [LinearOrderedField K]

/-- Outcome of the degeneracy checks of `BuildInitialHull` (lines 141-260):
the check that made it return `false`, or the indices of the four simplex
points. -/
inductive qhSimplex where
  | tooFew
  | coincident
  | collinear
  | coplanar
  | simplex (i1 i2 i3 i4 : Nat)
deriving DecidableEq, Repr

/-- The buffer read `vertices[i]`. -/
def qhPoint (vertices : List (b3Vec3 K)) (i : Nat) : b3Vec3 K := vertices.getD i b3Vec3_zero

/-- Body of the loop that looks for the longest segment among the three
axis-extremal pairs (lines 159-172); the state is `(d0, i1, i2)`. -/
def qhHull.BuildInitialHull.segmentStep (vertices : List (b3Vec3 K)) (s : qhAABB K)
    (st : K × Nat × Nat) (i : Nat) : K × Nat × Nat :=
  let A := qhPoint vertices (s.iMin i)
  let B := qhPoint vertices (s.iMax i)
  let d := b3DistanceSquared A B
  if d > st.1 then (d, s.iMin i, s.iMax i) else st

/-- The loop that looks for the longest segment (lines 157-172). -/
def qhHull.BuildInitialHull.segment (vertices : List (b3Vec3 K)) (s : qhAABB K) : K × Nat × Nat :=
  qhHull.BuildInitialHull.segmentStep vertices s
    (qhHull.BuildInitialHull.segmentStep vertices s
      (qhHull.BuildInitialHull.segmentStep vertices s (0, 0, 0) 0) 1) 2

/-- The loop that looks for the triangle of largest area on the segment
`A B` (lines 191-209), from the index `i` on; the state is `(a0, i3)`. -/
def qhHull.BuildInitialHull.area (A B : b3Vec3 K) (i1 i2 : Nat) :
    List (b3Vec3 K) → Nat → K × Nat → K × Nat
  | [], _, st => st
  | C :: rest, i, st =>
    if i = i1 ∨ i = i2 then qhHull.BuildInitialHull.area A B i1 i2 rest (i + 1) st
    else
      let a := b3AreaSquared A B C
      qhHull.BuildInitialHull.area A B i1 i2 rest (i + 1) (if a > st.1 then (a, i) else st)

/-- The loop that looks for the point furthest from the triangle plane
(lines 232-250), from the index `i` on; the state is `(d0, i4)`. -/
def qhHull.BuildInitialHull.apex (plane : b3Plane K) (i1 i2 i3 : Nat) :
    List (b3Vec3 K) → Nat → K × Nat → K × Nat
  | [], _, st => st
  | D :: rest, i, st =>
    if i = i1 ∨ i = i2 ∨ i = i3 then qhHull.BuildInitialHull.apex plane i1 i2 i3 rest (i + 1) st
    else
      let d := b3Abs (b3Distance D plane)
      qhHull.BuildInitialHull.apex plane i1 i2 i3 rest (i + 1) (if d > st.1 then (d, i) else st)

/-- The plane of the base triangle in `BuildInitialHull` (lines 223-226). -/
def qhHull.BuildInitialHull.plane (env : b3Env K) (A B C : b3Vec3 K) : b3Plane K :=
  b3Plane.ofNormalPoint ((b3Cross (B.sub A) (C.sub A)).Normalize env) A

/-- The degeneracy checks of `BuildInitialHull` (lines 141-260). -/
def qhHull.BuildInitialHull.check (env : b3Env K) (vertices : List (b3Vec3 K)) : qhSimplex :=
  if vertices.length < 4 then qhSimplex.tooFew else
  let m_tolerance := qhFindAABB env vertices
  let seg := qhHull.BuildInitialHull.segment vertices (qhFindAABB.scan env vertices)
  let i1 := seg.2.1
  let i2 := seg.2.2
  if seg.1 ≤ env.B3_EPSILON * env.B3_EPSILON then qhSimplex.coincident else
  let A := qhPoint vertices i1
  let B := qhPoint vertices i2
  let tri := qhHull.BuildInitialHull.area A B i1 i2 vertices 0 (0, 0)
  let i3 := tri.2
  if tri.1 ≤ (2 * env.B3_EPSILON) * (2 * env.B3_EPSILON) then qhSimplex.collinear else
  let C := qhPoint vertices i3
  let plane := qhHull.BuildInitialHull.plane env A B C
  let far := qhHull.BuildInitialHull.apex plane i1 i2 i3 vertices 0 (0, 0)
  let i4 := far.2
  if far.1 ≤ m_tolerance then qhSimplex.coplanar else
  qhSimplex.simplex i1 i2 i3 i4

/-- The four `AddVertex` calls of `BuildInitialHull` (lines 265-268). -/
def qhHull.BuildInitialHull.addVertices (h : qhHull K) (A B C D : b3Vec3 K) :
    Option (qhHull K × Nat × Nat × Nat × Nat) := do
  let (h1, v1) ← h.AddVertex A
  let (h2, v2) ← h1.AddVertex B
  let (h3, v3) ← h2.AddVertex C
  let (h4, v4) ← h3.AddVertex D
  pure (h4, v1, v2, v3, v4)

/-- The four `AddFace` calls of `BuildInitialHull` (lines 270-284); `below`
is the test `b3Distance(D, plane) < 0`. -/
def qhHull.BuildInitialHull.addFaces (env : b3Env K) (h : qhHull K) (below : Bool)
    (v1 v2 v3 v4 : Nat) : Option (qhHull K) :=
  if below then do
    let (h1, _) ← qhHull.AddFace env h v1 v2 v3
    let (h2, _) ← qhHull.AddFace env h1 v4 v2 v1
    let (h3, _) ← qhHull.AddFace env h2 v4 v3 v2
    let (h4, _) ← qhHull.AddFace env h3 v4 v1 v3
    pure h4
  else do
    let (h1, _) ← qhHull.AddFace env h v1 v3 v2
    let (h2, _) ← qhHull.AddFace env h1 v4 v1 v2
    let (h3, _) ← qhHull.AddFace env h2 v4 v2 v3
    let (h4, _) ← qhHull.AddFace env h3 v4 v3 v1
    pure h4

/-- The simplex construction of `BuildInitialHull` (lines 262-284): the mesh
right after the four `AddFace` calls. -/
def qhHull.BuildInitialHull.addSimplex (env : b3Env K) (h : qhHull K)
    (vertices : List (b3Vec3 K)) (i1 i2 i3 i4 : Nat) : Option (qhHull K) := do
  let A := qhPoint vertices i1
  let B := qhPoint vertices i2
  let C := qhPoint vertices i3
  let D := qhPoint vertices i4
  let (h1, v1, v2, v3, v4) ← qhHull.BuildInitialHull.addVertices h A B C D
  let below := decide (b3Distance D (qhHull.BuildInitialHull.plane env A B C) < 0)
  qhHull.BuildInitialHull.addFaces env h1 below v1 v2 v3 v4

/-- The filing of one remaining point (lines 298-320): a conflict vertex is
allocated for it when some face is further than the tolerance below it. -/
def qhHull.BuildInitialHull.file (h : qhHull K) (p : b3Vec3 K) : Option (qhHull K) := do
  let s ← qhHull.furthestFace h p h.m_faceList (h.m_tolerance, none)
  match s.2 with
  | some f0 => do
    let (a1, v) ← h.AllocateVertex
    let a2 ← a1.setVertex v fun x => { x with position := p, conflictFace := some f0 }
    a2.setFace f0 fun x => { x with conflictList := qhList.PushFront x.conflictList v }
  | none => pure h

/-- The loop of `BuildInitialHull` that files the remaining points into the
conflict lists (lines 290-321), from the index `i` on. -/
def qhHull.BuildInitialHull.conflicts (i1 i2 i3 i4 : Nat) :
    List (b3Vec3 K) → Nat → qhHull K → Option (qhHull K)
  | [], _, h => pure h
  | p :: rest, i, h =>
    if i = i1 ∨ i = i2 ∨ i = i3 ∨ i = i4 then
      qhHull.BuildInitialHull.conflicts i1 i2 i3 i4 rest (i + 1) h
    else do
      let h1 ← qhHull.BuildInitialHull.file h p
      qhHull.BuildInitialHull.conflicts i1 i2 i3 i4 rest (i + 1) h1

/-- The function `BuildInitialHull` (lines 139-324); the second component is
the value returned. -/
def qhHull.BuildInitialHull (env : b3Env K) (h : qhHull K) (vertices : List (b3Vec3 K)) :
    Option (qhHull K × Bool) :=
  match qhHull.BuildInitialHull.check env vertices with
  | qhSimplex.tooFew => pure (h, false)
  | qhSimplex.simplex i1 i2 i3 i4 => do
    let h0 : qhHull K := { h with m_tolerance := qhFindAABB env vertices }
    let h1 ← qhHull.BuildInitialHull.addSimplex env h0 vertices i1 i2 i3 i4
    let _ ← qhHull.Validate env h1
    let h2 ← qhHull.BuildInitialHull.conflicts i1 i2 i3 i4 vertices 0 h1
    pure (h2, true)
  | _ => pure ({ h with m_tolerance := qhFindAABB env vertices }, false)

/-- Outcome of a run: a final value, undefined behaviour (or an inner loop
that never ends), or a loop budget that was not enough. -/
inductive qhRun (α : Type) where
  | done (a : α)
  | undefined
  | unfinished
deriving DecidableEq, Repr

/-- Lift a step that may be undefined into a run. -/
def qhRun.ofOption {α : Type} : Option α → qhRun α
  | some a => qhRun.done a
  | none => qhRun.undefined

/-- The pool sizes of `Construct` (lines 70-76), in `u32` arithmetic: the
numbers of vertices, half-edges and faces. -/
def qhHull.Construct.sizes (count : Nat) : Nat × Nat × Nat :=
  let V := count % 2 ^ 32
  let E := (3 * V + (2 ^ 32 - 6)) % 2 ^ 32
  let HE := (2 * E) % 2 ^ 32
  let F := (2 * V + (2 ^ 32 - 4)) % 2 ^ 32
  (V, (HE * 2) % 2 ^ 32, (F * 2) % 2 ^ 32)

/-- The state of the hull after the initialisation of `Construct` (lines
78-119): every slot of the three pools is on its free list, the last slot of
the block (slot `0`) first, and the lists and counters are empty. -/
def qhHull.Construct.start (count : Nat) : qhHull K :=
  let n := qhHull.Construct.sizes count
  { vertices := List.replicate n.1 qhVertex.blank
    edges := List.replicate n.2.1 qhHalfEdge.blank
    faces := List.replicate n.2.2 qhFace.blank
    m_freeVertices := List.range n.1
    m_freeEdges := List.range n.2.1
    m_freeFaces := List.range n.2.2
    m_vertexList := []
    m_faceList := []
    m_tolerance := 0
    m_iterations := 0
    m_horizon := []
    m_horizonVertices := []
    m_conflictVertices := []
    m_newFaces := [] }

/-- One iteration of the loop of `Construct` (lines 129-135); the second
component is the next eye vertex. -/
def qhHull.Construct.step (env : b3Env K) (h : qhHull K) (eye : Nat) :
    Option (qhHull K × Option Nat) := do
  let _ ← qhHull.Validate env h
  let h1 ← qhHull.AddEyeVertex env h eye
  let eye' ← h1.FindEyeVertex
  pure ({ h1 with m_iterations := (h1.m_iterations + 1) % 2 ^ 32 }, eye')

/-- The loop of `Construct` (lines 127-136) with a budget of iterations. -/
def qhHull.Construct.loop (env : b3Env K) : Nat → qhHull K → Option Nat → qhRun (qhHull K)
  | _, h, none => qhRun.done h
  | 0, _, some _ => qhRun.unfinished
  | fuel + 1, h, some eye =>
    match qhHull.Construct.step env h eye with
    | none => qhRun.undefined
    | some (h1, eye') => qhHull.Construct.loop env fuel h1 eye'

/-- The function `Construct` (lines 66-137) on a buffer of points, with a
budget of iterations for its loop. -/
def qhHull.Construct (env : b3Env K) (fuel : Nat) (vs : List (b3Vec3 K)) : qhRun (qhHull K) :=
  match qhHull.BuildInitialHull env (qhHull.Construct.start vs.length) vs with
  | none => qhRun.undefined
  | some (h, false) => qhRun.done h
  | some (h, true) =>
    match h.FindEyeVertex with
    | none => qhRun.undefined
    | some eye => qhHull.Construct.loop env fuel h eye

end Construction

/-! ## A concrete scalar environment over the rationals -/

/-- Bisection for the integer square root: the largest `r` in `[lo, hi)` with
`r * r ≤ n`, given that `lo * lo ≤ n < hi * hi`. -/
def qhNatSqrt.go (n : Nat) : Nat → Nat → Nat → Nat
  | 0, lo, _ => lo
  | fuel + 1, lo, hi =>
    if hi ≤ lo + 1 then lo
    else if ((lo + hi) / 2) * ((lo + hi) / 2) ≤ n then qhNatSqrt.go n fuel ((lo + hi) / 2) hi
    else qhNatSqrt.go n fuel lo ((lo + hi) / 2)

/-- Integer square root. -/
def qhNatSqrt (n : Nat) : Nat := qhNatSqrt.go n (n + 1) 0 (n + 1)

/-- Square root on the rationals: exact on the squares of rationals, and
rounded down to a multiple of `1 / (den * 2 ^ 64)` elsewhere. -/
def qhRatSqrt (q : ℚ) : ℚ :=
  if q ≤ 0 then 0
  else (qhNatSqrt (q.num.toNat * q.den * 4 ^ 64) : ℚ) / ((q.den * 2 ^ 64 : Nat) : ℚ)

/-- The scalar environment of a `float32` build: `B3_EPSILON = FLT_EPSILON
= 2 ^ (-23)`, `B3_MAX_FLOAT = FLT_MAX = (2 ^ 24 - 1) * 2 ^ 104`, and the
rational square root. -/
def qhEnv : b3Env ℚ :=
  { B3_EPSILON := 1 / 8388608
    B3_MAX_FLOAT := 340282346638528859811704183484516925440
    b3Sqrt := qhRatSqrt }

/-! ## Predicates and closed forms used in the statements -/

section Statements

variable {K : Type} [LinearOrderedField K]

/-- Every face pointer of the active face list and every vertex pointer of a
conflict list points into its pool. -/
def qhHull.ConflictsValid (h : qhHull K) : Prop :=
  ∀ f ∈ h.m_faceList, ∃ F, h.face f = some F ∧ ∀ v ∈ F.conflictList, ∃ V, h.vertex v = some V

/-- The hull with the given pools and free lists, empty vertex and face
lists and empty scratch buffers. -/
def qhHull.ofPools (vertices : List (qhVertex K)) (edges : List qhHalfEdge)
    (faces : List (qhFace K)) (fv fe ff : List Nat) (tol : K) : qhHull K :=
  { vertices := vertices
    edges := edges
    faces := faces
    m_freeVertices := fv
    m_freeEdges := fe
    m_freeFaces := ff
    m_vertexList := []
    m_faceList := []
    m_tolerance := tol
    m_iterations := 0
    m_horizon := []
    m_horizonVertices := []
    m_conflictVertices := []
    m_newFaces := [] }

/-- The half-edges of the initial simplex, in the branch where the apex lies
below the base plane (`true`) and in the other branch (`false`): slot by
slot, the tail, `prev`, `next`, `twin` and face of each. -/
def qhHull.simplexEdges : Bool → List qhHalfEdge
  | true =>
    [⟨some 0, some 4, some 2, some 1, some 0, true⟩,
     ⟨some 1, some 6, some 8, some 0, some 1, true⟩,
     ⟨some 1, some 0, some 4, some 3, some 0, true⟩,
     ⟨some 2, some 10, some 7, some 2, some 2, true⟩,
     ⟨some 2, some 2, some 0, some 5, some 0, true⟩,
     ⟨some 0, some 9, some 11, some 4, some 3, true⟩,
     ⟨some 3, some 8, some 1, some 7, some 1, true⟩,
     ⟨some 1, some 3, some 10, some 6, some 2, true⟩,
     ⟨some 0, some 1, some 6, some 9, some 1, true⟩,
     ⟨some 3, some 11, some 5, some 8, some 3, true⟩,
     ⟨some 3, some 7, some 3, some 11, some 2, true⟩,
     ⟨some 2, some 5, some 9, some 10, some 3, true⟩]
  | false =>
    [⟨some 0, some 4, some 2, some 1, some 0, true⟩,
     ⟨some 2, some 11, some 7, some 0, some 3, true⟩,
     ⟨some 2, some 0, some 4, some 3, some 0, true⟩,
     ⟨some 1, some 9, some 10, some 2, some 2, true⟩,
     ⟨some 1, some 2, some 0, some 5, some 0, true⟩,
     ⟨some 0, some 6, some 8, some 4, some 1, true⟩,
     ⟨some 3, some 8, some 5, some 7, some 1, true⟩,
     ⟨some 0, some 1, some 11, some 6, some 3, true⟩,
     ⟨some 1, some 5, some 6, some 9, some 1, true⟩,
     ⟨some 3, some 10, some 3, some 8, some 2, true⟩,
     ⟨some 2, some 3, some 9, some 11, some 2, true⟩,
     ⟨some 3, some 7, some 1, some 10, some 3, true⟩]

/-- A triangular face as `AddFace` leaves it: its first half-edge, an empty
conflict list, the centroid and the plane of the three positions. -/
def qhHull.simplexFace (env : b3Env K) (e : Nat) (a b c : b3Vec3 K) : qhFace K :=
  ⟨some e, [], ((a.add b).add c).div 3, b3Plane.ofPoints env a b c, qhFaceMark.e_invisible, true⟩

/-- The faces of the initial simplex on the points `A B C D`, slot by slot,
in the two branches. -/
def qhHull.simplexFaces (env : b3Env K) (A B C D : b3Vec3 K) : Bool → List (qhFace K)
  | true =>
    [qhHull.simplexFace env 0 A B C, qhHull.simplexFace env 6 D B A,
     qhHull.simplexFace env 10 D C B, qhHull.simplexFace env 9 D A C]
  | false =>
    [qhHull.simplexFace env 0 A C B, qhHull.simplexFace env 6 D A B,
     qhHull.simplexFace env 9 D B C, qhHull.simplexFace env 11 D C A]

/-- The four vertices of the initial simplex, slot by slot. -/
def qhHull.simplexVertices (A B C D : b3Vec3 K) : List (qhVertex K) :=
  [⟨A, none, true⟩, ⟨B, none, true⟩, ⟨C, none, true⟩, ⟨D, none, true⟩]

/-- The mesh right after the four `AddFace` calls of `BuildInitialHull` in
pools whose first free slots are `0 .. 3`, `0 .. 11` and `0 .. 3`; `tv`, `te`
and `tf` are the untouched slots and `fv`, `fe`, `ff` the free lists left. -/
def qhHull.simplexMesh (env : b3Env K) (tv : List (qhVertex K)) (te : List qhHalfEdge)
    (tf : List (qhFace K)) (fv fe ff : List Nat) (tol : K) (A B C D : b3Vec3 K)
    (below : Bool) : qhHull K :=
  { qhHull.ofPools (qhHull.simplexVertices A B C D ++ tv) (qhHull.simplexEdges below ++ te)
      (qhHull.simplexFaces env A B C D below ++ tf) fv fe ff tol with
    m_vertexList := [3, 2, 1, 0]
    m_faceList := [3, 2, 1, 0] }

end Statements

/-! ## Sample inputs -/

/-- Three points: too few for a hull. -/
def qhThreePoints : List (b3Vec3 ℚ) := [⟨0, 0, 0⟩, ⟨1, 0, 0⟩, ⟨0, 1, 0⟩]

/-- Executable form of `ConflictsValid`. -/
def qhHull.conflictsCheck {K : Type} (h : qhHull K) : Bool :=
  h.m_faceList.all fun f =>
    match h.faces[f]? with
    | some F => F.conflictList.all fun v => (h.vertices[v]?).isSome
    | none => false

/-- A tetrahedron with two points outside it and one inside it. -/
def qhEyeInput : List (b3Vec3 ℚ) :=
  [⟨-12, 0, 0⟩, ⟨12, 0, 0⟩, ⟨0, 8, 0⟩, ⟨0, 0, 4⟩, ⟨0, -4, 3⟩, ⟨6, 4, 4⟩, ⟨0, 1, 1⟩]

/-- The mesh that `BuildInitialHull` leaves on `qhEyeInput`. -/
def qhEyeHull : qhHull ℚ :=
  match qhHull.BuildInitialHull qhEnv (qhHull.Construct.start qhEyeInput.length) qhEyeInput with
  | some (h, _) => h
  | none => qhHull.Construct.start 0

section

variable {K : Type} [LinearOrderedField K]

end

/-- A thin tetrahedron: the apex is `2 ^ (-30)` above a corner of the base
triangle, whose legs are `2 ^ (-10)` long. -/
def qhThinInput : List (b3Vec3 ℚ) :=
  [⟨0, 0, 0⟩, ⟨1 / 1024, 0, 0⟩, ⟨0, 1 / 1024, 0⟩, ⟨0, 0, 1 / 1073741824⟩]

/-- A pyramid over a rectangle with a sixth point `437 * 2 ^ (-23)` above its
apex `(0, 0, 0)`. -/
def qhTouchInput : List (b3Vec3 ℚ) :=
  [⟨0, 0, 0⟩, ⟨0, 56, -105⟩, ⟨-36, -56, -105⟩, ⟨-36, 56, -105⟩, ⟨0, -56, -105⟩,
    ⟨0, 0, 437 / 8388608⟩]

/-- The mesh that `BuildInitialHull` leaves on `qhTouchInput`. -/
def qhTouchHull0 : qhHull ℚ :=
  match qhHull.BuildInitialHull qhEnv (qhHull.Construct.start qhTouchInput.length) qhTouchInput with
  | some (h, _) => h
  | none => qhHull.Construct.start 0

/-- The mesh on `qhTouchInput` after the first iteration of `Construct`. -/
def qhTouchHull1 : qhHull ℚ :=
  match qhHull.Construct.step qhEnv qhTouchHull0 4 with
  | some (h, _) => h
  | none => qhHull.Construct.start 0

section

variable {K : Type} [LinearOrderedField K]

end

section

variable {K : Type} [LinearOrderedField K]

/-- The free vertex slots are distinct and no vertex of a conflict list is on
the free list. -/
def qhHull.FreshVertices (h : qhHull K) : Prop :=
  h.m_freeVertices.Nodup ∧
    ∀ f ∈ h.m_faceList, ∀ F, h.face f = some F → ∀ v ∈ F.conflictList, v ∉ h.m_freeVertices

/-- No active face is further than the tolerance below the point `p`. -/
def qhHull.Inside (h : qhHull K) (p : b3Vec3 K) : Prop :=
  ∀ f ∈ h.m_faceList, ∀ F, h.face f = some F → b3Distance p F.plane ≤ h.m_tolerance

/-- The vertex slot `v` is the conflict vertex of the point `p`: it holds the
position `p`, it is on the conflict list of exactly one active face, once, its
`conflictFace` is that face, and that face is further than the tolerance below
`p` and at least as far below `p` as every active face. -/
def qhHull.Filed (h : qhHull K) (p : b3Vec3 K) (v : Nat) : Prop :=
  ∃ f F V, h.vertex v = some V ∧ V.position = p ∧ V.conflictFace = some f ∧
    f ∈ h.m_faceList ∧ h.face f = some F ∧ F.conflictList.count v = 1 ∧
    (∀ g ∈ h.m_faceList, g ≠ f → ∀ G, h.face g = some G → v ∉ G.conflictList) ∧
    h.m_tolerance < b3Distance p F.plane ∧
    ∀ g ∈ h.m_faceList, ∀ G, h.face g = some G → b3Distance p G.plane ≤ b3Distance p F.plane

end

section

variable {K : Type} [LinearOrderedField K]

/-- The `next` pointer of the half-edge in the slot `e`. -/
def qhHull.next (h : qhHull K) (e : Nat) : Option Nat := (h.halfEdge e).bind fun E => E.next

/-- The list is a chain of `next` pointers whose last half-edge points back
to `start`. -/
def qhHull.IsLoop (h : qhHull K) (start : Nat) : List Nat → Prop
  | [] => False
  | [e] => h.next e = some start
  | e :: e' :: l => h.next e = some e' ∧ qhHull.IsLoop h start (e' :: l)

/-- The mark of the face of the twin of the half-edge `e`, as `FindHorizon`
reads it. -/
def qhHull.twinMark (h : qhHull K) (e : Nat) : Option qhFaceMark := do
  let E ← h.halfEdge e
  let T ← E.twin.bind h.halfEdge
  let O ← T.face.bind h.face
  pure O.mark

/-- The half-edge invariants of a mesh whose active faces have the boundary
cycles `cyc f`: the active faces are distinct; the cycle of a face starts at
`face->edge`, follows the `next` pointers back to it and repeats no
half-edge; every half-edge `e` of the cycle of `f` is active with
`e->face == f`, `e->twin` active, `e->twin->twin == e`, `e->next->prev == e`
and `e->twin->tail == e->next->tail`; and every active half-edge lies on the
cycle of its face, which is an active face. -/
structure qhHull.HalfEdgeInv (h : qhHull K) (cyc : Nat → List Nat) : Prop where
  faces_nodup : h.m_faceList.Nodup
  cycle : ∀ f ∈ h.m_faceList, ∃ F e0, h.face f = some F ∧ F.edge = some e0 ∧
    (cyc f).head? = some e0 ∧ (cyc f).Nodup ∧ h.IsLoop e0 (cyc f)
  edge : ∀ f ∈ h.m_faceList, ∀ e ∈ cyc f, ∃ E t T n N, h.halfEdge e = some E ∧
    E.active = true ∧ E.face = some f ∧ E.twin = some t ∧ h.halfEdge t = some T ∧
    T.active = true ∧ T.twin = some e ∧ E.next = some n ∧ h.halfEdge n = some N ∧
    N.prev = some e ∧ T.tail = N.tail
  owner : ∀ e E, h.halfEdge e = some E → E.active = true →
    ∃ f ∈ h.m_faceList, E.face = some f ∧ e ∈ cyc f

/-- The half-edge `e` is on the horizon: it is an active half-edge of a face
marked visible and the face of its twin is marked invisible. -/
def qhHull.OnHorizon (h : qhHull K) (e : Nat) : Prop :=
  ∃ E f F t T o O, h.halfEdge e = some E ∧ E.active = true ∧ E.face = some f ∧
    h.face f = some F ∧ F.mark = qhFaceMark.e_visible ∧ E.twin = some t ∧
    h.halfEdge t = some T ∧ T.face = some o ∧ h.face o = some O ∧
    O.mark = qhFaceMark.e_invisible

/-- Some half-edge separates a face further than the tolerance below the
point `p` from a face that is not: the horizon of `p` is not empty. -/
def qhHull.SeesHorizon (h : qhHull K) (p : b3Vec3 K) : Prop :=
  ∃ e E f F t T o O, h.halfEdge e = some E ∧ E.active = true ∧ E.face = some f ∧
    h.face f = some F ∧ h.m_tolerance < b3Distance p F.plane ∧ E.twin = some t ∧
    h.halfEdge t = some T ∧ T.face = some o ∧ h.face o = some O ∧
    b3Distance p O.plane ≤ h.m_tolerance

/-- The half-edges that `FindHorizon` collects on the face `f`: none when
the face is marked invisible, and otherwise the half-edges of its cycle whose
twin lies on a face marked invisible. -/
def qhHull.horizonOf (h : qhHull K) (cyc : Nat → List Nat) (f : Nat) : List Nat :=
  match h.face f with
  | some F =>
    if F.mark = qhFaceMark.e_invisible then []
    else (cyc f).filter fun x => h.twinMark x = some qhFaceMark.e_invisible
  | none => []

/-- The mark that `FindHorizon` gives a face for the eye position `p`. -/
def qhHull.markFor (h : qhHull K) (p : b3Vec3 K) (F : qhFace K) : qhFaceMark :=
  if b3Distance p F.plane > h.m_tolerance then qhFaceMark.e_visible else qhFaceMark.e_invisible

end

/-- The boundary cycles of the four faces of the initial simplex, in the two
branches. -/
def qhSimplexCycles : Bool → Nat → List Nat
  | true, 0 => [0, 2, 4]
  | true, 1 => [6, 1, 8]
  | true, 2 => [10, 3, 7]
  | true, 3 => [9, 5, 11]
  | false, 0 => [0, 2, 4]
  | false, 1 => [6, 5, 8]
  | false, 2 => [9, 3, 10]
  | false, 3 => [11, 1, 7]
  | _, _ => []

/-- A tetrahedron whose four faces are wound the wrong way round, so that its
normals point inwards, with a conflict vertex at the inner point `(1, 1, 1)`
on the conflict list of the face `0`. -/
def qhInsideOut : qhHull ℚ :=
  { qhHull.simplexMesh qhEnv [⟨⟨1, 1, 1⟩, some 0, true⟩] [] [] [] [] [] 0
      ⟨0, 0, 0⟩ ⟨12, 0, 0⟩ ⟨0, 8, 0⟩ ⟨0, 0, 4⟩ true with
    faces :=
      [{ qhHull.simplexFace qhEnv 0 ⟨0, 0, 0⟩ ⟨12, 0, 0⟩ ⟨0, 8, 0⟩ with conflictList := [4] },
       qhHull.simplexFace qhEnv 6 ⟨0, 0, 4⟩ ⟨12, 0, 0⟩ ⟨0, 0, 0⟩,
       qhHull.simplexFace qhEnv 10 ⟨0, 0, 4⟩ ⟨0, 8, 0⟩ ⟨12, 0, 0⟩,
       qhHull.simplexFace qhEnv 9 ⟨0, 0, 4⟩ ⟨0, 0, 0⟩ ⟨0, 8, 0⟩] }

/-- The same tetrahedron wound the right way round, with a conflict vertex at
`(1, 1, -1)`, under its base, on the conflict list of the base face `0`. -/
def qhEyeUnderBase : qhHull ℚ :=
  { qhHull.simplexMesh qhEnv [⟨⟨1, 1, -1⟩, some 0, true⟩] [] [] [] [] [] 0
      ⟨0, 0, 0⟩ ⟨12, 0, 0⟩ ⟨0, 8, 0⟩ ⟨0, 0, 4⟩ false with
    faces :=
      [{ qhHull.simplexFace qhEnv 0 ⟨0, 0, 0⟩ ⟨0, 8, 0⟩ ⟨12, 0, 0⟩ with conflictList := [4] },
       qhHull.simplexFace qhEnv 6 ⟨0, 0, 4⟩ ⟨0, 0, 0⟩ ⟨12, 0, 0⟩,
       qhHull.simplexFace qhEnv 9 ⟨0, 0, 4⟩ ⟨12, 0, 0⟩ ⟨0, 8, 0⟩,
       qhHull.simplexFace qhEnv 11 ⟨0, 0, 4⟩ ⟨0, 8, 0⟩ ⟨0, 0, 0⟩] }

section

variable {K : Type} [LinearOrderedField K]

/-- The half-edges met by chasing `next` from `e` until `start` comes back,
with a budget of steps. -/
def qhHull.boundary.walk (h : qhHull K) (start : Nat) : Nat → Nat → Option (List Nat)
  | 0, _ => none
  | fuel + 1, e =>
    match h.next e with
    | none => none
    | some n =>
      if n = start then some [e]
      else (qhHull.boundary.walk h start fuel n).map fun l => e :: l

/-- The boundary cycle of the face `f`, from `face->edge` on. -/
def qhHull.boundary (h : qhHull K) (f : Nat) : Option (List Nat) := do
  let F ← h.face f
  let e ← F.edge
  qhHull.boundary.walk h e h.edges.length e

end

section

variable {K : Type} [LinearOrderedField K]

/-- The tail vertex of the half-edge in the slot `e`. -/
def qhHull.tail (h : qhHull K) (e : Nat) : Option Nat := (h.halfEdge e).bind fun E => E.tail

/-- The tail vertex of the twin of the half-edge in the slot `e`. -/
def qhHull.twinTail (h : qhHull K) (e : Nat) : Option Nat :=
  ((h.halfEdge e).bind fun E => E.twin).bind h.tail

end

/-- The seven regions that `Construct` carves out of the caller's block
(lines 79-111), in order: the vertex pool, the half-edge pool, the face pool,
the horizon half-edge buffer, the horizon vertex buffer, the conflict vertex
buffer and the new face buffer.  Each region is given by the byte offset of
its start from `memory` and the byte offset of its end, the start plus the
number of elements times the size of one element; the pools hold `V`, `HE` and
`F` objects and the buffers `HE`, `HE`, `V` and `F` pointers.  The element
sizes `sizeof(qhVertex)`, `sizeof(qhHalfEdge)`, `sizeof(qhFace)` and the size
of a pointer are parameters, and the byte offsets are not wrapped.
Each start is the pointer expression of the source: the face pool is followed
by `(u8*)faces + F * sizeof(qhFace*)`. -/
def qhHull.Construct.regions (count sizeofVertex sizeofHalfEdge sizeofFace sizeofPointer : Nat) :
    List (Nat × Nat) :=
  let n := qhHull.Construct.sizes count
  let V := n.1
  let HE := n.2.1
  let F := n.2.2
  let vertices := 0
  let edges := vertices + V * sizeofVertex
  let faces := edges + HE * sizeofHalfEdge
  let m_horizon := faces + F * sizeofPointer
  let m_horizonVertices := m_horizon + HE * sizeofPointer
  let m_conflictVertices := m_horizonVertices + HE * sizeofPointer
  let m_newFaces := m_conflictVertices + V * sizeofPointer
  [(vertices, vertices + V * sizeofVertex), (edges, edges + HE * sizeofHalfEdge),
   (faces, faces + F * sizeofFace), (m_horizon, m_horizon + HE * sizeofPointer),
   (m_horizonVertices, m_horizonVertices + HE * sizeofPointer),
   (m_conflictVertices, m_conflictVertices + V * sizeofPointer),
   (m_newFaces, m_newFaces + F * sizeofPointer)]

/-- Every region starts where the region before it ends, or later. -/
def qhHull.Construct.inOrder : List (Nat × Nat) → Bool
  | a :: b :: rest => decide (a.2 ≤ b.1) && qhHull.Construct.inOrder (b :: rest)
  | _ => true

section

variable {K : Type} [LinearOrderedField K]

/-- The enumeration `b3SoftBodyNodeType` (softbody_node.h, lines 77-81). -/
inductive b3SoftBodyNodeType where
  | e_staticSoftBodyNode
  | e_dynamicSoftBodyNode
deriving DecidableEq, Repr

/-- The data members of `b3SoftBodyNode` (softbody_node.h, lines 136-170)
that its public member functions read or write, and its scalar members; of the
contact `m_bodyContact` only the flag `active` is kept. -/
structure b3SoftBodyNode (K : Type) where
  m_type : b3SoftBodyNodeType
  m_position : b3Vec3 K
  m_velocity : b3Vec3 K
  m_force : b3Vec3 K
  m_mass : K
  m_invMass : K
  m_radius : K
  m_friction : K
  m_vertex : Nat
  m_bodyContact_active : Bool

/-- The function `b3SoftBodyNode::SetType` (lines 173-189). -/
def b3SoftBodyNode.SetType (n : b3SoftBodyNode K) (type : b3SoftBodyNodeType) :
    b3SoftBodyNode K :=
  if n.m_type = type then n
  else
    let n1 := { n with m_type := type, m_force := b3Vec3_zero }
    let n2 := if type = b3SoftBodyNodeType.e_staticSoftBodyNode then
      { n1 with m_velocity := b3Vec3_zero } else n1
    { n2 with m_bodyContact_active := false }

/-- The function `b3SoftBodyNode::GetType` (lines 191-194). -/
def b3SoftBodyNode.GetType (n : b3SoftBodyNode K) : b3SoftBodyNodeType := n.m_type

/-- The function `b3SoftBodyNode::SetPosition` (lines 201-204). -/
def b3SoftBodyNode.SetPosition (n : b3SoftBodyNode K) (position : b3Vec3 K) :
    b3SoftBodyNode K :=
  { n with m_position := position }

/-- The function `b3SoftBodyNode::SetVelocity` (lines 211-218). -/
def b3SoftBodyNode.SetVelocity (n : b3SoftBodyNode K) (velocity : b3Vec3 K) :
    b3SoftBodyNode K :=
  if n.m_type = b3SoftBodyNodeType.e_staticSoftBodyNode then n
  else { n with m_velocity := velocity }

/-- The function `b3SoftBodyNode::SetRadius` (lines 230-233). -/
def b3SoftBodyNode.SetRadius (n : b3SoftBodyNode K) (radius : K) : b3SoftBodyNode K :=
  { n with m_radius := radius }

/-- The function `b3SoftBodyNode::SetFriction` (lines 240-243). -/
def b3SoftBodyNode.SetFriction (n : b3SoftBodyNode K) (friction : K) : b3SoftBodyNode K :=
  { n with m_friction := friction }

/-- The function `b3SoftBodyNode::ApplyForce` (lines 250-257). -/
def b3SoftBodyNode.ApplyForce (n : b3SoftBodyNode K) (force : b3Vec3 K) : b3SoftBodyNode K :=
  if n.m_type ≠ b3SoftBodyNodeType.e_dynamicSoftBodyNode then n
  else { n with m_force := n.m_force.add force }

/-- A static node is at rest: when the type is static, the velocity and the
applied force are zero. -/
def b3SoftBodyNode.StaticAtRest (n : b3SoftBodyNode K) : Prop :=
  n.m_type = b3SoftBodyNodeType.e_staticSoftBodyNode →
    n.m_velocity = b3Vec3_zero ∧ n.m_force = b3Vec3_zero

/-- A static node at rest at the origin. -/
def b3StaticNode : b3SoftBodyNode ℚ :=
  { m_type := b3SoftBodyNodeType.e_staticSoftBodyNode
    m_position := ⟨0, 0, 0⟩
    m_velocity := ⟨0, 0, 0⟩
    m_force := ⟨0, 0, 0⟩
    m_mass := 0
    m_invMass := 0
    m_radius := 1
    m_friction := 0
    m_vertex := 0
    m_bodyContact_active := true }

end

section

variable {K : Type} [LinearOrderedField K]

/-- The unit tetrahedron, a point `2 ^ (-19)` above its corner `(1, 0, 0)` and
a point `2 ^ (-18)` beside its corner `(0, 0, 1)`. -/
def qhNearInput : List (b3Vec3 ℚ) :=
  [⟨0, 0, 0⟩, ⟨1, 0, 0⟩, ⟨0, 1, 0⟩, ⟨0, 0, 1⟩, ⟨1, 0, 1 / 524288⟩, ⟨1 / 262144, 0, 1⟩]

/-- The mesh that `BuildInitialHull` leaves on `qhNearInput`. -/
def qhNearHull0 : qhHull ℚ :=
  match qhHull.BuildInitialHull qhEnv (qhHull.Construct.start qhNearInput.length) qhNearInput with
  | some (h, _) => h
  | none => qhHull.Construct.start 0

/-- The mesh on `qhNearInput` after `FindHorizon` and `AddNewFaces` for the
eye vertex `5`. -/
def qhNearHull1 : qhHull ℚ :=
  match (qhNearHull0.FindHorizon 5).bind fun h => qhHull.AddNewFaces qhEnv h 5 with
  | some h => h
  | none => qhHull.Construct.start 0

/-- The mesh on `qhNearInput` after the first `AddEyeVertex`. -/
def qhNearHull3 : qhHull ℚ :=
  match qhHull.AddEyeVertex qhEnv qhNearHull0 5 with
  | some h => h
  | none => qhHull.Construct.start 0

end

section

variable {K : Type} [LinearOrderedField K]

/-- The index of an input point once a point has been inserted at the
position `k`. -/
def qhShift (k j : Nat) : Nat := if j < k then j else j + 1

end

section

variable {K : Type} [LinearOrderedField K]

/-- The mesh with every half-edge record `E` of slot `y` replaced by `u y E`. -/
def qhHull.editEdges (h : qhHull K) (u : Nat → qhHalfEdge → qhHalfEdge) : qhHull K :=
  { h with edges := h.edges.mapIdx u }

/-- The mesh with every face record `F` of slot `f` replaced by `u f F`. -/
def qhHull.editFaces (h : qhHull K) (u : Nat → qhFace K → qhFace K) : qhHull K :=
  { h with faces := h.faces.mapIdx u }

/-- The mesh with every vertex record `V` of slot `v` replaced by `u v V`. -/
def qhHull.editVertices (h : qhHull K) (u : Nat → qhVertex K → qhVertex K) : qhHull K :=
  { h with vertices := h.vertices.mapIdx u }

/-- The `twin` pointer of the half-edge in the slot `e`. -/
def qhHull.twin (h : qhHull K) (e : Nat) : Option Nat := (h.halfEdge e).bind fun E => E.twin

/-- The `prev` pointer of the half-edge in the slot `e`. -/
def qhHull.prev (h : qhHull K) (e : Nat) : Option Nat := (h.halfEdge e).bind fun E => E.prev

/-- The `face` pointer of the half-edge in the slot `e`. -/
def qhHull.faceOf (h : qhHull K) (e : Nat) : Option Nat := (h.halfEdge e).bind fun E => E.face

end

section

variable {K : Type} [LinearOrderedField K]

/-- The conflict lists and conflict faces after the loop of `RemoveEdge` that
moves the conflict vertices of the left face into the right face. -/
def qhHull.RemoveEdge.moved (h : qhHull K) (leftFace rightFace : Nat) (l : List Nat) : qhHull K :=
  (h.editFaces fun f F =>
    if f = leftFace then { F with conflictList := [] }
    else if f = rightFace then { F with conflictList := l.reverse ++ F.conflictList }
    else F).editVertices fun v V => if v ∈ l then { V with conflictFace := some rightFace } else V

end

/-- The four link assignments of `RemoveEdge` as one rewriting of the
half-edge records: `p` and `n` are `e->prev` and `e->next`, `tp` and `tn` are
`e->twin->prev` and `e->twin->next`. -/
def qhHull.RemoveEdge.relink (p n tp tn : Nat) (y : Nat) (X : qhHalfEdge) : qhHalfEdge :=
  { X with
    next := if y = tp then some n else if y = p then some tn else X.next
    prev := if y = tn then some p else if y = n then some tp else X.prev }

/-- The half-edge records after `RemoveEdge(e)`: the half-edges of the cycle
`cL` of the left face belong to the right face, the two cycles are spliced,
and `e` and its twin `t` are not active any more. -/
def qhHull.RemoveEdge.rewire (rightFace : Nat) (cL : List Nat) (e t p n tp tn : Nat) (y : Nat)
    (X : qhHalfEdge) : qhHalfEdge :=
  { X with
    face := if y ∈ cL then some rightFace else X.face
    next := if y = tp then some n else if y = p then some tn else X.next
    prev := if y = tn then some p else if y = n then some tp else X.prev
    active := if y = e ∨ y = t then false else X.active }

section

variable {K : Type} [LinearOrderedField K]

/-- The mesh that `RemoveEdge(e)` has built when it calls `b3ComputePlane`:
the conflict vertices of the left face moved into the right face, the right
face starting at `p = e->prev`, the half-edge records rewired, `e` and its twin
`t` on the free list, and the left face out of the face list and on the free
list. -/
def qhHull.RemoveEdge.spliced (h : qhHull K) (leftFace rightFace : Nat) (lL cL : List Nat)
    (e t p n tp tn : Nat) : qhHull K :=
  { ((qhHull.RemoveEdge.moved h leftFace rightFace lL).editFaces fun f F =>
      if f = leftFace then { F with active := false }
      else if f = rightFace then { F with edge := some p } else F).editEdges
        (qhHull.RemoveEdge.rewire rightFace cL e t p n tp tn) with
    m_freeEdges := e :: t :: h.m_freeEdges
    m_faceList := h.m_faceList.erase leftFace
    m_freeFaces := leftFace :: h.m_freeFaces }

end

section

variable {K : Type} [LinearOrderedField K]

/-- The situation of `RemoveEdge(e)`: `e` lies on the cycle of the right face,
which goes on with `restR` (from `n = e->next` to `p = e->prev`), and its twin
`t` lies on the cycle of the left face, which goes on with `restL` (from
`tn = t->next` to `tp = t->prev`). -/
structure qhHull.RemoveEdge.Around (h : qhHull K) (cyc : Nat → List Nat)
    (e t p n tp tn leftFace rightFace : Nat) (restR restL : List Nat) : Prop where
  inv : h.HalfEdgeInv cyc
  hR : rightFace ∈ h.m_faceList
  hL : leftFace ∈ h.m_faceList
  hLR : leftFace ≠ rightFace
  permR : (e :: restR).Perm (cyc rightFace)
  permL : (t :: restL).Perm (cyc leftFace)
  chainR : List.Chain' (fun a b => h.next a = some b) (e :: restR ++ [e])
  chainL : List.Chain' (fun a b => h.next a = some b) (t :: restL ++ [t])
  twinE : h.twin e = some t
  lastR : restR.getLast? = some p
  headR : restR.head? = some n
  lastL : restL.getLast? = some tp
  headL : restL.head? = some tn

end

section

variable {K : Type} [LinearOrderedField K]

/-- The six half-edge records that `RemoveEdge(e)` reads and writes, with
their links. -/
structure qhHull.RemoveEdge.Records (h : qhHull K) (e t p n tp tn leftFace rightFace : Nat)
    (E T P N TP TN : qhHalfEdge) : Prop where
  hE : h.halfEdge e = some E
  hT : h.halfEdge t = some T
  hP : h.halfEdge p = some P
  hN : h.halfEdge n = some N
  hTP : h.halfEdge tp = some TP
  hTN : h.halfEdge tn = some TN
  Et : E.twin = some t
  Tt : T.twin = some e
  En : E.next = some n
  Ep : E.prev = some p
  Tn : T.next = some tn
  Tp : T.prev = some tp
  Pn : P.next = some e
  TPn : TP.next = some t
  Np : N.prev = some e
  TNp : TN.prev = some t
  Ef : E.face = some rightFace
  Tf : T.face = some leftFace
  tailT : T.tail = N.tail
  tailE : E.tail = TN.tail
  pe : p ≠ e
  ne : n ≠ e
  tpt : tp ≠ t
  tnt : tn ≠ t

end

section

variable {K : Type} [LinearOrderedField K]

/-- The face records of the spliced mesh. -/
def qhHull.RemoveEdge.reface (leftFace rightFace : Nat) (lL : List Nat) (p : Nat) (f : Nat)
    (F : qhFace K) : qhFace K :=
  { F with
    edge := if f = leftFace then F.edge else if f = rightFace then some p else F.edge
    conflictList := if f = leftFace then [] else
      if f = rightFace then lL.reverse ++ F.conflictList else F.conflictList
    active := if f = leftFace then false else F.active }

end

/-- The cycles after `RemoveEdge`: the cycle of the right face starts at `p`,
goes on with the left cycle from `tn` to `tp` and then with the right cycle
from `n` to the half-edge before `p`. -/
def qhHull.RemoveEdge.cycles (cyc : Nat → List Nat) (rightFace p : Nat) (restR restL : List Nat)
    (f : Nat) : List Nat :=
  if f = rightFace then p :: restL ++ restR.dropLast else cyc f

section

variable {K : Type} [LinearOrderedField K]

/-- The tail of every active half-edge points to a vertex slot. -/
def qhHull.TailsValid (h : qhHull K) : Prop :=
  ∀ x X, h.halfEdge x = some X → X.active = true → ∃ v V, X.tail = some v ∧ h.vertex v = some V

end

section

variable {K : Type} [LinearOrderedField K]

/-- One turn around the head vertex: the twin of the successor, as the closing
loop of `Validate(const qhHalfEdge*)` computes it. -/
def qhHull.turn (h : qhHull K) (x : Nat) : Option Nat :=
  (h.halfEdge x).bind fun E => E.next.bind fun n => (h.halfEdge n).bind fun N => N.twin

end

section

variable {K : Type} [LinearOrderedField K]

/-- The invariants of the mesh between two calls of `RemoveEdge`: the
half-edge invariants for the cycles `cyc`, cycles of at least two half-edges,
and valid tail and conflict vertex pointers. -/
structure qhHull.MeshInv (h : qhHull K) (cyc : Nat → List Nat) : Prop where
  inv : h.HalfEdgeInv cyc
  long : ∀ f ∈ h.m_faceList, 2 ≤ (cyc f).length
  tails : h.TailsValid
  conflicts : h.ConflictsValid

end

section

variable {K : Type} [LinearOrderedField K]

/-- The mesh that `RemoveEdge(e)` leaves: the spliced mesh with the recomputed
plane and centre of the right face. -/
def qhHull.RemoveEdge.result (h : qhHull K) (leftFace rightFace : Nat) (lL restL : List Nat)
    (e t p n tp tn : Nat) (plane : b3Plane K) (center : b3Vec3 K) : qhHull K :=
  (qhHull.RemoveEdge.spliced h leftFace rightFace lL (t :: restL) e t p n tp tn).editFaces
    fun g F => if g = rightFace then { F with plane := plane, center := center } else F

end

section

variable {K : Type} [LinearOrderedField K]

/-- Executable form of the conditions of `HalfEdgeInv` on one half-edge of
the cycle of the face `f`. -/
def qhHull.edgeCheck (h : qhHull K) (f e : Nat) : Bool :=
  match h.halfEdge e with
  | none => false
  | some E =>
    match E.twin, E.next with
    | some t, some n =>
      match h.halfEdge t, h.halfEdge n with
      | some T, some N =>
        E.active && decide (E.face = some f) && T.active && decide (T.twin = some e) &&
          decide (N.prev = some e) && decide (T.tail = N.tail)
      | _, _ => false
    | _, _ => false

/-- Executable form of `IsLoop`. -/
def qhHull.loopCheck (h : qhHull K) (start : Nat) : List Nat → Bool
  | [] => false
  | [e] => decide (h.next e = some start)
  | e :: e' :: l => decide (h.next e = some e') && qhHull.loopCheck h start (e' :: l)

/-- Executable form of the conditions of `HalfEdgeInv` on the cycle of the
face `f`. -/
def qhHull.cycleCheck (h : qhHull K) (cyc : Nat → List Nat) (f : Nat) : Bool :=
  match h.face f with
  | none => false
  | some F =>
    match F.edge with
    | none => false
    | some e0 => decide ((cyc f).head? = some e0) && decide (cyc f).Nodup &&
        h.loopCheck e0 (cyc f)

/-- Executable form of the condition of `HalfEdgeInv` that every active
half-edge lies on the cycle of its face. -/
def qhHull.ownerCheck (h : qhHull K) (cyc : Nat → List Nat) : Bool :=
  (List.range h.edges.length).all fun e =>
    match h.halfEdge e with
    | none => true
    | some E =>
      !E.active ||
        match E.face with
        | none => false
        | some f => decide (f ∈ h.m_faceList) && decide (e ∈ cyc f)

/-- Executable form of `HalfEdgeInv`. -/
def qhHull.invCheck (h : qhHull K) (cyc : Nat → List Nat) : Bool :=
  decide h.m_faceList.Nodup &&
    (h.m_faceList.all fun f => h.cycleCheck cyc f && (cyc f).all (h.edgeCheck f)) &&
    h.ownerCheck cyc

/-- Executable form of `TailsValid`. -/
def qhHull.tailsCheck (h : qhHull K) : Bool :=
  h.edges.all fun X =>
    !X.active ||
      match X.tail with
      | none => false
      | some v => (h.vertex v).isSome

/-- Executable form of `MeshInv`. -/
def qhHull.meshCheck (h : qhHull K) (cyc : Nat → List Nat) : Bool :=
  h.invCheck cyc && (h.m_faceList.all fun f => decide (2 ≤ (cyc f).length)) && h.tailsCheck &&
    h.conflictsCheck

end

section

variable {K : Type} [LinearOrderedField K]

/-- The mesh `h1` with the cycles `cyc1` is the mesh `h` with the cycles `cyc`
after the face `leftFace` has been merged into the face `rightFace`: what the
other faces and the half-edges keep. -/
structure qhHull.Merged (h : qhHull K) (cyc : Nat → List Nat) (h1 : qhHull K)
    (cyc1 : Nat → List Nat) (leftFace rightFace : Nat) : Prop where
  inv1 : h1.MeshInv cyc1
  memL : leftFace ∈ h.m_faceList
  memR : rightFace ∈ h.m_faceList
  hLR : leftFace ≠ rightFace
  faceList : h1.m_faceList = h.m_faceList.erase leftFace
  newFaces : h1.m_newFaces = h.m_newFaces
  tol : h1.m_tolerance = h.m_tolerance
  face : ∀ g, g ≠ leftFace → g ≠ rightFace → h1.face g = h.face g
  cycles : ∀ g, g ≠ rightFace → cyc1 g = cyc g
  edge : ∀ y Y, h.halfEdge y = some Y → ∃ Y1, h1.halfEdge y = some Y1 ∧ Y1.twin = Y.twin ∧
    (Y1.active = true → Y.active = true) ∧
    Y1.face = if y ∈ cyc leftFace then some rightFace else Y.face
  edges : h1.edges.length = h.edges.length
  faces : ∀ g, (∃ F, h.face g = some F) → ∃ F1, h1.face g = some F1
  activeL : ∀ F1, h1.face leftFace = some F1 → F1.active = false
  active : ∀ g, g ≠ leftFace → (h1.face g).map (fun F => F.active) =
    (h.face g).map (fun F => F.active)

end

section

variable {K : Type} [LinearOrderedField K]

/-- The boundary cycles of the faces of a mesh, read off the mesh by chasing
`next` from the edge of each face. -/
def qhHull.cyclesOf (h : qhHull K) (f : Nat) : List Nat := (h.boundary f).getD []

end

section

variable {K : Type} [LinearOrderedField K]

/-- The active flag of a face slot says whether the face is on the active
list. -/
def qhHull.FacesActive (h : qhHull K) : Prop :=
  ∀ f F, h.face f = some F → (F.active = true ↔ f ∈ h.m_faceList)

/-- Executable form of `FacesActive`. -/
def qhHull.activeCheck (h : qhHull K) : Bool :=
  (List.range h.faces.length).all fun f =>
    match h.face f with
    | none => true
    | some F => F.active == decide (f ∈ h.m_faceList)

/-- The face of the twin of the half-edge `e`. -/
def qhHull.twinFace (h : qhHull K) (e : Nat) : Option Nat :=
  (h.halfEdge e).bind fun E => (E.twin.bind h.halfEdge).bind fun T => T.face

/-- The faces of `done` that are still active have converged: the test of
`MergeFace` says no on every half-edge of their cycles whose twin does not lie
on a face of `pending`. -/
def qhHull.Settled (h : qhHull K) (cyc : Nat → List Nat) (done pending : List Nat) : Prop :=
  ∀ f ∈ done, f ∈ h.m_faceList → ∀ e ∈ cyc f, ∀ L, h.twinFace e = some L → L ∉ pending →
    qhHull.MergeFace.test h f e = some false

end

/-! ## Theorems -/

/-! ### Degenerate inputs -/

section Degenerate

variable {K : Type} [LinearOrderedField K]

theorem b3Abs_nonneg (a : K) : 0 ≤ b3Abs a := by
  unfold b3Abs
  split_ifs with h
  · linarith
  · exact le_of_not_lt h

theorem qhFindAABB_nonneg (env : b3Env K) (hε : 0 ≤ env.B3_EPSILON) (vs : List (b3Vec3 K)) :
    0 ≤ qhFindAABB env vs := by
  unfold qhFindAABB
  have h1 := b3Abs_nonneg (qhFindAABB.scan env vs).max.x
  have h2 := b3Abs_nonneg (qhFindAABB.scan env vs).max.y
  have h3 := b3Abs_nonneg (qhFindAABB.scan env vs).max.z
  positivity

theorem b3DistanceSquared_self (p : b3Vec3 K) : b3DistanceSquared p p = 0 := by
  simp [b3DistanceSquared, b3LengthSquared, b3Dot, b3Vec3.sub]

theorem qhHull.BuildInitialHull.check_eq (env : b3Env K) (vs : List (b3Vec3 K)) :
    qhHull.BuildInitialHull.check env vs =
      if vs.length < 4 then qhSimplex.tooFew else
      if (qhHull.BuildInitialHull.segment vs (qhFindAABB.scan env vs)).1 ≤
          env.B3_EPSILON * env.B3_EPSILON then qhSimplex.coincident else
      if (qhHull.BuildInitialHull.area
          (qhPoint vs (qhHull.BuildInitialHull.segment vs (qhFindAABB.scan env vs)).2.1)
          (qhPoint vs (qhHull.BuildInitialHull.segment vs (qhFindAABB.scan env vs)).2.2)
          (qhHull.BuildInitialHull.segment vs (qhFindAABB.scan env vs)).2.1
          (qhHull.BuildInitialHull.segment vs (qhFindAABB.scan env vs)).2.2 vs 0 (0, 0)).1 ≤
          (2 * env.B3_EPSILON) * (2 * env.B3_EPSILON) then qhSimplex.collinear else
      if (qhHull.BuildInitialHull.apex
          (qhHull.BuildInitialHull.plane env
            (qhPoint vs (qhHull.BuildInitialHull.segment vs (qhFindAABB.scan env vs)).2.1)
            (qhPoint vs (qhHull.BuildInitialHull.segment vs (qhFindAABB.scan env vs)).2.2)
            (qhPoint vs (qhHull.BuildInitialHull.area
              (qhPoint vs (qhHull.BuildInitialHull.segment vs (qhFindAABB.scan env vs)).2.1)
              (qhPoint vs (qhHull.BuildInitialHull.segment vs (qhFindAABB.scan env vs)).2.2)
              (qhHull.BuildInitialHull.segment vs (qhFindAABB.scan env vs)).2.1
              (qhHull.BuildInitialHull.segment vs (qhFindAABB.scan env vs)).2.2 vs 0 (0, 0)).2))
          (qhHull.BuildInitialHull.segment vs (qhFindAABB.scan env vs)).2.1
          (qhHull.BuildInitialHull.segment vs (qhFindAABB.scan env vs)).2.2
          (qhHull.BuildInitialHull.area
              (qhPoint vs (qhHull.BuildInitialHull.segment vs (qhFindAABB.scan env vs)).2.1)
              (qhPoint vs (qhHull.BuildInitialHull.segment vs (qhFindAABB.scan env vs)).2.2)
              (qhHull.BuildInitialHull.segment vs (qhFindAABB.scan env vs)).2.1
              (qhHull.BuildInitialHull.segment vs (qhFindAABB.scan env vs)).2.2 vs 0 (0, 0)).2
          vs 0 (0, 0)).1 ≤ qhFindAABB env vs then qhSimplex.coplanar else
      qhSimplex.simplex (qhHull.BuildInitialHull.segment vs (qhFindAABB.scan env vs)).2.1
        (qhHull.BuildInitialHull.segment vs (qhFindAABB.scan env vs)).2.2
        (qhHull.BuildInitialHull.area
          (qhPoint vs (qhHull.BuildInitialHull.segment vs (qhFindAABB.scan env vs)).2.1)
          (qhPoint vs (qhHull.BuildInitialHull.segment vs (qhFindAABB.scan env vs)).2.2)
          (qhHull.BuildInitialHull.segment vs (qhFindAABB.scan env vs)).2.1
          (qhHull.BuildInitialHull.segment vs (qhFindAABB.scan env vs)).2.2 vs 0 (0, 0)).2
        (qhHull.BuildInitialHull.apex
          (qhHull.BuildInitialHull.plane env
            (qhPoint vs (qhHull.BuildInitialHull.segment vs (qhFindAABB.scan env vs)).2.1)
            (qhPoint vs (qhHull.BuildInitialHull.segment vs (qhFindAABB.scan env vs)).2.2)
            (qhPoint vs (qhHull.BuildInitialHull.area
              (qhPoint vs (qhHull.BuildInitialHull.segment vs (qhFindAABB.scan env vs)).2.1)
              (qhPoint vs (qhHull.BuildInitialHull.segment vs (qhFindAABB.scan env vs)).2.2)
              (qhHull.BuildInitialHull.segment vs (qhFindAABB.scan env vs)).2.1
              (qhHull.BuildInitialHull.segment vs (qhFindAABB.scan env vs)).2.2 vs 0 (0, 0)).2))
          (qhHull.BuildInitialHull.segment vs (qhFindAABB.scan env vs)).2.1
          (qhHull.BuildInitialHull.segment vs (qhFindAABB.scan env vs)).2.2
          (qhHull.BuildInitialHull.area
              (qhPoint vs (qhHull.BuildInitialHull.segment vs (qhFindAABB.scan env vs)).2.1)
              (qhPoint vs (qhHull.BuildInitialHull.segment vs (qhFindAABB.scan env vs)).2.2)
              (qhHull.BuildInitialHull.segment vs (qhFindAABB.scan env vs)).2.1
              (qhHull.BuildInitialHull.segment vs (qhFindAABB.scan env vs)).2.2 vs 0 (0, 0)).2
          vs 0 (0, 0)).2 := rfl

theorem qhHull.BuildInitialHull_false (env : b3Env K) (h h' : qhHull K) (vs : List (b3Vec3 K))
    (hb : qhHull.BuildInitialHull env h vs = some (h', false)) :
    h' = { h with m_tolerance := h'.m_tolerance } := by
  unfold qhHull.BuildInitialHull at hb
  split at hb
  · simp only [pure, Option.some.injEq, Prod.mk.injEq, and_true] at hb
    subst hb; rfl
  · exfalso
    simp only [bind, pure, Option.bind_eq_some, Option.some.injEq, Prod.mk.injEq] at hb
    obtain ⟨_, _, _, _, _, _, _, hfalse⟩ := hb
    exact Bool.noConfusion hfalse
  · simp only [pure, Option.some.injEq, Prod.mk.injEq, and_true] at hb
    subst hb; rfl

theorem qhHull.BuildInitialHull_tooFew (env : b3Env K) (h : qhHull K) (vs : List (b3Vec3 K))
    (hlt : vs.length < 4) : qhHull.BuildInitialHull env h vs = some (h, false) := by
  have : qhHull.BuildInitialHull.check env vs = qhSimplex.tooFew := by
    simp [qhHull.BuildInitialHull.check, hlt]
  simp [qhHull.BuildInitialHull, this]

/-- C5. `BuildInitialHull` returns `false` on fewer than 4 points; whenever it
returns `false` the hull it leaves differs from the hull it received at most in
the tolerance, so nothing was taken from the pools; and `Construct` then
returns at once with empty active lists, every slot of the three pools on its
free list and zero iterations. -/
theorem qhHull.BuildInitialHull_false_leaves_mesh_empty (env : b3Env K)
    (vs : List (b3Vec3 K)) :
    (vs.length < 4 → ∀ h : qhHull K, qhHull.BuildInitialHull env h vs = some (h, false)) ∧
    (∀ h h' : qhHull K, qhHull.BuildInitialHull env h vs = some (h', false) →
      h' = { h with m_tolerance := h'.m_tolerance }) ∧
    (∀ (fuel : Nat) (h' : qhHull K),
      qhHull.BuildInitialHull env (qhHull.Construct.start vs.length) vs = some (h', false) →
      qhHull.Construct env fuel vs = qhRun.done h' ∧
        h'.m_vertexList = [] ∧ h'.m_faceList = [] ∧ h'.m_iterations = 0 ∧
        h'.m_freeVertices = List.range h'.vertices.length ∧
        h'.m_freeEdges = List.range h'.edges.length ∧
        h'.m_freeFaces = List.range h'.faces.length) := by
  refine ⟨fun hlt h => qhHull.BuildInitialHull_tooFew env h vs hlt,
    fun h h' hb => qhHull.BuildInitialHull_false env h h' vs hb, ?_⟩
  intro fuel h' hb
  have he := qhHull.BuildInitialHull_false env _ h' vs hb
  refine ⟨by simp [qhHull.Construct, hb], ?_⟩
  rw [he]
  simp [qhHull.Construct.start]

end Degenerate

/-! ### The eye vertex -/

section Eye

variable {K : Type} [LinearOrderedField K]

theorem qhHull.FindEyeVertex.conflicts_spec (h : qhHull K) (plane : b3Plane K) :
    ∀ (vs : List Nat) (s : K × Option Nat), (∀ v ∈ vs, ∃ V, h.vertex v = some V) →
      ∃ s', qhHull.FindEyeVertex.conflicts h plane vs s = some s' ∧ s.1 ≤ s'.1 ∧
        (∀ v ∈ vs, ∀ V, h.vertex v = some V → b3Distance V.position plane ≤ s'.1) ∧
        (s' = s ∨ ∃ v ∈ vs, ∃ V, h.vertex v = some V ∧
          s' = (b3Distance V.position plane, some v) ∧ s.1 < b3Distance V.position plane) := by
  intro vs
  induction vs with
  | nil =>
    intro s _
    exact ⟨s, rfl, le_refl _, by simp, Or.inl rfl⟩
  | cons v vs ih =>
    intro s hv
    obtain ⟨V, hV⟩ := hv v (List.mem_cons_self _ _)
    have hrest : ∀ w ∈ vs, ∃ W, h.vertex w = some W := fun w hw => hv w (List.mem_cons_of_mem _ hw)
    simp only [qhHull.FindEyeVertex.conflicts, hV, bind, Option.bind]
    by_cases hd : b3Distance V.position plane > s.1
    · obtain ⟨s', hs', hle, hall, hor⟩ := ih (b3Distance V.position plane, some v) hrest
      simp only [if_pos hd]
      refine ⟨s', hs', le_trans (le_of_lt hd) hle, ?_, ?_⟩
      · intro w hw W hW
        rcases List.mem_cons.mp hw with rfl | hw
        · rw [hV] at hW; cases hW; exact hle
        · exact hall w hw W hW
      · right
        rcases hor with rfl | ⟨w, hw, W, hW, rfl, hlt⟩
        · exact ⟨v, List.mem_cons_self _ _, V, hV, rfl, hd⟩
        · exact ⟨w, List.mem_cons_of_mem _ hw, W, hW, rfl, lt_trans hd hlt⟩
    · obtain ⟨s', hs', hle, hall, hor⟩ := ih s hrest
      simp only [if_neg hd]
      refine ⟨s', hs', hle, ?_, ?_⟩
      · intro w hw W hW
        rcases List.mem_cons.mp hw with rfl | hw
        · rw [hV] at hW; cases hW; exact le_trans (not_lt.mp hd) hle
        · exact hall w hw W hW
      · rcases hor with rfl | ⟨w, hw, W, hW, rfl, hlt⟩
        · exact Or.inl rfl
        · exact Or.inr ⟨w, List.mem_cons_of_mem _ hw, W, hW, rfl, hlt⟩

theorem qhHull.FindEyeVertex.faces_spec (h : qhHull K) :
    ∀ (fs : List Nat) (s : K × Option Nat),
      (∀ f ∈ fs, ∃ F, h.face f = some F ∧ ∀ v ∈ F.conflictList, ∃ V, h.vertex v = some V) →
      ∃ s', qhHull.FindEyeVertex.faces h fs s = some s' ∧ s.1 ≤ s'.1 ∧
        (∀ f ∈ fs, ∀ F, h.face f = some F → ∀ v ∈ F.conflictList, ∀ V, h.vertex v = some V →
          b3Distance V.position F.plane ≤ s'.1) ∧
        (s' = s ∨ ∃ f ∈ fs, ∃ F, h.face f = some F ∧ ∃ v ∈ F.conflictList, ∃ V,
          h.vertex v = some V ∧ s' = (b3Distance V.position F.plane, some v) ∧
          s.1 < b3Distance V.position F.plane) := by
  intro fs
  induction fs with
  | nil =>
    intro s _
    exact ⟨s, rfl, le_refl _, by simp, Or.inl rfl⟩
  | cons f fs ih =>
    intro s hf
    obtain ⟨F, hF, hvs⟩ := hf f (List.mem_cons_self _ _)
    have hrest : ∀ g ∈ fs, ∃ G, h.face g = some G ∧ ∀ v ∈ G.conflictList, ∃ V, h.vertex v = some V :=
      fun g hg => hf g (List.mem_cons_of_mem _ hg)
    obtain ⟨s1, hs1, hle1, hall1, hor1⟩ :=
      qhHull.FindEyeVertex.conflicts_spec h F.plane F.conflictList s hvs
    obtain ⟨s', hs', hle, hall, hor⟩ := ih s1 hrest
    simp only [qhHull.FindEyeVertex.faces, hF, hs1, bind, Option.bind]
    refine ⟨s', hs', le_trans hle1 hle, ?_, ?_⟩
    · intro g hg G hG v hv V hV
      rcases List.mem_cons.mp hg with rfl | hg
      · rw [hF] at hG; cases hG
        exact le_trans (hall1 v hv V hV) hle
      · exact hall g hg G hG v hv V hV
    · rcases hor with rfl | ⟨g, hg, G, hG, v, hv, V, hV, rfl, hlt⟩
      · rcases hor1 with rfl | ⟨v, hv, V, hV, rfl, hlt⟩
        · exact Or.inl rfl
        · exact Or.inr ⟨f, List.mem_cons_self _ _, F, hF, v, hv, V, hV, rfl, hlt⟩
      · exact Or.inr ⟨g, List.mem_cons_of_mem _ hg, G, hG, v, hv, V, hV, rfl,
          lt_of_le_of_lt hle1 hlt⟩

/-- C9. On a hull whose list pointers are valid `FindEyeVertex` returns; it
returns `NULL` exactly when no conflict vertex of an active face is further
than the tolerance above the plane of that face; and a vertex it returns lies
in the conflict list of an active face, further than the tolerance above its
plane and at least as far as any conflict vertex is above the plane of its own
face.  The function is a pure function of the hull: it changes nothing. -/
theorem qhHull.FindEyeVertex_furthest (h : qhHull K) (hv : h.ConflictsValid) :
    ∃ r, h.FindEyeVertex = some r ∧
      (r = none ↔ ∀ f ∈ h.m_faceList, ∀ F, h.face f = some F → ∀ v ∈ F.conflictList,
        ∀ V, h.vertex v = some V → b3Distance V.position F.plane ≤ h.m_tolerance) ∧
      (∀ v, r = some v → ∃ f ∈ h.m_faceList, ∃ F, h.face f = some F ∧ v ∈ F.conflictList ∧
        ∃ V, h.vertex v = some V ∧ h.m_tolerance < b3Distance V.position F.plane ∧
          ∀ g ∈ h.m_faceList, ∀ G, h.face g = some G → ∀ w ∈ G.conflictList,
            ∀ W, h.vertex w = some W →
              b3Distance W.position G.plane ≤ b3Distance V.position F.plane) := by
  obtain ⟨s', hs', _, hall, hor⟩ :=
    qhHull.FindEyeVertex.faces_spec h h.m_faceList (h.m_tolerance, none) hv
  refine ⟨s'.2, by simp [qhHull.FindEyeVertex, hs'], ?_, ?_⟩
  · constructor
    · intro hnone
      rcases hor with rfl | ⟨f, _, F, _, v, _, V, _, rfl, _⟩
      · exact hall
      · simp at hnone
    · intro hle
      rcases hor with rfl | ⟨f, hf, F, hF, v, hv, V, hV, rfl, hlt⟩
      · rfl
      · exact absurd (hle f hf F hF v hv V hV) (not_le.mpr hlt)
  · intro v hr
    rcases hor with rfl | ⟨f, hf, F, hF, w, hw, W, hW, rfl, hlt⟩
    · simp at hr
    · simp only [Option.some.injEq] at hr
      subst hr
      exact ⟨f, hf, F, hF, hw, W, hW, hlt, hall⟩

end Eye

/-! ### Sample inputs for the degenerate cases and the eye vertex -/

theorem qhHull.ConflictsValid_of_check {K : Type} [LinearOrderedField K] (h : qhHull K)
    (hc : h.conflictsCheck = true) : h.ConflictsValid := by
  intro f hf
  simp only [qhHull.conflictsCheck, List.all_eq_true] at hc
  have := hc f hf
  cases hF : h.faces[f]? with
  | none => simp [hF] at this
  | some F =>
    simp only [hF, List.all_eq_true] at this
    refine ⟨F, hF, fun v hv => ?_⟩
    have hv' := this v hv
    exact Option.isSome_iff_exists.mp hv'

theorem qhHull.BuildInitialHull_false_leaves_mesh_empty_witness :
    qhHull.Construct qhEnv 0 qhThreePoints = qhRun.done (qhHull.Construct.start 3) ∧
      (qhHull.Construct.start 3 : qhHull ℚ).m_vertexList = [] :=
  ⟨((qhHull.BuildInitialHull_false_leaves_mesh_empty qhEnv qhThreePoints).2.2 0 _
      ((qhHull.BuildInitialHull_false_leaves_mesh_empty qhEnv qhThreePoints).1 (by decide) _)).1,
    ((qhHull.BuildInitialHull_false_leaves_mesh_empty qhEnv qhThreePoints).2.2 0 _
      ((qhHull.BuildInitialHull_false_leaves_mesh_empty qhEnv qhThreePoints).1 (by decide) _)).2.1⟩

theorem qhEyeHull_valid : qhEyeHull.ConflictsValid :=
  qhHull.ConflictsValid_of_check _ (by decide!)

theorem qhEyeHull_eye : qhEyeHull.FindEyeVertex = some (some 4) := by decide!

theorem qhHull.FindEyeVertex_furthest_witness :
    qhEyeHull.ConflictsValid ∧ ∃ f ∈ qhEyeHull.m_faceList, ∃ F, qhEyeHull.face f = some F ∧
      4 ∈ F.conflictList ∧ ∃ V, qhEyeHull.vertex 4 = some V ∧
        qhEyeHull.m_tolerance < b3Distance V.position F.plane :=
  ⟨qhEyeHull_valid, by
    obtain ⟨r, hr, _, hsome⟩ := qhHull.FindEyeVertex_furthest qhEyeHull qhEyeHull_valid
    rw [qhEyeHull_eye] at hr
    obtain ⟨f, hf, F, hF, hv, V, hV, hlt, _⟩ := hsome 4 (Option.some.inj hr).symm
    exact ⟨f, hf, F, hF, hv, V, hV, hlt⟩⟩

/-! ### The initial simplex, evaluated in fresh pools -/

section Simplex

variable {K : Type} [LinearOrderedField K]

variable (env : b3Env K) (tv : List (qhVertex K)) (te : List qhHalfEdge)
    (tf : List (qhFace K)) (fv fe ff : List Nat) (tol : K) (A B C D : b3Vec3 K)

omit [LinearOrderedField K] in
/-- One turn of the loop of `FindHalfEdge`, unfolded only at a known pointer. -/
theorem qhHull.FindHalfEdge.walk_some (h : qhHull K) (v1 v2 : Nat) (start : Option Nat)
    (fuel e0 : Nat) :
    qhHull.FindHalfEdge.walk h v1 v2 start (fuel + 1) (some e0) =
      (do
        let e0 ← (some e0 : Option Nat)
        let E ← h.halfEdge e0
        let c1 ← if E.tail = some v1 then
            (do let n ← E.next; let N ← h.halfEdge n; pure (decide (N.tail = some v2)))
          else pure false
        if c1 then pure (some e0) else
        let c2 ← if E.tail = some v2 then
            (do let n ← E.next; let N ← h.halfEdge n; pure (decide (N.tail = some v1)))
          else pure false
        if c2 then (E.twin).map some else
        if E.next = start then pure none else qhHull.FindHalfEdge.walk h v1 v2 start fuel E.next) := by
  rw [qhHull.FindHalfEdge.walk]

/-- Evaluate the argument of a bind before its continuation. -/
theorem qhEval.bind_congr {α β : Type} {x y : Option α} (f : α → Option β) (h : x = y) :
    x.bind f = y.bind f := by rw [h]

theorem qhEval.map_congr {α β : Type} {x y : Option α} (f : α → β) (h : x = y) :
    x.map f = y.map f := by rw [h]

theorem qhEval.ite_congr {α : Type} {c d : Prop} [Decidable c] [Decidable d] (a b : α)
    (h : c = d) : ite c a b = ite d a b := by
  subst h
  congr

section Eval
attribute [local congr] qhEval.bind_congr qhEval.map_congr qhEval.ite_congr

set_option maxHeartbeats 4000000 in
set_option maxRecDepth 100000 in
theorem qhHull.BuildInitialHull.addFaces_fresh (below : Bool) :
    qhHull.BuildInitialHull.addFaces env
      { qhHull.ofPools (qhHull.simplexVertices A B C D ++ tv)
          (List.replicate 12 qhHalfEdge.blank ++ te) (List.replicate 4 qhFace.blank ++ tf)
          fv (List.range 12 ++ fe) (List.range 4 ++ ff) tol with
        m_vertexList := [3, 2, 1, 0] } below 0 1 2 3 =
      some (qhHull.simplexMesh env tv te tf fv fe ff tol A B C D below) := by
  cases below <;>
  simp only [qhHull.BuildInitialHull.addFaces, qhHull.simplexMesh, qhHull.simplexFaces,
    qhHull.simplexFace, qhHull.simplexEdges, qhHull.simplexVertices, qhHull.ofPools,
    List.replicate, List.range, List.range.loop, List.cons_append, List.nil_append,
    ↓reduceIte, bind, qhHull.AddFace, qhHull.AllocateFace, qhHalfEdge.blank, qhFace.blank,
    qhHull.setFace, List.length_cons, lt_add_iff_pos_left, add_pos_iff, Nat.ofNat_pos, or_true, List.getElem?_eq_getElem,
  List.getElem_cons_zero, Option.map_some', List.set_cons_zero, Option.some_bind, pure, qhHull.AddFace.edge, qhHull.FindHalfEdge,
  qhHull.FindHalfEdge.faces, qhHull.AllocateEdge, qhHull.setEdge, List.getElem_cons_succ, List.set_cons_succ, qhHull.halfEdge, Prod.mk.eta,
  qhHull.AddFace.link, qhHull.AddFace.finish, qhHull.vertex, qhList.PushFront, qhHull.face, qhHull.FindHalfEdge.walk_some, Bool.false_eq_true,
  Option.some.injEq, OfNat.zero_ne_ofNat, zero_ne_one, OfNat.ofNat_ne_zero, OfNat.one_ne_ofNat, Nat.reduceEqDiff,
  decide_False, OfNat.ofNat_ne_one, decide_True, reduceCtorEq, one_ne_zero, zero_lt_one, Nat.succ_ne_self]

set_option maxHeartbeats 4000000 in
set_option maxRecDepth 100000 in
theorem qhHull.BuildInitialHull.addFaces_short (below : Bool) (k : Nat)
    (hk : k = 0 ∨ k = 4 ∨ k = 8) :
    qhHull.BuildInitialHull.addFaces env
      { qhHull.ofPools (qhHull.simplexVertices A B C D ++ tv)
          (List.replicate k qhHalfEdge.blank) (List.replicate 4 qhFace.blank ++ tf)
          fv (List.range k) (List.range 4 ++ ff) tol with
        m_vertexList := [3, 2, 1, 0] } below 0 1 2 3 = none := by
  rcases hk with rfl | rfl | rfl <;> cases below <;>
  simp only [qhHull.BuildInitialHull.addFaces, qhHull.simplexVertices, qhHull.ofPools,
    List.replicate, List.range, List.range.loop, List.cons_append, List.nil_append,
    ↓reduceIte, bind, qhHull.AddFace, qhHull.AllocateFace, qhHalfEdge.blank, qhFace.blank,
    qhHull.setFace, List.length_cons, lt_add_iff_pos_left, add_pos_iff, Nat.ofNat_pos, or_true,
    List.getElem?_eq_getElem, List.getElem_cons_zero, Option.map_some', List.set_cons_zero,
    Option.some_bind, pure, qhHull.AddFace.edge, qhHull.FindHalfEdge, qhHull.FindHalfEdge.faces,
    qhHull.AllocateEdge, qhHull.setEdge, List.getElem_cons_succ, List.set_cons_succ,
    qhHull.halfEdge, Prod.mk.eta, qhHull.AddFace.link, qhHull.AddFace.finish, qhHull.vertex,
    qhList.PushFront, qhHull.face, qhHull.FindHalfEdge.walk_some, Bool.false_eq_true,
    Option.some.injEq, OfNat.zero_ne_ofNat, zero_ne_one, OfNat.ofNat_ne_zero, OfNat.one_ne_ofNat,
    Nat.reduceEqDiff, decide_False, OfNat.ofNat_ne_one, decide_True, reduceCtorEq, one_ne_zero,
    zero_lt_one, Nat.succ_ne_self, Option.none_bind, Option.map_none', Option.bind_none]

theorem qhHull.BuildInitialHull.addVertices_fresh (es : List qhHalfEdge) (fs : List (qhFace K)) :
    qhHull.BuildInitialHull.addVertices
      (qhHull.ofPools (List.replicate 4 qhVertex.blank ++ tv) es fs (List.range 4 ++ fv) fe ff tol)
      A B C D =
    some ({ qhHull.ofPools (qhHull.simplexVertices A B C D ++ tv) es fs fv fe ff tol with
        m_vertexList := [3, 2, 1, 0] }, 0, 1, 2, 3) := by
  simp [qhHull.BuildInitialHull.addVertices, qhHull.AddVertex, qhHull.AllocateVertex,
    qhHull.setVertex, qhHull.ofPools, qhList.PushFront, bind, pure, qhVertex.blank,
    qhHull.simplexVertices, List.replicate, List.range, List.range.loop]

end Eval

end Simplex

section

variable {K : Type} [LinearOrderedField K]

theorem qhHull.Construct.sizes_mod (count : Nat) :
    (qhHull.Construct.sizes count).2.1 % 4 = 0 ∧ (qhHull.Construct.sizes count).2.2 % 4 = 0 := by
  simp only [qhHull.Construct.sizes]
  omega

theorem qhHull.BuildInitialHull.addFaces_noFaces (env : b3Env K) (h : qhHull K) (below : Bool)
    (v1 v2 v3 v4 : Nat) (hf : h.m_freeFaces = []) :
    qhHull.BuildInitialHull.addFaces env h below v1 v2 v3 v4 = none := by
  cases below <;>
  simp [qhHull.BuildInitialHull.addFaces, qhHull.AddFace, qhHull.AllocateFace, hf, bind]

theorem qhHull.BuildInitialHull.addVertices_short (es : List qhHalfEdge) (fs : List (qhFace K))
    (fe ff : List Nat) (tol : K) (A B C D : b3Vec3 K) (k : Nat) (hk : k < 4) :
    qhHull.BuildInitialHull.addVertices
      (qhHull.ofPools (List.replicate k qhVertex.blank) es fs (List.range k) fe ff tol)
      A B C D = none := by
  interval_cases k <;>
  simp [qhHull.BuildInitialHull.addVertices, qhHull.AddVertex, qhHull.AllocateVertex,
    qhHull.setVertex, qhHull.ofPools, qhList.PushFront, bind, pure, qhVertex.blank,
    List.replicate, List.range, List.range.loop]

theorem qhHull.Construct.start_eq (count : Nat) (tol : K) :
    ({ (qhHull.Construct.start count : qhHull K) with m_tolerance := tol } : qhHull K) =
      qhHull.ofPools (List.replicate (qhHull.Construct.sizes count).1 qhVertex.blank)
        (List.replicate (qhHull.Construct.sizes count).2.1 qhHalfEdge.blank)
        (List.replicate (qhHull.Construct.sizes count).2.2 qhFace.blank)
        (List.range (qhHull.Construct.sizes count).1)
        (List.range (qhHull.Construct.sizes count).2.1)
        (List.range (qhHull.Construct.sizes count).2.2) tol := by
  simp only [qhHull.Construct.start, qhHull.ofPools]

/-- The mesh after the simplex construction in the pools of `Construct`: the
pools are large enough and the mesh is the closed form `simplexMesh`. -/
theorem qhHull.BuildInitialHull.addSimplex_start (env : b3Env K) (vs : List (b3Vec3 K))
    (tol : K) (i1 i2 i3 i4 : Nat) (h1 : qhHull K)
    (hs : qhHull.BuildInitialHull.addSimplex env
      { (qhHull.Construct.start vs.length : qhHull K) with m_tolerance := tol } vs i1 i2 i3 i4 =
        some h1) :
    ∃ nv ne nf : Nat, qhHull.Construct.sizes vs.length = (nv + 4, ne + 12, nf + 4) ∧
      h1 = qhHull.simplexMesh env (List.replicate nv qhVertex.blank)
        (List.replicate ne qhHalfEdge.blank) (List.replicate nf qhFace.blank)
        ((List.range nv).map (4 + ·)) ((List.range ne).map (12 + ·))
        ((List.range nf).map (4 + ·)) tol
        (qhPoint vs i1) (qhPoint vs i2) (qhPoint vs i3) (qhPoint vs i4)
        (decide (b3Distance (qhPoint vs i4)
          (qhHull.BuildInitialHull.plane env (qhPoint vs i1) (qhPoint vs i2) (qhPoint vs i3)) < 0))
      := by
  obtain ⟨he4, hf4⟩ := qhHull.Construct.sizes_mod vs.length
  rw [qhHull.Construct.start_eq] at hs
  generalize qhHull.Construct.sizes vs.length = sz at *
  obtain ⟨V, E, F⟩ := sz
  simp only at he4 hf4 hs
  simp only [qhHull.BuildInitialHull.addSimplex] at hs
  by_cases hV : V < 4
  · rw [qhHull.BuildInitialHull.addVertices_short _ _ _ _ _ _ _ _ _ _ hV] at hs
    simp [bind] at hs
  obtain ⟨nv, rfl⟩ : ∃ nv, V = nv + 4 := ⟨V - 4, by omega⟩
  rw [Nat.add_comm nv 4, List.replicate_add, List.range_add,
    qhHull.BuildInitialHull.addVertices_fresh] at hs
  simp only [bind, Option.bind] at hs
  by_cases hF : F = 0
  · subst hF
    rw [qhHull.BuildInitialHull.addFaces_noFaces _ _ _ _ _ _ _ (by simp [qhHull.ofPools])] at hs
    simp at hs
  obtain ⟨nf, rfl⟩ : ∃ nf, F = nf + 4 := ⟨F - 4, by omega⟩
  rw [Nat.add_comm nf 4, List.replicate_add, List.range_add] at hs
  by_cases hE : E = 0 ∨ E = 4 ∨ E = 8
  · rw [qhHull.BuildInitialHull.addFaces_short _ _ _ _ _ _ _ _ _ _ _ E hE] at hs
    simp at hs
  obtain ⟨ne, rfl⟩ : ∃ ne, E = ne + 12 := ⟨E - 12, by omega⟩
  rw [Nat.add_comm ne 12, List.replicate_add, List.range_add,
    qhHull.BuildInitialHull.addFaces_fresh] at hs
  refine ⟨nv, ne, nf, by simp only [Nat.add_comm], ?_⟩
  exact (Option.some.inj hs).symm

end

section

variable {K : Type} [LinearOrderedField K]

/-- What `BuildInitialHull` went through when it returns `true`. -/
theorem qhHull.BuildInitialHull_true (env : b3Env K) (h h' : qhHull K) (vs : List (b3Vec3 K))
    (hb : qhHull.BuildInitialHull env h vs = some (h', true)) :
    ∃ i1 i2 i3 i4 h1, qhHull.BuildInitialHull.check env vs = qhSimplex.simplex i1 i2 i3 i4 ∧
      qhHull.BuildInitialHull.addSimplex env { h with m_tolerance := qhFindAABB env vs } vs
        i1 i2 i3 i4 = some h1 ∧
      qhHull.BuildInitialHull.conflicts i1 i2 i3 i4 vs 0 h1 = some h' := by
  unfold qhHull.BuildInitialHull at hb
  split at hb
  · simp [pure] at hb
  · rename_i i1 i2 i3 i4 heq
    simp only [bind, pure, Option.bind_eq_some, Option.some.injEq, Prod.mk.injEq, and_true] at hb
    obtain ⟨h1, hs, _, _, h2, hcf, rfl⟩ := hb
    exact ⟨i1, i2, i3, i4, h1, heq, hs, hcf⟩
  · simp [pure] at hb

end

section

variable {K : Type} [LinearOrderedField K]

variable (env : b3Env K) (tv : List (qhVertex K)) (te : List qhHalfEdge)
    (tf : List (qhFace K)) (fv fe ff : List Nat) (tol : K) (A B C D : b3Vec3 K)

/-- The faces of the simplex mesh, read through the face pool: slot, first
half-edge, and the vertex order of the `AddFace` call. -/
theorem qhHull.simplexMesh_faces (below : Bool) :
    (∀ f ∈ (qhHull.simplexMesh env tv te tf fv fe ff tol A B C D below).m_faceList, f < 4) ∧
    (qhHull.simplexMesh env tv te tf fv fe ff tol A B C D below).face 0 =
      some (qhHull.simplexFace env 0 A (if below then B else C) (if below then C else B)) ∧
    (qhHull.simplexMesh env tv te tf fv fe ff tol A B C D below).face 1 =
      some (qhHull.simplexFace env 6 D (if below then B else A) (if below then A else B)) ∧
    (qhHull.simplexMesh env tv te tf fv fe ff tol A B C D below).face 2 =
      some (qhHull.simplexFace env (if below then 10 else 9) D (if below then C else B)
        (if below then B else C)) ∧
    (qhHull.simplexMesh env tv te tf fv fe ff tol A B C D below).face 3 =
      some (qhHull.simplexFace env (if below then 9 else 11) D (if below then A else C)
        (if below then C else A)) := by
  cases below <;>
  simp [qhHull.simplexMesh, qhHull.ofPools, qhHull.simplexFaces, qhHull.face]

end

set_option maxRecDepth 100000 in
theorem qhEyeHull_built :
    qhHull.BuildInitialHull qhEnv (qhHull.Construct.start qhEyeInput.length) qhEyeInput =
      some (qhEyeHull, true) := by decide!

set_option maxRecDepth 100000 in
/-- C3. On the thin tetrahedron `qhThinInput` the degeneracy checks pass with
the simplex `0 1 2 3` and `BuildInitialHull` returns `true`, but the
`Validate()` call that follows the four `AddFace` calls meets a false
assertion: the half-edge `6` of the mesh, from the apex to the base corner
under it, is not longer than epsilon (line 841). -/
theorem qhHull.BuildInitialHull_thin_simplex_fails_validate :
    qhHull.BuildInitialHull.check qhEnv qhThinInput = qhSimplex.simplex 0 1 2 3 ∧
    (qhHull.BuildInitialHull qhEnv (qhHull.Construct.start qhThinInput.length)
      qhThinInput).map Prod.snd = some true ∧
    (qhHull.BuildInitialHull.addSimplex qhEnv
      { (qhHull.Construct.start qhThinInput.length : qhHull ℚ) with
        m_tolerance := qhFindAABB qhEnv qhThinInput }
      qhThinInput 0 1 2 3).bind (qhHull.Validate qhEnv) = some false ∧
    (qhHull.BuildInitialHull.addSimplex qhEnv
      { (qhHull.Construct.start qhThinInput.length : qhHull ℚ) with
        m_tolerance := qhFindAABB qhEnv qhThinInput }
      qhThinInput 0 1 2 3).bind (fun h => qhHull.ValidateEdge qhEnv h 6) = some false ∧
    b3DistanceSquared (qhPoint qhThinInput 3) (qhPoint qhThinInput 0) ≤
      qhEnv.B3_EPSILON * qhEnv.B3_EPSILON := by
  decide!

set_option maxRecDepth 100000 in
theorem qhTouchHull0_built :
    qhHull.BuildInitialHull qhEnv (qhHull.Construct.start qhTouchInput.length) qhTouchInput =
      some (qhTouchHull0, true) := by decide!

set_option maxRecDepth 100000 in
theorem qhTouchHull0_eye : qhTouchHull0.FindEyeVertex = some (some 4) := by decide!

set_option maxRecDepth 100000 in
theorem qhTouchHull1_step :
    qhHull.Construct.step qhEnv qhTouchHull0 4 = some (qhTouchHull1, some 5) := by decide!

set_option maxRecDepth 100000 in
theorem qhTouchHull1_horizon :
    qhHull.Validate qhEnv qhTouchHull1 = some true ∧
    (qhTouchHull1.FindHorizon 5).map (fun h => (h.m_horizon.length, qhHull.AddNewFaces.ccw h)) =
      some (6, false) ∧
    qhHull.Construct.step qhEnv qhTouchHull1 5 = none := by decide!

/-- C1. On `qhTouchInput`, six points of which `BuildInitialHull` makes a
simplex, the loop of `Construct` does not stop: the first iteration succeeds,
and in the second the horizon of the eye vertex is two triangles that meet in
one vertex, the counter-clockwise assertion of `AddNewFaces` is false, and
`AddEyeVertex` never returns, whatever the iteration budget. -/
theorem qhHull.Construct_near_duplicate_does_not_return :
    (qhHull.BuildInitialHull qhEnv (qhHull.Construct.start qhTouchInput.length)
      qhTouchInput).map Prod.snd = some true ∧
    (qhTouchHull1.FindHorizon 5).map (fun h => (h.m_horizon.length, qhHull.AddNewFaces.ccw h)) =
      some (6, false) ∧
    qhHull.Construct qhEnv 0 qhTouchInput = qhRun.unfinished ∧
    qhHull.Construct qhEnv 1 qhTouchInput = qhRun.unfinished ∧
    ∀ fuel, qhHull.Construct qhEnv (fuel + 2) qhTouchInput = qhRun.undefined := by
  refine ⟨by rw [qhTouchHull0_built]; rfl, qhTouchHull1_horizon.2.1, ?_, ?_, ?_⟩
  · simp [qhHull.Construct, qhTouchHull0_built, qhTouchHull0_eye, qhHull.Construct.loop]
  · simp [qhHull.Construct, qhTouchHull0_built, qhTouchHull0_eye, qhHull.Construct.loop,
      qhTouchHull1_step]
  · intro fuel
    simp [qhHull.Construct, qhTouchHull0_built, qhTouchHull0_eye, qhHull.Construct.loop,
      qhTouchHull1_step, qhTouchHull1_horizon.2.2]

section

variable {K : Type} [LinearOrderedField K]

theorem qhHull.FindEyeVertex.conflicts_valid (h : qhHull K) (plane : b3Plane K) :
    ∀ (vs : List Nat) (s s' : K × Option Nat),
      qhHull.FindEyeVertex.conflicts h plane vs s = some s' →
      ∀ v ∈ vs, ∃ V, h.vertex v = some V := by
  intro vs
  induction vs with
  | nil => intro s s' _ v hv; simp at hv
  | cons w vs ih =>
    intro s s' hs v hv
    simp only [qhHull.FindEyeVertex.conflicts, bind, Option.bind_eq_some] at hs
    obtain ⟨W, hW, hrest⟩ := hs
    rcases List.mem_cons.mp hv with rfl | hv
    · exact ⟨W, hW⟩
    · exact ih _ _ hrest v hv

theorem qhHull.FindEyeVertex.faces_valid (h : qhHull K) :
    ∀ (fs : List Nat) (s s' : K × Option Nat),
      qhHull.FindEyeVertex.faces h fs s = some s' →
      ∀ f ∈ fs, ∃ F, h.face f = some F ∧ ∀ v ∈ F.conflictList, ∃ V, h.vertex v = some V := by
  intro fs
  induction fs with
  | nil => intro s s' _ f hf; simp at hf
  | cons g fs ih =>
    intro s s' hs f hf
    simp only [qhHull.FindEyeVertex.faces, bind, Option.bind_eq_some] at hs
    obtain ⟨G, hG, s1, hs1, hrest⟩ := hs
    rcases List.mem_cons.mp hf with rfl | hf
    · exact ⟨G, hG, qhHull.FindEyeVertex.conflicts_valid h _ _ _ _ hs1⟩
    · exact ih _ _ hrest f hf

/-- When `FindEyeVertex` returns at all, the list pointers it followed are
valid. -/
theorem qhHull.FindEyeVertex_valid (h : qhHull K) (r : Option Nat)
    (hr : h.FindEyeVertex = some r) : h.ConflictsValid := by
  simp only [qhHull.FindEyeVertex, Option.map_eq_some'] at hr
  obtain ⟨s', hs', _⟩ := hr
  exact qhHull.FindEyeVertex.faces_valid h _ _ _ hs'

end

section

variable {K : Type} [LinearOrderedField K]

theorem qhHull.furthestFace_spec (h : qhHull K) (p : b3Vec3 K) :
    ∀ (fs : List Nat) (s s' : K × Option Nat), qhHull.furthestFace h p fs s = some s' →
      s.1 ≤ s'.1 ∧ (∀ f ∈ fs, ∃ F, h.face f = some F ∧ b3Distance p F.plane ≤ s'.1) ∧
      (s' = s ∨ ∃ f ∈ fs, ∃ F, h.face f = some F ∧ s' = (b3Distance p F.plane, some f) ∧
        s.1 < b3Distance p F.plane) := by
  intro fs
  induction fs with
  | nil =>
    intro s s' hs
    simp only [qhHull.furthestFace, pure, Option.some.injEq] at hs
    subst hs
    exact ⟨le_refl _, by simp, Or.inl rfl⟩
  | cons f fs ih =>
    intro s s' hs
    simp only [qhHull.furthestFace, bind, Option.bind_eq_some] at hs
    obtain ⟨F, hF, hrest⟩ := hs
    by_cases hd : b3Distance p F.plane > s.1
    · rw [if_pos hd] at hrest
      obtain ⟨hle, hall, hor⟩ := ih _ _ hrest
      refine ⟨le_trans (le_of_lt hd) hle, ?_, ?_⟩
      · intro g hg
        rcases List.mem_cons.mp hg with rfl | hg
        · exact ⟨F, hF, hle⟩
        · exact hall g hg
      · right
        rcases hor with rfl | ⟨g, hg, G, hG, rfl, hlt⟩
        · exact ⟨f, List.mem_cons_self _ _, F, hF, rfl, hd⟩
        · exact ⟨g, List.mem_cons_of_mem _ hg, G, hG, rfl, lt_trans hd hlt⟩
    · rw [if_neg hd] at hrest
      obtain ⟨hle, hall, hor⟩ := ih _ _ hrest
      refine ⟨hle, ?_, ?_⟩
      · intro g hg
        rcases List.mem_cons.mp hg with rfl | hg
        · exact ⟨F, hF, le_trans (not_lt.mp hd) hle⟩
        · exact hall g hg
      · rcases hor with rfl | ⟨g, hg, G, hG, rfl, hlt⟩
        · exact Or.inl rfl
        · exact Or.inr ⟨g, List.mem_cons_of_mem _ hg, G, hG, rfl, hlt⟩

/-- What the filing of one point does: nothing when no face is further than
the tolerance below the point, and otherwise it takes the first free vertex
slot, writes the point and the furthest face into it, and pushes it on the
conflict list of that face. -/
theorem qhHull.BuildInitialHull.file_spec (h h2 : qhHull K) (p : b3Vec3 K)
    (hf : qhHull.BuildInitialHull.file h p = some h2) :
    (∀ f ∈ h.m_faceList, ∃ F, h.face f = some F) ∧
    ((h2 = h ∧ ∀ f ∈ h.m_faceList, ∀ F, h.face f = some F →
        b3Distance p F.plane ≤ h.m_tolerance) ∨
      ∃ v rest f F, h.m_freeVertices = v :: rest ∧ v < h.vertices.length ∧
        f ∈ h.m_faceList ∧ h.face f = some F ∧ h.m_tolerance < b3Distance p F.plane ∧
        (∀ g ∈ h.m_faceList, ∀ G, h.face g = some G →
          b3Distance p G.plane ≤ b3Distance p F.plane) ∧
        h2 = { h with
          vertices := h.vertices.set v ⟨p, some f, true⟩
          faces := h.faces.set f { F with conflictList := v :: F.conflictList }
          m_freeVertices := rest }) := by
  simp only [qhHull.BuildInitialHull.file, bind, Option.bind_eq_some] at hf
  obtain ⟨s, hs, hm⟩ := hf
  obtain ⟨_, hall, hor⟩ := qhHull.furthestFace_spec h p _ _ _ hs
  refine ⟨fun f hf => (hall f hf).imp fun F hF => hF.1, ?_⟩
  rcases hor with rfl | ⟨f, hfm, F, hF, rfl, hlt⟩
  · left
    simp only [pure, Option.some.injEq] at hm
    refine ⟨hm.symm, ?_⟩
    intro f hf F hF
    obtain ⟨F', hF', hle⟩ := hall f hf
    rw [hF] at hF'
    cases hF'
    exact hle
  · right
    simp only [Option.bind_eq_some] at hm
    obtain ⟨⟨a1, v⟩, halloc, a2, hset, hface⟩ := hm
    simp only [qhHull.AllocateVertex] at halloc
    cases hfree : h.m_freeVertices with
    | nil => simp [hfree] at halloc
    | cons w rest =>
      simp only [hfree, bind, pure, Option.bind_eq_some, Option.some.injEq, Prod.mk.injEq] at halloc
      obtain ⟨h1, hh1, rfl, rfl⟩ := halloc
      simp only [qhHull.setVertex, Option.map_eq_some'] at hh1 hset
      obtain ⟨X, hX, rfl⟩ := hh1
      have hw : w < h.vertices.length := by
        by_contra hge
        rw [List.getElem?_eq_none (not_lt.mp hge)] at hX
        cases hX
      obtain ⟨X', hX', rfl⟩ := hset
      have hXe : X'.active = true := by
        simp [hw] at hX'
        rw [← hX']
      simp only [qhHull.setFace, Option.map_eq_some'] at hface
      obtain ⟨F', hF', rfl⟩ := hface
      have hFF : F' = F := by
        have : h.faces[f]? = some F' := hF'
        rw [qhHull.face] at hF
        rw [hF] at this
        exact (Option.some.inj this).symm
      subst hFF
      refine ⟨w, rest, f, F', rfl, hw, hfm, hF, hlt, ?_, ?_⟩
      · intro g hg G hG
        obtain ⟨G', hG', hle⟩ := hall g hg
        rw [hG] at hG'
        cases hG'
        exact hle
      · simp [List.set_set, qhList.PushFront, hXe]

/-- The loop that files the remaining points, from a state whose free vertex
slots are fresh: `slot j` is the vertex slot taken for the input index `j`. -/
theorem qhHull.BuildInitialHull.conflicts_filed (i1 i2 i3 i4 : Nat) :
    ∀ (rest : List (b3Vec3 K)) (i : Nat) (h h' : qhHull K),
      qhHull.BuildInitialHull.conflicts i1 i2 i3 i4 rest i h = some h' → h.FreshVertices →
      ∃ slot : Nat → Option Nat,
        h'.m_faceList = h.m_faceList ∧ h'.m_tolerance = h.m_tolerance ∧ h'.FreshVertices ∧
        h.m_freeVertices = (List.range' i rest.length).filterMap slot ++ h'.m_freeVertices ∧
        (∀ j v, slot j = some v → i ≤ j ∧ j < i + rest.length ∧
          ¬(j = i1 ∨ j = i2 ∨ j = i3 ∨ j = i4) ∧ v ∈ h.m_freeVertices) ∧
        (∀ j j' v, slot j = some v → slot j' = some v → j = j') ∧
        (∀ v, v ∉ h.m_freeVertices → h'.vertex v = h.vertex v) ∧
        (∀ f F, h.face f = some F → ∃ F' new, h'.face f = some F' ∧ F'.plane = F.plane ∧
          F'.conflictList = new ++ F.conflictList ∧ ∀ v ∈ new, ∃ j, slot j = some v) ∧
        (∀ f F', h'.face f = some F' → ∃ F, h.face f = some F) ∧
        (∀ k (hk : k < rest.length), ¬(i + k = i1 ∨ i + k = i2 ∨ i + k = i3 ∨ i + k = i4) →
          (h'.Inside rest[k] ∧ slot (i + k) = none) ∨
            ∃ v, slot (i + k) = some v ∧ h'.Filed rest[k] v) := by
  intro rest
  induction rest with
  | nil =>
    intro i h h' hc hfresh
    simp only [qhHull.BuildInitialHull.conflicts, pure, Option.some.injEq] at hc
    subst hc
    refine ⟨fun _ => none, rfl, rfl, hfresh, by simp, by simp, by simp, fun _ _ => rfl, ?_,
      fun f F' hF' => ⟨F', hF'⟩, by simp⟩
    intro f F hF
    exact ⟨F, [], hF, rfl, rfl, by simp⟩
  | cons p rest ih =>
    intro i h h' hc hfresh
    simp only [qhHull.BuildInitialHull.conflicts] at hc
    by_cases hsim : i = i1 ∨ i = i2 ∨ i = i3 ∨ i = i4
    · rw [if_pos hsim] at hc
      obtain ⟨slot, hfl, htol, hfr', hfree, hdom, hinj, hvert, hface, hface', hidx⟩ :=
        ih (i + 1) h h' hc hfresh
      refine ⟨slot, hfl, htol, hfr', ?_, ?_, hinj, hvert, hface, hface', ?_⟩
      · have hnone : slot i = none := by
          cases hsl : slot i with
          | none => rfl
          | some v => exact absurd (hdom i v hsl).1 (by omega)
        rw [List.length_cons, List.range'_succ, List.filterMap_cons, hnone]
        exact hfree
      · intro j v hj
        obtain ⟨a, b, c, d⟩ := hdom j v hj
        exact ⟨by omega, by simp only [List.length_cons]; omega, c, d⟩
      · intro k hk hns
        cases k with
        | zero => exact absurd hsim hns
        | succ k =>
          have := hidx k (by simpa using hk) (by rwa [Nat.add_assoc, Nat.add_comm 1 k])
          simpa [Nat.add_assoc, Nat.add_comm 1 k] using this
    · rw [if_neg hsim] at hc
      simp only [bind, Option.bind_eq_some] at hc
      obtain ⟨h2, hfile, hc⟩ := hc
      obtain ⟨hfaces, hcase⟩ := qhHull.BuildInitialHull.file_spec h h2 p hfile
      rcases hcase with ⟨rfl, hin⟩ | ⟨v, fr, f, F, hfv, hv, hfm, hF, hlt, hmax, rfl⟩
      · obtain ⟨slot, hfl, htol, hfr', hfree, hdom, hinj, hvert, hface, hface', hidx⟩ :=
          ih (i + 1) h2 h' hc hfresh
        have hnone : slot i = none := by
          cases hsl : slot i with
          | none => rfl
          | some v => exact absurd (hdom i v hsl).1 (by omega)
        refine ⟨slot, hfl, htol, hfr', ?_, ?_, hinj, hvert, hface, hface', ?_⟩
        · rw [List.length_cons, List.range'_succ, List.filterMap_cons, hnone]
          exact hfree
        · intro j v hj
          obtain ⟨a, b, c, d⟩ := hdom j v hj
          exact ⟨by omega, by simp only [List.length_cons]; omega, c, d⟩
        · intro k hk hns
          cases k with
          | zero =>
            left
            refine ⟨?_, hnone⟩
            intro g hg G' hG'
            rw [hfl] at hg
            obtain ⟨G, hG⟩ := hface' g G' hG'
            obtain ⟨G'', _, hG'', hpl, _⟩ := hface g G hG
            rw [hG'] at hG''
            cases hG''
            rw [htol, hpl]
            exact hin g hg G hG
          | succ k =>
            have := hidx k (by simpa using hk) (by rwa [Nat.add_assoc, Nat.add_comm 1 k])
            simpa [Nat.add_assoc, Nat.add_comm 1 k] using this
      · have hnd : (v :: fr).Nodup := hfv ▸ hfresh.1
        have hvfr : v ∉ fr := (List.nodup_cons.mp hnd).1
        have hflt : f < h.faces.length := by
          by_contra hge
          rw [qhHull.face, List.getElem?_eq_none (not_lt.mp hge)] at hF
          cases hF
        have hf2 : ∀ g, qhHull.face
            ({ h with
              vertices := h.vertices.set v ⟨p, some f, true⟩
              faces := h.faces.set f { F with conflictList := v :: F.conflictList }
              m_freeVertices := fr } : qhHull K) g =
            if g = f then some { F with conflictList := v :: F.conflictList } else h.face g := by
          intro g
          simp only [qhHull.face]
          by_cases hg : g = f
          · subst hg
            simp [hflt]
          · rw [if_neg hg, List.getElem?_set_ne (Ne.symm hg)]
        have hv2 : ∀ w, qhHull.vertex
            ({ h with
              vertices := h.vertices.set v ⟨p, some f, true⟩
              faces := h.faces.set f { F with conflictList := v :: F.conflictList }
              m_freeVertices := fr } : qhHull K) w =
            if w = v then some ⟨p, some f, true⟩ else h.vertex w := by
          intro w
          simp only [qhHull.vertex]
          by_cases hw : w = v
          · subst hw
            simp [hv]
          · rw [if_neg hw, List.getElem?_set_ne (Ne.symm hw)]
        have hfresh2 : qhHull.FreshVertices
            ({ h with
              vertices := h.vertices.set v ⟨p, some f, true⟩
              faces := h.faces.set f { F with conflictList := v :: F.conflictList }
              m_freeVertices := fr } : qhHull K) := by
          refine ⟨(List.nodup_cons.mp hnd).2, ?_⟩
          intro g hg G hG w hw
          rw [hf2] at hG
          by_cases hgf : g = f
          · rw [if_pos hgf, Option.some.injEq] at hG
            subst hG
            rcases List.mem_cons.mp hw with rfl | hw
            · exact hvfr
            · intro hmem
              exact hfresh.2 f hfm F hF w hw (by rw [hfv]; exact List.mem_cons_of_mem _ hmem)
          · rw [if_neg hgf] at hG
            intro hmem
            exact hfresh.2 g hg G hG w hw (by rw [hfv]; exact List.mem_cons_of_mem _ hmem)
        obtain ⟨slot, hfl, htol, hfr', hfree, hdom, hinj, hvert, hface, hface', hidx⟩ :=
          ih (i + 1) _ h' hc hfresh2
        have hslot : ∀ j, j ≠ i → (fun j => if j = i then some v else slot j) j = slot j :=
          fun j hj => if_neg hj
        have hnew : ∀ j w, slot j = some w → w ≠ v ∧ j ≠ i := by
          intro j w hj
          obtain ⟨a, _, _, d⟩ := hdom j w hj
          exact ⟨fun hwv => hvfr (hwv ▸ d), by omega⟩
        refine ⟨fun j => if j = i then some v else slot j, hfl, htol, hfr', ?_, ?_, ?_, ?_, ?_,
          ?_, ?_⟩
        · rw [List.length_cons, List.range'_succ, List.filterMap_cons]
          simp only [if_true, hfv, List.cons_append, List.cons.injEq, true_and]
          have hcongr : List.filterMap (fun j => if j = i then some v else slot j)
              (List.range' (i + 1) rest.length) =
              List.filterMap slot (List.range' (i + 1) rest.length) := by
            apply List.filterMap_congr
            intro j hj
            have := (List.mem_range'_1.mp hj).1
            exact if_neg (by omega)
          rw [hcongr]
          exact hfree
        · intro j w hj
          by_cases hji : j = i
          · subst hji
            simp only [if_true, Option.some.injEq] at hj
            subst hj
            exact ⟨le_refl _, by simp, hsim, by rw [hfv]; exact List.mem_cons_self _ _⟩
          · simp only [if_neg hji] at hj
            obtain ⟨a, b, c, d⟩ := hdom j w hj
            exact ⟨by omega, by simp only [List.length_cons]; omega, c,
              by rw [hfv]; exact List.mem_cons_of_mem _ d⟩
        · intro j j' w hj hj'
          by_cases hji : j = i <;> by_cases hji' : j' = i
          · rw [hji, hji']
          · simp only [if_pos hji, Option.some.injEq] at hj
            simp only [if_neg hji'] at hj'
            exact absurd hj.symm (hnew j' w hj').1
          · simp only [if_pos hji', Option.some.injEq] at hj'
            simp only [if_neg hji] at hj
            exact absurd hj'.symm (hnew j w hj).1
          · simp only [if_neg hji] at hj
            simp only [if_neg hji'] at hj'
            exact hinj j j' w hj hj'
        · intro w hw
          rw [hfv] at hw
          have hwv : w ≠ v := fun e => hw (e ▸ List.mem_cons_self _ _)
          rw [hvert w (fun hm => hw (List.mem_cons_of_mem _ hm)), hv2, if_neg hwv]
        · intro g G hG
          by_cases hgf : g = f
          · subst hgf
            rw [hF] at hG
            cases hG
            obtain ⟨F', new, hF', hpl, hcl, hsl⟩ := hface g _ (by rw [hf2, if_pos rfl])
            refine ⟨F', new ++ [v], hF', hpl, by simp [hcl], ?_⟩
            intro w hw
            rcases List.mem_append.mp hw with hw | hw
            · obtain ⟨j, hj⟩ := hsl w hw
              exact ⟨j, by simp only [if_neg (hnew j w hj).2]; exact hj⟩
            · exact ⟨i, by simp only [if_true]; rw [List.mem_singleton.mp hw]⟩
          · obtain ⟨G', new, hG', hpl, hcl, hsl⟩ := hface g G (by rw [hf2, if_neg hgf]; exact hG)
            refine ⟨G', new, hG', hpl, hcl, ?_⟩
            intro w hw
            obtain ⟨j, hj⟩ := hsl w hw
            exact ⟨j, by simp only [if_neg (hnew j w hj).2]; exact hj⟩
        · intro g G' hG'
          obtain ⟨G, hG⟩ := hface' g G' hG'
          rw [hf2] at hG
          by_cases hgf : g = f
          · exact ⟨F, hgf ▸ hF⟩
          · rw [if_neg hgf] at hG
            exact ⟨G, hG⟩
        · intro k hk hns
          cases k with
          | zero =>
            right
            refine ⟨v, by simp, ?_⟩
            obtain ⟨F', new, hF', hpl, hcl, hsl⟩ := hface f _ (by rw [hf2, if_pos rfl])
            have hvnew : v ∉ new := by
              intro hm
              obtain ⟨j, hj⟩ := hsl v hm
              exact (hnew j v hj).1 rfl
            have hvF : v ∉ F.conflictList := by
              intro hm
              exact hfresh.2 f hfm F hF v hm (by rw [hfv]; exact List.mem_cons_self _ _)
            have hplanes : ∀ g ∈ h.m_faceList, ∀ G', h'.face g = some G' →
                ∃ G, h.face g = some G ∧ G'.plane = G.plane ∧
                  (g ≠ f → ∀ w ∈ G'.conflictList, w ∈ G.conflictList ∨ ∃ j, slot j = some w) := by
              intro g hg G' hG'
              obtain ⟨G2, hG2⟩ := hface' g G' hG'
              obtain ⟨G'', new', hG'', hpl', hcl', hsl'⟩ := hface g G2 hG2
              rw [hG'] at hG''
              cases hG''
              rw [hf2] at hG2
              by_cases hgf : g = f
              · rw [if_pos hgf, Option.some.injEq] at hG2
                subst hG2
                exact ⟨F, hgf ▸ hF, hpl', fun hne => absurd hgf hne⟩
              · rw [if_neg hgf] at hG2
                refine ⟨G2, hG2, hpl', fun _ w hw => ?_⟩
                rw [hcl'] at hw
                rcases List.mem_append.mp hw with hw | hw
                · exact Or.inr (hsl' w hw)
                · exact Or.inl hw
            refine ⟨f, F', ⟨p, some f, true⟩, ?_, rfl, rfl, by rw [hfl]; exact hfm, hF', ?_, ?_,
              ?_, ?_⟩
            · rw [hvert v hvfr, hv2, if_pos rfl]
            · rw [hcl]
              simp [List.count_append, List.count_eq_zero_of_not_mem hvnew,
                List.count_eq_zero_of_not_mem hvF]
            · intro g hg hgf G' hG' hm
              rw [hfl] at hg
              obtain ⟨G, hG, _, hsub⟩ := hplanes g hg G' hG'
              rcases hsub hgf v hm with hm | ⟨j, hj⟩
              · exact hfresh.2 g hg G hG v hm (by rw [hfv]; exact List.mem_cons_self _ _)
              · exact (hnew j v hj).1 rfl
            · rw [htol, hpl]
              exact hlt
            · intro g hg G' hG'
              rw [hfl] at hg
              obtain ⟨G, hG, hpl', _⟩ := hplanes g hg G' hG'
              rw [hpl', hpl]
              exact hmax g hg G hG
          | succ k =>
            have := hidx k (by simpa using hk) (by rwa [Nat.add_assoc, Nat.add_comm 1 k])
            have hne : i + (k + 1) ≠ i := by omega
            simp only [if_neg hne]
            simpa [Nat.add_assoc, Nat.add_comm 1 k] using this

theorem qhHull.simplexMesh_fresh (env : b3Env K) (tv : List (qhVertex K))
    (te : List qhHalfEdge) (tf : List (qhFace K)) (n : Nat) (fe ff : List Nat) (tol : K)
    (A B C D : b3Vec3 K) (below : Bool) :
    (qhHull.simplexMesh env tv te tf ((List.range n).map (4 + ·)) fe ff tol A B C D
      below).FreshVertices ∧
    ∀ f ∈ (qhHull.simplexMesh env tv te tf ((List.range n).map (4 + ·)) fe ff tol A B C D
      below).m_faceList, ∀ F,
      (qhHull.simplexMesh env tv te tf ((List.range n).map (4 + ·)) fe ff tol A B C D
        below).face f = some F → F.conflictList = [] := by
  obtain ⟨_, f0, f1, f2, f3⟩ := qhHull.simplexMesh_faces env tv te tf
    ((List.range n).map (4 + ·)) fe ff tol A B C D below
  have hempty : ∀ f ∈ (qhHull.simplexMesh env tv te tf ((List.range n).map (4 + ·)) fe ff tol
      A B C D below).m_faceList, ∀ F,
      (qhHull.simplexMesh env tv te tf ((List.range n).map (4 + ·)) fe ff tol A B C D
        below).face f = some F → F.conflictList = [] := by
    intro f hf F hF
    have hfl : (qhHull.simplexMesh env tv te tf ((List.range n).map (4 + ·)) fe ff tol A B C D
        below).m_faceList = [3, 2, 1, 0] := rfl
    rw [hfl] at hf
    simp only [List.mem_cons, List.mem_singleton, List.not_mem_nil, or_false] at hf
    rcases hf with rfl | rfl | rfl | rfl
    · rw [f3] at hF; cases hF; rfl
    · rw [f2] at hF; cases hF; rfl
    · rw [f1] at hF; cases hF; rfl
    · rw [f0] at hF; cases hF; rfl
  refine ⟨⟨?_, ?_⟩, hempty⟩
  · exact (List.nodup_range n).map (fun a b hab => Nat.add_left_cancel hab)
  · intro f hf F hF v hv
    rw [hempty f hf F hF] at hv
    simp at hv

/-- C8. When `BuildInitialHull` returns `true`, the loop that files the
remaining points leaves the faces of the tetrahedron, their planes and the
tolerance as they were, and takes one vertex slot for each filed input index
and none for any other (`slot i` is the slot taken for the index `i`, the slots
taken are those of the filed indices in input order, and every vertex on a
conflict list is one of them).  For an index `i` outside the simplex: if no
face is further than the tolerance below the point, no slot is taken for it;
otherwise its slot holds the position of the point, is on the conflict list of
exactly one face, once, has that face as `conflictFace`, and that face is
further than the tolerance below the point and at least as far below it as
every face. -/
theorem qhHull.BuildInitialHull_files_conflicts (env : b3Env K) (vs : List (b3Vec3 K))
    (h' : qhHull K)
    (hb : qhHull.BuildInitialHull env (qhHull.Construct.start vs.length) vs = some (h', true)) :
    ∃ (i1 i2 i3 i4 : Nat) (h1 : qhHull K) (slot : Nat → Option Nat),
      qhHull.BuildInitialHull.check env vs = qhSimplex.simplex i1 i2 i3 i4 ∧
      qhHull.BuildInitialHull.addSimplex env
        { (qhHull.Construct.start vs.length : qhHull K) with m_tolerance := qhFindAABB env vs }
        vs i1 i2 i3 i4 = some h1 ∧
      h'.m_faceList = h1.m_faceList ∧ h'.m_tolerance = h1.m_tolerance ∧
      (∀ f F, h1.face f = some F → ∃ F', h'.face f = some F' ∧ F'.plane = F.plane) ∧
      h1.m_freeVertices = (List.range vs.length).filterMap slot ++ h'.m_freeVertices ∧
      (∀ j j' v, slot j = some v → slot j' = some v → j = j') ∧
      (∀ f ∈ h'.m_faceList, ∀ F', h'.face f = some F' → ∀ v ∈ F'.conflictList,
        ∃ j, slot j = some v) ∧
      ∀ i (hi : i < vs.length),
        ((i = i1 ∨ i = i2 ∨ i = i3 ∨ i = i4) → slot i = none) ∧
        (¬(i = i1 ∨ i = i2 ∨ i = i3 ∨ i = i4) →
          (h'.Inside vs[i] → slot i = none) ∧
          (¬h'.Inside vs[i] → ∃ v, slot i = some v ∧ h'.Filed vs[i] v)) := by
  obtain ⟨i1, i2, i3, i4, h1, hc, hs, hcf⟩ := qhHull.BuildInitialHull_true env _ h' vs hb
  obtain ⟨nv, ne, nf, _, hmesh⟩ :=
    qhHull.BuildInitialHull.addSimplex_start env vs _ i1 i2 i3 i4 h1 hs
  obtain ⟨hfresh, hempty⟩ := qhHull.simplexMesh_fresh env (List.replicate nv qhVertex.blank)
    (List.replicate ne qhHalfEdge.blank) (List.replicate nf qhFace.blank) nv
    ((List.range ne).map (12 + ·)) ((List.range nf).map (4 + ·)) (qhFindAABB env vs)
    (qhPoint vs i1) (qhPoint vs i2) (qhPoint vs i3) (qhPoint vs i4)
    (decide (b3Distance (qhPoint vs i4)
      (qhHull.BuildInitialHull.plane env (qhPoint vs i1) (qhPoint vs i2) (qhPoint vs i3)) < 0))
  rw [← hmesh] at hfresh hempty
  obtain ⟨slot, hfl, htol, _, hfree, hdom, hinj, _, hface, hface', hidx⟩ :=
    qhHull.BuildInitialHull.conflicts_filed i1 i2 i3 i4 vs 0 h1 h' hcf hfresh
  refine ⟨i1, i2, i3, i4, h1, slot, hc, hs, hfl, htol, ?_, ?_, hinj, ?_, ?_⟩
  · intro f F hF
    obtain ⟨F', _, hF', hpl, _⟩ := hface f F hF
    exact ⟨F', hF', hpl⟩
  · rw [List.range_eq_range']
    exact hfree
  · intro f hf F' hF' v hv
    obtain ⟨F, hF⟩ := hface' f F' hF'
    obtain ⟨F'', new, hF'', _, hcl, hsl⟩ := hface f F hF
    rw [hF'] at hF''
    cases hF''
    rw [hcl, hempty f (hfl ▸ hf) F hF, List.append_nil] at hv
    exact hsl v hv
  · intro i hi
    constructor
    · intro hsim
      cases hsl : slot i with
      | none => rfl
      | some v => exact absurd hsim (hdom i v hsl).2.2.1
    · intro hns
      have := hidx i hi (by simpa using hns)
      simp only [Nat.zero_add] at this
      rcases this with ⟨hin, hnone⟩ | ⟨v, hv, hfiled⟩
      · exact ⟨fun _ => hnone, fun hnin => absurd hin hnin⟩
      · refine ⟨fun hin => ?_, fun _ => ⟨v, hv, hfiled⟩⟩
        obtain ⟨f, F, _, _, _, _, hfm, hF, _, _, hlt, _⟩ := hfiled
        exact absurd (hin f hfm F hF) (not_le.mpr hlt)

end

set_option maxRecDepth 100000 in
theorem qhEyeInput_check :
    qhHull.BuildInitialHull.check qhEnv qhEyeInput = qhSimplex.simplex 0 1 2 3 := by decide!

theorem qhHull.BuildInitialHull_files_conflicts_witness :
    qhHull.BuildInitialHull qhEnv (qhHull.Construct.start qhEyeInput.length) qhEyeInput =
      some (qhEyeHull, true) ∧
    ∃ (h1 : qhHull ℚ) (slot : Nat → Option Nat),
      qhHull.BuildInitialHull.addSimplex qhEnv
        { (qhHull.Construct.start qhEyeInput.length : qhHull ℚ) with
          m_tolerance := qhFindAABB qhEnv qhEyeInput } qhEyeInput 0 1 2 3 = some h1 ∧
      h1.m_freeVertices =
        (List.range qhEyeInput.length).filterMap slot ++ qhEyeHull.m_freeVertices ∧
      slot 0 = none := by
  refine ⟨qhEyeHull_built, ?_⟩
  obtain ⟨i1, i2, i3, i4, h1, slot, hc, hs, _, _, _, hfree, _, _, hidx⟩ :=
    qhHull.BuildInitialHull_files_conflicts qhEnv qhEyeInput qhEyeHull qhEyeHull_built
  rw [qhEyeInput_check] at hc
  simp only [qhSimplex.simplex.injEq] at hc
  obtain ⟨rfl, rfl, rfl, rfl⟩ := hc
  exact ⟨h1, slot, hs, hfree, (hidx 0 (by decide)).1 (Or.inl rfl)⟩

section

variable {K : Type} [LinearOrderedField K]

theorem qhHull.FindHorizon.mark_spec (p : b3Vec3 K) :
    ∀ (l : List Nat) (h : qhHull K), (∀ f ∈ l, ∃ F, h.face f = some F) →
      ∃ fs', qhHull.FindHorizon.mark p l h = some { h with faces := fs' } ∧
        ∀ g, fs'[g]? = (h.faces[g]?).map
          (fun G => if g ∈ l then { G with mark := h.markFor p G } else G) := by
  intro l
  induction l with
  | nil =>
    intro h _
    exact ⟨h.faces, rfl, by simp⟩
  | cons f l ih =>
    intro h hl
    obtain ⟨F, hF⟩ := hl f (List.mem_cons_self _ _)
    have hflt : f < h.faces.length := by
      by_contra hge
      rw [qhHull.face, List.getElem?_eq_none (not_lt.mp hge)] at hF
      cases hF
    have hF' : h.faces[f]? = some F := hF
    have hl2 : ∀ g ∈ l, ∃ G, qhHull.face
        ({ h with faces := h.faces.set f { F with mark := h.markFor p F } } : qhHull K) g =
          some G := by
      intro g hg
      obtain ⟨G, hG⟩ := hl g (List.mem_cons_of_mem _ hg)
      simp only [qhHull.face]
      by_cases hgf : g = f
      · subst hgf
        exact ⟨{ F with mark := h.markFor p F }, by simp [hflt]⟩
      · exact ⟨G, by rw [List.getElem?_set_ne (Ne.symm hgf)]; exact hG⟩
    obtain ⟨fs', hm, hfs⟩ := ih _ hl2
    refine ⟨fs', ?_, ?_⟩
    · simp only [qhHull.FindHorizon.mark, hF, bind, Option.bind, qhHull.setFace, hF',
        Option.map_some']
      exact hm
    · intro g
      rw [hfs g]
      by_cases hgf : g = f
      · subst hgf
        simp only [List.getElem?_set_self hflt, hF', Option.map_some', List.mem_cons, true_or,
          if_true, Option.some.injEq]
        split_ifs <;> rfl
      · simp only [List.getElem?_set_ne (Ne.symm hgf), List.mem_cons, hgf, false_or]
        rfl

omit [LinearOrderedField K] in
theorem qhHull.twinMark_eq (h : qhHull K) (e t o : Nat) (E T : qhHalfEdge) (O : qhFace K)
    (hE : h.halfEdge e = some E) (ht : E.twin = some t) (hT : h.halfEdge t = some T)
    (ho : T.face = some o) (hO : h.face o = some O) : h.twinMark e = some O.mark := by
  simp [qhHull.twinMark, bind, pure, hE, ht, hT, ho, hO]

omit [LinearOrderedField K] in
theorem qhHull.twinMark_some (h : qhHull K) (e : Nat) (m : qhFaceMark)
    (hm : h.twinMark e = some m) :
    ∃ E t T o O, h.halfEdge e = some E ∧ E.twin = some t ∧ h.halfEdge t = some T ∧
      T.face = some o ∧ h.face o = some O ∧ O.mark = m := by
  simp only [qhHull.twinMark, bind, pure, Option.bind_eq_some, Option.some.injEq] at hm
  obtain ⟨E, hE, T, ⟨t, ht, hT⟩, O, ⟨o, ho, hO⟩, rfl⟩ := hm
  exact ⟨E, t, T, o, O, hE, ht, hT, ho, hO, rfl⟩

omit [LinearOrderedField K] in
theorem qhHull.FindHorizon.walk_step (h : qhHull K) (start : Option Nat) (fuel e : Nat)
    (hz : List Nat) (E : qhHalfEdge) (m : qhFaceMark) (hE : h.halfEdge e = some E)
    (hm : h.twinMark e = some m) :
    qhHull.FindHorizon.walk h start (fuel + 1) (some e) hz =
      if E.next = start then
        some (if m = qhFaceMark.e_invisible then hz ++ [e] else hz)
      else qhHull.FindHorizon.walk h start fuel E.next
        (if m = qhFaceMark.e_invisible then hz ++ [e] else hz) := by
  obtain ⟨E', t, T, o, O, hE', ht, hT, ho, hO, rfl⟩ := qhHull.twinMark_some h e m hm
  rw [hE] at hE'
  cases hE'
  simp [qhHull.FindHorizon.walk, bind, pure, hE, ht, hT, ho, hO]

omit [LinearOrderedField K] in
theorem qhHull.FindHorizon.walk_spec (h : qhHull K) (c0 : Nat) :
    ∀ (l : List Nat) (e : Nat) (hz : List Nat) (fuel : Nat), h.IsLoop c0 (e :: l) →
      (∀ x ∈ l, x ≠ c0) → l.length < fuel → (∀ x ∈ e :: l, ∃ m, h.twinMark x = some m) →
      qhHull.FindHorizon.walk h (some c0) fuel (some e) hz =
        some (hz ++ (e :: l).filter fun x => h.twinMark x = some qhFaceMark.e_invisible) := by
  intro l
  induction l with
  | nil =>
    intro e hz fuel hloop _ hfuel hm
    obtain ⟨fuel, rfl⟩ : ∃ k, fuel = k + 1 := ⟨fuel - 1, by omega⟩
    obtain ⟨m, hm⟩ := hm e (List.mem_cons_self _ _)
    simp only [qhHull.IsLoop, qhHull.next, Option.bind_eq_some] at hloop
    obtain ⟨E, hE, hnext⟩ := hloop
    rw [qhHull.FindHorizon.walk_step h _ fuel e hz E m hE hm, if_pos hnext]
    by_cases hinv : m = qhFaceMark.e_invisible <;> simp [hinv, hm]
  | cons e' l ih =>
    intro e hz fuel hloop hne hfuel hm
    obtain ⟨fuel, rfl⟩ : ∃ k, fuel = k + 1 := ⟨fuel - 1, by omega⟩
    obtain ⟨m, hme⟩ := hm e (List.mem_cons_self _ _)
    simp only [qhHull.IsLoop, qhHull.next, Option.bind_eq_some] at hloop
    obtain ⟨⟨E, hE, hnext⟩, hloop'⟩ := hloop
    have hne' : ¬(E.next = some c0) := by
      rw [hnext]
      exact fun he => hne e' (List.mem_cons_self _ _) (Option.some.inj he)
    have hrec := ih e' (if m = qhFaceMark.e_invisible then hz ++ [e] else hz) fuel hloop'
      (fun x hx => hne x (List.mem_cons_of_mem _ hx))
      (by simp only [List.length_cons] at hfuel; omega)
      (fun x hx => hm x (List.mem_cons_of_mem _ hx))
    rw [qhHull.FindHorizon.walk_step h _ fuel e hz E m hE hme, if_neg hne', hnext, hrec]
    by_cases hinv : m = qhFaceMark.e_invisible <;> simp [hinv, hme]

omit [LinearOrderedField K] in
theorem qhHull.FindHorizon.collect_spec (h : qhHull K) (cyc : Nat → List Nat) :
    ∀ (l hz : List Nat),
      (∀ f ∈ l, ∃ F e0, h.face f = some F ∧ F.edge = some e0 ∧ (cyc f).head? = some e0 ∧
        (cyc f).Nodup ∧ h.IsLoop e0 (cyc f) ∧ (cyc f).length ≤ h.edges.length ∧
        ∀ x ∈ cyc f, ∃ m, h.twinMark x = some m) →
      qhHull.FindHorizon.collect h l hz = some (hz ++ l.flatMap (h.horizonOf cyc)) := by
  intro l
  induction l with
  | nil => intro hz _; simp [qhHull.FindHorizon.collect]
  | cons f l ih =>
    intro hz hl
    obtain ⟨F, e0, hF, he0, hhead, hnd, hloop, hlen, hm⟩ := hl f (List.mem_cons_self _ _)
    have hrest := fun hz' => ih hz' (fun g hg => hl g (List.mem_cons_of_mem _ hg))
    simp only [qhHull.FindHorizon.collect, hF, bind, Option.bind, List.flatMap_cons,
      qhHull.horizonOf]
    by_cases hmark : F.mark = qhFaceMark.e_invisible
    · rw [if_pos hmark, if_pos hmark, hrest]
      simp
    · rw [if_neg hmark, if_neg hmark]
      obtain ⟨l', hc⟩ : ∃ l', cyc f = e0 :: l' := by
        cases hcf : cyc f with
        | nil => simp [hcf] at hhead
        | cons a l' =>
          simp only [hcf, List.head?_cons, Option.some.injEq] at hhead
          exact ⟨l', by rw [hhead]⟩
      rw [hc] at hnd hloop hlen hm
      have hw := qhHull.FindHorizon.walk_spec h e0 l' e0 hz h.edges.length hloop
        (fun x hx he => (List.nodup_cons.mp hnd).1 (he ▸ hx))
        (by simp only [List.length_cons] at hlen; omega) hm
      rw [he0, hw]
      simp only [hrest, hc, List.append_assoc]

omit [LinearOrderedField K] in
theorem qhHull.IsLoop_congr (h h1 : qhHull K) (hedges : h1.edges = h.edges) (start : Nat) :
    ∀ l, h1.IsLoop start l ↔ h.IsLoop start l := by
  have hnext : ∀ e, h1.next e = h.next e := by
    intro e
    simp only [qhHull.next, qhHull.halfEdge, hedges]
  intro l
  induction l with
  | nil => simp [qhHull.IsLoop]
  | cons e l ih =>
    cases l with
    | nil => simp only [qhHull.IsLoop, hnext]
    | cons e' l => simp only [qhHull.IsLoop, hnext, ih]

theorem b3Swap_perm (l l' : List Nat) (i j : Nat) (h : b3Swap l i j = some l') : l'.Perm l := by
  simp only [b3Swap, bind, pure, Option.bind_eq_some, Option.some.injEq] at h
  obtain ⟨a, ha, b, hb, rfl⟩ := h
  have hi : i < l.length := by
    by_contra hge
    rw [List.getElem?_eq_none (not_lt.mp hge)] at ha
    cases ha
  have hj : j < l.length := by
    by_contra hge
    rw [List.getElem?_eq_none (not_lt.mp hge)] at hb
    cases hb
  have hai : l[i] = a := by
    rw [List.getElem?_eq_getElem hi] at ha
    exact Option.some.inj ha
  have hbj : l[j] = b := by
    rw [List.getElem?_eq_getElem hj] at hb
    exact Option.some.inj hb
  rw [List.perm_iff_count]
  intro x
  have hj' : j < (l.set i b).length := by simpa using hj
  rw [List.count_set _ _ _ _ hj', List.count_set _ _ _ _ hi, List.getElem_set, hai]
  have ha1 : (if (a == x) = true then 1 else 0) ≤ List.count x l := by
    split_ifs with hax
    · have : a = x := by simpa using hax
      subst this
      rw [← hai]
      exact List.count_pos_iff.mpr (List.getElem_mem hi)
    · exact Nat.zero_le _
  by_cases hij : i = j
  · subst hij
    rw [if_pos rfl]
    omega
  · rw [if_neg hij, hbj]
    omega

omit [LinearOrderedField K] in
theorem qhHull.FindHorizon.sortInner_spec (h : qhHull K) (i : Nat) (v1 : Option Nat) :
    ∀ (fuel j : Nat) (hz : List Nat), i + 1 < hz.length →
      (∀ x ∈ hz, ∃ E, h.halfEdge x = some E) →
      ∃ hz', qhHull.FindHorizon.sortInner h i v1 fuel j hz = some hz' ∧ hz'.Perm hz := by
  intro fuel
  induction fuel with
  | zero => intro j hz _ _; exact ⟨hz, rfl, List.Perm.refl _⟩
  | succ fuel ih =>
    intro j hz hi hv
    simp only [qhHull.FindHorizon.sortInner]
    by_cases hj : j < hz.length
    · rw [if_pos hj]
      obtain ⟨E2, hE2⟩ := hv hz[j] (List.getElem_mem hj)
      simp only [List.getElem?_eq_getElem hj, bind, Option.bind, hE2]
      by_cases hv1 : v1 = E2.tail
      · rw [if_pos hv1]
        have hsw : ∃ hz', b3Swap hz j (i + 1) = some hz' := by
          simp [b3Swap, bind, pure, List.getElem?_eq_getElem hj, List.getElem?_eq_getElem hi]
        obtain ⟨hz', hsw⟩ := hsw
        exact ⟨hz', hsw, b3Swap_perm _ _ _ _ hsw⟩
      · rw [if_neg hv1]
        exact ih (j + 1) hz hi hv
    · rw [if_neg hj]
      exact ⟨hz, rfl, List.Perm.refl _⟩

omit [LinearOrderedField K] in
theorem qhHull.FindHorizon.sortOuter_spec (h : qhHull K) (bound : Nat) :
    ∀ (fuel i : Nat) (hz : List Nat), bound < hz.length →
      (∀ x ∈ hz, ∃ E t T, h.halfEdge x = some E ∧ E.twin = some t ∧ h.halfEdge t = some T) →
      ∃ hz', qhHull.FindHorizon.sortOuter h bound fuel i hz = some hz' ∧ hz'.Perm hz := by
  intro fuel
  induction fuel with
  | zero => intro i hz _ _; exact ⟨hz, rfl, List.Perm.refl _⟩
  | succ fuel ih =>
    intro i hz hb hv
    simp only [qhHull.FindHorizon.sortOuter]
    by_cases hi : i < bound
    · rw [if_pos hi]
      have hil : i < hz.length := by omega
      obtain ⟨E, t, T, hE, ht, hT⟩ := hv hz[i] (List.getElem_mem hil)
      obtain ⟨hz1, hs1, hp1⟩ := qhHull.FindHorizon.sortInner_spec h i T.tail hz.length (i + 1) hz
        (by omega) (fun x hx => (hv x hx).imp fun E hE => hE.elim fun _ hE => hE.elim
          fun _ hE => hE.1)
      obtain ⟨hz', hs', hp'⟩ := ih (i + 1) hz1 (by rw [hp1.length_eq]; exact hb)
        (fun x hx => hv x (hp1.mem_iff.mp hx))
      refine ⟨hz', ?_, hp'.trans hp1⟩
      simp only [List.getElem?_eq_getElem hil, bind, Option.bind, hE, ht, hT, hs1]
      exact hs'
    · rw [if_neg hi]
      exact ⟨hz, rfl, List.Perm.refl _⟩

omit [LinearOrderedField K] in
theorem qhHull.FindHorizon.sort_spec (h : qhHull K) (hz : List Nat) (hne : hz ≠ [])
    (hv : ∀ x ∈ hz, ∃ E t T, h.halfEdge x = some E ∧ E.twin = some t ∧
      h.halfEdge t = some T) :
    ∃ hz', qhHull.FindHorizon.sort h hz = some hz' ∧ hz'.Perm hz := by
  have hpos : 0 < hz.length := List.length_pos.mpr hne
  exact qhHull.FindHorizon.sortOuter_spec h _ _ 0 hz (by omega) hv

end

section

variable {K : Type} [LinearOrderedField K]

/-- A vertex that `FindEyeVertex` returns is on the conflict list of an
active face that is further than the tolerance below it. -/
theorem qhHull.FindEyeVertex_some (h : qhHull K) (eye : Nat)
    (heye : h.FindEyeVertex = some (some eye)) :
    ∃ f ∈ h.m_faceList, ∃ F V, h.face f = some F ∧ eye ∈ F.conflictList ∧
      h.vertex eye = some V ∧ h.m_tolerance < b3Distance V.position F.plane := by
  obtain ⟨s', hs', _, _, hor⟩ := qhHull.FindEyeVertex.faces_spec h h.m_faceList
    (h.m_tolerance, none) (qhHull.FindEyeVertex_valid h _ heye)
  simp only [qhHull.FindEyeVertex, hs', Option.map_some', Option.some.injEq] at heye
  rcases hor with rfl | ⟨f, hf, F, hF, v, hv, V, hV, rfl, hlt⟩
  · simp at heye
  · simp only [Option.some.injEq] at heye
    subst heye
    exact ⟨f, hf, F, V, hF, hv, hV, hlt⟩

omit [LinearOrderedField K] in
theorem qhHull.length_le_of_nodup (l : List Nat) (n : Nat) (hnd : l.Nodup)
    (hlt : ∀ x ∈ l, x < n) : l.length ≤ n := by
  have hsub : l ⊆ List.range n := fun x hx => List.mem_range.mpr (hlt x hx)
  have := (List.subperm_of_subset hnd hsub).length_le
  simpa using this

/-- The mesh after the marking loop of `FindHorizon`, seen from the mesh
before it. -/
theorem qhHull.FindHorizon.marked (h : qhHull K) (cyc : Nat → List Nat) (p : b3Vec3 K)
    (hinv : h.HalfEdgeInv cyc) :
    ∃ fs', qhHull.FindHorizon.mark p h.m_faceList h = some { h with faces := fs' } ∧
      (∀ f ∈ h.m_faceList, ∃ F, h.face f = some F ∧
        qhHull.face ({ h with faces := fs' } : qhHull K) f =
          some { F with mark := h.markFor p F }) ∧
      (∀ f ∈ h.m_faceList, ∀ x ∈ cyc f, ∃ E t T o O, h.halfEdge x = some E ∧
        E.active = true ∧ E.face = some f ∧ E.twin = some t ∧ h.halfEdge t = some T ∧
        T.face = some o ∧ o ∈ h.m_faceList ∧ h.face o = some O ∧
        qhHull.twinMark ({ h with faces := fs' } : qhHull K) x = some (h.markFor p O)) := by
  have hfex : ∀ f ∈ h.m_faceList, ∃ F, h.face f = some F := by
    intro f hf
    obtain ⟨F, _, hF, _⟩ := hinv.cycle f hf
    exact ⟨F, hF⟩
  obtain ⟨fs', hmark, hfs⟩ := qhHull.FindHorizon.mark_spec p h.m_faceList h hfex
  have hface : ∀ f ∈ h.m_faceList, ∃ F, h.face f = some F ∧
      qhHull.face ({ h with faces := fs' } : qhHull K) f =
        some { F with mark := h.markFor p F } := by
    intro f hf
    obtain ⟨F, hF⟩ := hfex f hf
    refine ⟨F, hF, ?_⟩
    have hF' : h.faces[f]? = some F := hF
    simp only [qhHull.face, hfs f, hF', Option.map_some', if_pos hf]
  refine ⟨fs', hmark, hface, ?_⟩
  intro f hf x hx
  obtain ⟨E, t, T, n, N, hE, hact, hEf, ht, hT, hTact, _⟩ := hinv.edge f hf x hx
  obtain ⟨o, ho, hTo, _⟩ := hinv.owner t T hT hTact
  obtain ⟨O, hO, hO1⟩ := hface o ho
  exact ⟨E, t, T, o, O, hE, hact, hEf, ht, hT, hTo, ho, hO,
    qhHull.twinMark_eq ({ h with faces := fs' } : qhHull K) x t o E T _ hE ht hT hTo hO1⟩

omit [LinearOrderedField K] in
theorem qhFaceMark.visible_of_ne (m : qhFaceMark) (h : m ≠ qhFaceMark.e_invisible) :
    m = qhFaceMark.e_visible := by
  cases m
  · rfl
  · exact absurd rfl h

theorem qhHull.markFor_visible (h : qhHull K) (p : b3Vec3 K) (F : qhFace K) :
    (h.markFor p F = qhFaceMark.e_visible ↔ h.m_tolerance < b3Distance p F.plane) ∧
    (h.markFor p F = qhFaceMark.e_invisible ↔ b3Distance p F.plane ≤ h.m_tolerance) := by
  unfold qhHull.markFor
  by_cases hd : b3Distance p F.plane > h.m_tolerance
  · rw [if_pos hd]
    exact ⟨⟨fun _ => hd, fun _ => rfl⟩, ⟨fun hc => (by cases hc), fun hle => absurd hd (not_lt.mpr hle)⟩⟩
  · rw [if_neg hd]
    exact ⟨⟨fun hc => (by cases hc), fun hlt => absurd hlt hd⟩, ⟨fun _ => not_lt.mp hd, fun _ => rfl⟩⟩

/-- The function `FindHorizon` from the results of its three passes. -/
theorem qhHull.FindHorizon_eq (h h1 : qhHull K) (eye : Nat) (V : qhVertex K)
    (hz sorted : List Nat) (hV : h.vertex eye = some V)
    (hmark : qhHull.FindHorizon.mark V.position h.m_faceList h = some h1)
    (hcollect : qhHull.FindHorizon.collect h1 h1.m_faceList [] = some hz)
    (hsort : qhHull.FindHorizon.sort h1 hz = some sorted) :
    h.FindHorizon eye = some { h1 with m_horizon := sorted } := by
  unfold qhHull.FindHorizon
  rw [hV, Option.bind_eq_bind, Option.some_bind, hmark, Option.bind_eq_bind, Option.some_bind,
    hcollect, Option.bind_eq_bind, Option.some_bind, hsort]
  rfl

/-- C10, amended. On a mesh that satisfies the half-edge invariants, for an
eye vertex returned by `FindEyeVertex` that is on one conflict list only and
whose horizon is not empty (some half-edge separates a face further than the
tolerance below the eye from a face that is not, as `FindHorizon` asserts),
`FindHorizon(eye)` returns; afterwards each active face is marked visible if
and only if it is further than `m_tolerance` below the eye position and
invisible otherwise; the face whose conflict list holds the eye is marked
visible; and `m_horizon` holds, each exactly once, exactly the active
half-edges whose face is marked visible and whose twin's face is marked
invisible. -/
theorem qhHull.FindHorizon_marks_and_horizon (h : qhHull K) (cyc : Nat → List Nat) (eye : Nat)
    (hinv : h.HalfEdgeInv cyc) (heye : h.FindEyeVertex = some (some eye))
    (hone : ∀ f ∈ h.m_faceList, ∀ g ∈ h.m_faceList, ∀ F G, h.face f = some F →
      h.face g = some G → eye ∈ F.conflictList → eye ∈ G.conflictList → f = g)
    (hsees : ∀ V, h.vertex eye = some V → h.SeesHorizon V.position) :
    ∃ V h', h.vertex eye = some V ∧ h.FindHorizon eye = some h' ∧
      h'.m_faceList = h.m_faceList ∧
      (∀ f ∈ h.m_faceList, ∃ F F', h.face f = some F ∧ h'.face f = some F' ∧
        (F'.mark = qhFaceMark.e_visible ↔ h.m_tolerance < b3Distance V.position F.plane) ∧
        (F'.mark = qhFaceMark.e_invisible ↔ b3Distance V.position F.plane ≤ h.m_tolerance)) ∧
      (∀ f ∈ h.m_faceList, ∀ F', h'.face f = some F' → eye ∈ F'.conflictList →
        F'.mark = qhFaceMark.e_visible) ∧
      h'.m_horizon.Nodup ∧ ∀ e, e ∈ h'.m_horizon ↔ h'.OnHorizon e := by
  obtain ⟨f0, hf0, F0, V, hF0, heyeF0, hV, hlt0⟩ := qhHull.FindEyeVertex_some h eye heye
  obtain ⟨fs', hmark, hface, htwin⟩ := qhHull.FindHorizon.marked h cyc V.position hinv
  -- the collecting loop
  have hgood : ∀ f ∈ h.m_faceList, ∃ F e0,
      qhHull.face ({ h with faces := fs' } : qhHull K) f = some F ∧ F.edge = some e0 ∧
      (cyc f).head? = some e0 ∧ (cyc f).Nodup ∧
      qhHull.IsLoop ({ h with faces := fs' } : qhHull K) e0 (cyc f) ∧
      (cyc f).length ≤ h.edges.length ∧
      ∀ x ∈ cyc f, ∃ m, qhHull.twinMark ({ h with faces := fs' } : qhHull K) x = some m := by
    intro f hf
    obtain ⟨F, e0, hF, he0, hhead, hnd, hloop⟩ := hinv.cycle f hf
    obtain ⟨F', hF', hF1⟩ := hface f hf
    rw [hF] at hF'
    cases hF'
    refine ⟨_, e0, hF1, he0, hhead, hnd, (qhHull.IsLoop_congr h ({ h with faces := fs' } : qhHull K) rfl e0 _).mpr hloop, ?_, ?_⟩
    · apply qhHull.length_le_of_nodup _ _ hnd
      intro x hx
      obtain ⟨E, _, _, _, _, hE, _⟩ := hinv.edge f hf x hx
      by_contra hge
      rw [qhHull.halfEdge, List.getElem?_eq_none (not_lt.mp hge)] at hE
      cases hE
    · intro x hx
      obtain ⟨_, _, _, _, O, _, _, _, _, _, _, _, _, hm⟩ := htwin f hf x hx
      exact ⟨_, hm⟩
  have hcollect := qhHull.FindHorizon.collect_spec ({ h with faces := fs' } : qhHull K) cyc
    h.m_faceList [] hgood
  rw [List.nil_append] at hcollect
  -- membership in the collected horizon
  have hmem : ∀ e, e ∈ h.m_faceList.flatMap
      (qhHull.horizonOf ({ h with faces := fs' } : qhHull K) cyc) ↔
      qhHull.OnHorizon ({ h with faces := fs' } : qhHull K) e := by
    intro e
    rw [List.mem_flatMap]
    constructor
    · rintro ⟨f, hf, he⟩
      obtain ⟨F, hF, hF1⟩ := hface f hf
      simp only [qhHull.horizonOf, hF1] at he
      split_ifs at he with hmk
      · simp at he
      · rw [List.mem_filter] at he
        obtain ⟨hx, hinvis⟩ := he
        obtain ⟨E, t, T, o, O, hE, hact, hEf, ht, hT, hTo, ho, hO, hm⟩ := htwin f hf e hx
        obtain ⟨O', hO', hO1⟩ := hface o ho
        rw [hO] at hO'
        cases hO'
        rw [hm] at hinvis
        exact ⟨E, f, _, t, T, o, _, hE, hact, hEf, hF1, qhFaceMark.visible_of_ne _ hmk, ht, hT,
          hTo, hO1, by simpa using hinvis⟩
    · rintro ⟨E, f, F1, t, T, o, O1, hE, hact, hEf, hF1, hvis, ht, hT, hTo, hO1, hinvis⟩
      obtain ⟨f', hf', hEf', hx⟩ := hinv.owner e E hE hact
      rw [hEf] at hEf'
      cases hEf'
      refine ⟨f, hf', ?_⟩
      simp only [qhHull.horizonOf, hF1]
      rw [if_neg (by rw [hvis]; exact fun hc => (by cases hc)), List.mem_filter]
      refine ⟨hx, ?_⟩
      rw [qhHull.twinMark_eq ({ h with faces := fs' } : qhHull K) e t o E T O1 hE ht hT hTo hO1,
        hinvis]
      simp
  have hnodup : (h.m_faceList.flatMap
      (qhHull.horizonOf ({ h with faces := fs' } : qhHull K) cyc)).Nodup := by
    rw [List.nodup_flatMap]
    constructor
    · intro f hf
      obtain ⟨_, _, _, _, _, hnd, _⟩ := hinv.cycle f hf
      simp only [qhHull.horizonOf]
      split
      · split_ifs
        · exact List.nodup_nil
        · exact hnd.filter _
      · exact List.nodup_nil
    · refine List.Pairwise.imp_of_mem ?_ hinv.faces_nodup
      intro f g hf hg hfg
      intro e hef heg
      have hsub : ∀ f' ∈ h.m_faceList,
          e ∈ qhHull.horizonOf ({ h with faces := fs' } : qhHull K) cyc f' → e ∈ cyc f' := by
        intro f' _ he
        simp only [qhHull.horizonOf] at he
        split at he
        · split_ifs at he
          · simp at he
          · exact (List.mem_filter.mp he).1
        · simp at he
      obtain ⟨E, _, _, _, _, hE, _, hEf, _⟩ := hinv.edge f hf e (hsub f hf hef)
      obtain ⟨E', _, _, _, _, hE', _, hEg, _⟩ := hinv.edge g hg e (hsub g hg heg)
      rw [hE] at hE'
      cases hE'
      rw [hEf] at hEg
      exact hfg (Option.some.inj hEg)
  -- the horizon is not empty
  have hne : h.m_faceList.flatMap
      (qhHull.horizonOf ({ h with faces := fs' } : qhHull K) cyc) ≠ [] := by
    obtain ⟨e, E, f, F, t, T, o, O, hE, hact, hEf, hF, hlt, ht, hT, hTo, hO, hle⟩ := hsees V hV
    obtain ⟨f', hf', hEf', hx⟩ := hinv.owner e E hE hact
    rw [hEf] at hEf'
    cases hEf'
    obtain ⟨F', hF', hF1⟩ := hface f hf'
    rw [hF] at hF'
    cases hF'
    obtain ⟨E', t', T', o', O', hE', _, _, ht', hT', hTo', ho', hO', hm⟩ := htwin f hf' e hx
    rw [hE] at hE'
    cases hE'
    rw [ht] at ht'
    cases ht'
    rw [hT] at hT'
    cases hT'
    rw [hTo] at hTo'
    cases hTo'
    rw [hO] at hO'
    cases hO'
    obtain ⟨O1, hO1, hO2⟩ := hface o ho'
    rw [hO] at hO1
    cases hO1
    intro hnil
    have : e ∈ h.m_faceList.flatMap
        (qhHull.horizonOf ({ h with faces := fs' } : qhHull K) cyc) :=
      (hmem e).mpr ⟨E, f, _, t, T, o, _, hE, hact, hEf, hF1,
        (qhHull.markFor_visible h V.position F).1.mpr hlt, ht, hT, hTo, hO2,
        (qhHull.markFor_visible h V.position O).2.mpr hle⟩
    rw [hnil] at this
    simp at this
  -- the sorting pass
  obtain ⟨sorted, hsort, hperm⟩ := qhHull.FindHorizon.sort_spec
    ({ h with faces := fs' } : qhHull K) _ hne (by
      intro x hx
      obtain ⟨E, _, _, t, T, _, _, hE, _, _, _, _, ht, hT, _⟩ := (hmem x).mp hx
      exact ⟨E, t, T, hE, ht, hT⟩)
  refine ⟨V, { ({ h with faces := fs' } : qhHull K) with m_horizon := sorted }, hV, ?_, rfl, ?_,
    ?_, hperm.nodup_iff.mpr hnodup, ?_⟩
  · exact qhHull.FindHorizon_eq h _ eye V _ sorted hV hmark hcollect hsort
  · intro f hf
    obtain ⟨F, hF, hF1⟩ := hface f hf
    exact ⟨F, _, hF, hF1, qhHull.markFor_visible h V.position F⟩
  · intro f hf F' hF' hin
    obtain ⟨F, hF, hF1⟩ := hface f hf
    have hF'' : qhHull.face ({ h with faces := fs' } : qhHull K) f = some F' := hF'
    rw [hF1] at hF''
    cases hF''
    have hff0 := hone f hf f0 hf0 F F0 hF hF0 hin heyeF0
    subst hff0
    have hFF : F = F0 := Option.some.inj (hF.symm.trans hF0)
    rw [hFF]
    exact (qhHull.markFor_visible h V.position F0).1.mpr hlt0
  · intro e
    exact ⟨fun he => (hmem e).mp (hperm.mem_iff.mp he),
      fun he => hperm.mem_iff.mpr ((hmem e).mpr he)⟩

end

section

variable {K : Type} [LinearOrderedField K]

omit [LinearOrderedField K] in
/-- A mesh whose half-edges are those of the initial simplex, whose active
faces are the four slots `0 .. 3` and whose faces start at the first half-edge
of their cycles satisfies the half-edge invariants. -/
theorem qhHull.HalfEdgeInv_simplex (h : qhHull K) (below : Bool)
    (hedges : h.edges = qhHull.simplexEdges below)
    (hlist : h.m_faceList = [3, 2, 1, 0])
    (hface : ∀ f ∈ h.m_faceList, ∃ F, h.face f = some F ∧
      F.edge = (qhSimplexCycles below f).head?) :
    h.HalfEdgeInv (qhSimplexCycles below) := by
  have hE : ∀ e, h.halfEdge e = (qhHull.simplexEdges below)[e]? := by
    intro e
    rw [qhHull.halfEdge, hedges]
  constructor
  · rw [hlist]
    decide
  · intro f hf
    obtain ⟨F, hF, hhead⟩ := hface f hf
    rw [hlist] at hf
    simp only [List.mem_cons, List.mem_singleton, List.not_mem_nil, or_false] at hf
    rcases hf with rfl | rfl | rfl | rfl <;> cases below <;>
      simp only [qhSimplexCycles, List.head?_cons] at hhead <;>
      refine ⟨F, _, hF, hhead, rfl, by decide, ?_⟩ <;>
      simp [qhSimplexCycles, qhHull.IsLoop, qhHull.next, hE, qhHull.simplexEdges]
  · intro f hf e he
    rw [hlist] at hf
    simp only [List.mem_cons, List.mem_singleton, List.not_mem_nil, or_false] at hf
    rcases hf with rfl | rfl | rfl | rfl <;> cases below <;>
      simp only [qhSimplexCycles, List.mem_cons, List.mem_singleton, List.not_mem_nil,
        or_false] at he <;>
      rcases he with rfl | rfl | rfl <;>
      exact ⟨_, _, _, _, _, (hE _).trans rfl, rfl, rfl, rfl, (hE _).trans rfl, rfl, rfl, rfl,
        (hE _).trans rfl, rfl, rfl⟩
  · intro e E he hact
    rw [hE] at he
    have hlt : e < 12 := by
      by_contra hge
      rw [List.getElem?_eq_none (by cases below <;> simp [qhHull.simplexEdges] <;> omega)] at he
      cases he
    rw [hlist]
    interval_cases e <;> cases below <;>
      simp [qhHull.simplexEdges] at he <;> subst he <;> simp [qhSimplexCycles]

end

theorem qhInsideOut_inv : qhInsideOut.HalfEdgeInv (qhSimplexCycles true) := by
  refine qhHull.HalfEdgeInv_simplex qhInsideOut true rfl rfl ?_
  intro f hf
  have hl : qhInsideOut.m_faceList = [3, 2, 1, 0] := rfl
  rw [hl] at hf
  simp only [List.mem_cons, List.mem_singleton, List.not_mem_nil, or_false] at hf
  rcases hf with rfl | rfl | rfl | rfl <;> exact ⟨_, rfl, rfl⟩

theorem qhEyeUnderBase_inv : qhEyeUnderBase.HalfEdgeInv (qhSimplexCycles false) := by
  refine qhHull.HalfEdgeInv_simplex qhEyeUnderBase false rfl rfl ?_
  intro f hf
  have hl : qhEyeUnderBase.m_faceList = [3, 2, 1, 0] := rfl
  rw [hl] at hf
  simp only [List.mem_cons, List.mem_singleton, List.not_mem_nil, or_false] at hf
  rcases hf with rfl | rfl | rfl | rfl <;> exact ⟨_, rfl, rfl⟩

set_option maxRecDepth 100000 in
/-- C10, counterexample. The inside-out tetrahedron `qhInsideOut` satisfies
the half-edge invariants and `FindEyeVertex` returns its conflict vertex `4`,
but every face is further than the tolerance below that vertex: the marking
loop marks all four faces visible, the horizon collected is empty, the loop
bound `m_horizonCount - 1` of the sorting pass wraps around and the pass reads
`m_horizon[0]`, which was never written: `FindHorizon` has no defined
result. -/
theorem qhHull.FindHorizon_empty_horizon_undefined :
    qhInsideOut.HalfEdgeInv (qhSimplexCycles true) ∧
    qhInsideOut.FindEyeVertex = some (some 4) ∧
    ((qhInsideOut.vertex 4).bind fun V =>
      (qhHull.FindHorizon.mark V.position qhInsideOut.m_faceList qhInsideOut).bind fun h1 =>
        (qhHull.FindHorizon.collect h1 h1.m_faceList []).map fun hz =>
          (h1.m_faceList.map fun f => (h1.face f).map fun F => F.mark, hz)) =
      some ([some qhFaceMark.e_visible, some qhFaceMark.e_visible, some qhFaceMark.e_visible,
        some qhFaceMark.e_visible], []) ∧
    qhInsideOut.FindHorizon 4 = none :=
  ⟨qhInsideOut_inv, by decide!, by decide!, by decide!⟩

set_option maxRecDepth 100000 in
theorem qhEyeUnderBase_eye : qhEyeUnderBase.FindEyeVertex = some (some 4) := by decide!

set_option maxRecDepth 100000 in
theorem qhEyeUnderBase_one :
    ∀ f ∈ qhEyeUnderBase.m_faceList, ∀ g ∈ qhEyeUnderBase.m_faceList, ∀ F G,
      qhEyeUnderBase.face f = some F → qhEyeUnderBase.face g = some G →
      4 ∈ F.conflictList → 4 ∈ G.conflictList → f = g := by
  have key : ∀ f ∈ qhEyeUnderBase.m_faceList,
      (match qhEyeUnderBase.face f with
        | some F => decide (4 ∈ F.conflictList)
        | none => false) = true → f = 0 := by decide!
  intro f hf g hg F G hF hG hinF hinG
  have h1 := key f hf (by rw [hF]; simpa using hinF)
  have h2 := key g hg (by rw [hG]; simpa using hinG)
  rw [h1, h2]

set_option maxRecDepth 100000 in
theorem qhEyeUnderBase_sees :
    ∀ V, qhEyeUnderBase.vertex 4 = some V → qhEyeUnderBase.SeesHorizon V.position := by
  intro V hV
  have hV4 : qhEyeUnderBase.vertex 4 = some ⟨⟨1, 1, -1⟩, some 0, true⟩ := by decide!
  rw [hV4] at hV
  cases hV
  exact ⟨0, ⟨some 0, some 4, some 2, some 1, some 0, true⟩, 0,
    { qhHull.simplexFace qhEnv 0 ⟨0, 0, 0⟩ ⟨0, 8, 0⟩ ⟨12, 0, 0⟩ with conflictList := [4] }, 1,
    ⟨some 2, some 11, some 7, some 0, some 3, true⟩, 3,
    qhHull.simplexFace qhEnv 11 ⟨0, 0, 4⟩ ⟨0, 8, 0⟩ ⟨0, 0, 0⟩,
    by decide!, rfl, rfl, by decide!, by decide!, rfl, by decide!, rfl, by decide!, by decide!⟩

theorem qhHull.FindHorizon_marks_and_horizon_witness :
    qhEyeUnderBase.HalfEdgeInv (qhSimplexCycles false) ∧
    qhEyeUnderBase.FindEyeVertex = some (some 4) ∧
    ∃ V h', qhEyeUnderBase.vertex 4 = some V ∧ qhEyeUnderBase.FindHorizon 4 = some h' ∧
      h'.m_horizon.Nodup ∧ ∀ e, e ∈ h'.m_horizon ↔ h'.OnHorizon e := by
  refine ⟨qhEyeUnderBase_inv, qhEyeUnderBase_eye, ?_⟩
  obtain ⟨V, h', hV, hfh, _, _, _, hnd, hmem⟩ :=
    qhHull.FindHorizon_marks_and_horizon qhEyeUnderBase (qhSimplexCycles false) 4
      qhEyeUnderBase_inv qhEyeUnderBase_eye qhEyeUnderBase_one qhEyeUnderBase_sees
  exact ⟨V, h', hV, hfh, hnd, hmem⟩

/-! ### The index assertions of the initial hull -/

section

variable {K : Type} [LinearOrderedField K]

theorem b3DistanceSquared_nonneg (a b : b3Vec3 K) : 0 ≤ b3DistanceSquared a b := by
  simp only [b3DistanceSquared, b3LengthSquared, b3Dot]
  exact add_nonneg (add_nonneg (mul_self_nonneg _) (mul_self_nonneg _)) (mul_self_nonneg _)

/-- The segment loop keeps a non-negative length, and a positive one only with
two different indices. -/
theorem qhHull.BuildInitialHull.segment_ne (vs : List (b3Vec3 K)) (s : qhAABB K) :
    0 ≤ (qhHull.BuildInitialHull.segment vs s).1 ∧
    (0 < (qhHull.BuildInitialHull.segment vs s).1 →
      (qhHull.BuildInitialHull.segment vs s).2.1 ≠ (qhHull.BuildInitialHull.segment vs s).2.2) := by
  have step : ∀ (st : K × Nat × Nat) (i : Nat), (0 ≤ st.1 ∧ (0 < st.1 → st.2.1 ≠ st.2.2)) →
      (0 ≤ (qhHull.BuildInitialHull.segmentStep vs s st i).1 ∧
        (0 < (qhHull.BuildInitialHull.segmentStep vs s st i).1 →
          (qhHull.BuildInitialHull.segmentStep vs s st i).2.1 ≠
            (qhHull.BuildInitialHull.segmentStep vs s st i).2.2)) := by
    intro st i hst
    simp only [qhHull.BuildInitialHull.segmentStep]
    split_ifs with hd
    · refine ⟨b3DistanceSquared_nonneg _ _, fun _ heq => ?_⟩
      simp only at heq
      have h0 : (0 : K) < b3DistanceSquared (qhPoint vs (s.iMin i)) (qhPoint vs (s.iMax i)) :=
        lt_of_le_of_lt hst.1 hd
      rw [heq, b3DistanceSquared_self] at h0
      exact lt_irrefl _ h0
    · exact hst
  unfold qhHull.BuildInitialHull.segment
  exact step _ 2 (step _ 1 (step _ 0 ⟨le_refl _, fun h => absurd h (lt_irrefl _)⟩))

/-- The area loop keeps a non-negative area, and a positive one only with an
index that it did not skip. -/
theorem qhHull.BuildInitialHull.area_ne (A B : b3Vec3 K) (i1 i2 : Nat) (vs : List (b3Vec3 K)) :
    ∀ (i : Nat) (st : K × Nat), (0 ≤ st.1 ∧ (0 < st.1 → st.2 ≠ i1 ∧ st.2 ≠ i2)) →
      (0 ≤ (qhHull.BuildInitialHull.area A B i1 i2 vs i st).1 ∧
        (0 < (qhHull.BuildInitialHull.area A B i1 i2 vs i st).1 →
          (qhHull.BuildInitialHull.area A B i1 i2 vs i st).2 ≠ i1 ∧
            (qhHull.BuildInitialHull.area A B i1 i2 vs i st).2 ≠ i2)) := by
  induction vs with
  | nil => intro i st h; simpa [qhHull.BuildInitialHull.area] using h
  | cons C rest ih =>
    intro i st h
    simp only [qhHull.BuildInitialHull.area]
    split_ifs with hskip ha
    · exact ih (i + 1) st h
    · refine ih (i + 1) _ ⟨le_trans h.1 (le_of_lt ha), fun _ => ?_⟩
      exact ⟨fun hh => hskip (Or.inl hh), fun hh => hskip (Or.inr hh)⟩
    · exact ih (i + 1) st h

/-- The apex loop keeps a non-negative distance, and a positive one only with
an index that it did not skip. -/
theorem qhHull.BuildInitialHull.apex_ne (plane : b3Plane K) (i1 i2 i3 : Nat)
    (vs : List (b3Vec3 K)) :
    ∀ (i : Nat) (st : K × Nat),
      (0 ≤ st.1 ∧ (0 < st.1 → st.2 ≠ i1 ∧ st.2 ≠ i2 ∧ st.2 ≠ i3)) →
      (0 ≤ (qhHull.BuildInitialHull.apex plane i1 i2 i3 vs i st).1 ∧
        (0 < (qhHull.BuildInitialHull.apex plane i1 i2 i3 vs i st).1 →
          (qhHull.BuildInitialHull.apex plane i1 i2 i3 vs i st).2 ≠ i1 ∧
            (qhHull.BuildInitialHull.apex plane i1 i2 i3 vs i st).2 ≠ i2 ∧
            (qhHull.BuildInitialHull.apex plane i1 i2 i3 vs i st).2 ≠ i3)) := by
  induction vs with
  | nil => intro i st h; simpa [qhHull.BuildInitialHull.apex] using h
  | cons D rest ih =>
    intro i st h
    simp only [qhHull.BuildInitialHull.apex]
    split_ifs with hskip ha
    · exact ih (i + 1) st h
    · refine ih (i + 1) _ ⟨le_trans h.1 (le_of_lt ha), fun _ => ?_⟩
      exact ⟨fun hh => hskip (Or.inl hh), fun hh => hskip (Or.inr (Or.inl hh)),
        fun hh => hskip (Or.inr (Or.inr hh))⟩
    · exact ih (i + 1) st h

/-- The four indices of a simplex that passed the checks are pairwise
different. -/
theorem qhHull.BuildInitialHull.check_distinct (env : b3Env K) (hε : 0 ≤ env.B3_EPSILON)
    (vs : List (b3Vec3 K)) (i1 i2 i3 i4 : Nat)
    (hc : qhHull.BuildInitialHull.check env vs = qhSimplex.simplex i1 i2 i3 i4) :
    i1 ≠ i2 ∧ i3 ≠ i1 ∧ i3 ≠ i2 ∧ i4 ≠ i1 ∧ i4 ≠ i2 ∧ i4 ≠ i3 := by
  rw [qhHull.BuildInitialHull.check_eq] at hc
  split_ifs at hc with h4 hseg htri hfar
  simp only [qhSimplex.simplex.injEq] at hc
  obtain ⟨e1, e2, e3, e4⟩ := hc
  have hs := (qhHull.BuildInitialHull.segment_ne vs (qhFindAABB.scan env vs)).2
    (lt_of_le_of_lt (mul_self_nonneg _) (not_le.mp hseg))
  have ht := (qhHull.BuildInitialHull.area_ne _ _ _ _ vs 0 (0, 0)
    ⟨le_refl _, fun h => absurd h (lt_irrefl _)⟩).2
    (lt_of_le_of_lt (mul_self_nonneg _) (not_le.mp htri))
  have hf := (qhHull.BuildInitialHull.apex_ne _ _ _ _ vs 0 (0, 0)
    ⟨le_refl _, fun h => absurd h (lt_irrefl _)⟩).2
    (lt_of_le_of_lt (qhFindAABB_nonneg env hε vs) (not_le.mp hfar))
  subst e1
  subst e2
  subst e3
  subst e4
  exact ⟨hs, ht.1, ht.2, hf.1, hf.2.1, hf.2.2⟩

/-- C20. With a non-negative `B3_EPSILON` (so that the tolerance of
`qhFindAABB` is not negative) the three index assertions of `BuildInitialHull`
hold on every input: when the coincidence check passes, `i1 ≠ i2`; when the
collinearity check passes, `i3` differs from `i1` and `i2`; when the
coplanarity check passes, `i4` differs from `i1`, `i2` and `i3`; so the four
indices of a simplex that passed all the checks are pairwise different. -/
theorem qhHull.BuildInitialHull_index_assertions_hold (env : b3Env K)
    (hε : 0 ≤ env.B3_EPSILON) (vs : List (b3Vec3 K)) (seg : K × Nat × Nat) (tri far : K × Nat)
    (hseg : seg = qhHull.BuildInitialHull.segment vs (qhFindAABB.scan env vs))
    (htri : tri = qhHull.BuildInitialHull.area (qhPoint vs seg.2.1) (qhPoint vs seg.2.2)
      seg.2.1 seg.2.2 vs 0 (0, 0))
    (hfar : far = qhHull.BuildInitialHull.apex
      (qhHull.BuildInitialHull.plane env (qhPoint vs seg.2.1) (qhPoint vs seg.2.2)
        (qhPoint vs tri.2)) seg.2.1 seg.2.2 tri.2 vs 0 (0, 0)) :
    (¬ seg.1 ≤ env.B3_EPSILON * env.B3_EPSILON → seg.2.1 ≠ seg.2.2) ∧
    (¬ tri.1 ≤ (2 * env.B3_EPSILON) * (2 * env.B3_EPSILON) →
      tri.2 ≠ seg.2.1 ∧ tri.2 ≠ seg.2.2) ∧
    (¬ far.1 ≤ qhFindAABB env vs → far.2 ≠ seg.2.1 ∧ far.2 ≠ seg.2.2 ∧ far.2 ≠ tri.2) ∧
    (∀ i1 i2 i3 i4, qhHull.BuildInitialHull.check env vs = qhSimplex.simplex i1 i2 i3 i4 →
      4 ≤ vs.length ∧ i1 = seg.2.1 ∧ i2 = seg.2.2 ∧ i3 = tri.2 ∧ i4 = far.2 ∧
      i1 ≠ i2 ∧ i3 ≠ i1 ∧ i3 ≠ i2 ∧ i4 ≠ i1 ∧ i4 ≠ i2 ∧ i4 ≠ i3) := by
  refine ⟨fun h => ?_, fun h => ?_, fun h => ?_, fun i1 i2 i3 i4 hc => ?_⟩
  · rw [hseg] at h ⊢
    exact (qhHull.BuildInitialHull.segment_ne vs _).2
      (lt_of_le_of_lt (mul_self_nonneg _) (not_le.mp h))
  · rw [htri] at h ⊢
    exact (qhHull.BuildInitialHull.area_ne _ _ _ _ vs 0 (0, 0)
      ⟨le_refl _, fun h => absurd h (lt_irrefl _)⟩).2
      (lt_of_le_of_lt (mul_self_nonneg _) (not_le.mp h))
  · rw [hfar] at h ⊢
    exact (qhHull.BuildInitialHull.apex_ne _ _ _ _ vs 0 (0, 0)
      ⟨le_refl _, fun h => absurd h (lt_irrefl _)⟩).2
      (lt_of_le_of_lt (qhFindAABB_nonneg env hε vs) (not_le.mp h))
  · have hd := qhHull.BuildInitialHull.check_distinct env hε vs i1 i2 i3 i4 hc
    rw [qhHull.BuildInitialHull.check_eq] at hc
    split_ifs at hc with h4
    simp only [qhSimplex.simplex.injEq] at hc
    obtain ⟨e1, e2, e3, e4⟩ := hc
    subst hseg
    subst htri
    subst hfar
    exact ⟨not_lt.mp h4, e1.symm, e2.symm, e3.symm, e4.symm, hd⟩

end

theorem qhHull.BuildInitialHull_index_assertions_hold_witness :
    qhHull.BuildInitialHull.check qhEnv qhEyeInput = qhSimplex.simplex 0 1 2 3 ∧
    (4 ≤ qhEyeInput.length ∧
      0 = (qhHull.BuildInitialHull.segment qhEyeInput (qhFindAABB.scan qhEnv qhEyeInput)).2.1 ∧
      1 = (qhHull.BuildInitialHull.segment qhEyeInput (qhFindAABB.scan qhEnv qhEyeInput)).2.2 ∧
      (0 : Nat) ≠ 1 ∧ (2 : Nat) ≠ 0 ∧ (2 : Nat) ≠ 1 ∧ (3 : Nat) ≠ 0 ∧ (3 : Nat) ≠ 1 ∧
      (3 : Nat) ≠ 2) := by
  refine ⟨qhEyeInput_check, ?_⟩
  have h := (qhHull.BuildInitialHull_index_assertions_hold qhEnv (by decide!) qhEyeInput
    _ _ _ rfl rfl rfl).2.2.2 0 1 2 3 qhEyeInput_check
  exact ⟨h.1, h.2.1, h.2.2.1, h.2.2.2.2.2⟩

section

variable {K : Type} [LinearOrderedField K]

end

section

variable {K : Type} [LinearOrderedField K]

end

section

variable {K : Type} [LinearOrderedField K]

omit [LinearOrderedField K] in
/-- The inner loop of the sorting pass stops at the only position that holds
the tail it looks for, and swaps it into place. -/
theorem qhHull.FindHorizon.sortInner_found (h : qhHull K) (i : Nat) (v1 : Option Nat)
    (hz : List Nat) (j0 : Nat) (hj0 : j0 < hz.length)
    (hrec : ∀ x ∈ hz, ∃ E, h.halfEdge x = some E)
    (hnodup : (hz.map h.tail).Nodup) (hv : h.tail hz[j0] = v1) :
    ∀ (fuel j : Nat), j ≤ j0 → j0 < j + fuel →
      qhHull.FindHorizon.sortInner h i v1 fuel j hz = b3Swap hz j0 (i + 1) := by
  intro fuel
  induction fuel with
  | zero => intro j h1 h2; omega
  | succ fuel ih =>
    intro j hj hf
    have hjl : j < hz.length := by omega
    obtain ⟨E2, hE2⟩ := hrec hz[j] (List.getElem_mem hjl)
    simp only [qhHull.FindHorizon.sortInner, if_pos hjl, List.getElem?_eq_getElem hjl, bind,
      Option.bind, hE2]
    have ht : h.tail hz[j] = E2.tail := by simp [qhHull.tail, hE2]
    by_cases hjj : j = j0
    · subst hjj
      rw [if_pos (by rw [← hv, ht])]
    · have hne : ¬ v1 = E2.tail := by
        intro heq
        apply hjj
        have h1 : (hz.map h.tail)[j]? = (hz.map h.tail)[j0]? := by
          simp [List.getElem?_map, List.getElem?_eq_getElem hjl, List.getElem?_eq_getElem hj0,
            ht, hv, heq]
        have hjm : j < (hz.map h.tail).length := by simpa using hjl
        have hj0m : j0 < (hz.map h.tail).length := by simpa using hj0
        rw [List.getElem?_eq_getElem hjm, List.getElem?_eq_getElem hj0m] at h1
        exact (List.Nodup.getElem_inj_iff hnodup).mp (Option.some.inj h1)
      rw [if_neg hne]
      exact ih (j + 1) (by omega) (by omega)

omit [LinearOrderedField K] in
/-- A list that agrees with a permutation of itself on every position is that
permutation. -/
theorem qhHull.FindHorizon.sorted_eq (hz cycle : List Nat) (i : Nat) (hp : hz.Perm cycle)
    (hk : ∀ k ≤ i, hz[k]? = cycle[k]?) (hi : cycle.length ≤ i + 1) : hz = cycle := by
  apply List.ext_getElem?
  intro k
  by_cases hki : k ≤ i
  · exact hk k hki
  · rw [List.getElem?_eq_none (by rw [hp.length_eq]; omega), List.getElem?_eq_none (by omega)]

omit [LinearOrderedField K] in
/-- The outer loop of the sorting pass rebuilds the closed loop `cycle` from
any arrangement of its half-edges that starts like it. -/
theorem qhHull.FindHorizon.sortOuter_loop (h : qhHull K) (cycle : List Nat)
    (hrec : ∀ x ∈ cycle, ∃ E t T, h.halfEdge x = some E ∧ E.twin = some t ∧
      h.halfEdge t = some T)
    (hnodup : (cycle.map h.tail).Nodup)
    (hloop : ∀ i, i + 1 < cycle.length →
      (cycle[i]?).bind h.twinTail = (cycle[i + 1]?).bind h.tail) :
    ∀ (fuel i : Nat) (hz : List Nat), hz.Perm cycle → (∀ k ≤ i, hz[k]? = cycle[k]?) →
      i < cycle.length → cycle.length ≤ i + 1 + fuel →
      qhHull.FindHorizon.sortOuter h (cycle.length - 1) fuel i hz = some cycle := by
  intro fuel
  induction fuel with
  | zero =>
    intro i hz hp hk hi hf
    simp only [qhHull.FindHorizon.sortOuter, pure]
    rw [qhHull.FindHorizon.sorted_eq hz cycle i hp hk (by omega)]
  | succ fuel ih =>
    intro i hz hp hk hi hf
    simp only [qhHull.FindHorizon.sortOuter]
    by_cases hib : i < cycle.length - 1
    · rw [if_pos hib]
      have hlen : hz.length = cycle.length := hp.length_eq
      have hi1 : i + 1 < cycle.length := by omega
      have hzi : hz[i]? = some cycle[i] := by rw [hk i (le_refl _), List.getElem?_eq_getElem hi]
      obtain ⟨E, t, T, hE, ht, hT⟩ := hrec cycle[i] (List.getElem_mem hi)
      have hv : h.tail cycle[i + 1] = T.tail := by
        have := hloop i hi1
        rw [List.getElem?_eq_getElem hi, List.getElem?_eq_getElem hi1] at this
        simp only [Option.some_bind] at this
        rw [← this]
        simp [qhHull.twinTail, qhHull.tail, hE, ht, hT]
      have hcn : cycle.Nodup := List.Nodup.of_map _ hnodup
      obtain ⟨j0, hj0, hzj0⟩ := List.getElem_of_mem (hp.mem_iff.mpr (List.getElem_mem hi1))
      have hj0i : i + 1 ≤ j0 := by
        by_contra hlt
        have hle : j0 ≤ i := by omega
        have h1 := hk j0 hle
        rw [List.getElem?_eq_getElem hj0, List.getElem?_eq_getElem (by omega), hzj0] at h1
        have := (List.Nodup.getElem_inj_iff hcn).mp (Option.some.inj h1)
        omega
      have hin := qhHull.FindHorizon.sortInner_found h i T.tail hz j0 hj0
        (fun x hx => (hrec x (hp.mem_iff.mp hx)).imp fun E hE => hE.elim fun _ hE =>
          hE.elim fun _ hE => hE.1)
        ((hp.map h.tail).nodup_iff.mpr hnodup) (by rw [hzj0, hv]) hz.length (i + 1) hj0i
        (by omega)
      have hi1z : i + 1 < hz.length := by omega
      have hsw : b3Swap hz j0 (i + 1) = some ((hz.set j0 hz[i + 1]).set (i + 1) cycle[i + 1]) := by
        simp [b3Swap, bind, pure, List.getElem?_eq_getElem hj0, List.getElem?_eq_getElem hi1z,
          hzj0]
      simp only [hzi, bind, Option.bind, hE, ht, hT, hin, hsw]
      refine ih (i + 1) _ ((b3Swap_perm _ _ _ _ hsw).trans hp) ?_ hi1 (by omega)
      intro k hk1
      by_cases hke : k = i + 1
      · subst hke
        rw [List.getElem?_set_self (by simpa using hi1z), List.getElem?_eq_getElem hi1]
      · rw [List.getElem?_set_ne (fun hh => hke hh.symm),
          List.getElem?_set_ne (by omega)]
        exact hk k (by omega)
    · rw [if_neg hib]
      simp only [pure]
      rw [qhHull.FindHorizon.sorted_eq hz cycle i hp hk (by omega)]

end

section

variable {K : Type} [LinearOrderedField K]

omit [LinearOrderedField K] in
/-- The assertion of the first loop of `AddNewFaces` holds on a horizon whose
half-edges are chained by their tails. -/
theorem qhHull.AddNewFaces.ccw_of_loop (h : qhHull K) (cycle : List Nat)
    (hrec : ∀ x ∈ cycle, ∃ E t T, h.halfEdge x = some E ∧ E.twin = some t ∧
      h.halfEdge t = some T)
    (hloop : ∀ i, i < cycle.length →
      (cycle[i]?).bind h.twinTail = (cycle[(i + 1) % cycle.length]?).bind h.tail) :
    qhHull.AddNewFaces.ccw ({ h with m_horizon := cycle } : qhHull K) = true := by
  simp only [qhHull.AddNewFaces.ccw, List.all_eq_true, List.mem_range]
  intro i hi
  have hj : (if i + 1 < cycle.length then i + 1 else 0) = (i + 1) % cycle.length := by
    split_ifs with hlt
    · exact (Nat.mod_eq_of_lt hlt).symm
    · have : i + 1 = cycle.length := by omega
      rw [this, Nat.mod_self]
  have hjl : (i + 1) % cycle.length < cycle.length := Nat.mod_lt _ (by omega)
  obtain ⟨E, t, T, hE, ht, hT⟩ := hrec cycle[i] (List.getElem_mem hi)
  obtain ⟨E2, _, _, hE2, _, _⟩ := hrec cycle[(i + 1) % cycle.length] (List.getElem_mem hjl)
  have hl := hloop i hi
  rw [List.getElem?_eq_getElem hi, List.getElem?_eq_getElem hjl] at hl
  simp only [Option.some_bind, qhHull.twinTail, qhHull.tail, hE, ht, hT, hE2] at hl
  have hEh : ({ h with m_horizon := cycle } : qhHull K).halfEdge = h.halfEdge := rfl
  simp only [hj, hEh, List.getElem?_eq_getElem hi, List.getElem?_eq_getElem hjl,
    Option.some_bind, hE, ht, hT, hE2, hl, decide_True]

omit [LinearOrderedField K] in
/-- C11. When the `n ≥ 1` collected horizon half-edges form exactly one closed
loop (no two of them have the same tail, and `cycle` arranges them, from the
first collected one on, so that the tail of the twin of each is the tail of
the next one, cyclically), the sorting pass of `FindHorizon` returns a
permutation `sorted` of them, namely `cycle`, with
`sorted[i].twin.tail = sorted[(i + 1) mod n].tail` for every `i < n`, and the
CCW-order assertion at the start of `AddNewFaces` holds on it. -/
theorem qhHull.FindHorizon_sort_closed_loop (h : qhHull K) (collected cycle : List Nat)
    (hne : collected ≠ []) (hlen : collected.length < 2 ^ 32)
    (hrec : ∀ x ∈ collected, ∃ E t T, h.halfEdge x = some E ∧ E.twin = some t ∧
      h.halfEdge t = some T)
    (htails : (collected.map h.tail).Nodup)
    (hperm : cycle.Perm collected) (hstart : cycle.head? = collected.head?)
    (hloop : ∀ i, i < cycle.length →
      (cycle[i]?).bind h.twinTail = (cycle[(i + 1) % cycle.length]?).bind h.tail) :
    ∃ sorted, qhHull.FindHorizon.sort h collected = some sorted ∧ sorted = cycle ∧
      sorted.Perm collected ∧
      (∀ i, i < sorted.length →
        (sorted[i]?).bind h.twinTail = (sorted[(i + 1) % sorted.length]?).bind h.tail) ∧
      qhHull.AddNewFaces.ccw ({ h with m_horizon := sorted } : qhHull K) = true := by
  have hrec' : ∀ x ∈ cycle, ∃ E t T, h.halfEdge x = some E ∧ E.twin = some t ∧
      h.halfEdge t = some T := fun x hx => hrec x (hperm.mem_iff.mp hx)
  refine ⟨cycle, ?_, rfl, hperm, hloop, qhHull.AddNewFaces.ccw_of_loop h cycle hrec' hloop⟩
  have hpos : 0 < collected.length := List.length_pos.mpr hne
  have hcl : cycle.length = collected.length := hperm.length_eq
  have hb : (collected.length + (2 ^ 32 - 1)) % 2 ^ 32 = cycle.length - 1 := by omega
  simp only [qhHull.FindHorizon.sort, hb]
  refine qhHull.FindHorizon.sortOuter_loop h cycle hrec'
    ((hperm.map h.tail).nodup_iff.mpr htails) ?_ (cycle.length - 1) 0 collected hperm.symm ?_
    (by omega) (by omega)
  · intro i hi
    have := hloop i (by omega)
    rwa [Nat.mod_eq_of_lt hi] at this
  · intro k hk
    have hk0 : k = 0 := by omega
    subst hk0
    rw [← List.head?_eq_getElem?, ← List.head?_eq_getElem?, hstart]

end

/-- C11, witness: the three half-edges of the base face of `qhEyeUnderBase`,
collected out of order. -/
theorem qhHull.FindHorizon_sort_closed_loop_witness :
    qhHull.FindHorizon.sort qhEyeUnderBase [0, 4, 2] = some [0, 2, 4] ∧
    qhHull.AddNewFaces.ccw { qhEyeUnderBase with m_horizon := [0, 2, 4] } = true := by
  obtain ⟨sorted, hs, rfl, _, _, hccw⟩ := qhHull.FindHorizon_sort_closed_loop qhEyeUnderBase
    [0, 4, 2] [0, 2, 4] (by decide) (by decide)
    (by
      intro x hx
      simp only [List.mem_cons, List.mem_singleton, List.not_mem_nil, or_false] at hx
      rcases hx with rfl | rfl | rfl <;> exact ⟨_, _, _, rfl, rfl, rfl⟩)
    (by decide) (by decide) (by decide) (by decide)
  exact ⟨hs, hccw⟩

section

variable {K : Type} [LinearOrderedField K]

/-- One turn of the loop of `b3ComputePlane` at a half-edge whose records are
known. -/
theorem b3ComputePlane.walk_turn (h : qhHull K) (start : Option Nat) (fuel e0 nx t1 t2 : Nat)
    (E N : qhHalfEdge) (T1 T2 : qhVertex K) (n c : b3Vec3 K) (count : Nat)
    (hE : h.halfEdge e0 = some E) (ht1 : E.tail = some t1) (hT1 : h.vertex t1 = some T1)
    (hnx : E.next = some nx) (hN : h.halfEdge nx = some N) (ht2 : N.tail = some t2)
    (hT2 : h.vertex t2 = some T2) :
    b3ComputePlane.walk h start (fuel + 1) (some e0) n c count =
      if some nx = start then
        some (n.add (b3Newell T1.position T2.position), c.add T1.position, count + 1)
      else b3ComputePlane.walk h start fuel (some nx)
        (n.add (b3Newell T1.position T2.position)) (c.add T1.position) (count + 1) := by
  simp [b3ComputePlane.walk, bind, pure, hE, ht1, hT1, hnx, hN, ht2, hT2]

end

/-- C22. For every count `V ≥ 4` whose 32-bit products do not wrap, `Construct`
sizes the pools as `V` vertices, `2 * (2 * (3 V - 6))` half-edges and
`2 * (2 V - 4)` faces, and the vertex pool, the half-edge pool and the face
pool follow one another without a gap; but the horizon half-edge buffer
starts `F * sizeof(qhFace*)` bytes after the start of the face pool, so that
whenever a face is larger than a pointer it starts inside the face pool: the
seven regions are in order exactly when `sizeof(qhFace) ≤ sizeof(qhFace*)`. -/
theorem qhHull.Construct_horizon_buffer_overlaps_face_pool
    (count sizeofVertex sizeofHalfEdge sizeofFace sizeofPointer : Nat)
    (h4 : 4 ≤ count) (hw : 12 * count < 2 ^ 32 + 24) :
    qhHull.Construct.sizes count = (count, 2 * (2 * (3 * count - 6)), 2 * (2 * count - 4)) ∧
    (∃ vertices edges faces horizon rest,
      qhHull.Construct.regions count sizeofVertex sizeofHalfEdge sizeofFace sizeofPointer =
        vertices :: edges :: faces :: horizon :: rest ∧
      vertices.2 = edges.1 ∧ edges.2 = faces.1 ∧
      faces.2 = faces.1 + 2 * (2 * count - 4) * sizeofFace ∧
      horizon.1 = faces.1 + 2 * (2 * count - 4) * sizeofPointer ∧
      (sizeofPointer < sizeofFace → faces.1 ≤ horizon.1 ∧ horizon.1 < faces.2)) ∧
    (qhHull.Construct.inOrder
      (qhHull.Construct.regions count sizeofVertex sizeofHalfEdge sizeofFace sizeofPointer) =
        true ↔ sizeofFace ≤ sizeofPointer) := by
  have hs : qhHull.Construct.sizes count =
      (count, 2 * (2 * (3 * count - 6)), 2 * (2 * count - 4)) := by
    simp only [qhHull.Construct.sizes, Prod.mk.injEq]
    refine ⟨?_, ?_, ?_⟩ <;> omega
  have hF : 0 < 2 * (2 * count - 4) := by omega
  refine ⟨hs, ⟨_, _, _, _, _, rfl, ?_, ?_, ?_, ?_, ?_⟩, ?_⟩
  · simp only [Nat.zero_add]
  · rfl
  · simp only [hs]
  · simp only [hs]
  · intro hlt
    simp only [hs]
    exact ⟨Nat.le_add_right _ _,
      Nat.add_lt_add_left (Nat.mul_lt_mul_of_pos_left hlt hF) _⟩
  · simp only [qhHull.Construct.regions, qhHull.Construct.inOrder, hs, Nat.zero_add,
      Bool.and_eq_true, decide_eq_true_eq, le_refl, true_and, and_true, Bool.and_true,
      Bool.true_and, decide_True]
    constructor
    · intro h
      have h' : 2 * (2 * count - 4) * sizeofFace ≤ 2 * (2 * count - 4) * sizeofPointer := by
        omega
      exact Nat.le_of_mul_le_mul_left h' hF
    · intro h
      have h' : 2 * (2 * count - 4) * sizeofFace ≤ 2 * (2 * count - 4) * sizeofPointer :=
        Nat.mul_le_mul_left _ h
      omega

/-- C22, witness: 4 points on a build with vertices of 32 bytes, half-edges
of 48 bytes, faces of 72 bytes and pointers of 8 bytes.  The face pool is the
bytes `1280 .. 1855` and the horizon buffer starts at the byte `1344`. -/
theorem qhHull.Construct_horizon_buffer_overlaps_face_pool_witness :
    qhHull.Construct.sizes 4 = (4, 24, 8) ∧
    qhHull.Construct.regions 4 32 48 72 8 =
      [(0, 128), (128, 1280), (1280, 1856), (1344, 1536), (1536, 1728), (1728, 1760),
        (1760, 1824)] ∧
    ¬ (qhHull.Construct.inOrder (qhHull.Construct.regions 4 32 48 72 8) = true) := by
  obtain ⟨hs, _, hiff⟩ := qhHull.Construct_horizon_buffer_overlaps_face_pool 4 32 48 72 8
    (by decide) (by decide)
  exact ⟨hs, by decide, fun h => absurd (hiff.mp h) (by decide)⟩

section

variable {K : Type} [LinearOrderedField K]

/-- C23. The predicate "a static node has zero velocity and zero applied
force" is preserved by every public mutator of `b3SoftBodyNode`: `SetType`,
which does nothing when the type is unchanged and otherwise zeroes the force,
and zeroes the velocity when the new type is static; `SetVelocity`, which does
nothing on a static node; `ApplyForce`, which does nothing on a node that is
not dynamic; `SetPosition`, `SetRadius` and `SetFriction`. -/
theorem b3SoftBodyNode.StaticAtRest_preserved (n : b3SoftBodyNode K)
    (hn : n.StaticAtRest) :
    (∀ t, (n.SetType t).StaticAtRest) ∧
    (∀ t, n.m_type = t → n.SetType t = n) ∧
    (∀ t, n.m_type ≠ t → (n.SetType t).m_type = t ∧ (n.SetType t).m_force = b3Vec3_zero ∧
      (t = b3SoftBodyNodeType.e_staticSoftBodyNode → (n.SetType t).m_velocity = b3Vec3_zero)) ∧
    (∀ v, (n.SetVelocity v).StaticAtRest) ∧
    (n.m_type = b3SoftBodyNodeType.e_staticSoftBodyNode → ∀ v, n.SetVelocity v = n) ∧
    (∀ f, (n.ApplyForce f).StaticAtRest) ∧
    (n.m_type ≠ b3SoftBodyNodeType.e_dynamicSoftBodyNode → ∀ f, n.ApplyForce f = n) ∧
    (∀ p, (n.SetPosition p).StaticAtRest) ∧
    (∀ r, (n.SetRadius r).StaticAtRest) ∧
    (∀ c, (n.SetFriction c).StaticAtRest) := by
  refine ⟨?_, ?_, ?_, ?_, ?_, ?_, ?_, ?_, ?_, ?_⟩
  · intro t hs
    simp only [b3SoftBodyNode.SetType] at hs ⊢
    split_ifs at hs ⊢ with h ht
    · exact hn hs
    · exact ⟨rfl, rfl⟩
    · exact absurd hs ht
  · intro t h
    unfold b3SoftBodyNode.SetType
    rw [if_pos h]
  · intro t h
    simp only [b3SoftBodyNode.SetType]
    rw [if_neg h]
    split_ifs with ht
    · exact ⟨rfl, rfl, fun _ => rfl⟩
    · exact ⟨rfl, rfl, fun hh => absurd hh ht⟩
  · intro v
    unfold b3SoftBodyNode.SetVelocity
    by_cases h : n.m_type = b3SoftBodyNodeType.e_staticSoftBodyNode
    · rw [if_pos h]
      exact hn
    · rw [if_neg h]
      intro hs
      exact absurd hs h
  · intro h v
    unfold b3SoftBodyNode.SetVelocity
    rw [if_pos h]
  · intro f
    unfold b3SoftBodyNode.ApplyForce
    by_cases h : n.m_type ≠ b3SoftBodyNodeType.e_dynamicSoftBodyNode
    · rw [if_pos h]
      exact hn
    · rw [if_neg h]
      intro hs
      have hd : n.m_type = b3SoftBodyNodeType.e_dynamicSoftBodyNode := not_not.mp h
      have hs' : n.m_type = b3SoftBodyNodeType.e_staticSoftBodyNode := hs
      rw [hd] at hs'
      cases hs'
  · intro h f
    unfold b3SoftBodyNode.ApplyForce
    rw [if_pos h]
  · intro p
    exact hn
  · intro r
    exact hn
  · intro c
    exact hn

end

theorem b3SoftBodyNode.StaticAtRest_preserved_witness :
    b3StaticNode.StaticAtRest ∧
    (b3StaticNode.SetType b3SoftBodyNodeType.e_dynamicSoftBodyNode).StaticAtRest ∧
    (b3StaticNode.SetVelocity ⟨1, 2, 3⟩).StaticAtRest ∧
    b3StaticNode.SetVelocity ⟨1, 2, 3⟩ = b3StaticNode ∧
    (b3StaticNode.ApplyForce ⟨0, -10, 0⟩).StaticAtRest ∧
    b3StaticNode.ApplyForce ⟨0, -10, 0⟩ = b3StaticNode := by
  have h0 : b3StaticNode.StaticAtRest := fun _ => ⟨rfl, rfl⟩
  obtain ⟨h1, _, _, h4, h5, h6, h7, _⟩ := b3SoftBodyNode.StaticAtRest_preserved b3StaticNode h0
  exact ⟨h0, h1 _, h4 _, h5 rfl _, h6 _, h7 (by decide) _⟩

section

variable {K : Type} [LinearOrderedField K]

end

section

variable {K : Type} [LinearOrderedField K]

end

section

variable {K : Type} [LinearOrderedField K]

end

section

variable {K : Type} [LinearOrderedField K]

omit [LinearOrderedField K] in
theorem qhShift_ne (k a : Nat) : qhShift k a ≠ k := by
  unfold qhShift
  split_ifs <;> omega

end

section

variable {K : Type} [LinearOrderedField K]

end

section

variable {K : Type} [LinearOrderedField K]

end

section

variable {K : Type} [LinearOrderedField K]

end

section

variable {K : Type} [LinearOrderedField K]

omit [LinearOrderedField K] in
/-- One turn of the loop of `Validate(const qhFace*)` at a known pointer. -/
theorem qhHull.ValidateFace.walk_unfold (h : qhHull K) (face : Nat) (start : Option Nat)
    (fuel e0 : Nat) (ok : Bool) :
    qhHull.ValidateFace.walk h face start (fuel + 1) (some e0) ok =
      (h.halfEdge e0).bind fun E =>
        if E.next = start then some (ok && E.active && decide (E.face = some face))
        else qhHull.ValidateFace.walk h face start fuel E.next
          (ok && E.active && decide (E.face = some face)) := by
  rw [qhHull.ValidateFace.walk]
  rfl

omit [LinearOrderedField K] in
/-- One turn of the closing loop of `Validate(const qhHalfEdge*)`. -/
theorem qhHull.ValidateEdge.walk_succ (h : qhHull K) (start fuel edge : Nat) :
    qhHull.ValidateEdge.walk h start (fuel + 1) edge =
      (h.halfEdge edge).bind fun E => E.next.bind fun n => (h.halfEdge n).bind fun N =>
        N.twin.bind fun e' =>
          if e' = start then some () else qhHull.ValidateEdge.walk h start fuel e' := by
  rw [qhHull.ValidateEdge.walk]
  rfl

variable (env : b3Env K) (tv : List (qhVertex K)) (te : List qhHalfEdge)
    (tf : List (qhFace K)) (fv fe ff : List Nat) (tol : K) (A B C D : b3Vec3 K)

end

section

variable {K : Type} [LinearOrderedField K]

end

section

variable {K : Type} [LinearOrderedField K]

end

section

variable {K : Type} [LinearOrderedField K]

end

section

variable {K : Type} [LinearOrderedField K]

end

section

variable {K : Type} [LinearOrderedField K]

theorem qhList.set_eq_mapIdx {α : Type} (l : List α) (x : Nat) (a : α) (g : α → α)
    (hx : l[x]? = some a) : l.set x (g a) = l.mapIdx fun y b => if y = x then g b else b := by
  apply List.ext_getElem?
  intro n
  rw [List.getElem?_set, List.getElem?_mapIdx]
  by_cases hn : x = n
  · subst hn
    have hlt : x < l.length := by
      by_contra hge
      rw [List.getElem?_eq_none (not_lt.mp hge)] at hx
      cases hx
    simp [hlt, hx]
  · have hn' : ¬ n = x := fun hh => hn hh.symm
    simp only [hn, if_false, hn']
    cases l[n]? <;> rfl

theorem qhHull.setEdge_eq (h : qhHull K) (x : Nat) (E : qhHalfEdge) (g : qhHalfEdge → qhHalfEdge)
    (hx : h.halfEdge x = some E) :
    h.setEdge x g = some (h.editEdges fun y E => if y = x then g E else E) := by
  unfold qhHull.halfEdge at hx
  simp only [qhHull.setEdge, hx, Option.map_some', qhHull.editEdges,
    qhList.set_eq_mapIdx h.edges x E g hx]

theorem qhHull.setFace_eq (h : qhHull K) (x : Nat) (F : qhFace K) (g : qhFace K → qhFace K)
    (hx : h.face x = some F) :
    h.setFace x g = some (h.editFaces fun y F => if y = x then g F else F) := by
  unfold qhHull.face at hx
  simp only [qhHull.setFace, hx, Option.map_some', qhHull.editFaces,
    qhList.set_eq_mapIdx h.faces x F g hx]

theorem qhHull.setVertex_eq (h : qhHull K) (x : Nat) (V : qhVertex K) (g : qhVertex K → qhVertex K)
    (hx : h.vertex x = some V) :
    h.setVertex x g = some (h.editVertices fun y V => if y = x then g V else V) := by
  unfold qhHull.vertex at hx
  simp only [qhHull.setVertex, hx, Option.map_some', qhHull.editVertices,
    qhList.set_eq_mapIdx h.vertices x V g hx]

theorem qhHull.halfEdge_editEdges (h : qhHull K) (u : Nat → qhHalfEdge → qhHalfEdge) (x : Nat) :
    (h.editEdges u).halfEdge x = (h.halfEdge x).map (u x) := by
  simp only [qhHull.halfEdge, qhHull.editEdges, List.getElem?_mapIdx]

theorem qhHull.face_editFaces (h : qhHull K) (u : Nat → qhFace K → qhFace K) (x : Nat) :
    (h.editFaces u).face x = (h.face x).map (u x) := by
  simp only [qhHull.face, qhHull.editFaces, List.getElem?_mapIdx]

theorem qhHull.vertex_editVertices (h : qhHull K) (u : Nat → qhVertex K → qhVertex K) (x : Nat) :
    (h.editVertices u).vertex x = (h.vertex x).map (u x) := by
  simp only [qhHull.vertex, qhHull.editVertices, List.getElem?_mapIdx]

theorem qhList.mapIdx_mapIdx {α : Type} (l : List α) (u v : Nat → α → α) :
    (l.mapIdx u).mapIdx v = l.mapIdx fun y a => v y (u y a) := by
  apply List.ext_getElem?
  intro n
  simp only [List.getElem?_mapIdx, Option.map_map]
  rfl

theorem qhHull.editEdges_editEdges (h : qhHull K) (u v : Nat → qhHalfEdge → qhHalfEdge) :
    (h.editEdges u).editEdges v = h.editEdges fun y E => v y (u y E) := by
  simp only [qhHull.editEdges, qhList.mapIdx_mapIdx]

theorem qhHull.editFaces_editFaces (h : qhHull K) (u v : Nat → qhFace K → qhFace K) :
    (h.editFaces u).editFaces v = h.editFaces fun y F => v y (u y F) := by
  simp only [qhHull.editFaces, qhList.mapIdx_mapIdx]

theorem qhHull.editVertices_editVertices (h : qhHull K) (u v : Nat → qhVertex K → qhVertex K) :
    (h.editVertices u).editVertices v = h.editVertices fun y V => v y (u y V) := by
  simp only [qhHull.editVertices, qhList.mapIdx_mapIdx]

end

section

variable {K : Type} [LinearOrderedField K]

theorem qhList.mapIdx_id {α : Type} (l : List α) (u : Nat → α → α)
    (hu : ∀ y a, l[y]? = some a → u y a = a) : l.mapIdx u = l := by
  apply List.ext_getElem?
  intro n
  rw [List.getElem?_mapIdx]
  cases hn : l[n]? with
  | none => rfl
  | some a => simp only [Option.map_some', hu n a hn]

theorem qhList.mapIdx_congr {α : Type} (l : List α) (u v : Nat → α → α)
    (hu : ∀ y a, l[y]? = some a → u y a = v y a) : l.mapIdx u = l.mapIdx v := by
  apply List.ext_getElem?
  intro n
  rw [List.getElem?_mapIdx, List.getElem?_mapIdx]
  cases hn : l[n]? with
  | none => rfl
  | some a => simp only [Option.map_some', hu n a hn]

theorem qhHull.editFaces_congr (h : qhHull K) (u v : Nat → qhFace K → qhFace K)
    (hu : ∀ f F, h.face f = some F → u f F = v f F) : h.editFaces u = h.editFaces v := by
  simp only [qhHull.editFaces, qhList.mapIdx_congr h.faces u v hu]

theorem qhHull.editEdges_congr (h : qhHull K) (u v : Nat → qhHalfEdge → qhHalfEdge)
    (hu : ∀ e E, h.halfEdge e = some E → u e E = v e E) : h.editEdges u = h.editEdges v := by
  simp only [qhHull.editEdges, qhList.mapIdx_congr h.edges u v hu]

theorem qhHull.editVertices_congr (h : qhHull K) (u v : Nat → qhVertex K → qhVertex K)
    (hu : ∀ x V, h.vertex x = some V → u x V = v x V) : h.editVertices u = h.editVertices v := by
  simp only [qhHull.editVertices, qhList.mapIdx_congr h.vertices u v hu]

theorem qhHull.editFaces_id (h : qhHull K) (u : Nat → qhFace K → qhFace K)
    (hu : ∀ f F, h.face f = some F → u f F = F) : h.editFaces u = h := by
  simp only [qhHull.editFaces, qhList.mapIdx_id h.faces u hu]

theorem qhHull.editEdges_id (h : qhHull K) (u : Nat → qhHalfEdge → qhHalfEdge)
    (hu : ∀ e E, h.halfEdge e = some E → u e E = E) : h.editEdges u = h := by
  simp only [qhHull.editEdges, qhList.mapIdx_id h.edges u hu]

theorem qhHull.editVertices_id (h : qhHull K) (u : Nat → qhVertex K → qhVertex K)
    (hu : ∀ x V, h.vertex x = some V → u x V = V) : h.editVertices u = h := by
  simp only [qhHull.editVertices, qhList.mapIdx_id h.vertices u hu]

theorem qhHull.editVertices_editFaces (h : qhHull K) (u : Nat → qhVertex K → qhVertex K)
    (w : Nat → qhFace K → qhFace K) :
    (h.editVertices u).editFaces w = (h.editFaces w).editVertices u := rfl

theorem qhHull.editEdges_editFaces (h : qhHull K) (u : Nat → qhHalfEdge → qhHalfEdge)
    (w : Nat → qhFace K → qhFace K) :
    (h.editEdges u).editFaces w = (h.editFaces w).editEdges u := rfl

theorem qhHull.editEdges_editVertices (h : qhHull K) (u : Nat → qhHalfEdge → qhHalfEdge)
    (w : Nat → qhVertex K → qhVertex K) :
    (h.editEdges u).editVertices w = (h.editVertices w).editEdges u := rfl

theorem qhHull.face_editVertices (h : qhHull K) (u : Nat → qhVertex K → qhVertex K) (f : Nat) :
    (h.editVertices u).face f = h.face f := rfl

theorem qhHull.face_editEdges (h : qhHull K) (u : Nat → qhHalfEdge → qhHalfEdge) (f : Nat) :
    (h.editEdges u).face f = h.face f := rfl

theorem qhHull.halfEdge_editFaces (h : qhHull K) (u : Nat → qhFace K → qhFace K) (e : Nat) :
    (h.editFaces u).halfEdge e = h.halfEdge e := rfl

theorem qhHull.halfEdge_editVertices (h : qhHull K) (u : Nat → qhVertex K → qhVertex K) (e : Nat) :
    (h.editVertices u).halfEdge e = h.halfEdge e := rfl

theorem qhHull.vertex_editFaces (h : qhHull K) (u : Nat → qhFace K → qhFace K) (v : Nat) :
    (h.editFaces u).vertex v = h.vertex v := rfl

theorem qhHull.vertex_editEdges (h : qhHull K) (u : Nat → qhHalfEdge → qhHalfEdge) (v : Nat) :
    (h.editEdges u).vertex v = h.vertex v := rfl

theorem qhHull.RemoveEdge.move_eq (leftFace rightFace : Nat) (hLR : leftFace ≠ rightFace) :
    ∀ (l : List Nat) (h : qhHull K) (LF RF : qhFace K), h.face leftFace = some LF →
      LF.conflictList = l → h.face rightFace = some RF →
      (∀ v ∈ l, ∃ V, h.vertex v = some V) →
      qhHull.RemoveEdge.move leftFace rightFace l.length h l.head? =
        some (qhHull.RemoveEdge.moved h leftFace rightFace l) := by
  intro l
  induction l with
  | nil =>
    intro h LF RF hL hl hR _
    simp only [List.length_nil, List.head?_nil, qhHull.RemoveEdge.move, pure,
      qhHull.RemoveEdge.moved, Option.some.injEq]
    rw [qhHull.editVertices_id _ _ (fun x V _ => by simp)]
    rw [qhHull.editFaces_id]
    intro f F hF
    split_ifs with h1 h2
    · subst h1
      rw [hL] at hF
      cases hF
      cases LF
      simp only at hl
      simp only [hl]
    · simp
    · rfl
  | cons v0 rest ih =>
    intro h LF RF hL hl hR hv
    obtain ⟨V0, hV0⟩ := hv v0 (List.mem_cons_self _ _)
    simp only [List.length_cons, List.head?_cons, qhHull.RemoveEdge.move, hL, hl, qhList.Remove,
      if_true, bind, Option.bind, pure]
    rw [qhHull.setFace_eq h leftFace LF _ hL]
    simp only
    have hR1 : (h.editFaces fun y F => if y = leftFace then
        { F with conflictList := rest } else F).face rightFace = some RF := by
      rw [qhHull.face_editFaces, hR, Option.map_some', if_neg (Ne.symm hLR)]
    rw [qhHull.setFace_eq _ rightFace RF _ hR1, qhHull.editFaces_editFaces]
    simp only
    rw [qhHull.setVertex_eq _ v0 V0 _ (by exact hV0)]
    simp only
    rw [ih _ { LF with conflictList := rest }
      { RF with conflictList := qhList.PushFront RF.conflictList v0 }
      (by
        show (qhHull.editFaces h _).face leftFace = _
        rw [qhHull.face_editFaces, hL]
        simp [hLR])
      rfl
      (by
        show (qhHull.editFaces h _).face rightFace = _
        rw [qhHull.face_editFaces, hR]
        simp [Ne.symm hLR])
      (by
        intro v hvm
        obtain ⟨V, hV⟩ := hv v (List.mem_cons_of_mem _ hvm)
        rw [qhHull.vertex_editVertices]
        show ∃ V', Option.map _ (h.vertex v) = some V'
        rw [hV]
        exact ⟨_, rfl⟩)]
    simp only [qhHull.RemoveEdge.moved, qhHull.editVertices_editFaces, qhHull.editFaces_editFaces,
      qhHull.editVertices_editVertices, Option.some.injEq]
    rw [qhHull.editFaces_congr h _ (fun f F =>
      if f = leftFace then { F with conflictList := [] }
      else if f = rightFace then { F with conflictList := (v0 :: rest).reverse ++ F.conflictList }
      else F)]
    · apply qhHull.editVertices_congr
      intro x V _
      by_cases hx0 : x = v0
      · simp [hx0]
      · by_cases hxr : x ∈ rest
        · simp [hx0, hxr]
        · simp [hx0, hxr]
    · intro f F _
      by_cases h1 : f = leftFace
      · simp [h1, hLR]
      · by_cases h2 : f = rightFace
        · subst h2
          simp [Ne.symm hLR, qhList.PushFront]
        · simp [h1, h2]

end

section

variable {K : Type} [LinearOrderedField K]

theorem qhHull.next_editEdges (h : qhHull K) (u : Nat → qhHalfEdge → qhHalfEdge)
    (hu : ∀ y E, (u y E).next = E.next) (a : Nat) : (h.editEdges u).next a = h.next a := by
  simp only [qhHull.next, qhHull.halfEdge_editEdges]
  cases h.halfEdge a with
  | none => rfl
  | some E => simp only [Option.map_some', Option.some_bind, hu]

theorem qhHull.next_eq (h : qhHull K) (a : Nat) (E : qhHalfEdge) (hE : h.halfEdge a = some E) :
    h.next a = E.next := by
  simp only [qhHull.next, hE, Option.some_bind]

/-- The loop of `RemoveEdge` that hands a chain of half-edges over to the right
face: it runs along the chain until the half-edge whose successor is the
start, and writes the right face into every half-edge of the chain. -/
theorem qhHull.RemoveEdge.absorb_eq (rightFace s : Nat) :
    ∀ (l : List Nat) (x : Nat) (h : qhHull K) (fuel : Nat), (x :: l).length ≤ fuel →
      List.Chain' (fun a b => h.next a = some b) (x :: l ++ [s]) → s ∉ l →
      (∀ y ∈ x :: l, ∃ E, h.halfEdge y = some E) →
      qhHull.RemoveEdge.absorb rightFace (some s) fuel h (some x) =
        some (h.editEdges fun y E =>
          if y ∈ x :: l then { E with face := some rightFace } else E) := by
  intro l
  induction l with
  | nil =>
    intro x h fuel hfuel hchain _ hex
    obtain ⟨fuel, rfl⟩ : ∃ f, fuel = f + 1 := ⟨fuel - 1, by simp at hfuel; omega⟩
    obtain ⟨E, hE⟩ := hex x (List.mem_cons_self _ _)
    have hn : E.next = some s := by
      have := hchain
      simp only [List.nil_append, List.chain'_cons, List.chain'_singleton, and_true,
        List.cons_append] at this
      rwa [qhHull.next_eq h x E hE] at this
    simp only [qhHull.RemoveEdge.absorb, bind, Option.bind, qhHull.setEdge_eq h x E _ hE,
      qhHull.halfEdge_editEdges, hE, Option.map_some', if_true, hn, pure]
    congr 1
    apply qhHull.editEdges_congr
    intro y Y _
    simp only [List.mem_singleton]
  | cons x2 l ih =>
    intro x h fuel hfuel hchain hs hex
    obtain ⟨fuel, rfl⟩ : ∃ f, fuel = f + 1 := ⟨fuel - 1, by simp at hfuel; omega⟩
    obtain ⟨E, hE⟩ := hex x (List.mem_cons_self _ _)
    simp only [List.cons_append, List.chain'_cons] at hchain
    obtain ⟨hx, hchain⟩ := hchain
    have hn : E.next = some x2 := by rwa [qhHull.next_eq h x E hE] at hx
    have hne : ¬ (some x2 : Option Nat) = some s := by
      intro hh
      exact hs (by rw [← Option.some.inj hh]; exact List.mem_cons_self _ _)
    simp only [qhHull.RemoveEdge.absorb, bind, Option.bind, qhHull.setEdge_eq h x E _ hE,
      qhHull.halfEdge_editEdges, hE, Option.map_some', if_true, hn, hne, if_false]
    have hnext : ∀ a, (h.editEdges fun y E => if y = x then
        { E with face := some rightFace } else E).next a = h.next a := by
      intro a
      apply qhHull.next_editEdges
      intro y Y
      split_ifs <;> rfl
    rw [ih x2 _ fuel (by simp only [List.length_cons] at hfuel ⊢; omega)
      (by
        simp only [hnext]
        simpa using hchain)
      (fun hh => hs (List.mem_cons_of_mem _ hh))
      (by
        intro y hy
        obtain ⟨Y, hY⟩ := hex y (List.mem_cons_of_mem _ hy)
        rw [qhHull.halfEdge_editEdges, hY]
        exact ⟨_, rfl⟩)]
    rw [qhHull.editEdges_editEdges]
    congr 1
    apply qhHull.editEdges_congr
    intro y Y _
    by_cases h1 : y = x
    · subst h1
      by_cases h2 : y ∈ x2 :: l
      · simp [h2]
      · simp [h2]
    · by_cases h2 : y ∈ x2 :: l
      · simp only [h1, h2, if_false, if_true, List.mem_cons, false_or]
      · simp only [h1, h2, if_false, List.mem_cons, false_or]

/-- Modelled list removal: a member leaves the list at its first position. -/
theorem qhList.Remove_mem (l : List Nat) (v : Nat) (hv : v ∈ l) :
    ∃ nx, qhList.Remove l v = some (l.erase v, nx) := by
  induction l with
  | nil => cases hv
  | cons x xs ih =>
    by_cases hx : x = v
    · subst hx
      exact ⟨xs.head?, by simp [qhList.Remove]⟩
    · have hv' : v ∈ xs := by
        rcases List.mem_cons.mp hv with h | h
        · exact absurd h.symm hx
        · exact h
      obtain ⟨nx, hnx⟩ := ih hv'
      refine ⟨nx, ?_⟩
      simp only [qhList.Remove, hx, if_false, hnx, Option.map_some']
      rw [List.erase_cons_tail (by simpa using hx)]

end

section

variable {K : Type} [LinearOrderedField K]

theorem qhHull.RemoveEdge.link_eq (h : qhHull K) (e t p n tp tn : Nat) (E T P N TP TN : qhHalfEdge)
    (hE : h.halfEdge e = some E) (hT : h.halfEdge t = some T) (hP : h.halfEdge p = some P)
    (hN : h.halfEdge n = some N) (hTP : h.halfEdge tp = some TP) (hTN : h.halfEdge tn = some TN)
    (hEt : E.twin = some t) (hEp : E.prev = some p) (hEn : E.next = some n)
    (hTp : T.prev = some tp) (hTn : T.next = some tn)
    (hpe : p ≠ e) (hpt : p ≠ t) (hne : n ≠ e) (hnt : n ≠ t) (htpe : tp ≠ e) (htpt : tp ≠ t)
    (hptp : p ≠ tp) (hntn : n ≠ tn) :
    qhHull.RemoveEdge.link h e = some (h.editEdges (qhHull.RemoveEdge.relink p n tp tn)) := by
  unfold qhHull.RemoveEdge.link
  -- first assignment
  have s1 : (do
      let E ← h.halfEdge e
      let T ← E.twin.bind h.halfEdge
      let p ← E.prev
      h.setEdge p fun x => { x with next := T.next }) =
      some (h.editEdges fun y X => if y = p then { X with next := some tn } else X) := by
    simp only [hE, hEt, hT, hEp, hTn, bind, Option.bind, qhHull.setEdge_eq h p P _ hP]
  rw [s1]
  simp only [bind, Option.bind]
  generalize hh1 : (h.editEdges fun y X => if y = p then { X with next := some tn } else X) = h1
  have r1 : ∀ y, y ≠ p → h1.halfEdge y = h.halfEdge y := by
    intro y hy
    rw [← hh1, qhHull.halfEdge_editEdges]
    cases h.halfEdge y <;> simp [hy]
  have hE1 : h1.halfEdge e = some E := by rw [r1 e (Ne.symm hpe), hE]
  have hT1 : h1.halfEdge t = some T := by rw [r1 t (Ne.symm hpt), hT]
  obtain ⟨N1, hN1⟩ : ∃ N1, h1.halfEdge n = some N1 := by
    rw [← hh1, qhHull.halfEdge_editEdges, hN]
    exact ⟨_, rfl⟩
  simp only [hE1, hEt, hT1, hEn, hTp, qhHull.setEdge_eq h1 n N1 _ hN1]
  generalize hh2 : (h1.editEdges fun y X => if y = n then { X with prev := some tp } else X) = h2
  have r2 : ∀ y, y ≠ n → h2.halfEdge y = h1.halfEdge y := by
    intro y hy
    rw [← hh2, qhHull.halfEdge_editEdges]
    cases h1.halfEdge y <;> simp [hy]
  have hE2 : h2.halfEdge e = some E := by rw [r2 e (Ne.symm hne), hE1]
  have hT2 : h2.halfEdge t = some T := by rw [r2 t (Ne.symm hnt), hT1]
  obtain ⟨TP2, hTP2⟩ : ∃ X, h2.halfEdge tp = some X := by
    rw [← hh2, qhHull.halfEdge_editEdges, ← hh1, qhHull.halfEdge_editEdges, hTP]
    exact ⟨_, rfl⟩
  simp only [hE2, hEt, hT2, hEn, hTp, qhHull.setEdge_eq h2 tp TP2 _ hTP2]
  generalize hh3 : (h2.editEdges fun y X => if y = tp then { X with next := some n } else X) = h3
  have r3 : ∀ y, y ≠ tp → h3.halfEdge y = h2.halfEdge y := by
    intro y hy
    rw [← hh3, qhHull.halfEdge_editEdges]
    cases h2.halfEdge y <;> simp [hy]
  have hE3 : h3.halfEdge e = some E := by rw [r3 e (Ne.symm htpe), hE2]
  have hT3 : h3.halfEdge t = some T := by rw [r3 t (Ne.symm htpt), hT2]
  obtain ⟨TN3, hTN3⟩ : ∃ X, h3.halfEdge tn = some X := by
    rw [← hh3, qhHull.halfEdge_editEdges, ← hh2, qhHull.halfEdge_editEdges, ← hh1,
      qhHull.halfEdge_editEdges, hTN]
    exact ⟨_, rfl⟩
  simp only [hE3, hEt, hT3, hEp, hTn, qhHull.setEdge_eq h3 tn TN3 _ hTN3]
  rw [← hh3, ← hh2, ← hh1]
  simp only [qhHull.editEdges_editEdges]
  congr 1
  apply qhHull.editEdges_congr
  intro y Y _
  simp only [qhHull.RemoveEdge.relink]
  split_ifs <;> first
    | rfl
    | (exfalso; omega)

end

section

variable {K : Type} [LinearOrderedField K]

theorem qhList.lookup_set_map {α : Type} (l : List α) (x y : Nat) (a : α) (g : α → α)
    (hx : l[x]? = some a) : (l.set x (g a))[y]? = (l[y]?).map fun b => if y = x then g b else b := by
  rw [qhList.set_eq_mapIdx l x a g hx, List.getElem?_mapIdx]

theorem qhHull.RemoveEdge.release_eq (h : qhHull K) (e t leftFace : Nat) (E T : qhHalfEdge)
    (LF : qhFace K) (hE : h.halfEdge e = some E) (hT : h.halfEdge t = some T)
    (hEt : E.twin = some t) (hL : h.face leftFace = some LF) (hmem : leftFace ∈ h.m_faceList) :
    qhHull.RemoveEdge.release h e leftFace =
      some { (h.editEdges fun y X =>
          if y = e ∨ y = t then { X with active := false } else X).editFaces fun f F =>
            if f = leftFace then { F with active := false } else F with
        m_freeEdges := e :: t :: h.m_freeEdges
        m_faceList := h.m_faceList.erase leftFace
        m_freeFaces := leftFace :: h.m_freeFaces } := by
  obtain ⟨nx, hnx⟩ := qhList.Remove_mem h.m_faceList leftFace hmem
  obtain ⟨vs, es, fs, fv, fe, ff, vl, fl, tol, it, hz, hzv, cv, nf⟩ := h
  simp only [qhHull.halfEdge, qhHull.face] at hE hT hL hnx
  have hlte : e < es.length := by
    by_contra hge
    rw [List.getElem?_eq_none (not_lt.mp hge)] at hE
    cases hE
  have hltt : t < es.length := by
    by_contra hge
    rw [List.getElem?_eq_none (not_lt.mp hge)] at hT
    cases hT
  have he1 : (es.set t { T with active := false })[e]? =
      some (if e = t then { E with active := false } else E) := by
    rw [List.getElem?_set]
    by_cases hte : t = e
    · subst hte
      rw [hT] at hE
      cases hE
      simp [hltt]
    · have hte' : ¬ e = t := fun hh => hte hh.symm
      simp [hte, hte', hE]
  simp only [qhHull.RemoveEdge.release, qhHull.halfEdge, hE, hEt, bind, Option.bind,
    qhHull.FreeEdge, qhHull.setEdge, hT, Option.map_some', pure, he1, hnx, qhHull.FreeFace,
    qhHull.setFace, hL, Option.some.injEq, qhHull.editEdges, qhHull.editFaces]
  congr 1
  · apply List.ext_getElem?
    intro y
    rw [List.getElem?_mapIdx, List.getElem?_set, List.getElem?_set]
    by_cases hye : e = y
    · subst hye
      simp [hlte, hE]
      split_ifs <;> simp [hEt]
    · by_cases hyt : t = y
      · subst hyt
        simp [hye, hltt, hT]
      · have h1 : ¬ y = e := fun hh => hye hh.symm
        have h2 : ¬ y = t := fun hh => hyt hh.symm
        simp only [hye, hyt, if_false, h1, h2, or_self]
        cases es[y]? <;> rfl
  · rw [qhList.set_eq_mapIdx fs leftFace LF (fun F => { F with active := false }) hL]

end

section

variable {K : Type} [LinearOrderedField K]

set_option maxHeartbeats 1000000 in
/-- The function `RemoveEdge` up to its call of `b3ComputePlane`, on a mesh
whose records around `e` are known. -/
theorem qhHull.RemoveEdge_eq (env : b3Env K) (h : qhHull K) (e t p n tp tn leftFace rightFace : Nat)
    (E T P N TP TN : qhHalfEdge) (LF RF : qhFace K) (restL : List Nat)
    (hE : h.halfEdge e = some E) (hT : h.halfEdge t = some T) (hP : h.halfEdge p = some P)
    (hN : h.halfEdge n = some N) (hTP : h.halfEdge tp = some TP) (hTN : h.halfEdge tn = some TN)
    (hEt : E.twin = some t) (hEp : E.prev = some p) (hEn : E.next = some n)
    (hTp : T.prev = some tp) (hTn : T.next = some tn)
    (hEf : E.face = some rightFace) (hTf : T.face = some leftFace) (hLR : leftFace ≠ rightFace)
    (hL : h.face leftFace = some LF) (hR : h.face rightFace = some RF)
    (hmem : leftFace ∈ h.m_faceList)
    (hv : ∀ v ∈ LF.conflictList, ∃ V, h.vertex v = some V)
    (hchain : List.Chain' (fun a b => h.next a = some b) (t :: restL ++ [t]))
    (hts : t ∉ restL) (hex : ∀ y ∈ t :: restL, ∃ Y, h.halfEdge y = some Y)
    (hlen : (t :: restL).length ≤ h.edges.length)
    (hpe : p ≠ e) (hpt : p ≠ t) (hne : n ≠ e) (hnt : n ≠ t) (htpe : tp ≠ e) (htpt : tp ≠ t)
    (hptp : p ≠ tp) (hntn : n ≠ tn) :
    qhHull.RemoveEdge env h e =
      qhHull.RemoveEdge.finish env
        (qhHull.RemoveEdge.spliced h leftFace rightFace LF.conflictList (t :: restL) e t p n tp tn)
        rightFace := by
  unfold qhHull.RemoveEdge
  simp only [hE, hEt, hT, hTf, hEf, hL, bind, Option.bind,
    qhHull.RemoveEdge.move_eq leftFace rightFace hLR LF.conflictList h LF RF hL rfl hR hv]
  -- the right face starts at `e->prev`
  generalize hh1 : qhHull.RemoveEdge.moved h leftFace rightFace LF.conflictList = h1
  have hedges1 : h1.edges = h.edges := by rw [← hh1]; rfl
  have hfl1 : h1.m_faceList = h.m_faceList := by rw [← hh1]; rfl
  obtain ⟨RF1, hRF1⟩ : ∃ X, h1.face rightFace = some X := by
    rw [← hh1]
    unfold qhHull.RemoveEdge.moved
    rw [qhHull.face_editVertices, qhHull.face_editFaces, hR]
    exact ⟨_, rfl⟩
  obtain ⟨LF1, hLF1⟩ : ∃ X, h1.face leftFace = some X := by
    rw [← hh1]
    unfold qhHull.RemoveEdge.moved
    rw [qhHull.face_editVertices, qhHull.face_editFaces, hL]
    exact ⟨_, rfl⟩
  simp only [qhHull.setFace_eq h1 rightFace RF1 _ hRF1]
  generalize hh2 : (h1.editFaces fun y F => if y = rightFace then
    { F with edge := E.prev } else F) = h2
  have hedges2 : h2.edges = h.edges := by rw [← hh2, ← hedges1]; rfl
  have hhe2 : ∀ y, h2.halfEdge y = h.halfEdge y := by
    intro y
    simp only [qhHull.halfEdge, hedges2]
  have hnext2 : ∀ y, h2.next y = h.next y := by
    intro y
    simp only [qhHull.next, hhe2]
  rw [qhHull.RemoveEdge.absorb_eq rightFace t restL t h2 h2.edges.length
    (by rw [hedges2]; exact hlen) (by simp only [hnext2]; exact hchain) hts
    (by intro y hy; rw [hhe2]; exact hex y hy)]
  simp only
  generalize hh3 : (h2.editEdges fun y E => if y ∈ t :: restL then
    { E with face := some rightFace } else E) = h3
  have look3 : ∀ y Y, h.halfEdge y = some Y → ∃ Y3, h3.halfEdge y = some Y3 ∧
      Y3.twin = Y.twin ∧ Y3.prev = Y.prev ∧ Y3.next = Y.next := by
    intro y Y hY
    rw [← hh3, qhHull.halfEdge_editEdges, hhe2, hY]
    refine ⟨_, rfl, ?_⟩
    split_ifs <;> exact ⟨rfl, rfl, rfl⟩
  obtain ⟨E3, hE3, e3t, e3p, e3n⟩ := look3 e E hE
  obtain ⟨T3, hT3, t3t, t3p, t3n⟩ := look3 t T hT
  obtain ⟨P3, hP3, -⟩ := look3 p P hP
  obtain ⟨N3, hN3, -⟩ := look3 n N hN
  obtain ⟨TP3, hTP3, -⟩ := look3 tp TP hTP
  obtain ⟨TN3, hTN3, -⟩ := look3 tn TN hTN
  rw [qhHull.RemoveEdge.link_eq h3 e t p n tp tn E3 T3 P3 N3 TP3 TN3 hE3 hT3 hP3 hN3 hTP3 hTN3
    (by rw [e3t, hEt]) (by rw [e3p, hEp]) (by rw [e3n, hEn]) (by rw [t3p, hTp])
    (by rw [t3n, hTn]) hpe hpt hne hnt htpe htpt hptp hntn]
  simp only
  generalize hh4 : h3.editEdges (qhHull.RemoveEdge.relink p n tp tn) = h4
  obtain ⟨E4, hE4, e4t⟩ : ∃ X, h4.halfEdge e = some X ∧ X.twin = some t := by
    rw [← hh4, qhHull.halfEdge_editEdges, hE3]
    exact ⟨_, rfl, by simp only [qhHull.RemoveEdge.relink]; rw [e3t, hEt]⟩
  obtain ⟨T4, hT4⟩ : ∃ X, h4.halfEdge t = some X := by
    rw [← hh4, qhHull.halfEdge_editEdges, hT3]
    exact ⟨_, rfl⟩
  have hfl4 : h4.m_faceList = h.m_faceList := by
    rw [← hh4, ← hh3, ← hh2, ← hfl1]
    rfl
  obtain ⟨LF4, hLF4⟩ : ∃ X, h4.face leftFace = some X := by
    rw [← hh4, ← hh3, ← hh2, qhHull.face_editEdges, qhHull.face_editEdges,
      qhHull.face_editFaces, hLF1]
    exact ⟨_, rfl⟩
  rw [qhHull.RemoveEdge.release_eq h4 e t leftFace E4 T4 LF4 hE4 hT4 e4t hLF4
    (by rw [hfl4]; exact hmem)]
  simp only
  congr 1
  rw [← hh4, ← hh3, ← hh2, ← hh1]
  obtain ⟨vs, es, fs, fv, fe, ff, vl, fl, tol, it, hz, hzv, cv, nf⟩ := h
  simp only [qhHull.RemoveEdge.spliced, qhHull.RemoveEdge.moved, qhHull.editEdges,
    qhHull.editFaces, qhHull.editVertices, qhList.mapIdx_mapIdx, qhHull.mk.injEq, true_and,
    and_true]
  simp only [qhHull.halfEdge, qhHull.face] at hE hT
  constructor
  · apply qhList.mapIdx_congr
    intro y Y hY
    simp only [qhHull.RemoveEdge.relink, qhHull.RemoveEdge.rewire]
    split_ifs <;> first
      | rfl
      | (exfalso; omega)
      | simp_all
  · apply qhList.mapIdx_congr
    intro f F hF
    rw [hEp]
    split_ifs <;> first
      | rfl
      | (exfalso; omega)
      | simp_all

end

section

variable {K : Type} [LinearOrderedField K]

theorem qhHull.IsLoop_iff_chain (h : qhHull K) (start : Nat) : ∀ l : List Nat,
    h.IsLoop start l ↔ l ≠ [] ∧ List.Chain' (fun a b => h.next a = some b) (l ++ [start]) := by
  intro l
  induction l with
  | nil => simp [qhHull.IsLoop]
  | cons e l ih =>
    cases l with
    | nil => simp [qhHull.IsLoop]
    | cons e' l =>
      simp only [qhHull.IsLoop, ih, List.cons_append, List.chain'_cons, ne_eq, reduceCtorEq,
        not_false_eq_true, true_and]

theorem qhList.chain_rotate {R : Nat → Nat → Prop} (A B : List Nat) (e hd : Nat)
    (hhd : (A ++ e :: B).head? = some hd) (hc : List.Chain' R (A ++ e :: B ++ [hd])) :
    List.Chain' R (e :: (B ++ A) ++ [e]) := by
  cases A with
  | nil =>
    simp only [List.nil_append, List.head?_cons, Option.some.injEq] at hhd
    subst hhd
    simpa using hc
  | cons a A1 =>
    simp only [List.cons_append, List.head?_cons, Option.some.injEq] at hhd
    subst hhd
    have hc' : List.Chain' R ((a :: A1) ++ e :: (B ++ [a])) := by simpa using hc
    obtain ⟨c1, c2⟩ := List.chain'_split.mp hc'
    have : List.Chain' R ((e :: B) ++ a :: (A1 ++ [e])) :=
      List.chain'_split.mpr ⟨by simpa using c2, by simpa using c1⟩
    simpa using this

theorem qhList.chain_congr {R S : Nat → Nat → Prop} (z : Nat) : ∀ l : List Nat,
    List.Chain' R (l ++ [z]) → (∀ a ∈ l, ∀ b, R a b → S a b) → List.Chain' S (l ++ [z]) := by
  intro l
  induction l with
  | nil => intro _ _; simp
  | cons x l ih =>
    intro hc hl
    cases l with
    | nil =>
      simp only [List.cons_append, List.nil_append, List.chain'_cons, List.chain'_singleton,
        and_true] at hc ⊢
      exact hl x (List.mem_cons_self _ _) z hc
    | cons y l =>
      simp only [List.cons_append, List.chain'_cons] at hc ⊢
      exact ⟨hl x (List.mem_cons_self _ _) y hc.1,
        ih (by simpa using hc.2) fun a ha => hl a (List.mem_cons_of_mem _ ha)⟩

/-- A half-edge of the cycle of a face, followed by the other half-edges of
the cycle in their order, closes a chain of `next` pointers. -/
theorem qhHull.HalfEdgeInv.around (h : qhHull K) (cyc : Nat → List Nat) (hinv : h.HalfEdgeInv cyc)
    (f : Nat) (hf : f ∈ h.m_faceList) (e : Nat) (he : e ∈ cyc f) :
    ∃ rest, (e :: rest).Perm (cyc f) ∧ (e :: rest).Nodup ∧
      List.Chain' (fun a b => h.next a = some b) (e :: rest ++ [e]) := by
  obtain ⟨F, e0, _, _, hhead, hnd, hloop⟩ := hinv.cycle f hf
  obtain ⟨A, B, hAB⟩ := List.append_of_mem he
  rw [hAB] at hhead hnd hloop
  obtain ⟨_, hchain⟩ := (qhHull.IsLoop_iff_chain h e0 _).mp hloop
  have hperm : (e :: (B ++ A)).Perm (cyc f) := by
    rw [hAB]
    have h1 : (e :: (B ++ A)).Perm ((e :: B) ++ A) := by simp
    exact h1.trans List.perm_append_comm
  refine ⟨B ++ A, hperm, ?_, qhList.chain_rotate A B e e0 hhead hchain⟩
  exact (List.Perm.nodup_iff (by rw [hAB] at hperm; exact hperm)).mpr hnd

end

section

variable {K : Type} [LinearOrderedField K]

/-- A half-edge lies on the cycle of one face only. -/
theorem qhHull.HalfEdgeInv.unique (h : qhHull K) (cyc : Nat → List Nat) (hinv : h.HalfEdgeInv cyc)
    (f g : Nat) (hf : f ∈ h.m_faceList) (hg : g ∈ h.m_faceList) (x : Nat) (hxf : x ∈ cyc f)
    (hxg : x ∈ cyc g) : f = g := by
  obtain ⟨X, _, _, _, _, hX, _, hXf, _⟩ := hinv.edge f hf x hxf
  obtain ⟨X', _, _, _, _, hX', _, hXg, _⟩ := hinv.edge g hg x hxg
  rw [hX] at hX'
  cases hX'
  rw [hXf] at hXg
  exact Option.some.inj hXg

theorem qhList.last_mem {l : List Nat} {a : Nat} (h : l.getLast? = some a) : a ∈ l :=
  List.mem_of_getLast?_eq_some h

theorem qhList.first_mem {l : List Nat} {a : Nat} (h : l.head? = some a) : a ∈ l :=
  List.mem_of_mem_head? h

/-- The last link of a closed chain. -/
theorem qhList.chain_last {R : Nat → Nat → Prop} (x z : Nat) (l : List Nat) (a : Nat)
    (hc : List.Chain' R (x :: l ++ [z])) (ha : l.getLast? = some a) : R a z := by
  have h1 : List.Chain' R ((x :: l) ++ [z]) := by simpa using hc
  rw [List.chain'_append] at h1
  refine h1.2.2 a ?_ z (by simp)
  cases l with
  | nil => simp at ha
  | cons y l =>
    rw [List.getLast?_cons_cons]
    exact ha

/-- The first link of a closed chain. -/
theorem qhList.chain_first {R : Nat → Nat → Prop} (x z : Nat) (l : List Nat) (a : Nat)
    (hc : List.Chain' R (x :: l ++ [z])) (ha : l.head? = some a) : R x a := by
  cases l with
  | nil => simp at ha
  | cons y l =>
    simp only [List.head?_cons, Option.some.injEq] at ha
    subst ha
    simp only [List.cons_append, List.chain'_cons] at hc
    exact hc.1

/-- The data of `RemoveEdge(e)` from the half-edge invariants, for two cycles
of at least two half-edges. -/
theorem qhHull.RemoveEdge.around_of_inv (h : qhHull K) (cyc : Nat → List Nat)
    (hinv : h.HalfEdgeInv cyc) (e t leftFace rightFace : Nat) (E T : qhHalfEdge)
    (hE : h.halfEdge e = some E) (hact : E.active = true) (hEt : E.twin = some t)
    (hT : h.halfEdge t = some T) (hEf : E.face = some rightFace) (hTf : T.face = some leftFace)
    (hLR : leftFace ≠ rightFace) (hlenR : 2 ≤ (cyc rightFace).length)
    (hlenL : 2 ≤ (cyc leftFace).length) :
    ∃ p n tp tn restR restL,
      qhHull.RemoveEdge.Around h cyc e t p n tp tn leftFace rightFace restR restL := by
  obtain ⟨f, hf, hEf', heR⟩ := hinv.owner e E hE hact
  rw [hEf] at hEf'
  cases hEf'
  obtain ⟨E', t', T', _, _, hE', _, _, hEt', hT', hTact, _⟩ := hinv.edge _ hf e heR
  rw [hE] at hE'
  cases hE'
  rw [hEt] at hEt'
  cases hEt'
  rw [hT] at hT'
  cases hT'
  obtain ⟨g, hg, hTf', htL⟩ := hinv.owner t T hT hTact
  rw [hTf] at hTf'
  cases hTf'
  obtain ⟨restR, permR, _, chainR⟩ := qhHull.HalfEdgeInv.around h cyc hinv _ hf e heR
  obtain ⟨restL, permL, _, chainL⟩ := qhHull.HalfEdgeInv.around h cyc hinv _ hg t htL
  have hR1 : restR ≠ [] := by
    intro h0
    have := permR.length_eq
    rw [h0] at this
    simp at this
    omega
  have hL1 : restL ≠ [] := by
    intro h0
    have := permL.length_eq
    rw [h0] at this
    simp at this
    omega
  obtain ⟨n, rR, hnR⟩ := List.exists_cons_of_ne_nil hR1
  obtain ⟨tn, rL, hnL⟩ := List.exists_cons_of_ne_nil hL1
  refine ⟨restR.getLast hR1, n, restL.getLast hL1, tn, restR, restL,
    ⟨hinv, hf, hg, hLR, permR, permL, chainR, chainL, ?_, List.getLast?_eq_getLast _ hR1, ?_,
      List.getLast?_eq_getLast _ hL1, ?_⟩⟩
  · simp only [qhHull.twin, hE, Option.some_bind, hEt]
  · rw [hnR]; rfl
  · rw [hnL]; rfl

end

section

variable {K : Type} [LinearOrderedField K]

variable {h : qhHull K} {cyc : Nat → List Nat} {e t p n tp tn leftFace rightFace : Nat}
  {restR restL : List Nat}

theorem qhHull.RemoveEdge.Around.memR
    (ha : qhHull.RemoveEdge.Around h cyc e t p n tp tn leftFace rightFace restR restL) (x : Nat) :
    x ∈ e :: restR ↔ x ∈ cyc rightFace := ha.permR.mem_iff

theorem qhHull.RemoveEdge.Around.memL
    (ha : qhHull.RemoveEdge.Around h cyc e t p n tp tn leftFace rightFace restR restL) (x : Nat) :
    x ∈ t :: restL ↔ x ∈ cyc leftFace := ha.permL.mem_iff

theorem qhHull.RemoveEdge.Around.ndR
    (ha : qhHull.RemoveEdge.Around h cyc e t p n tp tn leftFace rightFace restR restL) :
    (e :: restR).Nodup := by
  obtain ⟨_, _, _, _, _, hnd, _⟩ := ha.inv.cycle rightFace ha.hR
  exact (List.Perm.nodup_iff ha.permR).mpr hnd

theorem qhHull.RemoveEdge.Around.ndL
    (ha : qhHull.RemoveEdge.Around h cyc e t p n tp tn leftFace rightFace restR restL) :
    (t :: restL).Nodup := by
  obtain ⟨_, _, _, _, _, hnd, _⟩ := ha.inv.cycle leftFace ha.hL
  exact (List.Perm.nodup_iff ha.permL).mpr hnd

/-- The cycles of the two faces have no half-edge in common. -/
theorem qhHull.RemoveEdge.Around.apart
    (ha : qhHull.RemoveEdge.Around h cyc e t p n tp tn leftFace rightFace restR restL) (x : Nat)
    (hx : x ∈ e :: restR) (hy : x ∈ t :: restL) : False :=
  ha.hLR (qhHull.HalfEdgeInv.unique h cyc ha.inv leftFace rightFace ha.hL ha.hR x
    ((ha.memL x).mp hy) ((ha.memR x).mp hx))

theorem qhHull.RemoveEdge.Around.records
    (ha : qhHull.RemoveEdge.Around h cyc e t p n tp tn leftFace rightFace restR restL) :
    ∃ E T P N TP TN,
      qhHull.RemoveEdge.Records h e t p n tp tn leftFace rightFace E T P N TP TN := by
  have hpR : p ∈ restR := qhList.last_mem ha.lastR
  have hnR : n ∈ restR := qhList.first_mem ha.headR
  have hpL : tp ∈ restL := qhList.last_mem ha.lastL
  have hnL : tn ∈ restL := qhList.first_mem ha.headL
  have ndR := ha.ndR
  have ndL := ha.ndL
  obtain ⟨E, t', T, n', N, hE, _, hEf, hEt, hT, _, hTt, hEn, hN, hNp, htailT⟩ :=
    ha.inv.edge rightFace ha.hR e ((ha.memR e).mp (List.mem_cons_self _ _))
  have ht' : t' = t := by
    have := ha.twinE
    simp only [qhHull.twin, hE, Option.some_bind, hEt, Option.some.injEq] at this
    exact this
  subst ht'
  have hn' : n' = n := by
    have := qhList.chain_first e e restR n ha.chainR ha.headR
    simp only [qhHull.next, hE, Option.some_bind, hEn, Option.some.injEq] at this
    exact this
  subst hn'
  obtain ⟨T', e', E', tn', TN, hT', _, hTf, hTt', hE', _, _, hTn, hTN, hTNp, htailE⟩ :=
    ha.inv.edge leftFace ha.hL t' ((ha.memL t').mp (List.mem_cons_self _ _))
  rw [hT] at hT'
  cases hT'
  rw [hTt] at hTt'
  cases hTt'
  rw [hE] at hE'
  cases hE'
  have htn' : tn' = tn := by
    have := qhList.chain_first t' t' restL tn ha.chainL ha.headL
    simp only [qhHull.next, hT, Option.some_bind, hTn, Option.some.injEq] at this
    exact this
  subst htn'
  obtain ⟨P, _, _, e', E', hP, _, _, _, _, _, _, hPn, hE', hEp, _⟩ :=
    ha.inv.edge rightFace ha.hR p ((ha.memR p).mp (List.mem_cons_of_mem _ hpR))
  have he' : e' = e := by
    have := qhList.chain_last e e restR p ha.chainR ha.lastR
    simp only [qhHull.next, hP, Option.some_bind, hPn, Option.some.injEq] at this
    exact this
  subst he'
  rw [hE] at hE'
  cases hE'
  obtain ⟨TP, _, _, t'', T', hTP, _, _, _, _, _, _, hTPn, hT', hTp, _⟩ :=
    ha.inv.edge leftFace ha.hL tp ((ha.memL tp).mp (List.mem_cons_of_mem _ hpL))
  have ht'' : t'' = t' := by
    have := qhList.chain_last t' t' restL tp ha.chainL ha.lastL
    simp only [qhHull.next, hTP, Option.some_bind, hTPn, Option.some.injEq] at this
    exact this
  subst ht''
  rw [hT] at hT'
  cases hT'
  refine ⟨E, T, P, N, TP, TN, ⟨hE, hT, hP, hN, hTP, hTN, hEt, hTt, hEn, hEp, hTn, hTp, hPn, hTPn,
    hNp, hTNp, hEf, hTf, htailT, htailE, ?_, ?_, ?_, ?_⟩⟩
  · rintro rfl
    exact (List.nodup_cons.mp ndR).1 hpR
  · rintro rfl
    exact (List.nodup_cons.mp ndR).1 hnR
  · rintro rfl
    exact (List.nodup_cons.mp ndL).1 hpL
  · rintro rfl
    exact (List.nodup_cons.mp ndL).1 hnL

end

section

variable {K : Type} [LinearOrderedField K]

theorem qhHull.RemoveEdge.spliced_halfEdge (h : qhHull K) (leftFace rightFace : Nat)
    (lL cL : List Nat) (e t p n tp tn y : Nat) :
    (qhHull.RemoveEdge.spliced h leftFace rightFace lL cL e t p n tp tn).halfEdge y =
      (h.halfEdge y).map (qhHull.RemoveEdge.rewire rightFace cL e t p n tp tn y) := by
  show (List.mapIdx _ h.edges)[y]? = _
  rw [List.getElem?_mapIdx]
  rfl

theorem qhHull.RemoveEdge.spliced_faceList (h : qhHull K) (leftFace rightFace : Nat)
    (lL cL : List Nat) (e t p n tp tn : Nat) :
    (qhHull.RemoveEdge.spliced h leftFace rightFace lL cL e t p n tp tn).m_faceList =
      h.m_faceList.erase leftFace := rfl

theorem qhHull.RemoveEdge.spliced_length (h : qhHull K) (leftFace rightFace : Nat)
    (lL cL : List Nat) (e t p n tp tn : Nat) :
    (qhHull.RemoveEdge.spliced h leftFace rightFace lL cL e t p n tp tn).edges.length =
      h.edges.length := by
  show (List.mapIdx _ h.edges).length = _
  rw [List.length_mapIdx]

theorem qhHull.RemoveEdge.spliced_face (h : qhHull K) (leftFace rightFace : Nat)
    (lL cL : List Nat) (e t p n tp tn f : Nat) :
    (qhHull.RemoveEdge.spliced h leftFace rightFace lL cL e t p n tp tn).face f =
      (h.face f).map (qhHull.RemoveEdge.reface leftFace rightFace lL p f) := by
  show (List.mapIdx _ (List.mapIdx _ h.faces))[f]? = _
  rw [List.getElem?_mapIdx, List.getElem?_mapIdx]
  show Option.map _ (Option.map _ (h.face f)) = _
  cases h.face f with
  | none => rfl
  | some F =>
    simp only [Option.map_some', qhHull.RemoveEdge.reface, Option.some.injEq]
    split_ifs <;> rfl

theorem qhHull.RemoveEdge.spliced_vertex (h : qhHull K) (leftFace rightFace : Nat)
    (lL cL : List Nat) (e t p n tp tn v : Nat) :
    (qhHull.RemoveEdge.spliced h leftFace rightFace lL cL e t p n tp tn).vertex v =
      (h.vertex v).map fun V => if v ∈ lL then { V with conflictFace := some rightFace } else V := by
  show (List.mapIdx _ h.vertices)[v]? = _
  rw [List.getElem?_mapIdx]
  rfl

end

section

variable {K : Type} [LinearOrderedField K]

theorem qhHull.IsLoop_of_next (h h1 : qhHull K) (start : Nat) : ∀ l : List Nat,
    (∀ a ∈ l, h1.next a = h.next a) → h.IsLoop start l → h1.IsLoop start l := by
  intro l
  induction l with
  | nil => intro _ hl; exact hl
  | cons e l ih =>
    intro hn hl
    cases l with
    | nil =>
      simp only [qhHull.IsLoop] at hl ⊢
      rw [hn e (List.mem_cons_self _ _)]
      exact hl
    | cons e' l =>
      simp only [qhHull.IsLoop] at hl ⊢
      rw [hn e (List.mem_cons_self _ _)]
      exact ⟨hl.1, ih (fun a ha => hn a (List.mem_cons_of_mem _ ha)) hl.2⟩

variable {h : qhHull K} {cyc : Nat → List Nat} {e t p n tp tn leftFace rightFace : Nat}
  {restR restL : List Nat}

theorem qhHull.RemoveEdge.Around.splitR
    (ha : qhHull.RemoveEdge.Around h cyc e t p n tp tn leftFace rightFace restR restL) :
    restR.dropLast ++ [p] = restR :=
  List.dropLast_append_getLast? p ha.lastR

theorem qhHull.RemoveEdge.Around.splitL
    (ha : qhHull.RemoveEdge.Around h cyc e t p n tp tn leftFace rightFace restR restL) :
    restL.dropLast ++ [tp] = restL :=
  List.dropLast_append_getLast? tp ha.lastL

/-- The `next` pointers of the spliced mesh. -/
theorem qhHull.RemoveEdge.spliced_next (lL : List Nat) (y : Nat) (Y : qhHalfEdge)
    (hY : h.halfEdge y = some Y) :
    (qhHull.RemoveEdge.spliced h leftFace rightFace lL (t :: restL) e t p n tp tn).next y =
      if y = tp then some n else if y = p then some tn else Y.next := by
  simp only [qhHull.next, qhHull.RemoveEdge.spliced_halfEdge, hY, Option.map_some',
    Option.some_bind, qhHull.RemoveEdge.rewire]

/-- A half-edge of the new cycle of the right face is neither `e` nor `t`, and
it lay on the cycle of the right or of the left face. -/
theorem qhHull.RemoveEdge.Around.mem_new
    (ha : qhHull.RemoveEdge.Around h cyc e t p n tp tn leftFace rightFace restR restL) (x : Nat)
    (hx : x ∈ p :: restL ++ restR.dropLast) :
    x ≠ e ∧ x ≠ t ∧ ((x ∈ restR ∧ x ∉ t :: restL) ∨ (x ∈ restL ∧ x ∉ e :: restR)) := by
  have ndR := ha.ndR
  have ndL := ha.ndL
  have hpR : p ∈ restR := qhList.last_mem ha.lastR
  have hcase : x ∈ restR ∨ x ∈ restL := by
    simp only [List.cons_append, List.mem_cons, List.mem_append] at hx
    rcases hx with rfl | hx | hx
    · exact Or.inl hpR
    · exact Or.inr hx
    · exact Or.inl (List.mem_of_mem_dropLast hx)
  rcases hcase with hxR | hxL
  · have hxe : x ≠ e := by
      rintro rfl
      exact (List.nodup_cons.mp ndR).1 hxR
    have hxL : x ∉ t :: restL := fun hh => ha.apart x (List.mem_cons_of_mem _ hxR) hh
    exact ⟨hxe, fun hh => hxL (by rw [hh]; exact List.mem_cons_self _ _), Or.inl ⟨hxR, hxL⟩⟩
  · have hxt : x ≠ t := by
      rintro rfl
      exact (List.nodup_cons.mp ndL).1 hxL
    have hxR : x ∉ e :: restR := fun hh => ha.apart x hh (List.mem_cons_of_mem _ hxL)
    exact ⟨fun hh => hxR (by rw [hh]; exact List.mem_cons_self _ _), hxt, Or.inr ⟨hxL, hxR⟩⟩

end

section

variable {K : Type} [LinearOrderedField K]

variable {h : qhHull K} {cyc : Nat → List Nat} {e t p n tp tn leftFace rightFace : Nat}
  {restR restL : List Nat} {E T P N TP TN : qhHalfEdge}

/-- The invariant of one half-edge survives `RemoveEdge`, unless the half-edge
is `e` or its twin. -/
theorem qhHull.RemoveEdge.spliced_edge
    (hr : qhHull.RemoveEdge.Records h e t p n tp tn leftFace rightFace E T P N TP TN)
    (hptp : p ≠ tp) (hntn : n ≠ tn) (lL cL : List Nat) (x g : Nat) (hxe : x ≠ e) (hxt : x ≠ t)
    (hpre : ∃ X tw TW nx NX, h.halfEdge x = some X ∧
      X.active = true ∧ X.face = some g ∧ X.twin = some tw ∧ h.halfEdge tw = some TW ∧
      TW.active = true ∧ TW.twin = some x ∧ X.next = some nx ∧ h.halfEdge nx = some NX ∧
      NX.prev = some x ∧ TW.tail = NX.tail) :
    ∃ X tw TW nx NX,
      (qhHull.RemoveEdge.spliced h leftFace rightFace lL cL e t p n tp tn).halfEdge x = some X ∧
      X.active = true ∧ X.face = some (if x ∈ cL then rightFace else g) ∧ X.twin = some tw ∧
      (qhHull.RemoveEdge.spliced h leftFace rightFace lL cL e t p n tp tn).halfEdge tw = some TW ∧
      TW.active = true ∧ TW.twin = some x ∧ X.next = some nx ∧
      (qhHull.RemoveEdge.spliced h leftFace rightFace lL cL e t p n tp tn).halfEdge nx = some NX ∧
      NX.prev = some x ∧ TW.tail = NX.tail := by
  obtain ⟨X, tw, TW, nx, NX, hX, hact, hface, htw, hTW, htwact, htwtw, hnx, hNX, hprev, htail⟩ := hpre
  have htwe : tw ≠ e := by
    rintro rfl
    rw [hr.hE] at hTW
    cases hTW
    rw [hr.Et] at htwtw
    exact hxt (Option.some.inj htwtw).symm
  have htwt : tw ≠ t := by
    rintro rfl
    rw [hr.hT] at hTW
    cases hTW
    rw [hr.Tt] at htwtw
    exact hxe (Option.some.inj htwtw).symm
  have look : ∀ y Y, h.halfEdge y = some Y →
      (qhHull.RemoveEdge.spliced h leftFace rightFace lL cL e t p n tp tn).halfEdge y =
        some (qhHull.RemoveEdge.rewire rightFace cL e t p n tp tn y Y) := by
    intro y Y hY
    rw [qhHull.RemoveEdge.spliced_halfEdge, hY]
    rfl
  have hXact : (qhHull.RemoveEdge.rewire rightFace cL e t p n tp tn x X).active = true := by
    simp only [qhHull.RemoveEdge.rewire, hxe, hxt, or_self, if_false, hact]
  have hXface : (qhHull.RemoveEdge.rewire rightFace cL e t p n tp tn x X).face =
      some (if x ∈ cL then rightFace else g) := by
    simp only [qhHull.RemoveEdge.rewire]
    split_ifs
    · rfl
    · exact hface
  have hTWact : (qhHull.RemoveEdge.rewire rightFace cL e t p n tp tn tw TW).active = true := by
    simp only [qhHull.RemoveEdge.rewire, htwe, htwt, or_self, if_false, htwact]
  by_cases c1 : x = tp
  · subst c1
    rw [hr.hTP] at hX
    cases hX
    rw [hr.TPn] at hnx
    cases hnx
    rw [hr.hT] at hNX
    cases hNX
    refine ⟨_, tw, _, n, _, look _ _ hr.hTP, hXact, hXface, htw, look tw TW hTW, hTWact, htwtw,
      ?_, look n N hr.hN, ?_, ?_⟩
    · simp only [qhHull.RemoveEdge.rewire, if_true]
    · simp only [qhHull.RemoveEdge.rewire, hntn, if_false, if_true]
    · show TW.tail = N.tail
      rw [htail, hr.tailT]
  · by_cases c2 : x = p
    · subst c2
      rw [hr.hP] at hX
      cases hX
      rw [hr.Pn] at hnx
      cases hnx
      rw [hr.hE] at hNX
      cases hNX
      refine ⟨_, tw, _, tn, _, look _ _ hr.hP, hXact, hXface, htw, look tw TW hTW, hTWact, htwtw,
        ?_, look tn TN hr.hTN, ?_, ?_⟩
      · simp only [qhHull.RemoveEdge.rewire, c1, if_false, if_true]
      · simp only [qhHull.RemoveEdge.rewire, if_true]
      · show TW.tail = TN.tail
        rw [htail, hr.tailE]
    · have hnxtn : nx ≠ tn := by
        rintro rfl
        rw [hr.hTN] at hNX
        cases hNX
        rw [hr.TNp] at hprev
        exact hxt (Option.some.inj hprev).symm
      have hnxn : nx ≠ n := by
        rintro rfl
        rw [hr.hN] at hNX
        cases hNX
        rw [hr.Np] at hprev
        exact hxe (Option.some.inj hprev).symm
      refine ⟨_, tw, _, nx, _, look x X hX, hXact, hXface, htw, look tw TW hTW, hTWact, htwtw,
        ?_, look nx NX hNX, ?_, htail⟩
      · simp only [qhHull.RemoveEdge.rewire, c1, c2, if_false, hnx]
      · simp only [qhHull.RemoveEdge.rewire, hnxtn, hnxn, if_false, hprev]

end

section

variable {K : Type} [LinearOrderedField K]

variable {h : qhHull K} {cyc : Nat → List Nat} {e t p n tp tn leftFace rightFace : Nat}
  {restR restL : List Nat}

theorem qhHull.RemoveEdge.Around.distinct
    (ha : qhHull.RemoveEdge.Around h cyc e t p n tp tn leftFace rightFace restR restL) :
    p ≠ tp ∧ n ≠ tn ∧ p ≠ t ∧ n ≠ t ∧ tp ≠ e ∧ tn ≠ e := by
  have hpR : p ∈ restR := qhList.last_mem ha.lastR
  have hnR : n ∈ restR := qhList.first_mem ha.headR
  have hpL : tp ∈ restL := qhList.last_mem ha.lastL
  have hnL : tn ∈ restL := qhList.first_mem ha.headL
  refine ⟨?_, ?_, ?_, ?_, ?_, ?_⟩
  · intro hh
    exact ha.apart p (List.mem_cons_of_mem _ hpR) (by rw [hh]; exact List.mem_cons_of_mem _ hpL)
  · intro hh
    exact ha.apart n (List.mem_cons_of_mem _ hnR) (by rw [hh]; exact List.mem_cons_of_mem _ hnL)
  · intro hh
    exact ha.apart p (List.mem_cons_of_mem _ hpR) (by rw [hh]; exact List.mem_cons_self _ _)
  · intro hh
    exact ha.apart n (List.mem_cons_of_mem _ hnR) (by rw [hh]; exact List.mem_cons_self _ _)
  · intro hh
    exact ha.apart tp (by rw [hh]; exact List.mem_cons_self _ _) (List.mem_cons_of_mem _ hpL)
  · intro hh
    exact ha.apart tn (by rw [hh]; exact List.mem_cons_self _ _) (List.mem_cons_of_mem _ hnL)

/-- The new cycle of the right face is a closed chain of `next` pointers. -/
theorem qhHull.RemoveEdge.Around.new_chain
    (ha : qhHull.RemoveEdge.Around h cyc e t p n tp tn leftFace rightFace restR restL)
    (lL : List Nat) :
    List.Chain' (fun a b =>
      (qhHull.RemoveEdge.spliced h leftFace rightFace lL (t :: restL) e t p n tp tn).next a =
        some b) ((p :: restL ++ restR.dropLast) ++ [p]) := by
  obtain ⟨E, T, P, N, TP, TN, hr⟩ := ha.records
  obtain ⟨hptp, hntn, hpt, hnt, htpe, htne⟩ := ha.distinct
  have ndR := ha.ndR
  have ndL := ha.ndL
  have hsR := ha.splitR
  have hsL := ha.splitL
  have hpR : p ∈ restR := qhList.last_mem ha.lastR
  have hpL : tp ∈ restL := qhList.last_mem ha.lastL
  -- the chains of the two rests
  have cR : List.Chain' (fun a b => h.next a = some b) (restR.dropLast ++ [p]) := by
    rw [hsR]
    have h1 : List.Chain' (fun a b => h.next a = some b) (e :: (restR ++ [e])) := by
      simpa using ha.chainR
    exact (List.chain'_append.mp h1.tail).1
  have cL : List.Chain' (fun a b => h.next a = some b) (restL.dropLast ++ [tp]) := by
    rw [hsL]
    have h1 : List.Chain' (fun a b => h.next a = some b) (t :: (restL ++ [t])) := by
      simpa using ha.chainL
    exact (List.chain'_append.mp h1.tail).1
  have keep : ∀ a, a ≠ tp → a ≠ p → (a ∈ restR ∨ a ∈ restL) → ∀ b, h.next a = some b →
      (qhHull.RemoveEdge.spliced h leftFace rightFace lL (t :: restL) e t p n tp tn).next a =
        some b := by
    intro a h1 h2 hmem b hb
    have hrec : ∃ A, h.halfEdge a = some A := by
      cases hA : h.halfEdge a with
      | none => simp [qhHull.next, hA] at hb
      | some A => exact ⟨A, rfl⟩
    obtain ⟨A, hA⟩ := hrec
    rw [qhHull.RemoveEdge.spliced_next lL a A hA, if_neg h1, if_neg h2]
    rwa [qhHull.next_eq h a A hA] at hb
  have cR' := qhList.chain_congr p restR.dropLast cR (fun a haR b hb => keep a
    (fun hh => ha.apart a (List.mem_cons_of_mem _ (List.mem_of_mem_dropLast haR))
      (by rw [hh]; exact List.mem_cons_of_mem _ hpL))
    (fun hh => by
      have hnd : (restR.dropLast ++ [p]).Nodup := by
        rw [hsR]
        exact (List.nodup_cons.mp ndR).2
      rw [List.nodup_append] at hnd
      exact hnd.2.2 haR (by rw [hh]; exact List.mem_singleton_self _))
    (Or.inl (List.mem_of_mem_dropLast haR)) b hb)
  have cL' := qhList.chain_congr tp restL.dropLast cL (fun a haL b hb => keep a
    (fun hh => by
      have hnd : (restL.dropLast ++ [tp]).Nodup := by
        rw [hsL]
        exact (List.nodup_cons.mp ndL).2
      rw [List.nodup_append] at hnd
      exact hnd.2.2 haL (by rw [hh]; exact List.mem_singleton_self _))
    (fun hh => ha.apart a (by rw [hh]; exact List.mem_cons_of_mem _ hpR)
      (List.mem_cons_of_mem _ (List.mem_of_mem_dropLast haL)))
    (Or.inr (List.mem_of_mem_dropLast haL)) b hb)
  rw [hsR] at cR'
  rw [hsL] at cL'
  have hlist : (p :: restL ++ restR.dropLast) ++ [p] = p :: (restL ++ restR) := by
    rw [List.cons_append, List.cons_append, List.append_assoc, hsR]
  rw [hlist, List.chain'_cons']
  constructor
  · intro y hy
    have hy' : y = tn := by
      have h1 : (restL ++ restR).head? = some tn := by
        rw [List.head?_append, ha.headL]
        rfl
      rw [h1] at hy
      exact (Option.some.inj hy).symm
    subst hy'
    rw [qhHull.RemoveEdge.spliced_next lL p P hr.hP, if_neg hptp, if_pos rfl]
  · rw [List.chain'_append]
    refine ⟨cL', cR', ?_⟩
    intro x hx y hy
    rw [ha.lastL] at hx
    rw [ha.headR] at hy
    cases hx
    cases hy
    rw [qhHull.RemoveEdge.spliced_next lL tp TP hr.hTP, if_pos rfl]

theorem qhHull.RemoveEdge.Around.new_nodup
    (ha : qhHull.RemoveEdge.Around h cyc e t p n tp tn leftFace rightFace restR restL) :
    (p :: restL ++ restR.dropLast).Nodup := by
  have ndR := ha.ndR
  have ndL := ha.ndL
  have hsR := ha.splitR
  have hpR : p ∈ restR := qhList.last_mem ha.lastR
  have hnd : (restR.dropLast ++ [p]).Nodup := by
    rw [hsR]
    exact (List.nodup_cons.mp ndR).2
  rw [List.nodup_append] at hnd
  rw [List.cons_append, List.nodup_cons, List.mem_append, List.nodup_append]
  refine ⟨?_, (List.nodup_cons.mp ndL).2, hnd.1, ?_⟩
  · rintro (hh | hh)
    · exact ha.apart p (List.mem_cons_of_mem _ hpR) (List.mem_cons_of_mem _ hh)
    · exact hnd.2.2 hh (List.mem_singleton_self _)
  · intro a haL haR
    exact ha.apart a (List.mem_cons_of_mem _ (List.mem_of_mem_dropLast haR))
      (List.mem_cons_of_mem _ haL)

end

section

variable {K : Type} [LinearOrderedField K]

variable {h : qhHull K} {cyc : Nat → List Nat} {e t p n tp tn leftFace rightFace : Nat}
  {restR restL : List Nat}

/-- The half-edge invariants hold in the mesh that `RemoveEdge` has spliced,
with the new cycle of the right face. -/
theorem qhHull.RemoveEdge.Around.spliced_inv
    (ha : qhHull.RemoveEdge.Around h cyc e t p n tp tn leftFace rightFace restR restL)
    (lL : List Nat) :
    (qhHull.RemoveEdge.spliced h leftFace rightFace lL (t :: restL) e t p n tp tn).HalfEdgeInv
      (qhHull.RemoveEdge.cycles cyc rightFace p restR restL) := by
  obtain ⟨E, T, P, N, TP, TN, hr⟩ := ha.records
  obtain ⟨hptp, hntn, hpt, hnt, htpe, htne⟩ := ha.distinct
  have hpR : p ∈ restR := qhList.last_mem ha.lastR
  have hpL : tp ∈ restL := qhList.last_mem ha.lastL
  have hmemF : ∀ f, f ∈ (qhHull.RemoveEdge.spliced h leftFace rightFace lL (t :: restL)
      e t p n tp tn).m_faceList ↔ f ∈ h.m_faceList ∧ f ≠ leftFace := by
    intro f
    rw [qhHull.RemoveEdge.spliced_faceList, List.Nodup.mem_erase_iff ha.inv.faces_nodup]
    exact And.comm
  have hRnew : rightFace ∈ (qhHull.RemoveEdge.spliced h leftFace rightFace lL (t :: restL)
      e t p n tp tn).m_faceList := (hmemF _).mpr ⟨ha.hR, Ne.symm ha.hLR⟩
  constructor
  · rw [qhHull.RemoveEdge.spliced_faceList]
    exact ha.inv.faces_nodup.erase _
  · intro f hf
    obtain ⟨hfl, hfL⟩ := (hmemF f).mp hf
    obtain ⟨F, e0, hF, hFe, hhead, hnd, hloop⟩ := ha.inv.cycle f hfl
    by_cases hfR : f = rightFace
    · subst hfR
      refine ⟨_, p, by rw [qhHull.RemoveEdge.spliced_face, hF]; rfl, ?_, ?_, ?_, ?_⟩
      · simp only [qhHull.RemoveEdge.reface, hfL, if_false, if_true]
      · simp only [qhHull.RemoveEdge.cycles, if_true, List.cons_append, List.head?_cons]
      · simp only [qhHull.RemoveEdge.cycles, if_true]
        exact ha.new_nodup
      · simp only [qhHull.RemoveEdge.cycles, if_true]
        exact (qhHull.IsLoop_iff_chain _ p _).mpr ⟨by simp, ha.new_chain lL⟩
    · refine ⟨_, e0, by rw [qhHull.RemoveEdge.spliced_face, hF]; rfl, ?_, ?_, ?_, ?_⟩
      · simp only [qhHull.RemoveEdge.reface, hfL, hfR, if_false, hFe]
      · simp only [qhHull.RemoveEdge.cycles, hfR, if_false, hhead]
      · simp only [qhHull.RemoveEdge.cycles, hfR, if_false]
        exact hnd
      · simp only [qhHull.RemoveEdge.cycles, hfR, if_false]
        refine qhHull.IsLoop_of_next h _ e0 (cyc f) ?_ hloop
        intro a haf
        obtain ⟨A, _, _, _, _, hA, _⟩ := ha.inv.edge f hfl a haf
        rw [qhHull.RemoveEdge.spliced_next lL a A hA, qhHull.next_eq h a A hA]
        have h1 : a ≠ tp := by
          rintro rfl
          exact hfL (qhHull.HalfEdgeInv.unique h cyc ha.inv f leftFace hfl ha.hL a haf
            ((ha.memL a).mp (List.mem_cons_of_mem _ hpL)))
        have h2 : a ≠ p := by
          rintro rfl
          exact hfR (qhHull.HalfEdgeInv.unique h cyc ha.inv f rightFace hfl ha.hR a haf
            ((ha.memR a).mp (List.mem_cons_of_mem _ hpR)))
        rw [if_neg h1, if_neg h2]
  · intro f hf x hx
    obtain ⟨hfl, hfL⟩ := (hmemF f).mp hf
    by_cases hfR : f = rightFace
    · subst hfR
      simp only [qhHull.RemoveEdge.cycles, if_true] at hx
      obtain ⟨hxe, hxt, hcase⟩ := ha.mem_new x hx
      rcases hcase with ⟨hxR, hxL⟩ | ⟨hxL, hxR⟩
      · have := qhHull.RemoveEdge.spliced_edge hr hptp hntn lL (t :: restL) x f hxe hxt
          (ha.inv.edge f hfl x ((ha.memR x).mp (List.mem_cons_of_mem _ hxR)))
        rwa [if_neg hxL] at this
      · have := qhHull.RemoveEdge.spliced_edge hr hptp hntn lL (t :: restL) x leftFace hxe hxt
          (ha.inv.edge leftFace ha.hL x ((ha.memL x).mp (List.mem_cons_of_mem _ hxL)))
        rwa [if_pos (List.mem_cons_of_mem _ hxL)] at this
    · simp only [qhHull.RemoveEdge.cycles, hfR, if_false] at hx
      have hxL : x ∉ t :: restL := fun hh =>
        hfL (qhHull.HalfEdgeInv.unique h cyc ha.inv f leftFace hfl ha.hL x hx ((ha.memL x).mp hh))
      have hxR : x ∉ e :: restR := fun hh =>
        hfR (qhHull.HalfEdgeInv.unique h cyc ha.inv f rightFace hfl ha.hR x hx ((ha.memR x).mp hh))
      have := qhHull.RemoveEdge.spliced_edge hr hptp hntn lL (t :: restL) x f
        (fun hh => hxR (by rw [hh]; exact List.mem_cons_self _ _))
        (fun hh => hxL (by rw [hh]; exact List.mem_cons_self _ _))
        (ha.inv.edge f hfl x hx)
      rwa [if_neg hxL] at this
  · intro y Y' hY' hact
    rw [qhHull.RemoveEdge.spliced_halfEdge] at hY'
    obtain ⟨Y, hY, rfl⟩ := Option.map_eq_some'.mp hY'
    have hyet : ¬ (y = e ∨ y = t) := by
      intro hh
      simp only [qhHull.RemoveEdge.rewire, hh, if_true] at hact
      exact Bool.noConfusion hact
    have hYact : Y.active = true := by
      simpa only [qhHull.RemoveEdge.rewire, hyet, if_false] using hact
    obtain ⟨f, hfl, hYf, hyf⟩ := ha.inv.owner y Y hY hYact
    by_cases hfL : f = leftFace
    · subst hfL
      have hyL : y ∈ t :: restL := (ha.memL y).mpr hyf
      have hyL' : y ∈ restL := by
        rcases List.mem_cons.mp hyL with hh | hh
        · exact absurd (Or.inr hh) hyet
        · exact hh
      refine ⟨rightFace, hRnew, ?_, ?_⟩
      · simp only [qhHull.RemoveEdge.rewire, hyL, if_true]
      · simp only [qhHull.RemoveEdge.cycles, if_true, List.cons_append, List.mem_cons,
          List.mem_append]
        exact Or.inr (Or.inl hyL')
    · have hyL : y ∉ t :: restL := fun hh =>
        hfL (qhHull.HalfEdgeInv.unique h cyc ha.inv f leftFace hfl ha.hL y hyf ((ha.memL y).mp hh))
      refine ⟨f, (hmemF f).mpr ⟨hfl, hfL⟩, ?_, ?_⟩
      · simp only [qhHull.RemoveEdge.rewire, hyL, if_false, hYf]
      · by_cases hfR : f = rightFace
        · subst hfR
          have hyR : y ∈ e :: restR := (ha.memR y).mpr hyf
          have hyR' : y ∈ restR := by
            rcases List.mem_cons.mp hyR with hh | hh
            · exact absurd (Or.inl hh) hyet
            · exact hh
          simp only [qhHull.RemoveEdge.cycles, if_true, List.cons_append, List.mem_cons,
            List.mem_append]
          rw [← ha.splitR, List.mem_append, List.mem_singleton] at hyR'
          rcases hyR' with hh | hh
          · exact Or.inr (Or.inr hh)
          · exact Or.inl hh
        · simp only [qhHull.RemoveEdge.cycles, hfR, if_false]
          exact hyf

end

section

variable {K : Type} [LinearOrderedField K]

/-- The loop of `b3ComputePlane` returns on a closed chain of half-edges whose
tails point to vertex slots, after one turn per half-edge. -/
theorem b3ComputePlane.walk_closes (h : qhHull K) (s : Nat) :
    ∀ (l : List Nat) (x fuel : Nat) (nacc cacc : b3Vec3 K) (count : Nat),
      (x :: l).length ≤ fuel → List.Chain' (fun a b => h.next a = some b) (x :: l ++ [s]) →
      s ∉ l →
      (∀ y ∈ x :: l ++ [s], ∃ Y v V, h.halfEdge y = some Y ∧ Y.tail = some v ∧
        h.vertex v = some V) →
      ∃ r, b3ComputePlane.walk h (some s) fuel (some x) nacc cacc count = some r ∧
        r.2.2 = count + (x :: l).length := by
  intro l
  induction l with
  | nil =>
    intro x fuel nacc cacc count hfuel hchain _ hex
    obtain ⟨fuel, rfl⟩ : ∃ f, fuel = f + 1 := ⟨fuel - 1, by simp at hfuel; omega⟩
    obtain ⟨X, v, V, hX, hXt, hV⟩ := hex x (by simp)
    obtain ⟨S, v2, V2, hS, hSt, hV2⟩ := hex s (by simp)
    have hn : X.next = some s := by
      have := hchain
      simp only [List.nil_append, List.chain'_cons, List.chain'_singleton, and_true,
        List.cons_append] at this
      rwa [qhHull.next_eq h x X hX] at this
    rw [b3ComputePlane.walk_turn h (some s) fuel x s v v2 X S V V2 nacc cacc count hX hXt hV hn hS
      hSt hV2, if_pos rfl]
    exact ⟨_, rfl, rfl⟩
  | cons x2 l ih =>
    intro x fuel nacc cacc count hfuel hchain hs hex
    obtain ⟨fuel, rfl⟩ : ∃ f, fuel = f + 1 := ⟨fuel - 1, by simp at hfuel; omega⟩
    obtain ⟨X, v, V, hX, hXt, hV⟩ := hex x (by simp)
    obtain ⟨X2, v2, V2, hX2, hX2t, hV2⟩ := hex x2 (by simp)
    simp only [List.cons_append, List.chain'_cons] at hchain
    obtain ⟨hx, hchain⟩ := hchain
    have hn : X.next = some x2 := by rwa [qhHull.next_eq h x X hX] at hx
    have hne : ¬ (some x2 : Option Nat) = some s := by
      intro hh
      exact hs (by rw [← Option.some.inj hh]; exact List.mem_cons_self _ _)
    rw [b3ComputePlane.walk_turn h (some s) fuel x x2 v v2 X X2 V V2 nacc cacc count hX hXt hV hn
      hX2 hX2t hV2, if_neg hne]
    obtain ⟨r, hr, hcount⟩ := ih x2 fuel (nacc.add (b3Newell V.position V2.position))
      (cacc.add V.position) (count + 1)
      (by simp only [List.length_cons] at hfuel ⊢; omega) (by simpa using hchain)
      (fun hh => hs (List.mem_cons_of_mem _ hh))
      (fun y hy => hex y (List.mem_cons_of_mem _ hy))
    refine ⟨r, hr, ?_⟩
    rw [hcount]
    simp only [List.length_cons]
    omega

/-- The loop of `Validate(const qhFace*)` returns on a closed chain of
half-edges. -/
theorem qhHull.ValidateFace.walk_closes_face (h : qhHull K) (face s : Nat) :
    ∀ (l : List Nat) (x fuel : Nat) (ok : Bool),
      (x :: l).length ≤ fuel → List.Chain' (fun a b => h.next a = some b) (x :: l ++ [s]) →
      s ∉ l → (∀ y ∈ x :: l, ∃ Y, h.halfEdge y = some Y) →
      ∃ r, qhHull.ValidateFace.walk h face (some s) fuel (some x) ok = some r := by
  intro l
  induction l with
  | nil =>
    intro x fuel ok hfuel hchain _ hex
    obtain ⟨fuel, rfl⟩ : ∃ f, fuel = f + 1 := ⟨fuel - 1, by simp at hfuel; omega⟩
    obtain ⟨X, hX⟩ := hex x (by simp)
    have hn : X.next = some s := by
      have := hchain
      simp only [List.nil_append, List.chain'_cons, List.chain'_singleton, and_true,
        List.cons_append] at this
      rwa [qhHull.next_eq h x X hX] at this
    rw [qhHull.ValidateFace.walk_unfold, hX, Option.some_bind, if_pos hn]
    exact ⟨_, rfl⟩
  | cons x2 l ih =>
    intro x fuel ok hfuel hchain hs hex
    obtain ⟨fuel, rfl⟩ : ∃ f, fuel = f + 1 := ⟨fuel - 1, by simp at hfuel; omega⟩
    obtain ⟨X, hX⟩ := hex x (by simp)
    simp only [List.cons_append, List.chain'_cons] at hchain
    obtain ⟨hx, hchain⟩ := hchain
    have hn : X.next = some x2 := by rwa [qhHull.next_eq h x X hX] at hx
    have hne : ¬ X.next = some s := by
      rw [hn]
      intro hh
      exact hs (by rw [← Option.some.inj hh]; exact List.mem_cons_self _ _)
    rw [qhHull.ValidateFace.walk_unfold, hX, Option.some_bind, if_neg hne, hn]
    exact ih x2 fuel _ (by simp only [List.length_cons] at hfuel ⊢; omega)
      (by simpa using hchain) (fun hh => hs (List.mem_cons_of_mem _ hh))
      (fun y hy => hex y (List.mem_cons_of_mem _ hy))

end

section

variable {K : Type} [LinearOrderedField K]

theorem qhHull.ValidateEdge.walk_turn_eq (h : qhHull K) (start fuel edge : Nat) :
    qhHull.ValidateEdge.walk h start (fuel + 1) edge =
      (h.turn edge).bind fun e' =>
        if e' = start then some () else qhHull.ValidateEdge.walk h start fuel e' := by
  rw [qhHull.ValidateEdge.walk_succ]
  simp only [qhHull.turn]
  cases h.halfEdge edge with
  | none => rfl
  | some E =>
    simp only [Option.some_bind]
    cases E.next with
    | none => rfl
    | some n =>
      simp only [Option.some_bind]
      cases h.halfEdge n with
      | none => rfl
      | some N => rfl

/-- An injective map of a finite set into itself brings every point back
within as many steps as the set has points. -/
theorem qhList.returns (A : Finset Nat) (s : Nat → Nat) (hmaps : Set.MapsTo s A A)
    (hinj : Set.InjOn s A) (a : Nat) (ha : a ∈ A) :
    ∃ k, 1 ≤ k ∧ k ≤ A.card ∧ s^[k] a = a := by
  by_contra hno
  push_neg at hno
  have hit : ∀ i, s^[i] a ∈ A := fun i => Set.MapsTo.iterate hmaps i ha
  have hcard : (Finset.range (A.card + 1)).card ≤ A.card := by
    apply Finset.card_le_card_of_injOn (fun i => s^[i] a)
    · intro i _
      exact hit i
    · intro i hi j hj hij
      simp only [Finset.coe_range, Set.mem_Iio] at hi hj
      simp only at hij
      by_contra hne
      rcases Nat.lt_or_gt_of_ne hne with hlt | hlt
      · have e1 : s^[j] a = s^[i] (s^[j - i] a) := by
          rw [← Function.iterate_add_apply]
          congr 1
          omega
        rw [e1] at hij
        have := Set.InjOn.iterate hinj hmaps i ha (hit (j - i)) hij
        exact hno (j - i) (by omega) (by omega) this.symm
      · have e1 : s^[i] a = s^[j] (s^[i - j] a) := by
          rw [← Function.iterate_add_apply]
          congr 1
          omega
        rw [e1] at hij
        have := Set.InjOn.iterate hinj hmaps j (hit (i - j)) ha hij
        exact hno (i - j) (by omega) (by omega) this
  rw [Finset.card_range] at hcard
  omega

/-- The closing loop of `Validate(const qhHalfEdge*)` returns when the turns
bring the half-edge back to the start within the budget. -/
theorem qhHull.ValidateEdge.walk_returns (h : qhHull K) (start : Nat) (s : Nat → Nat)
    (A : Finset Nat) (hturn : ∀ x ∈ A, h.turn x = some (s x)) (hmaps : Set.MapsTo s A A) :
    ∀ (k fuel x : Nat), x ∈ A → 1 ≤ k → k ≤ fuel → s^[k] x = start →
      qhHull.ValidateEdge.walk h start fuel x = some () := by
  intro k
  induction k with
  | zero => intro fuel x _ hk; omega
  | succ k ih =>
    intro fuel x hx _ hfuel hs
    obtain ⟨fuel, rfl⟩ : ∃ f, fuel = f + 1 := ⟨fuel - 1, by omega⟩
    rw [qhHull.ValidateEdge.walk_turn_eq, hturn x hx, Option.some_bind]
    by_cases hst : s x = start
    · rw [if_pos hst]
    · rw [if_neg hst]
      have hk1 : 1 ≤ k := by
        by_contra h0
        have : k = 0 := by omega
        subst this
        exact hst hs
      exact ih fuel (s x) (hmaps hx) hk1 (by omega) (by rwa [Function.iterate_succ_apply] at hs)

end

section

variable {K : Type} [LinearOrderedField K]

/-- The successor of a half-edge of a cycle lies on the same cycle. -/
theorem qhHull.HalfEdgeInv.next_mem (h : qhHull K) (cyc : Nat → List Nat)
    (hinv : h.HalfEdgeInv cyc) (f : Nat) (hf : f ∈ h.m_faceList) (y : Nat) (hy : y ∈ cyc f)
    (ny : Nat) (hny : h.next y = some ny) : ny ∈ cyc f := by
  obtain ⟨rest, perm, _, chain⟩ := qhHull.HalfEdgeInv.around h cyc hinv f hf y hy
  cases rest with
  | nil =>
    simp only [List.cons_append, List.nil_append, List.chain'_cons, List.chain'_singleton,
      and_true] at chain
    rw [hny] at chain
    rw [Option.some.inj chain]
    exact hy
  | cons r rs =>
    simp only [List.cons_append, List.chain'_cons] at chain
    rw [hny] at chain
    rw [Option.some.inj chain.1]
    exact perm.mem_iff.mp (List.mem_cons_of_mem _ (List.mem_cons_self _ _))

/-- The turn around the head vertex of an active half-edge: its successor and
the twin of its successor, which is active. -/
theorem qhHull.HalfEdgeInv.turn_data (h : qhHull K) (cyc : Nat → List Nat)
    (hinv : h.HalfEdgeInv cyc) (y : Nat) (Y : qhHalfEdge) (hY : h.halfEdge y = some Y)
    (hact : Y.active = true) :
    ∃ ny NY w W, Y.next = some ny ∧ h.halfEdge ny = some NY ∧ NY.prev = some y ∧
      NY.twin = some w ∧ h.halfEdge w = some W ∧ W.active = true ∧ W.twin = some ny ∧
      h.turn y = some w := by
  obtain ⟨f, hf, _, hyf⟩ := hinv.owner y Y hY hact
  obtain ⟨Y', _, _, ny, NY, hY', _, _, _, _, _, _, hYn, hNY, hNYp, _⟩ := hinv.edge f hf y hyf
  rw [hY] at hY'
  cases hY'
  have hnyf : ny ∈ cyc f := qhHull.HalfEdgeInv.next_mem h cyc hinv f hf y hyf ny
    (by rw [qhHull.next_eq h y Y hY, hYn])
  obtain ⟨NY', w, W, _, _, hNY', _, _, hNYt, hW, hWact, hWt, _⟩ := hinv.edge f hf ny hnyf
  rw [hNY] at hNY'
  cases hNY'
  refine ⟨ny, NY, w, W, hYn, hNY, hNYp, hNYt, hW, hWact, hWt, ?_⟩
  simp only [qhHull.turn, hY, Option.some_bind, hYn, hNY, hNYt]

/-- The function `Validate(const qhHalfEdge*)` returns on every active
half-edge of a mesh that satisfies the half-edge invariants. -/
theorem qhHull.HalfEdgeInv.validateEdge (env : b3Env K) (h : qhHull K) (cyc : Nat → List Nat)
    (hinv : h.HalfEdgeInv cyc) (htail : h.TailsValid) (x : Nat) (X : qhHalfEdge)
    (hX : h.halfEdge x = some X) (hact : X.active = true) :
    ∃ b, qhHull.ValidateEdge env h x = some b := by
  classical
  let A : Finset Nat := (Finset.range h.edges.length).filter fun y =>
    ∃ Y, h.halfEdge y = some Y ∧ Y.active = true
  have hA : ∀ y, y ∈ A ↔ ∃ Y, h.halfEdge y = some Y ∧ Y.active = true := by
    intro y
    simp only [A, Finset.mem_filter, Finset.mem_range, and_iff_right_iff_imp]
    rintro ⟨Y, hY, _⟩
    by_contra hge
    rw [qhHull.halfEdge, List.getElem?_eq_none (not_lt.mp hge)] at hY
    cases hY
  let s : Nat → Nat := fun y => (h.turn y).getD y
  have hturn : ∀ y ∈ A, h.turn y = some (s y) := by
    intro y hy
    obtain ⟨Y, hY, hYact⟩ := (hA y).mp hy
    obtain ⟨_, _, w, _, _, _, _, _, _, _, _, hw⟩ :=
      qhHull.HalfEdgeInv.turn_data h cyc hinv y Y hY hYact
    simp only [s, hw, Option.getD_some]
  have hmaps : Set.MapsTo s A A := by
    intro y hy
    obtain ⟨Y, hY, hYact⟩ := (hA y).mp hy
    obtain ⟨_, _, w, W, _, _, _, _, hW, hWact, _, hw⟩ :=
      qhHull.HalfEdgeInv.turn_data h cyc hinv y Y hY hYact
    have : s y = w := by simp only [s, hw, Option.getD_some]
    rw [Finset.mem_coe, this]
    exact (hA w).mpr ⟨W, hW, hWact⟩
  have hinj : Set.InjOn s A := by
    intro y1 hy1 y2 hy2 heq
    obtain ⟨Y1, hY1, hY1act⟩ := (hA y1).mp hy1
    obtain ⟨Y2, hY2, hY2act⟩ := (hA y2).mp hy2
    obtain ⟨n1, N1, w1, W1, _, hN1, hN1p, _, hW1, _, hW1t, hw1⟩ :=
      qhHull.HalfEdgeInv.turn_data h cyc hinv y1 Y1 hY1 hY1act
    obtain ⟨n2, N2, w2, W2, _, hN2, hN2p, _, hW2, _, hW2t, hw2⟩ :=
      qhHull.HalfEdgeInv.turn_data h cyc hinv y2 Y2 hY2 hY2act
    have e1 : s y1 = w1 := by simp only [s, hw1, Option.getD_some]
    have e2 : s y2 = w2 := by simp only [s, hw2, Option.getD_some]
    rw [e1, e2] at heq
    subst heq
    rw [hW1] at hW2
    cases hW2
    rw [hW1t] at hW2t
    cases hW2t
    rw [hN1] at hN2
    cases hN2
    rw [hN1p] at hN2p
    exact Option.some.inj hN2p
  have hxA : x ∈ A := (hA x).mpr ⟨X, hX, hact⟩
  obtain ⟨k, hk1, hk2, hk⟩ := qhList.returns A s hmaps hinj x hxA
  have hcard : A.card ≤ h.edges.length := by
    have := Finset.card_filter_le (Finset.range h.edges.length) fun y =>
      ∃ Y, h.halfEdge y = some Y ∧ Y.active = true
    rwa [Finset.card_range] at this
  have hwalk := qhHull.ValidateEdge.walk_returns h x s A hturn hmaps k h.edges.length x hxA hk1
    (le_trans hk2 hcard) hk
  obtain ⟨f, hf, _, hxf⟩ := hinv.owner x X hX hact
  obtain ⟨X', t, T, n, N, hX', _, _, hXt, hT, hTact, _, hXn, hN, _, _⟩ := hinv.edge f hf x hxf
  rw [hX] at hX'
  cases hX'
  obtain ⟨v, V, hXv, hV⟩ := htail x X hX hact
  obtain ⟨v2, V2, hTv, hV2⟩ := htail t T hT hTact
  simp only [qhHull.ValidateEdge, hX, hXt, hT, hXv, hV, hTv, hV2, hXn, hN, hwalk, bind,
    Option.bind, pure, Option.some.injEq, exists_eq']

end

section

variable {K : Type} [LinearOrderedField K]

/-- Rewriting face records without touching `face->edge` keeps the half-edge
invariants. -/
theorem qhHull.HalfEdgeInv.editFaces (h : qhHull K) (cyc : Nat → List Nat)
    (hinv : h.HalfEdgeInv cyc) (u : Nat → qhFace K → qhFace K)
    (hu : ∀ f F, (u f F).edge = F.edge) : (h.editFaces u).HalfEdgeInv cyc := by
  constructor
  · exact hinv.faces_nodup
  · intro f hf
    obtain ⟨F, e0, hF, hFe, hhead, hnd, hloop⟩ := hinv.cycle f hf
    refine ⟨u f F, e0, by rw [qhHull.face_editFaces, hF]; rfl, by rw [hu, hFe], hhead, hnd, ?_⟩
    exact qhHull.IsLoop_of_next h _ e0 _ (fun _ _ => rfl) hloop
  · intro f hf x hx
    exact hinv.edge f hf x hx
  · intro x X hX hact
    exact hinv.owner x X hX hact

theorem qhHull.HalfEdgeInv.lt_length (h : qhHull K) (cyc : Nat → List Nat)
    (hinv : h.HalfEdgeInv cyc) (f : Nat) (hf : f ∈ h.m_faceList) (x : Nat) (hx : x ∈ cyc f) :
    x < h.edges.length := by
  obtain ⟨X, _, _, _, _, hX, _⟩ := hinv.edge f hf x hx
  by_contra hge
  rw [qhHull.halfEdge, List.getElem?_eq_none (not_lt.mp hge)] at hX
  cases hX

/-- The end of `RemoveEdge` returns on a mesh that satisfies the half-edge
invariants: the plane and the centre of the face are rewritten. -/
theorem qhHull.RemoveEdge.finish_some (env : b3Env K) (h : qhHull K) (cyc : Nat → List Nat)
    (hinv : h.HalfEdgeInv cyc) (htail : h.TailsValid) (f : Nat) (hf : f ∈ h.m_faceList) :
    ∃ plane center, qhHull.RemoveEdge.finish env h f =
      some (h.editFaces fun g F => if g = f then { F with plane := plane, center := center }
        else F, f) := by
  obtain ⟨F, e0, hF, hFe, hhead, hnd, hloop⟩ := hinv.cycle f hf
  obtain ⟨hne, hchain⟩ := (qhHull.IsLoop_iff_chain h e0 _).mp hloop
  obtain ⟨x, l, hxl⟩ := List.exists_cons_of_ne_nil hne
  rw [hxl] at hhead hnd hchain
  simp only [List.head?_cons, Option.some.injEq] at hhead
  subst hhead
  have hmem : ∀ y, y ∈ x :: l → y ∈ cyc f := fun y hy => by rw [hxl]; exact hy
  have hlen : (x :: l).length ≤ h.edges.length :=
    qhHull.length_le_of_nodup _ _ hnd fun y hy =>
      qhHull.HalfEdgeInv.lt_length h cyc hinv f hf y (hmem y hy)
  have hxl' : x ∉ l := (List.nodup_cons.mp hnd).1
  obtain ⟨r, hr, _⟩ := b3ComputePlane.walk_closes h x l x h.edges.length b3Vec3_zero b3Vec3_zero 0
    hlen hchain hxl' (by
      intro y hy
      have hy' : y ∈ cyc f := by
        rw [List.mem_append] at hy
        rcases hy with hy | hy
        · exact hmem y hy
        · rw [List.mem_singleton] at hy
          rw [hy]
          exact hmem _ (List.mem_cons_self _ _)
      obtain ⟨Y, _, _, _, _, hY, hYact, _⟩ := hinv.edge f hf y hy'
      obtain ⟨v, V, hv, hV⟩ := htail y Y hY hYact
      exact ⟨Y, v, V, hY, hv, hV⟩)
  obtain ⟨nacc, cacc, count⟩ := r
  refine ⟨⟨nacc.Normalize env, b3Dot (nacc.Normalize env) (cacc.div (count : K))⟩,
    cacc.div (count : K), ?_⟩
  have hplane : b3ComputePlane env h f =
      some (⟨nacc.Normalize env, b3Dot (nacc.Normalize env) (cacc.div (count : K))⟩,
        cacc.div (count : K)) := by
    simp only [b3ComputePlane, hF, hFe, hr, bind, Option.bind, pure]
  -- the mesh with the new plane
  have hinv1 := qhHull.HalfEdgeInv.editFaces h cyc hinv
    (fun g F => if g = f then { F with
      plane := (⟨nacc.Normalize env, b3Dot (nacc.Normalize env) (cacc.div (count : K))⟩ :
        b3Plane K)
      center := cacc.div (count : K) } else F)
    (fun g G => by dsimp only; split_ifs <;> rfl)
  generalize hh1 : (h.editFaces fun g F => if g = f then { F with
      plane := (⟨nacc.Normalize env, b3Dot (nacc.Normalize env) (cacc.div (count : K))⟩ :
        b3Plane K)
      center := cacc.div (count : K) } else F) = h1 at hinv1
  have hedges : h1.edges = h.edges := by rw [← hh1]; rfl
  have hhe : ∀ y, h1.halfEdge y = h.halfEdge y := fun y => by rw [← hh1]; rfl
  have hvx : ∀ y, h1.vertex y = h.vertex y := fun y => by rw [← hh1]; rfl
  have hnext : ∀ y, h1.next y = h.next y := fun y => by rw [← hh1]; rfl
  have htail1 : h1.TailsValid := by
    intro y Y hY hact
    rw [hhe] at hY
    obtain ⟨v, V, hv, hV⟩ := htail y Y hY hact
    exact ⟨v, V, hv, by rw [hvx]; exact hV⟩
  obtain ⟨F1, hF1, hF1e⟩ : ∃ F1, h1.face f = some F1 ∧ F1.edge = some x := by
    rw [← hh1, qhHull.face_editFaces, hF]
    refine ⟨_, rfl, ?_⟩
    simp only [if_true, hFe]
  obtain ⟨ok1, hok1⟩ := qhHull.ValidateFace.walk_closes_face h1 f x l x h1.edges.length F1.active
    (by rw [hedges]; exact hlen) (by simp only [hnext]; exact hchain) hxl' (by
      intro y hy
      obtain ⟨Y, _, _, _, _, hY, _⟩ := hinv.edge f hf y (hmem y hy)
      exact ⟨Y, by rw [hhe]; exact hY⟩)
  obtain ⟨X, _, _, _, _, hX, hXact, _⟩ := hinv.edge f hf x (hmem x (List.mem_cons_self _ _))
  obtain ⟨ok2, hok2⟩ := qhHull.HalfEdgeInv.validateEdge env h1 cyc hinv1 htail1 x X
    (by rw [hhe]; exact hX) hXact
  simp only [qhHull.RemoveEdge.finish, hplane, bind, Option.bind, qhHull.setFace_eq h f F _ hF,
    hh1, qhHull.ValidateFace, hF1, hF1e, hok1, hok2, pure]

end

section

variable {K : Type} [LinearOrderedField K]

variable {h : qhHull K} {cyc : Nat → List Nat} {e t p n tp tn leftFace rightFace : Nat}
  {restR restL : List Nat}

theorem qhHull.RemoveEdge.spliced_tails (htail : h.TailsValid) (lL cL : List Nat) :
    (qhHull.RemoveEdge.spliced h leftFace rightFace lL cL e t p n tp tn).TailsValid := by
  intro y Y' hY' hact
  rw [qhHull.RemoveEdge.spliced_halfEdge] at hY'
  obtain ⟨Y, hY, rfl⟩ := Option.map_eq_some'.mp hY'
  have hYact : Y.active = true := by
    simp only [qhHull.RemoveEdge.rewire] at hact
    split_ifs at hact
    exact hact
  obtain ⟨v, V, hv, hV⟩ := htail y Y hY hYact
  have hv' : (qhHull.RemoveEdge.rewire rightFace cL e t p n tp tn y Y).tail = some v := hv
  have hV' := qhHull.RemoveEdge.spliced_vertex h leftFace rightFace lL cL e t p n tp tn v
  rw [hV] at hV'
  exact ⟨v, _, hv', hV'⟩

theorem qhHull.RemoveEdge.spliced_conflicts (hinv : h.HalfEdgeInv cyc) (hc : h.ConflictsValid)
    (LF : qhFace K) (hL : leftFace ∈ h.m_faceList) (hLF : h.face leftFace = some LF)
    (cL : List Nat) :
    (qhHull.RemoveEdge.spliced h leftFace rightFace LF.conflictList cL e t p n tp
      tn).ConflictsValid := by
  intro f hf
  rw [qhHull.RemoveEdge.spliced_faceList, List.Nodup.mem_erase_iff hinv.faces_nodup] at hf
  obtain ⟨hfL, hfl⟩ := hf
  obtain ⟨F, hF, hFv⟩ := hc f hfl
  obtain ⟨LF', hLF', hLv⟩ := hc leftFace hL
  rw [hLF] at hLF'
  cases hLF'
  refine ⟨_, by rw [qhHull.RemoveEdge.spliced_face, hF]; rfl, ?_⟩
  intro v hv
  have hvx : ∃ V, h.vertex v = some V := by
    simp only [qhHull.RemoveEdge.reface, hfL, if_false] at hv
    split_ifs at hv
    · rcases List.mem_append.mp hv with hh | hh
      · exact hLv v (List.mem_reverse.mp hh)
      · exact hFv v hh
    · exact hFv v hv
  obtain ⟨V, hV⟩ := hvx
  rw [qhHull.RemoveEdge.spliced_vertex, hV]
  exact ⟨_, rfl⟩

theorem qhHull.RemoveEdge.Around.new_length
    (ha : qhHull.RemoveEdge.Around h cyc e t p n tp tn leftFace rightFace restR restL) :
    (p :: restL ++ restR.dropLast).length + 2 =
      (cyc rightFace).length + (cyc leftFace).length := by
  have h1 := ha.permR.length_eq
  have h2 := ha.permL.length_eq
  have h3 := congrArg List.length ha.splitR
  simp only [List.length_cons, List.length_append, List.length_nil] at h1 h2 h3 ⊢
  omega

/-- Total correctness of `RemoveEdge(e)` on a mesh that satisfies the half-edge
invariants, for an active half-edge between two different faces whose cycles
have at least two half-edges: the call returns the right face, the mesh it
leaves is the closed form `result`, and that mesh satisfies the half-edge
invariants with the spliced cycle. -/
theorem qhHull.RemoveEdge_core (env : b3Env K) (h : qhHull K) (cyc : Nat → List Nat)
    (hinv : h.HalfEdgeInv cyc) (htails : h.TailsValid) (hconf : h.ConflictsValid)
    (e t leftFace rightFace : Nat) (E T : qhHalfEdge)
    (hE : h.halfEdge e = some E) (hact : E.active = true) (hEt : E.twin = some t)
    (hT : h.halfEdge t = some T) (hEf : E.face = some rightFace) (hTf : T.face = some leftFace)
    (hLR : leftFace ≠ rightFace) (hlenR : 2 ≤ (cyc rightFace).length)
    (hlenL : 2 ≤ (cyc leftFace).length) :
    ∃ p n tp tn restR restL LF plane center,
      qhHull.RemoveEdge.Around h cyc e t p n tp tn leftFace rightFace restR restL ∧
      h.face leftFace = some LF ∧
      qhHull.RemoveEdge env h e = some (qhHull.RemoveEdge.result h leftFace rightFace
        LF.conflictList restL e t p n tp tn plane center, rightFace) ∧
      (qhHull.RemoveEdge.result h leftFace rightFace LF.conflictList restL e t p n tp tn plane
        center).HalfEdgeInv (qhHull.RemoveEdge.cycles cyc rightFace p restR restL) ∧
      (qhHull.RemoveEdge.result h leftFace rightFace LF.conflictList restL e t p n tp tn plane
        center).TailsValid ∧
      (qhHull.RemoveEdge.result h leftFace rightFace LF.conflictList restL e t p n tp tn plane
        center).ConflictsValid := by
  obtain ⟨f, hf, hEf', heR⟩ := hinv.owner e E hE hact
  rw [hEf] at hEf'
  cases hEf'
  obtain ⟨E', t', T', _, _, hE', _, _, hEt', hT', hTact, _⟩ := hinv.edge _ hf e heR
  rw [hE] at hE'
  cases hE'
  rw [hEt] at hEt'
  cases hEt'
  rw [hT] at hT'
  cases hT'
  obtain ⟨g, hg, hTf', htL⟩ := hinv.owner t T hT hTact
  rw [hTf] at hTf'
  cases hTf'
  obtain ⟨p, n, tp, tn, restR, restL, ha⟩ := qhHull.RemoveEdge.around_of_inv h cyc hinv e t
    leftFace rightFace E T hE hact hEt hT hEf hTf hLR hlenR hlenL
  obtain ⟨E', T', P, N, TP, TN, hr⟩ := ha.records
  have hE' := hr.hE
  rw [hE] at hE'
  cases hE'
  have hT' := hr.hT
  rw [hT] at hT'
  cases hT'
  obtain ⟨hptp, hntn, hpt, hnt, htpe, htne⟩ := ha.distinct
  obtain ⟨LF, hLF, hLv⟩ := hconf leftFace hg
  obtain ⟨RF, hRF, _⟩ := hconf rightFace hf
  have ndL := ha.ndL
  have hlenL : (t :: restL).length ≤ h.edges.length :=
    qhHull.length_le_of_nodup _ _ ndL fun y hy =>
      qhHull.HalfEdgeInv.lt_length h cyc hinv leftFace hg y ((ha.memL y).mp hy)
  have heq := qhHull.RemoveEdge_eq env h e t p n tp tn leftFace rightFace E T P N TP TN LF RF
    restL hE hT hr.hP hr.hN hr.hTP hr.hTN hEt hr.Ep hr.En hr.Tp hr.Tn hEf hTf hLR hLF hRF hg hLv
    ha.chainL (List.nodup_cons.mp ndL).1
    (fun y hy => by
      obtain ⟨Y, _, _, _, _, hY, _⟩ := hinv.edge leftFace hg y ((ha.memL y).mp hy)
      exact ⟨Y, hY⟩)
    hlenL hr.pe hpt hr.ne hnt htpe hr.tpt hptp hntn
  have hinvS := ha.spliced_inv LF.conflictList
  have htailS : (qhHull.RemoveEdge.spliced h leftFace rightFace LF.conflictList (t :: restL)
      e t p n tp tn).TailsValid := qhHull.RemoveEdge.spliced_tails htails _ _
  have hconfS : (qhHull.RemoveEdge.spliced h leftFace rightFace LF.conflictList (t :: restL)
      e t p n tp tn).ConflictsValid :=
    qhHull.RemoveEdge.spliced_conflicts hinv hconf LF hg hLF (t :: restL)
  have hRnew : rightFace ∈ (qhHull.RemoveEdge.spliced h leftFace rightFace LF.conflictList
      (t :: restL) e t p n tp tn).m_faceList := by
    rw [qhHull.RemoveEdge.spliced_faceList, List.Nodup.mem_erase_iff hinv.faces_nodup]
    exact ⟨Ne.symm hLR, hf⟩
  obtain ⟨plane, center, hfin⟩ := qhHull.RemoveEdge.finish_some env _ _ hinvS htailS rightFace
    hRnew
  refine ⟨p, n, tp, tn, restR, restL, LF, plane, center, ha, hLF, heq.trans hfin, ?_, ?_, ?_⟩
  · exact qhHull.HalfEdgeInv.editFaces _ _ hinvS
      (fun g F => if g = rightFace then { F with plane := plane, center := center } else F)
      (fun g G => by by_cases hg : g = rightFace <;> simp only [hg, if_true, if_false])
  · intro y Y hY hYact
    obtain ⟨v, V, hv, hV⟩ := htailS y Y hY hYact
    exact ⟨v, V, hv, hV⟩
  · intro f' hf'
    obtain ⟨F, hF, hFv⟩ := hconfS f' hf'
    refine ⟨_, by
      show (qhHull.editFaces _ _).face f' = _
      rw [qhHull.face_editFaces, hF]
      rfl, ?_⟩
    intro v hv
    have hv' : v ∈ F.conflictList := by
      split_ifs at hv <;> exact hv
    exact hFv v hv'

/-- The mesh invariants are kept by `RemoveEdge(e)`, which returns. -/
theorem qhHull.RemoveEdge_spec (env : b3Env K) (h : qhHull K) (cyc : Nat → List Nat)
    (hm : h.MeshInv cyc) (e t leftFace rightFace : Nat) (E T : qhHalfEdge)
    (hE : h.halfEdge e = some E) (hact : E.active = true) (hEt : E.twin = some t)
    (hT : h.halfEdge t = some T) (hEf : E.face = some rightFace) (hTf : T.face = some leftFace)
    (hLR : leftFace ≠ rightFace) :
    ∃ p n tp tn restR restL LF plane center,
      qhHull.RemoveEdge.Around h cyc e t p n tp tn leftFace rightFace restR restL ∧
      h.face leftFace = some LF ∧
      qhHull.RemoveEdge env h e = some (qhHull.RemoveEdge.result h leftFace rightFace
        LF.conflictList restL e t p n tp tn plane center, rightFace) ∧
      (qhHull.RemoveEdge.result h leftFace rightFace LF.conflictList restL e t p n tp tn plane
        center).MeshInv (qhHull.RemoveEdge.cycles cyc rightFace p restR restL) := by
  obtain ⟨f, hf, hEf', heR⟩ := hm.inv.owner e E hE hact
  rw [hEf] at hEf'
  cases hEf'
  obtain ⟨E', t', T', _, _, hE', _, _, hEt', hT', hTact, _⟩ := hm.inv.edge _ hf e heR
  rw [hE] at hE'
  cases hE'
  rw [hEt] at hEt'
  cases hEt'
  rw [hT] at hT'
  cases hT'
  obtain ⟨g, hg, hTf', htL⟩ := hm.inv.owner t T hT hTact
  rw [hTf] at hTf'
  cases hTf'
  obtain ⟨p, n, tp, tn, restR, restL, LF, plane, center, ha, hLF, heq, hinv', htails', hconf'⟩ :=
    qhHull.RemoveEdge_core env h cyc hm.inv hm.tails hm.conflicts e t leftFace rightFace E T hE
      hact hEt hT hEf hTf hLR (hm.long _ hf) (hm.long _ hg)
  refine ⟨p, n, tp, tn, restR, restL, LF, plane, center, ha, hLF, heq, ?_⟩
  refine ⟨hinv', ?_, htails', hconf'⟩
  intro f' hf'
  have hf'' : f' ∈ h.m_faceList ∧ f' ≠ leftFace := by
    have : f' ∈ h.m_faceList.erase leftFace := hf'
    rw [List.Nodup.mem_erase_iff hm.inv.faces_nodup] at this
    exact ⟨this.2, this.1⟩
  by_cases hfR : f' = rightFace
  · subst hfR
    simp only [qhHull.RemoveEdge.cycles, if_true]
    have h1 := ha.new_length
    have h2 := hm.long _ hf
    have h3 := hm.long _ hg
    omega
  · simp only [qhHull.RemoveEdge.cycles, hfR, if_false]
    exact hm.long f' hf''.1

end

section

variable {K : Type} [LinearOrderedField K]

theorem qhHull.loopCheck_sound (h : qhHull K) (start : Nat) : ∀ l : List Nat,
    h.loopCheck start l = true → h.IsLoop start l
  | [], hc => by simp [qhHull.loopCheck] at hc
  | [e], hc => by simpa [qhHull.loopCheck, qhHull.IsLoop] using hc
  | e :: e' :: l, hc => by
    simp only [qhHull.loopCheck, Bool.and_eq_true, decide_eq_true_eq] at hc
    exact ⟨hc.1, qhHull.loopCheck_sound h start (e' :: l) hc.2⟩

theorem qhHull.edgeCheck_sound (h : qhHull K) (f e : Nat) (hc : h.edgeCheck f e = true) :
    ∃ E t T n N, h.halfEdge e = some E ∧
      E.active = true ∧ E.face = some f ∧ E.twin = some t ∧ h.halfEdge t = some T ∧
      T.active = true ∧ T.twin = some e ∧ E.next = some n ∧ h.halfEdge n = some N ∧
      N.prev = some e ∧ T.tail = N.tail := by
  unfold qhHull.edgeCheck at hc
  cases hE : h.halfEdge e with
  | none => rw [hE] at hc; simp at hc
  | some E =>
    rw [hE] at hc
    dsimp only at hc
    cases hEt : E.twin with
    | none => rw [hEt] at hc; simp at hc
    | some t =>
      cases hEn : E.next with
      | none => rw [hEt, hEn] at hc; simp at hc
      | some n =>
        rw [hEt, hEn] at hc
        dsimp only at hc
        cases hT : h.halfEdge t with
        | none => rw [hT] at hc; simp at hc
        | some T =>
          cases hN : h.halfEdge n with
          | none => rw [hT, hN] at hc; simp at hc
          | some N =>
            rw [hT, hN] at hc
            dsimp only at hc
            simp only [Bool.and_eq_true, decide_eq_true_eq] at hc
            obtain ⟨⟨⟨⟨⟨h1, h2⟩, h3⟩, h4⟩, h5⟩, h6⟩ := hc
            exact ⟨E, t, T, n, N, rfl, h1, h2, hEt, hT, h3, h4, hEn, hN, h5, h6⟩

theorem qhHull.cycleCheck_sound (h : qhHull K) (cyc : Nat → List Nat) (f : Nat)
    (hc : h.cycleCheck cyc f = true) :
    ∃ F e0, h.face f = some F ∧ F.edge = some e0 ∧
      (cyc f).head? = some e0 ∧ (cyc f).Nodup ∧ h.IsLoop e0 (cyc f) := by
  unfold qhHull.cycleCheck at hc
  cases hF : h.face f with
  | none => rw [hF] at hc; simp at hc
  | some F =>
    rw [hF] at hc
    dsimp only at hc
    cases hFe : F.edge with
    | none => rw [hFe] at hc; simp at hc
    | some e0 =>
      rw [hFe] at hc
      simp only [Bool.and_eq_true, decide_eq_true_eq] at hc
      exact ⟨F, e0, rfl, hFe, hc.1.1, hc.1.2, qhHull.loopCheck_sound h e0 _ hc.2⟩

theorem qhHull.ownerCheck_sound (h : qhHull K) (cyc : Nat → List Nat)
    (hc : h.ownerCheck cyc = true) (e : Nat) (E : qhHalfEdge) (hE : h.halfEdge e = some E)
    (hact : E.active = true) : ∃ f ∈ h.m_faceList, E.face = some f ∧ e ∈ cyc f := by
  unfold qhHull.ownerCheck at hc
  rw [List.all_eq_true] at hc
  have hlt : e < h.edges.length := by
    have := hE
    unfold qhHull.halfEdge at this
    exact (List.getElem?_eq_some_iff.mp this).1
  have h1 := hc e (List.mem_range.mpr hlt)
  rw [hE] at h1
  simp only [hact, Bool.not_true, Bool.false_or] at h1
  cases hEf : E.face with
  | none => rw [hEf] at h1; simp at h1
  | some f =>
    rw [hEf] at h1
    simp only [Bool.and_eq_true, decide_eq_true_eq] at h1
    exact ⟨f, h1.1, rfl, h1.2⟩

theorem qhHull.invCheck_sound (h : qhHull K) (cyc : Nat → List Nat)
    (hc : h.invCheck cyc = true) : h.HalfEdgeInv cyc := by
  unfold qhHull.invCheck at hc
  simp only [Bool.and_eq_true, decide_eq_true_eq, List.all_eq_true] at hc
  obtain ⟨⟨hnd, hfaces⟩, hown⟩ := hc
  constructor
  · exact hnd
  · intro f hf
    exact qhHull.cycleCheck_sound h cyc f (hfaces f hf).1
  · intro f hf e he
    exact qhHull.edgeCheck_sound h f e ((hfaces f hf).2 e he)
  · intro e E hE hact
    exact qhHull.ownerCheck_sound h cyc hown e E hE hact

theorem qhHull.tailsCheck_sound (h : qhHull K) (hc : h.tailsCheck = true) : h.TailsValid := by
  unfold qhHull.tailsCheck at hc
  rw [List.all_eq_true] at hc
  intro x X hX hact
  have hmem : X ∈ h.edges := by
    obtain ⟨hlt, hget⟩ := List.getElem?_eq_some_iff.mp hX
    rw [← hget]
    exact List.getElem_mem hlt
  have h1 := hc X hmem
  simp only [hact, Bool.not_true, Bool.false_or] at h1
  cases hXt : X.tail with
  | none => rw [hXt] at h1; simp at h1
  | some v =>
    rw [hXt] at h1
    obtain ⟨V, hV⟩ := Option.isSome_iff_exists.mp h1
    exact ⟨v, V, rfl, hV⟩

theorem qhHull.meshCheck_sound (h : qhHull K) (cyc : Nat → List Nat)
    (hc : h.meshCheck cyc = true) : h.MeshInv cyc := by
  unfold qhHull.meshCheck at hc
  simp only [Bool.and_eq_true, decide_eq_true_eq, List.all_eq_true] at hc
  obtain ⟨⟨⟨hinv, hlong⟩, htails⟩, hconf⟩ := hc
  exact ⟨qhHull.invCheck_sound h cyc hinv, hlong, qhHull.tailsCheck_sound h htails,
    qhHull.ConflictsValid_of_check h hconf⟩

end

section

variable {K : Type} [LinearOrderedField K]

theorem qhHull.RemoveEdge.result_halfEdge (h : qhHull K) (leftFace rightFace : Nat)
    (lL restL : List Nat) (e t p n tp tn : Nat) (plane : b3Plane K) (center : b3Vec3 K)
    (y : Nat) :
    (qhHull.RemoveEdge.result h leftFace rightFace lL restL e t p n tp tn plane center).halfEdge
        y =
      (h.halfEdge y).map (qhHull.RemoveEdge.rewire rightFace (t :: restL) e t p n tp tn y) := by
  unfold qhHull.RemoveEdge.result
  rw [qhHull.halfEdge_editFaces, qhHull.RemoveEdge.spliced_halfEdge]

theorem qhHull.RemoveEdge.result_face (h : qhHull K) (leftFace rightFace : Nat)
    (lL restL : List Nat) (e t p n tp tn : Nat) (plane : b3Plane K) (center : b3Vec3 K)
    (f : Nat) :
    (qhHull.RemoveEdge.result h leftFace rightFace lL restL e t p n tp tn plane center).face f =
      (h.face f).map fun F =>
        if f = rightFace then
          { qhHull.RemoveEdge.reface leftFace rightFace lL p f F with
            plane := plane, center := center }
        else qhHull.RemoveEdge.reface leftFace rightFace lL p f F := by
  unfold qhHull.RemoveEdge.result
  rw [qhHull.face_editFaces, qhHull.RemoveEdge.spliced_face, Option.map_map]
  rfl

theorem qhHull.RemoveEdge.result_vertex (h : qhHull K) (leftFace rightFace : Nat)
    (lL restL : List Nat) (e t p n tp tn : Nat) (plane : b3Plane K) (center : b3Vec3 K)
    (v : Nat) :
    (qhHull.RemoveEdge.result h leftFace rightFace lL restL e t p n tp tn plane center).vertex v =
      (h.vertex v).map fun V =>
        if v ∈ lL then { V with conflictFace := some rightFace } else V := by
  unfold qhHull.RemoveEdge.result
  rw [qhHull.vertex_editFaces, qhHull.RemoveEdge.spliced_vertex]

end

section

variable {K : Type} [LinearOrderedField K]

theorem qhHull.MergeFace.walk_unroll (env : b3Env K) (h : qhHull K) (rightFace : Nat)
    (start : Option Nat) (fuel x : Nat) :
    qhHull.MergeFace.walk env h rightFace start (fuel + 1) (some x) =
      (qhHull.MergeFace.test h rightFace x).bind fun merge =>
        if merge = true then (qhHull.RemoveEdge env h x).map fun r => (r.1, true)
        else (h.halfEdge x).bind fun E =>
          if E.next = start then some (h, false)
          else qhHull.MergeFace.walk env h rightFace start fuel E.next := rfl

/-- The test of `MergeFace` on a half-edge of the cycle of a face of a mesh
that satisfies the mesh invariants: the half-edge is skipped when its twin
lies on the face itself, and otherwise it is removed unless both centres lie
further than the tolerance below the plane of the other face. -/
theorem qhHull.MergeFace.test_some (h : qhHull K) (cyc : Nat → List Nat)
    (hinv : h.HalfEdgeInv cyc) (f : Nat) (hf : f ∈ h.m_faceList) (e : Nat) (he : e ∈ cyc f) :
    ∃ E t T L LF RF, h.halfEdge e = some E ∧ E.active = true ∧ E.face = some f ∧
      E.twin = some t ∧ h.halfEdge t = some T ∧ T.active = true ∧ T.twin = some e ∧
      T.face = some L ∧ L ∈ h.m_faceList ∧ t ∈ cyc L ∧
      h.face L = some LF ∧ h.face f = some RF ∧
      qhHull.MergeFace.test h f e = some (decide (L ≠ f) &&
        !(decide (b3Distance LF.center RF.plane < -h.m_tolerance) &&
          decide (b3Distance RF.center LF.plane < -h.m_tolerance))) := by
  obtain ⟨E, t, T, n, N, hE, hEa, hEf, hEt, hT, hTa, hTt, _⟩ := hinv.edge f hf e he
  obtain ⟨L, hL, hTf, htL⟩ := hinv.owner t T hT hTa
  obtain ⟨LF, _, hLF, _⟩ := hinv.cycle L hL
  obtain ⟨RF, _, hRF, _⟩ := hinv.cycle f hf
  refine ⟨E, t, T, L, LF, RF, hE, hEa, hEf, hEt, hT, hTa, hTt, hTf, hL, htL, hLF, hRF, ?_⟩
  unfold qhHull.MergeFace.test
  simp only [hE, hEt, hT, hTf, hLF, hRF, bind, Option.bind, pure]
  by_cases hLf : L = f
  · subst hLf
    simp
  · have : ¬ (some L : Option Nat) = some f := fun hh => hLf (Option.some.inj hh)
    simp [this, hLf]

/-- The loop of `MergeFace` on a chain of half-edges that closes at `s`:
either every test says no and the loop returns false on the mesh as it was, or
the loop stops at the first half-edge whose test says yes and returns what
`RemoveEdge` returns for it. -/
theorem qhHull.MergeFace.walk_chain (env : b3Env K) (h : qhHull K) (f s : Nat) :
    ∀ (l : List Nat) (x fuel : Nat),
      (x :: l).length ≤ fuel → List.Chain' (fun a b => h.next a = some b) (x :: l ++ [s]) →
      s ∉ l →
      (∀ y ∈ x :: l, ∃ Y b, h.halfEdge y = some Y ∧ qhHull.MergeFace.test h f y = some b) →
      ((∀ y ∈ x :: l, qhHull.MergeFace.test h f y = some false) ∧
        qhHull.MergeFace.walk env h f (some s) fuel (some x) = some (h, false)) ∨
      ∃ pre e post, x :: l = pre ++ e :: post ∧
        (∀ y ∈ pre, qhHull.MergeFace.test h f y = some false) ∧
        qhHull.MergeFace.test h f e = some true ∧
        qhHull.MergeFace.walk env h f (some s) fuel (some x) =
          (qhHull.RemoveEdge env h e).map fun r => (r.1, true) := by
  intro l
  induction l with
  | nil =>
    intro x fuel hfuel hchain _ hex
    obtain ⟨fuel, rfl⟩ : ∃ f, fuel = f + 1 := ⟨fuel - 1, by simp at hfuel; omega⟩
    obtain ⟨X, b, hX, hb⟩ := hex x (by simp)
    have hn : X.next = some s := by
      have := hchain
      simp only [List.nil_append, List.chain'_cons, List.chain'_singleton, and_true,
        List.cons_append] at this
      rwa [qhHull.next_eq h x X hX] at this
    rw [qhHull.MergeFace.walk_unroll, hb, Option.some_bind]
    cases b with
    | true =>
      right
      exact ⟨[], x, [], rfl, by simp, hb, by simp⟩
    | false =>
      left
      refine ⟨by simpa using hb, ?_⟩
      simp [hX, hn]
  | cons x2 l ih =>
    intro x fuel hfuel hchain hs hex
    obtain ⟨fuel, rfl⟩ : ∃ f, fuel = f + 1 := ⟨fuel - 1, by simp at hfuel; omega⟩
    obtain ⟨X, b, hX, hb⟩ := hex x (by simp)
    simp only [List.cons_append, List.chain'_cons] at hchain
    obtain ⟨hx, hchain⟩ := hchain
    have hn : X.next = some x2 := by rwa [qhHull.next_eq h x X hX] at hx
    have hne : ¬ X.next = some s := by
      rw [hn]
      intro hh
      exact hs (by rw [← Option.some.inj hh]; exact List.mem_cons_self _ _)
    rw [qhHull.MergeFace.walk_unroll, hb, Option.some_bind]
    cases b with
    | true =>
      right
      exact ⟨[], x, x2 :: l, rfl, by simp, hb, by simp⟩
    | false =>
      have hstep : (if false = true then (qhHull.RemoveEdge env h x).map fun r => (r.1, true)
          else (h.halfEdge x).bind fun E =>
            if E.next = some s then some (h, false)
            else qhHull.MergeFace.walk env h f (some s) fuel E.next) =
          qhHull.MergeFace.walk env h f (some s) fuel (some x2) := by
        rw [if_neg (by decide), hX, Option.some_bind, if_neg hne, hn]
      rw [hstep]
      rcases ih x2 fuel (by simp only [List.length_cons] at hfuel ⊢; omega)
        (by simpa using hchain) (fun hh => hs (List.mem_cons_of_mem _ hh))
        (fun y hy => hex y (List.mem_cons_of_mem _ hy)) with ⟨hall, hw⟩ | ⟨pre, e, post, hsplit, hpre, he, hw⟩
      · left
        refine ⟨?_, hw⟩
        intro y hy
        rcases List.mem_cons.mp hy with rfl | hy
        · exact hb
        · exact hall y hy
      · right
        refine ⟨x :: pre, e, post, by rw [hsplit]; rfl, ?_, he, hw⟩
        intro y hy
        rcases List.mem_cons.mp hy with rfl | hy
        · exact hb
        · exact hpre y hy

/-- The function `MergeFace` on an active face of a mesh that satisfies the
half-edge invariants: the scan of the cycle of the face. -/
theorem qhHull.MergeFace_scan (env : b3Env K) (h : qhHull K) (cyc : Nat → List Nat)
    (hinv : h.HalfEdgeInv cyc) (f : Nat) (hf : f ∈ h.m_faceList) :
    ((∀ y ∈ cyc f, qhHull.MergeFace.test h f y = some false) ∧
      qhHull.MergeFace env h f = some (h, false)) ∨
    ∃ pre e post, cyc f = pre ++ e :: post ∧
      (∀ y ∈ pre, qhHull.MergeFace.test h f y = some false) ∧
      qhHull.MergeFace.test h f e = some true ∧
      qhHull.MergeFace env h f = (qhHull.RemoveEdge env h e).map fun r => (r.1, true) := by
  obtain ⟨F, e0, hF, hFe, hhead, hnd, hloop⟩ := hinv.cycle f hf
  obtain ⟨hne, hchain⟩ := (qhHull.IsLoop_iff_chain h e0 _).mp hloop
  obtain ⟨x, l, hxl⟩ : ∃ x l, cyc f = x :: l := by
    cases hc : cyc f with
    | nil => exact absurd hc hne
    | cons x l => exact ⟨x, l, rfl⟩
  have hx : x = e0 := by
    rw [hxl] at hhead
    simpa using hhead
  subst hx
  have hlen : (x :: l).length ≤ h.edges.length := by
    rw [← hxl]
    exact qhHull.length_le_of_nodup _ _ hnd fun y hy =>
      qhHull.HalfEdgeInv.lt_length h cyc hinv f hf y hy
  have hw := qhHull.MergeFace.walk_chain env h f x l x h.edges.length hlen
    (by rw [← hxl]; exact hchain)
    (by rw [hxl] at hnd; exact (List.nodup_cons.mp hnd).1)
    (fun y hy => by
      obtain ⟨E, t, T, L, LF, RF, hE, _, _, _, _, _, _, _, _, _, _, _, ht⟩ :=
        qhHull.MergeFace.test_some h cyc hinv f hf y (by rw [hxl]; exact hy)
      exact ⟨E, _, hE, ht⟩)
  have hM : qhHull.MergeFace env h f =
      qhHull.MergeFace.walk env h f (some x) h.edges.length (some x) := by
    unfold qhHull.MergeFace
    simp only [hF, hFe, bind, Option.bind]
  rw [hM, hxl]
  exact hw

end

section

variable {K : Type} [LinearOrderedField K]

theorem qhHull.RemoveEdge.reface_other (leftFace rightFace : Nat) (lL : List Nat) (p g : Nat)
    (F : qhFace K) (hL : g ≠ leftFace) (hR : g ≠ rightFace) :
    qhHull.RemoveEdge.reface leftFace rightFace lL p g F = F := by
  cases F
  simp only [qhHull.RemoveEdge.reface, hL, hR, if_false]

/-- The function `MergeFace` on an active face of a mesh that satisfies the
mesh invariants returns: false on the mesh as it was when every test of the
cycle says no, and otherwise true on the mesh that `RemoveEdge` leaves for the
first half-edge whose test says yes, a mesh that satisfies the mesh invariants
again and has lost the face on the other side of that half-edge. -/
theorem qhHull.MergeFace_spec (env : b3Env K) (h : qhHull K) (cyc : Nat → List Nat)
    (hm : h.MeshInv cyc) (f : Nat) (hf : f ∈ h.m_faceList) :
    ((∀ y ∈ cyc f, qhHull.MergeFace.test h f y = some false) ∧
      qhHull.MergeFace env h f = some (h, false)) ∨
    ∃ pre e post h1 cyc1 leftFace, cyc f = pre ++ e :: post ∧
      (∀ y ∈ pre, qhHull.MergeFace.test h f y = some false) ∧
      qhHull.MergeFace.test h f e = some true ∧
      qhHull.RemoveEdge env h e = some (h1, f) ∧
      qhHull.MergeFace env h f = some (h1, true) ∧
      qhHull.Merged h cyc h1 cyc1 leftFace f := by
  rcases qhHull.MergeFace_scan env h cyc hm.inv f hf with hno | ⟨pre, e, post, hsplit, hpre, he, hw⟩
  · exact Or.inl hno
  · right
    have hemem : e ∈ cyc f := by rw [hsplit]; simp
    obtain ⟨E, t, T, L, LF, RF, hE, hEa, hEf, hEt, hT, hTa, hTt, hTf, hL, htL, hLF, hRF, ht⟩ :=
      qhHull.MergeFace.test_some h cyc hm.inv f hf e hemem
    have hLf : L ≠ f := by
      rw [he] at ht
      intro hh
      simp [hh] at ht
    obtain ⟨p, n, tp, tn, restR, restL, LF1, plane, center, ha, hLF1, heq, hm1⟩ :=
      qhHull.RemoveEdge_spec env h cyc hm e t L f E T hE hEa hEt hT hEf hTf hLf
    refine ⟨pre, e, post, _, qhHull.RemoveEdge.cycles cyc f p restR restL, L, hsplit, hpre, he,
      heq, by rw [hw, heq]; rfl, ?_⟩
    refine ⟨hm1, hL, hf, hLf, rfl, rfl, rfl, ?_, ?_, ?_, ?_, ?_, ?_, ?_⟩
    · intro g hgL hgR
      rw [qhHull.RemoveEdge.result_face]
      cases h.face g with
      | none => rfl
      | some G =>
        simp only [Option.map_some', hgR, if_false,
          qhHull.RemoveEdge.reface_other L f _ p g G hgL hgR]
    · intro g hg
      simp only [qhHull.RemoveEdge.cycles, hg, if_false]
    · intro y Y hY
      refine ⟨qhHull.RemoveEdge.rewire f (t :: restL) e t p n tp tn y Y,
        by rw [qhHull.RemoveEdge.result_halfEdge, hY]; rfl, rfl, ?_, ?_⟩
      · intro hact
        simp only [qhHull.RemoveEdge.rewire] at hact
        split_ifs at hact
        exact hact
      · simp only [qhHull.RemoveEdge.rewire]
        by_cases hy : y ∈ t :: restL
        · rw [if_pos hy, if_pos ((ha.memL y).mp hy)]
        · rw [if_neg hy, if_neg (fun hh => hy ((ha.memL y).mpr hh))]
    · show (qhHull.RemoveEdge.spliced h L f LF1.conflictList (t :: restL) e t p n tp
        tn).edges.length = _
      exact qhHull.RemoveEdge.spliced_length h L f _ _ e t p n tp tn
    · rintro g ⟨G, hG⟩
      rw [qhHull.RemoveEdge.result_face, hG]
      exact ⟨_, rfl⟩
    · intro F1 hF1
      rw [qhHull.RemoveEdge.result_face, hLF, Option.map_some', if_neg hLf] at hF1
      cases hF1
      simp only [qhHull.RemoveEdge.reface, if_true]
    · intro g hg
      rw [qhHull.RemoveEdge.result_face, Option.map_map]
      cases h.face g with
      | none => rfl
      | some G =>
        simp only [Option.map_some', Function.comp]
        by_cases hgR : g = f
        · simp only [hgR, if_true, qhHull.RemoveEdge.reface, Ne.symm hLf, if_false]
        · simp only [hgR, if_false, qhHull.RemoveEdge.reface, hg, if_false]

/-- The loop `while (MergeFace(face));` returns when it has as many turns as
there are active faces: it ends on a mesh that satisfies the mesh invariants,
on which every test of the cycle of the face says no and `MergeFace` returns
false, and every property that the merges keep holds of that mesh. -/
theorem qhHull.MergeFaces.again_spec (env : b3Env K) (f : Nat)
    (P : qhHull K → (Nat → List Nat) → Prop)
    (hP : ∀ h cyc h1 cyc1 leftFace, h.MeshInv cyc → P h cyc →
      qhHull.Merged h cyc h1 cyc1 leftFace f → P h1 cyc1) :
    ∀ (fuel : Nat) (h : qhHull K) (cyc : Nat → List Nat), h.MeshInv cyc → f ∈ h.m_faceList →
      P h cyc → h.m_faceList.length ≤ fuel →
      ∃ h2 cyc2, qhHull.MergeFaces.again env f fuel h = some h2 ∧ h2.MeshInv cyc2 ∧
        f ∈ h2.m_faceList ∧ P h2 cyc2 ∧ h2.m_faceList.length ≤ h.m_faceList.length ∧
        (∀ y ∈ cyc2 f, qhHull.MergeFace.test h2 f y = some false) ∧
        qhHull.MergeFace env h2 f = some (h2, false) := by
  intro fuel
  induction fuel with
  | zero =>
    intro h cyc _ hf _ hlen
    have : h.m_faceList = [] := List.length_eq_zero.mp (Nat.le_zero.mp hlen)
    rw [this] at hf
    exact absurd hf (List.not_mem_nil _)
  | succ fuel ih =>
    intro h cyc hm hf hp hlen
    rcases qhHull.MergeFace_spec env h cyc hm f hf with
      ⟨hno, hM⟩ | ⟨pre, e, post, h1, cyc1, L, _, _, _, _, hM, hmerged⟩
    · refine ⟨h, cyc, ?_, hm, hf, hp, le_refl _, hno, hM⟩
      simp only [qhHull.MergeFaces.again, hM, bind, Option.bind]
      rfl
    · have hf1 : f ∈ h1.m_faceList := by
        rw [hmerged.faceList, List.Nodup.mem_erase_iff hm.inv.faces_nodup]
        exact ⟨Ne.symm hmerged.hLR, hf⟩
      have hlen1 : h1.m_faceList.length + 1 = h.m_faceList.length := by
        rw [hmerged.faceList, List.length_erase_of_mem hmerged.memL]
        have : 0 < h.m_faceList.length := List.length_pos_of_mem hf
        omega
      obtain ⟨h2, cyc2, hrun, hm2, hf2, hp2, hlen2, hno2, hM2⟩ :=
        ih h1 cyc1 hmerged.inv1 hf1 (hP h cyc h1 cyc1 L hm hp hmerged) (by omega)
      refine ⟨h2, cyc2, ?_, hm2, hf2, hp2, by omega, hno2, hM2⟩
      simp only [qhHull.MergeFaces.again, hM, bind, Option.bind]
      exact hrun

end

section

variable {K : Type} [LinearOrderedField K]

/-- C13. On a mesh that satisfies the mesh invariants (the half-edge
invariants, faces of at least two half-edges, valid tail and conflict
pointers), for an active face `f` with the boundary cycle `cyc f`, which starts
at `f.edge`: `MergeFace(f)` returns.  The test of a half-edge `e` of the cycle
says no when the face `L` of its twin is `f` itself (the half-edge is skipped),
and otherwise says yes unless both `distance(L.center, f.plane) < -m_tolerance`
and `distance(f.center, L.plane) < -m_tolerance`.  `MergeFace` returns false
if and only if every neighbour other than `f` across every half-edge of the
cycle passes that strict two-sided test, and then the mesh is unchanged.  When
it returns true, every half-edge before some half-edge `e` of the cycle was
tested with the answer no, the test of `e` says yes, the mesh returned is the
one that `RemoveEdge(e)` returns (with the face `f`), it has exactly one active
face less, `f` is still active in it and the mesh invariants hold again.  The
loop `while (MergeFace(f));` returns within as many turns as there are active
faces, on a mesh that satisfies the mesh invariants and on which `MergeFace(f)`
returns false. -/
theorem qhHull.MergeFace_scans_until_first_merge (env : b3Env K) (h : qhHull K)
    (cyc : Nat → List Nat) (hm : h.MeshInv cyc) (f : Nat) (hf : f ∈ h.m_faceList) :
    (∃ F e0, h.face f = some F ∧ F.edge = some e0 ∧ (cyc f).head? = some e0) ∧
    (∀ e ∈ cyc f, ∃ E t T L LF RF, h.halfEdge e = some E ∧ E.twin = some t ∧
      h.halfEdge t = some T ∧ T.face = some L ∧ h.face L = some LF ∧ h.face f = some RF ∧
      qhHull.MergeFace.test h f e = some (decide (L ≠ f) &&
        !(decide (b3Distance LF.center RF.plane < -h.m_tolerance) &&
          decide (b3Distance RF.center LF.plane < -h.m_tolerance)))) ∧
    (∃ h1 merged, qhHull.MergeFace env h f = some (h1, merged) ∧
      (merged = false ↔ ∀ e ∈ cyc f, ∀ E t T L LF RF, h.halfEdge e = some E → E.twin = some t →
        h.halfEdge t = some T → T.face = some L → L ≠ f → h.face L = some LF →
        h.face f = some RF →
        b3Distance LF.center RF.plane < -h.m_tolerance ∧
          b3Distance RF.center LF.plane < -h.m_tolerance) ∧
      (merged = false → h1 = h) ∧
      (merged = true → ∃ pre e post, cyc f = pre ++ e :: post ∧
        (∀ y ∈ pre, qhHull.MergeFace.test h f y = some false) ∧
        qhHull.MergeFace.test h f e = some true ∧
        qhHull.RemoveEdge env h e = some (h1, f) ∧
        h1.m_faceList.length + 1 = h.m_faceList.length ∧ f ∈ h1.m_faceList ∧
        ∃ cyc1, h1.MeshInv cyc1)) ∧
    (∀ fuel, h.m_faceList.length ≤ fuel →
      ∃ h2 cyc2, qhHull.MergeFaces.again env f fuel h = some h2 ∧ h2.MeshInv cyc2 ∧
        f ∈ h2.m_faceList ∧ h2.m_faceList.length ≤ h.m_faceList.length ∧
        qhHull.MergeFace env h2 f = some (h2, false)) := by
  have htest := fun e he => qhHull.MergeFace.test_some h cyc hm.inv f hf e he
  have hiff : (∀ y ∈ cyc f, qhHull.MergeFace.test h f y = some false) ↔
      ∀ e ∈ cyc f, ∀ E t T L LF RF, h.halfEdge e = some E → E.twin = some t →
        h.halfEdge t = some T → T.face = some L → L ≠ f → h.face L = some LF →
        h.face f = some RF →
        b3Distance LF.center RF.plane < -h.m_tolerance ∧
          b3Distance RF.center LF.plane < -h.m_tolerance := by
    constructor
    · intro hall e he E t T L LF RF hE hEt hT hTf hLf hLF hRF
      obtain ⟨E1, t1, T1, L1, LF1, RF1, hE1, _, _, hEt1, hT1, _, _, hTf1, _, _, hLF1, hRF1,
        ht⟩ := htest e he
      rw [hE] at hE1
      cases hE1
      rw [hEt] at hEt1
      cases hEt1
      rw [hT] at hT1
      cases hT1
      rw [hTf] at hTf1
      cases hTf1
      rw [hLF] at hLF1
      cases hLF1
      rw [hRF] at hRF1
      cases hRF1
      rw [hall e he] at ht
      have ht1 := Option.some.inj ht
      simp only [hLf, ne_eq, not_false_eq_true, decide_True, Bool.true_and] at ht1
      have ht2 : (decide (b3Distance LF.center RF.plane < -h.m_tolerance) &&
          decide (b3Distance RF.center LF.plane < -h.m_tolerance)) = true := by
        cases hb : (decide (b3Distance LF.center RF.plane < -h.m_tolerance) &&
          decide (b3Distance RF.center LF.plane < -h.m_tolerance)) with
        | true => rfl
        | false => rw [hb] at ht1; exact absurd ht1 (by decide)
      simpa using ht2
    · intro hall e he
      obtain ⟨E1, t1, T1, L1, LF1, RF1, hE1, _, _, hEt1, hT1, _, _, hTf1, _, _, hLF1, hRF1,
        ht⟩ := htest e he
      rw [ht]
      by_cases hLf : L1 = f
      · simp [hLf]
      · have := hall e he E1 t1 T1 L1 LF1 RF1 hE1 hEt1 hT1 hTf1 hLf hLF1 hRF1
        simp [this.1, this.2]
  refine ⟨?_, ?_, ?_, ?_⟩
  · obtain ⟨F, e0, hF, hFe, hhead, _⟩ := hm.inv.cycle f hf
    exact ⟨F, e0, hF, hFe, hhead⟩
  · intro e he
    obtain ⟨E1, t1, T1, L1, LF1, RF1, hE1, _, _, hEt1, hT1, _, _, hTf1, _, _, hLF1, hRF1,
      ht⟩ := htest e he
    exact ⟨E1, t1, T1, L1, LF1, RF1, hE1, hEt1, hT1, hTf1, hLF1, hRF1, ht⟩
  · rcases qhHull.MergeFace_spec env h cyc hm f hf with
      ⟨hno, hM⟩ | ⟨pre, e, post, h1, cyc1, L, hsplit, hpre, he, hrem, hM, hmerged⟩
    · refine ⟨h, false, hM, ⟨fun _ => hiff.mp hno, fun _ => rfl⟩, fun _ => rfl, ?_⟩
      intro hh
      exact absurd hh (by decide)
    · refine ⟨h1, true, hM, ⟨fun hh => absurd hh (by decide), ?_⟩,
        fun hh => absurd hh (by decide), ?_⟩
      · intro hall
        have := hiff.mpr hall e (by rw [hsplit]; simp)
        rw [he] at this
        exact absurd (Option.some.inj this) (by decide)
      · intro _
        refine ⟨pre, e, post, hsplit, hpre, he, hrem, ?_, ?_, cyc1, hmerged.inv1⟩
        · rw [hmerged.faceList, List.length_erase_of_mem hmerged.memL]
          have : 0 < h.m_faceList.length := List.length_pos_of_mem hf
          omega
        · rw [hmerged.faceList, List.Nodup.mem_erase_iff hm.inv.faces_nodup]
          exact ⟨Ne.symm hmerged.hLR, hf⟩
  · intro fuel hfuel
    obtain ⟨h2, cyc2, hrun, hm2, hf2, _, hlen2, _, hM2⟩ :=
      qhHull.MergeFaces.again_spec env f (fun _ _ => True) (fun _ _ _ _ _ _ _ _ => trivial)
        fuel h cyc hm hf trivial hfuel
    exact ⟨h2, cyc2, hrun, hm2, hf2, hlen2, hM2⟩

end

set_option maxRecDepth 100000 in
theorem qhNearHull1_mesh : qhNearHull1.MeshInv qhNearHull1.cyclesOf :=
  qhHull.meshCheck_sound _ _ (by decide!)

theorem qhHull.MergeFace_scans_until_first_merge_witness :
    qhNearHull1.MeshInv qhNearHull1.cyclesOf ∧ 2 ∈ qhNearHull1.m_faceList ∧
    (∃ h1 merged, qhHull.MergeFace qhEnv qhNearHull1 2 = some (h1, merged) ∧
      (merged = true → h1.m_faceList.length + 1 = qhNearHull1.m_faceList.length)) ∧
    ∃ h2, qhHull.MergeFaces.again qhEnv 2 (qhNearHull1.m_faceList.length + 1) qhNearHull1 =
        some h2 ∧
      qhHull.MergeFace qhEnv h2 2 = some (h2, false) := by
  have hmem : 2 ∈ qhNearHull1.m_faceList := by decide!
  obtain ⟨_, _, ⟨h1, merged, hM, _, _, htrue⟩, hloop⟩ :=
    qhHull.MergeFace_scans_until_first_merge qhEnv qhNearHull1 qhNearHull1.cyclesOf
      qhNearHull1_mesh 2 hmem
  refine ⟨qhNearHull1_mesh, hmem, ⟨h1, merged, hM, ?_⟩, ?_⟩
  · intro hh
    obtain ⟨_, _, _, _, _, _, _, hlen, _⟩ := htrue hh
    exact hlen
  · obtain ⟨h2, _, hrun, _, _, _, hM2⟩ := hloop (qhNearHull1.m_faceList.length + 1)
      (Nat.le_succ _)
    exact ⟨h2, hrun, hM2⟩

section

variable {K : Type} [LinearOrderedField K]

theorem qhHull.activeCheck_sound (h : qhHull K) (hc : h.activeCheck = true) : h.FacesActive := by
  unfold qhHull.activeCheck at hc
  rw [List.all_eq_true] at hc
  intro f F hF
  have hlt : f < h.faces.length := by
    have := hF
    unfold qhHull.face at this
    exact (List.getElem?_eq_some_iff.mp this).1
  have h1 := hc f (List.mem_range.mpr hlt)
  rw [hF] at h1
  simp only [beq_iff_eq] at h1
  rw [h1]
  simp

/-- The test of `MergeFace` in terms of the records it reads. -/
theorem qhHull.MergeFace.test_eq (h : qhHull K) (f e t L : Nat) (E T : qhHalfEdge)
    (LF RF : qhFace K) (hE : h.halfEdge e = some E) (hEt : E.twin = some t)
    (hT : h.halfEdge t = some T) (hTf : T.face = some L) (hLF : h.face L = some LF)
    (hRF : h.face f = some RF) :
    qhHull.MergeFace.test h f e = some (decide (L ≠ f) &&
      !(decide (b3Distance LF.center RF.plane < -h.m_tolerance) &&
        decide (b3Distance RF.center LF.plane < -h.m_tolerance))) := by
  unfold qhHull.MergeFace.test
  simp only [hE, hEt, hT, hTf, hLF, hRF, bind, Option.bind, pure]
  by_cases hLf : L = f
  · subst hLf
    simp
  · have : ¬ (some L : Option Nat) = some f := fun hh => hLf (Option.some.inj hh)
    simp [this, hLf]

theorem qhHull.Merged.facesActive {h h1 : qhHull K} {cyc cyc1 : Nat → List Nat} {L R : Nat}
    (hm : h.MeshInv cyc) (hmg : qhHull.Merged h cyc h1 cyc1 L R) (ha : h.FacesActive) :
    h1.FacesActive := by
  intro g G1 hG1
  rw [hmg.faceList, List.Nodup.mem_erase_iff hm.inv.faces_nodup]
  by_cases hgL : g = L
  · subst hgL
    rw [hmg.activeL G1 hG1]
    simp
  · have hact := hmg.active g hgL
    rw [hG1] at hact
    cases hG : h.face g with
    | none => rw [hG] at hact; simp at hact
    | some G =>
      rw [hG] at hact
      simp only [Option.map_some', Option.some.injEq] at hact
      rw [hact, ha g G hG]
      exact ⟨fun hh => ⟨hgL, hh⟩, fun hh => hh.2⟩

/-- The faces that have converged stay so when a face that is not one of them
absorbs a neighbour. -/
theorem qhHull.Merged.settled {h h1 : qhHull K} {cyc cyc1 : Nat → List Nat} {L R : Nat}
    (hm : h.MeshInv cyc) (hmg : qhHull.Merged h cyc h1 cyc1 L R) (done pending : List Nat)
    (hR : R ∉ done) (hRp : R ∈ pending) (hs : h.Settled cyc done pending) :
    h1.Settled cyc1 done pending := by
  intro f hfd hf1 e he L1 hL1 hL1p
  have hf1' := hf1
  rw [hmg.faceList, List.Nodup.mem_erase_iff hm.inv.faces_nodup] at hf1'
  obtain ⟨hfL, hf⟩ := hf1'
  have hfR : f ≠ R := fun hh => hR (hh ▸ hfd)
  rw [hmg.cycles f hfR] at he
  obtain ⟨E, t, T, L0, LF, RF, hE, _, _, hEt, hT, hTa, _, hTf, hL0, htL0, hLF, hRF, ht⟩ :=
    qhHull.MergeFace.test_some h cyc hm.inv f hf e he
  obtain ⟨E1, hE1, hE1t, _, _⟩ := hmg.edge e E hE
  obtain ⟨T1, hT1, _, _, hT1f⟩ := hmg.edge t T hT
  have hL1' : T1.face = some L1 := by
    unfold qhHull.twinFace at hL1
    rw [hE1, Option.some_bind, hE1t, hEt, Option.some_bind, hT1, Option.some_bind] at hL1
    exact hL1
  have hL1R : L1 ≠ R := fun hh => hL1p (hh ▸ hRp)
  have htL : t ∉ cyc L := by
    intro hh
    rw [hT1f, if_pos hh] at hL1'
    exact hL1R (Option.some.inj hL1').symm
  rw [hT1f, if_neg htL, hTf] at hL1'
  have hL01 : L0 = L1 := Option.some.inj hL1'
  subst hL01
  have hL0L : L0 ≠ L := fun hh => htL (hh ▸ htL0)
  have hold : qhHull.MergeFace.test h f e = some false := by
    refine hs f hfd hf e he L0 ?_ hL1p
    unfold qhHull.twinFace
    rw [hE, Option.some_bind, hEt, Option.some_bind, hT, Option.some_bind, hTf]
  have hLF1 : h1.face L0 = some LF := by rw [hmg.face L0 hL0L hL1R, hLF]
  have hRF1 : h1.face f = some RF := by rw [hmg.face f hfL hfR, hRF]
  have hT1f' : T1.face = some L0 := by rw [hT1f, if_neg htL, hTf]
  rw [qhHull.MergeFace.test_eq h1 f e t L0 E1 T1 LF RF hE1 (by rw [hE1t, hEt]) hT1 hT1f' hLF1
    hRF1, hmg.tol, ← ht, hold]

/-- A face that has converged passes the test of its neighbours as well: the
test is symmetric. -/
theorem qhHull.MergeFace.test_symm (h : qhHull K) (cyc : Nat → List Nat)
    (hinv : h.HalfEdgeInv cyc) (f : Nat) (hf : f ∈ h.m_faceList) (e : Nat) (he : e ∈ cyc f)
    (g : Nat) (hg : h.twinFace e = some g) (hgf : g ≠ f)
    (hall : ∀ y ∈ cyc g, qhHull.MergeFace.test h g y = some false) :
    qhHull.MergeFace.test h f e = some false := by
  obtain ⟨E, t, T, L0, LF, RF, hE, hEa, hEf, hEt, hT, hTa, hTt, hTf, hL0, htL0, hLF, hRF, ht⟩ :=
    qhHull.MergeFace.test_some h cyc hinv f hf e he
  have hL0g : L0 = g := by
    unfold qhHull.twinFace at hg
    rw [hE, Option.some_bind, hEt, Option.some_bind, hT, Option.some_bind, hTf] at hg
    exact Option.some.inj hg
  subst hL0g
  have h1 := hall t htL0
  rw [qhHull.MergeFace.test_eq h L0 t e f T E RF LF hT hTt hE hEf hRF hLF] at h1
  rw [ht]
  have h2 := Option.some.inj h1
  have hfg : f ≠ L0 := Ne.symm hgf
  simp only [hfg, ne_eq, not_false_eq_true, decide_True, Bool.true_and] at h2
  simp only [hgf, ne_eq, not_false_eq_true, decide_True, Bool.true_and]
  rw [Bool.and_comm]
  rw [h2]

/-- The loop of `MergeFaces` over faces on which `MergeFace` returns false
leaves the mesh as it was. -/
theorem qhHull.MergeFaces.loop_fixed (env : b3Env K) (h : qhHull K) : ∀ faces : List Nat,
    (∀ f ∈ faces, ∃ F, h.face f = some F ∧
      (F.active = true → qhHull.MergeFace env h f = some (h, false))) →
    qhHull.MergeFaces.loop env faces h = some h := by
  intro faces
  induction faces with
  | nil => intro _; rfl
  | cons face rest ih =>
    intro hall
    obtain ⟨F, hF, hM⟩ := hall face (List.mem_cons_self _ _)
    have hrest := ih fun f hf => hall f (List.mem_cons_of_mem _ hf)
    unfold qhHull.MergeFaces.loop
    simp only [hF, bind, Option.bind]
    by_cases hact : F.active = false
    · rw [if_pos hact]
      exact hrest
    · rw [if_neg hact]
      have hact1 : F.active = true := by simpa using hact
      have hag : qhHull.MergeFaces.again env face (h.m_faceList.length + 1) h = some h := by
        simp only [qhHull.MergeFaces.again, hM hact1, bind, Option.bind]
        rfl
      rw [hag]
      exact hrest

/-- The loop of `MergeFaces`: the faces it has gone through have converged
when it returns. -/
theorem qhHull.MergeFaces.loop_settles (env : b3Env K) : ∀ (pending done : List Nat)
    (h : qhHull K) (cyc : Nat → List Nat) (h1 : qhHull K), h.MeshInv cyc → h.FacesActive →
    pending.Nodup → (∀ f ∈ done, f ∉ pending) → h.Settled cyc done pending →
    qhHull.MergeFaces.loop env pending h = some h1 →
    ∃ cyc1, h1.MeshInv cyc1 ∧ h1.FacesActive ∧ h1.Settled cyc1 (pending ++ done) [] ∧
      h1.m_newFaces = h.m_newFaces ∧ h1.m_faceList.length ≤ h.m_faceList.length ∧
      (∀ f ∈ pending, ∃ F1, h1.face f = some F1) ∧
      (∀ g, (∃ G, h.face g = some G) → ∃ G1, h1.face g = some G1) := by
  intro pending
  induction pending with
  | nil =>
    intro done h cyc h1 hm ha _ _ hs hrun
    have : h1 = h := by
      unfold qhHull.MergeFaces.loop at hrun
      exact (Option.some.inj hrun).symm
    subst this
    exact ⟨cyc, hm, ha, by simpa using hs, rfl, le_refl _, by simp, fun g hg => hg⟩
  | cons face rest ih =>
    intro done h cyc h1 hm ha hnd hdisj hs hrun
    obtain ⟨hface, hndr⟩ := List.nodup_cons.mp hnd
    have hfd : face ∉ done := fun hh => hdisj face hh (List.mem_cons_self _ _)
    have hdisj1 : ∀ f ∈ face :: done, f ∉ rest := by
      intro f hf
      rcases List.mem_cons.mp hf with rfl | hf
      · exact hface
      · exact fun hh => hdisj f hf (List.mem_cons_of_mem _ hh)
    unfold qhHull.MergeFaces.loop at hrun
    cases hF : h.face face with
    | none => rw [hF] at hrun; simp [bind] at hrun
    | some F =>
      rw [hF] at hrun
      simp only [bind, Option.bind] at hrun
      by_cases hact : F.active = false
      · rw [if_pos hact] at hrun
        have hnot : face ∉ h.m_faceList := by
          intro hh
          have := (ha face F hF).mpr hh
          rw [hact] at this
          exact absurd this (by decide)
        have hs1 : h.Settled cyc (face :: done) rest := by
          intro f hf hfl e he L hL hLr
          rcases List.mem_cons.mp hf with rfl | hf
          · exact absurd hfl hnot
          · refine hs f hf hfl e he L hL ?_
            intro hh
            rcases List.mem_cons.mp hh with rfl | hh
            · obtain ⟨E, t, T, L0, LF, RF, hE, _, _, hEt, hT, _, _, hTf, hL0, _⟩ :=
                qhHull.MergeFace.test_some h cyc hm.inv f hfl e he
              unfold qhHull.twinFace at hL
              rw [hE, Option.some_bind, hEt, Option.some_bind, hT, Option.some_bind, hTf] at hL
              cases hL
              exact hnot hL0
            · exact hLr hh
        obtain ⟨cyc1, hm1, ha1, hs2, hnew, hlen, hex, hkeep⟩ :=
          ih (face :: done) h cyc h1 hm ha hndr hdisj1 hs1 hrun
        refine ⟨cyc1, hm1, ha1, ?_, hnew, hlen, ?_, hkeep⟩
        · intro f hf
          exact hs2 f (by
            rcases List.mem_append.mp hf with hh | hh
            · rcases List.mem_cons.mp hh with rfl | hh
              · exact List.mem_append_right _ (List.mem_cons_self _ _)
              · exact List.mem_append_left _ hh
            · exact List.mem_append_right _ (List.mem_cons_of_mem _ hh))
        · intro f hf
          rcases List.mem_cons.mp hf with rfl | hf
          · exact hkeep f ⟨F, hF⟩
          · exact hex f hf
      · rw [if_neg hact] at hrun
        have hact1 : F.active = true := by simpa using hact
        have hfl : face ∈ h.m_faceList := (ha face F hF).mp hact1
        obtain ⟨h2, cyc2, hag, hm2, hf2, ⟨ha2, hs2, hnew2, hkeep2⟩, hlen2, hno2, hM2⟩ :=
          qhHull.MergeFaces.again_spec env face
            (fun x c => x.FacesActive ∧ x.Settled c done (face :: rest) ∧
              x.m_newFaces = h.m_newFaces ∧
              ∀ g, (∃ G, h.face g = some G) → ∃ G1, x.face g = some G1)
            (fun x c x1 c1 L hxm hp hmg =>
              ⟨hmg.facesActive hxm hp.1,
                hmg.settled hxm done (face :: rest) hfd (List.mem_cons_self _ _) hp.2.1,
                hmg.newFaces.trans hp.2.2.1,
                fun g hg => hmg.faces g (hp.2.2.2 g hg)⟩)
            (h.m_faceList.length + 1) h cyc hm hfl ⟨ha, hs, rfl, fun g hg => hg⟩ (Nat.le_succ _)
        rw [hag] at hrun
        have hs3 : h2.Settled cyc2 (face :: done) rest := by
          intro f hf hfl2 e he L hL hLr
          rcases List.mem_cons.mp hf with rfl | hfdone
          · exact hno2 e he
          · by_cases hLface : L = face
            · subst hLface
              have hfne : L ≠ f := fun hh => hfd (hh ▸ hfdone)
              exact qhHull.MergeFace.test_symm h2 cyc2 hm2.inv f hfl2 e he L hL hfne hno2
            · refine hs2 f hfdone hfl2 e he L hL ?_
              intro hh
              rcases List.mem_cons.mp hh with rfl | hh
              · exact hLface rfl
              · exact hLr hh
        obtain ⟨cyc1, hm1, ha1, hs4, hnew, hlen, hex, hkeep⟩ :=
          ih (face :: done) h2 cyc2 h1 hm2 ha2 hndr hdisj1 hs3 hrun
        refine ⟨cyc1, hm1, ha1, ?_, hnew.trans hnew2, by omega, ?_,
          fun g hg => hkeep g (hkeep2 g hg)⟩
        · intro f hf
          exact hs4 f (by
            rcases List.mem_append.mp hf with hh | hh
            · rcases List.mem_cons.mp hh with rfl | hh
              · exact List.mem_append_right _ (List.mem_cons_self _ _)
              · exact List.mem_append_left _ hh
            · exact List.mem_append_right _ (List.mem_cons_of_mem _ hh))
        · intro f hf
          rcases List.mem_cons.mp hf with rfl | hf
          · exact hkeep f (hkeep2 f ⟨F, hF⟩)
          · exact hex f hf

end

section

variable {K : Type} [LinearOrderedField K]

/-- C15. For every mesh that satisfies the mesh invariants (the half-edge
invariants, faces of at least two half-edges, valid tail and conflict
pointers, active flags of the faces in line with the active list) and every
set of new faces recorded without repetition in `m_newFaces`: once
`MergeFaces()` has returned the mesh `h1`, calling `MergeFaces()` again returns
`h1` unchanged; every new face is either inactive, and skipped, or the test of
`MergeFace` says no on every half-edge of its cycle, so that `RemoveEdge` is
not called, `MergeFace` returns false on `h1` and the loop
`while (MergeFace(face));` ends after that one call. -/
theorem qhHull.MergeFaces_idempotent (env : b3Env K) (h : qhHull K) (cyc : Nat → List Nat)
    (hm : h.MeshInv cyc) (ha : h.FacesActive) (hnew : h.m_newFaces.Nodup) (h1 : qhHull K)
    (hrun : qhHull.MergeFaces env h = some h1) :
    qhHull.MergeFaces env h1 = some h1 ∧
    ∃ cyc1, h1.MeshInv cyc1 ∧
      ∀ f ∈ h1.m_newFaces, ∃ F, h1.face f = some F ∧
        (F.active = true → f ∈ h1.m_faceList ∧
          (∀ e ∈ cyc1 f, qhHull.MergeFace.test h1 f e = some false) ∧
          qhHull.MergeFace env h1 f = some (h1, false) ∧
          qhHull.MergeFaces.again env f (h1.m_faceList.length + 1) h1 = some h1) := by
  obtain ⟨cyc1, hm1, ha1, hs, hnew1, _, hex, _⟩ :=
    qhHull.MergeFaces.loop_settles env h.m_newFaces [] h cyc h1 hm ha hnew
      (fun _ hf => absurd hf (List.not_mem_nil _))
      (fun _ hf => absurd hf (List.not_mem_nil _)) hrun
  have hall : ∀ f ∈ h1.m_newFaces, ∃ F, h1.face f = some F ∧
      (F.active = true → f ∈ h1.m_faceList ∧
        (∀ e ∈ cyc1 f, qhHull.MergeFace.test h1 f e = some false) ∧
        qhHull.MergeFace env h1 f = some (h1, false) ∧
        qhHull.MergeFaces.again env f (h1.m_faceList.length + 1) h1 = some h1) := by
    intro f hf
    rw [hnew1] at hf
    obtain ⟨F, hF⟩ := hex f hf
    refine ⟨F, hF, fun hact => ?_⟩
    have hfl : f ∈ h1.m_faceList := (ha1 f F hF).mp hact
    have hno : ∀ e ∈ cyc1 f, qhHull.MergeFace.test h1 f e = some false := by
      intro e he
      obtain ⟨E, t, T, L0, LF, RF, hE, _, _, hEt, hT, _, _, hTf, _⟩ :=
        qhHull.MergeFace.test_some h1 cyc1 hm1.inv f hfl e he
      refine hs f (List.mem_append_left _ hf) hfl e he L0 ?_ (List.not_mem_nil _)
      unfold qhHull.twinFace
      rw [hE, Option.some_bind, hEt, Option.some_bind, hT, Option.some_bind, hTf]
    have hM : qhHull.MergeFace env h1 f = some (h1, false) := by
      rcases qhHull.MergeFace_spec env h1 cyc1 hm1 f hfl with
        ⟨_, hM⟩ | ⟨pre, e, post, _, _, _, hsplit, _, he, _⟩
      · exact hM
      · have := hno e (by rw [hsplit]; simp)
        rw [he] at this
        exact absurd (Option.some.inj this) (by decide)
    refine ⟨hfl, hno, hM, ?_⟩
    simp only [qhHull.MergeFaces.again, hM, bind, Option.bind]
    rfl
  refine ⟨?_, cyc1, hm1, hall⟩
  unfold qhHull.MergeFaces
  refine qhHull.MergeFaces.loop_fixed env h1 _ fun f hf => ?_
  obtain ⟨F, hF, hprop⟩ := hall f hf
  exact ⟨F, hF, fun hact => (hprop hact).2.2.1⟩

end

set_option maxRecDepth 100000 in
theorem qhHull.MergeFaces_idempotent_witness :
    qhNearHull1.MeshInv qhNearHull1.cyclesOf ∧ qhNearHull1.m_newFaces = [2, 4, 5] ∧
    qhHull.MergeFaces qhEnv qhNearHull1 = some qhNearHull3 ∧
    qhNearHull1.m_faceList = [5, 4, 2, 3, 1, 0] ∧ qhNearHull3.m_faceList = [4, 2, 3, 0] ∧
    qhHull.MergeFaces qhEnv qhNearHull3 = some qhNearHull3 := by
  have key : qhNearHull1.activeCheck = true ∧ qhNearHull1.m_newFaces = [2, 4, 5] ∧
      qhHull.MergeFaces qhEnv qhNearHull1 = some qhNearHull3 ∧
      qhNearHull1.m_faceList = [5, 4, 2, 3, 1, 0] ∧ qhNearHull3.m_faceList = [4, 2, 3, 0] := by
    decide!
  obtain ⟨k1, k2, k3, k4, k5⟩ := key
  exact ⟨qhNearHull1_mesh, k2, k3, k4, k5,
    (qhHull.MergeFaces_idempotent qhEnv qhNearHull1 qhNearHull1.cyclesOf qhNearHull1_mesh
      (qhHull.activeCheck_sound _ k1) (by rw [k2]; decide) qhNearHull3 k3).1⟩
